import Mathlib

/-!
# ImGradientHDR: marker store, interpolation and re-sorting

A shallow embedding of `src/ImGradientHDR.cpp`.

* `float` values are modelled by exact rationals `ℚ`. The store operations and the two
  evaluation functions are modelled a second time in `WithNaN`, on values that are a
  number or NaN.
* A `std::array<T, MarkerMax>` is a `List T`; the header that fixes `MarkerMax` is not
  part of the sources, so `MarkerMax` is a parameter and arrays are required to have
  that length by `WellFormed`.
* The counts `ColorCount` / `AlphaCount` are natural numbers: no operation makes a count
  negative, and with a negative count the iterator arithmetic of the source is undefined.
  Indices that the source compares with `-1` or `0` (`index`, `selectedIndex`,
  `draggingIndex`, `ind`) are `Int`.
* Every operation returns `Except Fault _`: an iterator or subscript outside the array
  and a reached `assert(0)` are faults, never silent values.
-/

namespace ImGradientHDR

/-- The ways in which an execution of the source leaves defined behaviour. -/
inductive Fault where
  /-- An iterator or subscript outside the `std::array`. -/
  | outOfRange
  /-- The `assert(0)` branch of an evaluation function was reached. -/
  | assertFailed
  /-- The binary search was cut off before its range became empty. -/
  | outOfFuel
  /-- A division whose divisor is zero. -/
  | divisionByZero
  deriving DecidableEq, Repr

/-- A colour stop: `ColorMarker{Position, Color, Intensity}`. -/
structure ColorMarker where
  Position : ℚ
  Color : ℚ × ℚ × ℚ
  Intensity : ℚ
  deriving DecidableEq, Repr

/-- An opacity stop: `AlphaMarker{Position, Alpha}`. -/
structure AlphaMarker where
  Position : ℚ
  Alpha : ℚ
  deriving DecidableEq, Repr

/-- The marker store `ImGradientHDRState`. -/
structure ImGradientHDRState where
  ColorCount : Nat
  AlphaCount : Nat
  Colors : List ColorMarker
  Alphas : List AlphaMarker
  deriving DecidableEq, Repr

/-- Both arrays of the store have the size `MarkerMax` of their `std::array` type. -/
def WellFormed (MarkerMax : Nat) (s : ImGradientHDRState) : Prop :=
  s.Colors.length = MarkerMax ∧ s.Alphas.length = MarkerMax

/-- The live stops `a[0 .. count)`. -/
def live {T : Type} (a : List T) (count : Nat) : List T := a.take count

/-- Sorted ascending by `Position`: `l[i].Position <= l[j].Position` for `i < j`. -/
def SortedByPosition {T : Type} (pos : T → ℚ) (l : List T) : Prop :=
  l.Pairwise (fun m n => pos m ≤ pos n)

/-- Subscript `a[i]` with a natural index. -/
def readAt {T : Type} (a : List T) (i : Nat) : Except Fault T :=
  match a[i]? with
  | some v => .ok v
  | none => .error .outOfRange

/-- Subscript `a[i]` with an `int32_t` index. -/
def readAtInt {T : Type} (a : List T) (i : Int) : Except Fault T :=
  if i < 0 then .error .outOfRange else readAt a i.toNat

/-- Store `*(a.begin() + i) = v`. -/
def writeAt {T : Type} (a : List T) (i : Nat) (v : T) : Except Fault (List T) :=
  if i < a.length then .ok (a.set i v) else .error .outOfRange

/-- The loop of `std::lower_bound` with the comparison `m.Position < x`:
`while (len > 0) { half = len >> 1; middle = first + half;
   if (comp(*middle, val)) { first = middle + 1; len = len - half - 1; } else len = half; }`. -/
def lowerBoundLoop {T : Type} (pos : T → ℚ) (a : List T) (x : ℚ) :
    Nat → Nat → Nat → Except Fault Nat
  | 0, first, len => if 0 < len then .error .outOfFuel else .ok first
  | fuel + 1, first, len =>
    if 0 < len then
      let half := len / 2
      let middle := first + half
      match readAt a middle with
      | .error e => .error e
      | .ok m =>
        if pos m < x then lowerBoundLoop pos a x fuel (middle + 1) (len - half - 1)
        else lowerBoundLoop pos a x fuel first half
    else .ok first

/-- Call `std::lower_bound(a.begin(), a.begin() + count, key, byPosition)`; the result is
the offset of the returned iterator from `a.begin()`. The iterator `a.begin() + count`
must not lie past `a.end()`. -/
def lower_bound {T : Type} (pos : T → ℚ) (a : List T) (count : Nat) (x : ℚ) :
    Except Fault Nat :=
  if count ≤ a.length then lowerBoundLoop pos a x count 0 count else .error .outOfRange

/-- Call `std::copy(a.begin() + first, a.begin() + last, a.begin() + dest)` inside one
array. The markers are trivially copyable, so the copy is a `memmove`: the source range
is read before the destination is written, also when the two overlap. Source and
destination range must lie inside the array. -/
def copy {T : Type} (a : List T) (first last dest : Nat) : Except Fault (List T) :=
  if first ≤ last ∧ last ≤ a.length ∧ dest + (last - first) ≤ a.length then
    .ok (a.take dest ++ (a.drop first).take (last - first) ++ a.drop (dest + (last - first)))
  else .error .outOfRange

/-- The helper `AddMarker(a, count, value)`; `a.end()` is the offset `a.length`. -/
def AddMarker {T : Type} (pos : T → ℚ) (a : List T) (count : Nat) (value : T) :
    Except Fault (List T × Nat) :=
  match lower_bound pos a count (pos value) with
  | .error e => .error e
  | .ok lb =>
    if lb ≠ a.length then
      let ind := lb
      match copy a ind count (ind + 1) with
      | .error e => .error e
      | .ok a1 =>
        match writeAt a1 ind value with
        | .error e => .error e
        | .ok a2 => .ok (a2, count + 1)
    else .ok (a, count)

/-- Clamp `std::max(std::min(x, 1.0f), 0.0f)`. -/
def clamp01 (x : ℚ) : ℚ := max (min x 1) 0

/-- Method `ImGradientHDRState::AddColorMarker(x, color, intensity)`. -/
def AddColorMarker (MarkerMax : Nat) (s : ImGradientHDRState) (x : ℚ) (color : ℚ × ℚ × ℚ)
    (intensity : ℚ) : Except Fault (Bool × ImGradientHDRState) :=
  if s.ColorCount ≥ MarkerMax then .ok (false, s)
  else
    let x := clamp01 x
    let marker : ColorMarker := { Position := x, Color := color, Intensity := intensity }
    match AddMarker ColorMarker.Position s.Colors s.ColorCount marker with
    | .error e => .error e
    | .ok (a, c) => .ok (true, { s with Colors := a, ColorCount := c })

/-- Method `ImGradientHDRState::AddAlphaMarker(x, alpha)`. -/
def AddAlphaMarker (MarkerMax : Nat) (s : ImGradientHDRState) (x : ℚ) (alpha : ℚ) :
    Except Fault (Bool × ImGradientHDRState) :=
  if s.AlphaCount ≥ MarkerMax then .ok (false, s)
  else
    let x := clamp01 x
    let marker : AlphaMarker := { Position := x, Alpha := alpha }
    match AddMarker AlphaMarker.Position s.Alphas s.AlphaCount marker with
    | .error e => .error e
    | .ok (a, c) => .ok (true, { s with Alphas := a, AlphaCount := c })

/-- The first index of `l` whose `Position` is not less than `x`, `l.length` if none. -/
def insertionPoint {T : Type} (pos : T → ℚ) (l : List T) (x : ℚ) : Nat :=
  l.findIdx (fun m => decide (¬ pos m < x))

/-- Method `ImGradientHDRState::RemoveColorMarker(index)`; `Colors.end()` is the offset
`Colors.length`. -/
def RemoveColorMarker (s : ImGradientHDRState) (index : Int) :
    Except Fault (Bool × ImGradientHDRState) :=
  if index ≥ (s.ColorCount : Int) ∨ index < 0 then .ok (false, s)
  else
    match copy s.Colors (index.toNat + 1) s.Colors.length index.toNat with
    | .error e => .error e
    | .ok a => .ok (true, { s with Colors := a, ColorCount := s.ColorCount - 1 })

/-- Method `ImGradientHDRState::RemoveAlphaMarker(index)`. -/
def RemoveAlphaMarker (s : ImGradientHDRState) (index : Int) :
    Except Fault (Bool × ImGradientHDRState) :=
  if index ≥ (s.AlphaCount : Int) ∨ index < 0 then .ok (false, s)
  else
    match copy s.Alphas (index.toNat + 1) s.Alphas.length index.toNat with
    | .error e => .error e
    | .ok a => .ok (true, { s with Alphas := a, AlphaCount := s.AlphaCount - 1 })

/-- A division `n / d` of the source, recorded as a fault when the divisor is zero. -/
def divide (n d : ℚ) : Except Fault ℚ :=
  if d = 0 then .error .divisionByZero else .ok (n / d)

/-- The blend `hi * alpha + lo * (1.0f - alpha)`. -/
def blend (lo hi alpha : ℚ) : ℚ := hi * alpha + lo * (1 - alpha)

/-- Method `ImGradientHDRState::GetColorAndIntensity(x)`; the result is
`(r, g, b, intensity)`. The second operand of `&&` is evaluated only when the first
holds. -/
def GetColorAndIntensity (s : ImGradientHDRState) (x : ℚ) : Except Fault (ℚ × ℚ × ℚ × ℚ) :=
  if s.ColorCount = 0 then .ok (1, 1, 1, 1)
  else
    match readAt s.Colors 0 with
    | .error e => .error e
    | .ok c0 =>
      if x < c0.Position then .ok (c0.Color.1, c0.Color.2.1, c0.Color.2.2, c0.Intensity)
      else
        match readAt s.Colors (s.ColorCount - 1) with
        | .error e => .error e
        | .ok cn =>
          if cn.Position ≤ x then .ok (cn.Color.1, cn.Color.2.1, cn.Color.2.2, cn.Intensity)
          else
            match lower_bound ColorMarker.Position s.Colors s.ColorCount x with
            | .error e => .error e
            | .ok it =>
              match readAtInt s.Colors (it : Int) with
              | .error e => .error e
              | .ok c =>
                let ind : Int := if c.Position ≠ x then (it : Int) - 1 else (it : Int)
                match readAtInt s.Colors ind with
                | .error e => .error e
                | .ok lo =>
                  if lo.Position ≤ x then
                    match readAtInt s.Colors (ind + 1) with
                    | .error e => .error e
                    | .ok hi =>
                      if x ≤ hi.Position then
                        let area := hi.Position - lo.Position
                        if area = 0 then
                          .ok (lo.Color.1, lo.Color.2.1, lo.Color.2.2, lo.Intensity)
                        else
                          match divide (x - lo.Position) area with
                          | .error e => .error e
                          | .ok alpha =>
                            .ok (blend lo.Color.1 hi.Color.1 alpha,
                                 blend lo.Color.2.1 hi.Color.2.1 alpha,
                                 blend lo.Color.2.2 hi.Color.2.2 alpha,
                                 blend lo.Intensity hi.Intensity alpha)
                      else .error .assertFailed
                  else .error .assertFailed

/-- Method `ImGradientHDRState::GetAlpha(x)`. -/
def GetAlpha (s : ImGradientHDRState) (x : ℚ) : Except Fault ℚ :=
  if s.AlphaCount = 0 then .ok 1
  else
    match readAt s.Alphas 0 with
    | .error e => .error e
    | .ok a0 =>
      if x < a0.Position then .ok a0.Alpha
      else
        match readAt s.Alphas (s.AlphaCount - 1) with
        | .error e => .error e
        | .ok an =>
          if an.Position ≤ x then .ok an.Alpha
          else
            match lower_bound AlphaMarker.Position s.Alphas s.AlphaCount x with
            | .error e => .error e
            | .ok it =>
              match readAtInt s.Alphas (it : Int) with
              | .error e => .error e
              | .ok c =>
                let ind : Int := if c.Position ≠ x then (it : Int) - 1 else (it : Int)
                match readAtInt s.Alphas ind with
                | .error e => .error e
                | .ok lo =>
                  if lo.Position ≤ x then
                    match readAtInt s.Alphas (ind + 1) with
                    | .error e => .error e
                    | .ok hi =>
                      if x ≤ hi.Position then
                        let area := hi.Position - lo.Position
                        if area = 0 then .ok lo.Alpha
                        else
                          match divide (x - lo.Position) area with
                          | .error e => .error e
                          | .ok alpha => .ok (blend lo.Alpha hi.Alpha alpha)
                      else .error .assertFailed
                  else .error .assertFailed

/-- The local record `SortedMarker{index, marker}` of `SortMarkers`. -/
structure SortedMarker (T : Type) where
  index : Int
  marker : T

/-- The library routine `std::sort` with the comparison
`a.marker.Position < b.marker.Position`, taken by its contract: the result is a
rearrangement of the input in which no element compares less than an earlier one. The
order among equal positions is left open, as `std::sort` is not stable. -/
structure StdSort (T : Type) (pos : T → ℚ) where
  run : List (SortedMarker T) → List (SortedMarker T)
  perm : ∀ v, (run v).Perm v
  sorted : ∀ v, (run v).Pairwise (fun p q => ¬ pos q.marker < pos p.marker)

/-- First loop of `SortMarkers`: `sortedMarker.emplace_back(SortedMarker{i, a[i]})` for
`i` in `[0, n)`. -/
def collectMarkers {T : Type} (a : List T) : Nat → Except Fault (List (SortedMarker T))
  | 0 => .ok []
  | n + 1 =>
    match collectMarkers a n with
    | .error e => .error e
    | .ok v =>
      match readAt a n with
      | .error e => .error e
      | .ok m => .ok (v ++ [{ index := (n : Int), marker := m }])

/-- Second loop of `SortMarkers`: `a[i] = sortedMarker[i].marker` for `i` in `[0, n)`. -/
def storeMarkers {T : Type} (v : List (SortedMarker T)) : Nat → List T → Except Fault (List T)
  | 0, a => .ok a
  | n + 1, a =>
    match storeMarkers v n a with
    | .error e => .error e
    | .ok a1 =>
      match readAt v n with
      | .error e => .error e
      | .ok sm => writeAt a1 n sm.marker

/-- Remapping loop of `SortMarkers`, from position `i` with `n` iterations left:
`if (sortedMarker[i].index == idx) { idx = i; break; }`. -/
def remapLoop {T : Type} (v : List (SortedMarker T)) (idx : Int) :
    Nat → Nat → Except Fault Int
  | _, 0 => .ok idx
  | i, n + 1 =>
    match readAt v i with
    | .error e => .error e
    | .ok sm => if sm.index = idx then .ok (i : Int) else remapLoop v idx (i + 1) n

/-- Remapping of one index: `if (idx != -1) { for (i = 0; i < count; i++) ... }`. -/
def remapIndex {T : Type} (v : List (SortedMarker T)) (count : Nat) (idx : Int) :
    Except Fault Int :=
  if idx ≠ -1 then remapLoop v idx 0 count else .ok idx

/-- The helper `SortMarkers(a, count, selectedIndex, draggingIndex)`; the result is the
values of the four reference parameters after the call. -/
def SortMarkers {T : Type} {pos : T → ℚ} (srt : StdSort T pos) (a : List T) (count : Nat)
    (selectedIndex draggingIndex : Int) : Except Fault (List T × Nat × Int × Int) :=
  match collectMarkers a count with
  | .error e => .error e
  | .ok v =>
    let sortedMarker := srt.run v
    match storeMarkers sortedMarker count a with
    | .error e => .error e
    | .ok a1 =>
      match remapIndex sortedMarker count selectedIndex with
      | .error e => .error e
      | .ok sel =>
        match remapIndex sortedMarker count draggingIndex with
        | .error e => .error e
        | .ok drag => .ok (a1, count, sel, drag)

/-- An instance of the `std::sort` contract: insertion sort by `Position`. -/
def insertionStdSort (T : Type) (pos : T → ℚ) : StdSort T pos where
  run := List.insertionSort (fun p q => pos p.marker ≤ pos q.marker)
  perm := List.perm_insertionSort _
  sorted := by
    intro v
    haveI : IsTotal (SortedMarker T) (fun p q => pos p.marker ≤ pos q.marker) :=
      ⟨fun p q => le_total (pos p.marker) (pos q.marker)⟩
    haveI : IsTrans (SortedMarker T) (fun p q => pos p.marker ≤ pos q.marker) :=
      ⟨fun _ _ _ h1 h2 => le_trans h1 h2⟩
    have h := List.sorted_insertionSort
      (fun (p q : SortedMarker T) => pos p.marker ≤ pos q.marker) v
    exact List.Pairwise.imp (fun hpq => not_lt.mpr hpq) h

/-- The array `a` after the live stops from offset `k` on have moved one slot to the right
and `value` has been stored at offset `k` (used to describe the result of `AddMarker`). -/
def insertedArray {T : Type} (a : List T) (count k : Nat) (value : T) : List T :=
  a.take k ++ value :: ((a.drop k).take (count - k) ++ a.drop (count + 1))

/-- A store with `MarkerMax = 4`: colour stops black at `0` and white at `1`, alpha stops
at `0.2` and `0.8`; the two remaining slots of each array are not live. -/
def exampleStore : ImGradientHDRState where
  ColorCount := 2
  AlphaCount := 2
  Colors := [⟨0, (0, 0, 0), 1⟩, ⟨1, (1, 1, 1), 1⟩, ⟨0, (0, 0, 0), 0⟩, ⟨0, (0, 0, 0), 0⟩]
  Alphas := [⟨1 / 5, 1⟩, ⟨4 / 5, 0⟩, ⟨0, 0⟩, ⟨0, 0⟩]

/-- The alpha array of `exampleStore` after the positions of its two live stops have been
exchanged, as a drag past the neighbour leaves it. -/
def swappedAlphas : List AlphaMarker := [⟨4 / 5, 1⟩, ⟨1 / 5, 0⟩, ⟨0, 0⟩, ⟨0, 0⟩]

/-- Every `Position` of the list lies in `[0, 1]`. -/
def PositionsInUnit {T : Type} (pos : T → ℚ) (l : List T) : Prop :=
  ∀ m ∈ l, 0 ≤ pos m ∧ pos m ≤ 1

/-- The store predicate of the data model: both live ranges are sorted ascending by
`Position`, every live `Position` lies in `[0, 1]`, and both counts are at most
`MarkerMax`. -/
def StoreInvariant (MarkerMax : Nat) (s : ImGradientHDRState) : Prop :=
  SortedByPosition ColorMarker.Position (live s.Colors s.ColorCount) ∧
  SortedByPosition AlphaMarker.Position (live s.Alphas s.AlphaCount) ∧
  PositionsInUnit ColorMarker.Position (live s.Colors s.ColorCount) ∧
  PositionsInUnit AlphaMarker.Position (live s.Alphas s.AlphaCount) ∧
  s.ColorCount ≤ MarkerMax ∧ s.AlphaCount ≤ MarkerMax

/-- One call of a store operation, with its arguments. -/
inductive StoreOp where
  | addColor (x : ℚ) (color : ℚ × ℚ × ℚ) (intensity : ℚ)
  | addAlpha (x : ℚ) (alpha : ℚ)
  | removeColor (index : Int)
  | removeAlpha (index : Int)
  | sortColors (selectedIndex draggingIndex : Int)
  | sortAlphas (selectedIndex draggingIndex : Int)

/-- The store after one operation; `SortMarkers` is called on an array of the store and
its count, as `ImGradientHDR` calls it. -/
def applyOp (MarkerMax : Nat) (srtC : StdSort ColorMarker ColorMarker.Position)
    (srtA : StdSort AlphaMarker AlphaMarker.Position) (s : ImGradientHDRState) :
    StoreOp → Except Fault ImGradientHDRState
  | .addColor x color intensity =>
    match AddColorMarker MarkerMax s x color intensity with
    | .error e => .error e
    | .ok (_, s1) => .ok s1
  | .addAlpha x alpha =>
    match AddAlphaMarker MarkerMax s x alpha with
    | .error e => .error e
    | .ok (_, s1) => .ok s1
  | .removeColor index =>
    match RemoveColorMarker s index with
    | .error e => .error e
    | .ok (_, s1) => .ok s1
  | .removeAlpha index =>
    match RemoveAlphaMarker s index with
    | .error e => .error e
    | .ok (_, s1) => .ok s1
  | .sortColors selectedIndex draggingIndex =>
    match SortMarkers srtC s.Colors s.ColorCount selectedIndex draggingIndex with
    | .error e => .error e
    | .ok (a, c, _, _) => .ok { s with Colors := a, ColorCount := c }
  | .sortAlphas selectedIndex draggingIndex =>
    match SortMarkers srtA s.Alphas s.AlphaCount selectedIndex draggingIndex with
    | .error e => .error e
    | .ok (a, c, _, _) => .ok { s with Alphas := a, AlphaCount := c }

/-- The store after a finite sequence of operations. -/
def applyOps (MarkerMax : Nat) (srtC : StdSort ColorMarker ColorMarker.Position)
    (srtA : StdSort AlphaMarker AlphaMarker.Position) :
    List StoreOp → ImGradientHDRState → Except Fault ImGradientHDRState
  | [], s => .ok s
  | op :: ops, s =>
    match applyOp MarkerMax srtC srtA s op with
    | .error e => .error e
    | .ok s1 => applyOps MarkerMax srtC srtA ops s1

/-- A store with `MarkerMax = 4` and no live stop. -/
def emptyStore : ImGradientHDRState where
  ColorCount := 0
  AlphaCount := 0
  Colors := List.replicate 4 ⟨0, (0, 0, 0), 0⟩
  Alphas := List.replicate 4 ⟨0, 0⟩

/-- In the words of the specification: the index of the first stop with
`Position == x`, if there is one. -/
def firstStopAt {T : Type} (pos : T → ℚ) (l : List T) (x : ℚ) : Option Nat :=
  if l.findIdx (fun m => decide (pos m = x)) < l.length then
    some (l.findIdx (fun m => decide (pos m = x)))
  else none

/-- In the words of the specification: the index of the last stop with `Position < x`,
if there is one. -/
def lastStopBelow {T : Type} (pos : T → ℚ) (l : List T) (x : ℚ) : Option Nat :=
  if l.reverse.findIdx (fun m => decide (pos m < x)) < l.length then
    some (l.length - 1 - l.reverse.findIdx (fun m => decide (pos m < x)))
  else none

/-- In the words of the specification: `lo` is the first stop with `Position == x` if one
exists and otherwise the last stop with `Position < x`. -/
def lowerStop {T : Type} (pos : T → ℚ) (l : List T) (x : ℚ) : Option Nat :=
  match firstStopAt pos l x with
  | some i => some i
  | none => lastStopBelow pos l x

/-- In the words of the specification: the value between `lo` and `hi` at `x`, with
`t = (x - lo.Position) / (hi.Position - lo.Position)` and `hi * t + lo * (1 - t)`; the
value of `lo` when both share the same `Position`. -/
def interpolate (loPos hiPos lo hi x : ℚ) : ℚ :=
  if loPos = hiPos then lo
  else hi * ((x - loPos) / (hiPos - loPos)) + lo * (1 - (x - loPos) / (hiPos - loPos))

/-- The store `exampleStore` with the positions of its two alpha stops exchanged: the live
alpha stops are not sorted. -/
def swappedStore : ImGradientHDRState :=
  { exampleStore with Alphas := swappedAlphas }

/-- Method `ImGradientHDRState::GetColorMarker(index)`. The pointer `&(Colors[index])` is
given by the offset of the slot it points to; `none` is `nullptr`. -/
def GetColorMarker (s : ImGradientHDRState) (index : Int) : Except Fault (Option Nat) :=
  if index < 0 ∨ index ≥ (s.ColorCount : Int) then .ok none
  else
    match readAtInt s.Colors index with
    | .error e => .error e
    | .ok _ => .ok (some index.toNat)

/-- Method `ImGradientHDRState::GetAlphaMarker(index)`. -/
def GetAlphaMarker (s : ImGradientHDRState) (index : Int) : Except Fault (Option Nat) :=
  if index < 0 ∨ index ≥ (s.AlphaCount : Int) then .ok none
  else
    match readAtInt s.Alphas index with
    | .error e => .error e
    | .ok _ => .ok (some index.toNat)

/-- Method `ImGradientHDRState::GetCombinedColor(x)`. -/
def GetCombinedColor (s : ImGradientHDRState) (x : ℚ) : Except Fault (ℚ × ℚ × ℚ × ℚ) :=
  match GetColorAndIntensity s x with
  | .error e => .error e
  | .ok c =>
    match GetAlpha s x with
    | .error e => .error e
    | .ok a => .ok (c.1 * c.2.2.2, c.2.1 * c.2.2.2, c.2.2.1 * c.2.2.2, a)

/-- The enumeration `ImGradientHDRMarkerType`; it is declared in the header, the source
names its three values. -/
inductive ImGradientHDRMarkerType where
  | Color
  | Alpha
  | Unknown
  deriving DecidableEq, Repr

/-- The interaction state `ImGradientHDRTemporaryState`, with the four fields the source
reads and writes. -/
structure ImGradientHDRTemporaryState where
  selectedMarkerType : ImGradientHDRMarkerType
  selectedIndex : Int
  draggingMarkerType : ImGradientHDRMarkerType
  draggingIndex : Int
  deriving DecidableEq, Repr

/-- What the host interface reports during one frame: the layout width
`GetContentRegionAvail().x`, the pointer (`GetIO().MousePos.x`, `GetIO().MouseDelta.x`,
`IsMouseDown(0)`, `IsMouseClicked(0)`, `IsMouseDragging(0)`), the cursor position
`GetCursorScreenPos().x` at the start of the alpha and of the colour block, and the
answers of `IsItemHovered()` after the invisible button of marker `i` of each kind and
after the buttons `AlphaArea` and `ColorArea`. -/
structure FrameInput where
  width : ℚ
  mousePosX : ℚ
  mouseDeltaX : ℚ
  mouseDown : Bool
  mouseClicked : Bool
  mouseDragging : Bool
  alphaOriginX : ℚ
  colorOriginX : ℚ
  alphaMarkerHovered : Nat → Bool
  colorMarkerHovered : Nat → Bool
  alphaAreaHovered : Bool
  colorAreaHovered : Bool

/-- The record `UpdateMarkerResult`. -/
structure UpdateMarkerResult where
  isChanged : Bool
  isHovered : Bool
  deriving DecidableEq, Repr

/-- Assignment `marker.Position = p` on a colour stop. -/
def ColorMarker.setPosition (m : ColorMarker) (p : ℚ) : ColorMarker :=
  { m with Position := p }

/-- Assignment `marker.Position = p` on an alpha stop. -/
def AlphaMarker.setPosition (m : AlphaMarker) (p : ℚ) : AlphaMarker :=
  { m with Position := p }

/-- The two statements of one iteration of `UpdateMarker` that write the interaction
state: `if (draggingIndex == -1 && IsItemHovered() && IsMouseDown(0)) { select and drag
marker i }` and then `if (!IsMouseDown(0)) { draggingIndex = -1; draggingMarkerType =
Unknown; }`. -/
def pressAndRelease (inp : FrameInput) (hovered : Nat → Bool)
    (markerType : ImGradientHDRMarkerType) (i : Nat)
    (t : ImGradientHDRTemporaryState) : ImGradientHDRTemporaryState :=
  let t1 : ImGradientHDRTemporaryState :=
    if t.draggingIndex = -1 ∧ hovered i = true ∧ inp.mouseDown = true then
      { selectedMarkerType := markerType, selectedIndex := (i : Int),
        draggingMarkerType := markerType, draggingIndex := (i : Int) }
    else t
  if inp.mouseDown = false then
    { t1 with draggingIndex := -1, draggingMarkerType := ImGradientHDRMarkerType.Unknown }
  else t1

/-- One iteration `i` of the loop of `UpdateMarker`: the marker is read (for drawing),
its button is hit-tested, the interaction state is written, and if marker `i` is the
drag target and `IsMouseDragging(0)` holds, its `Position` becomes
`clamp(Position + MouseDelta.x / width, 0, 1)`. -/
def updateMarkerStep {T : Type} (pos : T → ℚ) (setPos : T → ℚ → T) (inp : FrameInput)
    (hovered : Nat → Bool) (markerType : ImGradientHDRMarkerType) (i : Nat)
    (markerArray : List T) (t : ImGradientHDRTemporaryState) (ret : UpdateMarkerResult) :
    Except Fault (List T × ImGradientHDRTemporaryState × UpdateMarkerResult) :=
  match readAt markerArray i with
  | .error e => .error e
  | .ok m =>
    let ret1 : UpdateMarkerResult := { ret with isHovered := ret.isHovered || hovered i }
    let t2 := pressAndRelease inp hovered markerType i t
    if t2.draggingMarkerType = markerType ∧ t2.draggingIndex = (i : Int) ∧
        inp.mouseDragging = true then
      match divide inp.mouseDeltaX inp.width with
      | .error e => .error e
      | .ok diff =>
        match writeAt markerArray i (setPos m (clamp01 (pos m + diff))) with
        | .error e => .error e
        | .ok a1 =>
          .ok (a1, t2, { ret1 with isChanged := ret1.isChanged || decide (diff ≠ 0) })
    else .ok (markerArray, t2, ret1)

/-- The first `n` iterations of the loop of `UpdateMarker`. -/
def updateMarkerLoop {T : Type} (pos : T → ℚ) (setPos : T → ℚ → T) (inp : FrameInput)
    (hovered : Nat → Bool) (markerType : ImGradientHDRMarkerType)
    (markerArray : List T) (t : ImGradientHDRTemporaryState) :
    Nat → Except Fault (List T × ImGradientHDRTemporaryState × UpdateMarkerResult)
  | 0 => .ok (markerArray, t, { isChanged := false, isHovered := false })
  | n + 1 =>
    match updateMarkerLoop pos setPos inp hovered markerType markerArray t n with
    | .error e => .error e
    | .ok (a1, t1, ret1) => updateMarkerStep pos setPos inp hovered markerType n a1 t1 ret1

/-- The helper `UpdateMarker(markerArray, markerCount, temporaryState, markerType, ...)`;
the result is the array and the interaction state after the call, and the returned
record. -/
def UpdateMarker {T : Type} (pos : T → ℚ) (setPos : T → ℚ → T) (inp : FrameInput)
    (hovered : Nat → Bool) (markerType : ImGradientHDRMarkerType)
    (markerArray : List T) (markerCount : Nat) (temporaryState : ImGradientHDRTemporaryState) :
    Except Fault (List T × ImGradientHDRTemporaryState × UpdateMarkerResult) :=
  updateMarkerLoop pos setPos inp hovered markerType markerArray temporaryState markerCount

/-- The call `if (draggingMarkerType == markerType) SortMarkers(array, count,
selectedIndex, draggingIndex)` that follows each `UpdateMarker`. -/
def sortIfDragging {T : Type} {pos : T → ℚ} (srt : StdSort T pos)
    (markerType : ImGradientHDRMarkerType) (a : List T) (count : Nat)
    (t : ImGradientHDRTemporaryState) :
    Except Fault (List T × Nat × ImGradientHDRTemporaryState) :=
  if t.draggingMarkerType = markerType then
    match SortMarkers srt a count t.selectedIndex t.draggingIndex with
    | .error e => .error e
    | .ok (a1, c1, sel, drag) => .ok (a1, c1, { t with selectedIndex := sel, draggingIndex := drag })
  else .ok (a, count, t)

/-- The reaction of `ImGradientHDR` to the strip `AlphaArea`: when it is hovered the alpha
at the pointer is evaluated (for the preview), and a click adds an alpha stop with that
alpha. The result is what `AddAlphaMarker` returned (`false` if it was not called) and
the store. -/
def alphaAreaClick (MarkerMax : Nat) (inp : FrameInput) (s : ImGradientHDRState) :
    Except Fault (Bool × ImGradientHDRState) :=
  if inp.alphaAreaHovered = true then
    match divide (inp.mousePosX - inp.alphaOriginX) inp.width with
    | .error e => .error e
    | .ok xn =>
      match GetAlpha s xn with
      | .error e => .error e
      | .ok c =>
        if inp.mouseClicked = true then AddAlphaMarker MarkerMax s xn c
        else .ok (false, s)
  else .ok (false, s)

/-- The reaction of `ImGradientHDR` to the strip `ColorArea`. -/
def colorAreaClick (MarkerMax : Nat) (inp : FrameInput) (s : ImGradientHDRState) :
    Except Fault (Bool × ImGradientHDRState) :=
  if inp.colorAreaHovered = true then
    match divide (inp.mousePosX - inp.colorOriginX) inp.width with
    | .error e => .error e
    | .ok xn =>
      match GetColorAndIntensity s xn with
      | .error e => .error e
      | .ok c =>
        if inp.mouseClicked = true then
          AddColorMarker MarkerMax s xn (c.1, c.2.1, c.2.2.1) c.2.2.2
        else .ok (false, s)
  else .ok (false, s)

/-- The first block `if (isMarkerShown) { ... }` of `ImGradientHDR`: the alpha markers are
updated and re-sorted, then the strip `AlphaArea` is served. The result is the
contribution to `changed`, the store and the interaction state. -/
def alphaBlock (MarkerMax : Nat) (srt : StdSort AlphaMarker AlphaMarker.Position)
    (inp : FrameInput) (s : ImGradientHDRState) (t : ImGradientHDRTemporaryState)
    (isMarkerShown : Bool) :
    Except Fault (Bool × ImGradientHDRState × ImGradientHDRTemporaryState) :=
  if isMarkerShown = true then
    match UpdateMarker AlphaMarker.Position AlphaMarker.setPosition inp inp.alphaMarkerHovered
        ImGradientHDRMarkerType.Alpha s.Alphas s.AlphaCount t with
    | .error e => .error e
    | .ok (a1, t1, resultAlpha) =>
      match sortIfDragging srt ImGradientHDRMarkerType.Alpha a1 s.AlphaCount t1 with
      | .error e => .error e
      | .ok (a2, c2, t2) =>
        match alphaAreaClick MarkerMax inp { s with Alphas := a2, AlphaCount := c2 } with
        | .error e => .error e
        | .ok (added, s3) => .ok (resultAlpha.isChanged || added, s3, t2)
  else .ok (false, s, t)

/-- The second block `if (isMarkerShown) { ... }` of `ImGradientHDR`, for the colour
markers and the strip `ColorArea`. -/
def colorBlock (MarkerMax : Nat) (srt : StdSort ColorMarker ColorMarker.Position)
    (inp : FrameInput) (s : ImGradientHDRState) (t : ImGradientHDRTemporaryState)
    (isMarkerShown : Bool) :
    Except Fault (Bool × ImGradientHDRState × ImGradientHDRTemporaryState) :=
  if isMarkerShown = true then
    match UpdateMarker ColorMarker.Position ColorMarker.setPosition inp inp.colorMarkerHovered
        ImGradientHDRMarkerType.Color s.Colors s.ColorCount t with
    | .error e => .error e
    | .ok (a1, t1, resultColor) =>
      match sortIfDragging srt ImGradientHDRMarkerType.Color a1 s.ColorCount t1 with
      | .error e => .error e
      | .ok (a2, c2, t2) =>
        match colorAreaClick MarkerMax inp { s with Colors := a2, ColorCount := c2 } with
        | .error e => .error e
        | .ok (added, s3) => .ok (resultColor.isChanged || added, s3, t2)
  else .ok (false, s, t)

/-- The loops `xkeys.emplace_back(a[i].Position)` for `i` in `[0, n)`. -/
def collectKeys {T : Type} (pos : T → ℚ) (a : List T) : Nat → Except Fault (List ℚ)
  | 0 => .ok []
  | n + 1 =>
    match collectKeys pos a n with
    | .error e => .error e
    | .ok ks =>
      match readAt a n with
      | .error e => .error e
      | .ok m => .ok (ks ++ [pos m])

/-- The library routine `std::unique` followed by `erase`: of every run of equal
neighbours only the first is kept. -/
def unique : List ℚ → List ℚ
  | [] => []
  | [k] => [k]
  | k1 :: k2 :: ks => if k1 = k2 then unique (k2 :: ks) else k1 :: unique (k2 :: ks)

/-- The loop that draws the bar: `GetCombinedColor` is evaluated at `xkeys[i]` and at
`xkeys[i + 1]` for every `i` in `[0, xkeys.size() - 1)`; the colours go to the draw
list. -/
def drawSegments (s : ImGradientHDRState) : List ℚ → Except Fault Unit
  | k1 :: k2 :: ks =>
    match GetCombinedColor s k1 with
    | .error e => .error e
    | .ok _ =>
      match GetCombinedColor s k2 with
      | .error e => .error e
      | .ok _ => drawSegments s (k2 :: ks)
  | _ => .ok ()

/-- The block of `ImGradientHDR` that draws the preview bar: the keys are the positions of
the live colour stops, of the live alpha stops, `0` and `1`, made unique and sorted. -/
def drawBar (s : ImGradientHDRState) : Except Fault Unit :=
  match collectKeys ColorMarker.Position s.Colors s.ColorCount with
  | .error e => .error e
  | .ok kc =>
    match collectKeys AlphaMarker.Position s.Alphas s.AlphaCount with
    | .error e => .error e
    | .ok ka =>
      drawSegments s (List.insertionSort (fun p q : ℚ => p ≤ q) (unique (kc ++ ka ++ [0, 1])))

set_option linter.dupNamespace false in
/-- The entry point `ImGradientHDR(gradientID, state, temporaryState, isMarkerShown)`; the
result is the returned `changed`, the store and the interaction state after the frame. -/
def ImGradientHDR (MarkerMax : Nat) (srtA : StdSort AlphaMarker AlphaMarker.Position)
    (srtC : StdSort ColorMarker ColorMarker.Position) (inp : FrameInput)
    (state : ImGradientHDRState) (temporaryState : ImGradientHDRTemporaryState)
    (isMarkerShown : Bool) :
    Except Fault (Bool × ImGradientHDRState × ImGradientHDRTemporaryState) :=
  match alphaBlock MarkerMax srtA inp state temporaryState isMarkerShown with
  | .error e => .error e
  | .ok (changed1, s1, t1) =>
    match drawBar s1 with
    | .error e => .error e
    | .ok _ =>
      match colorBlock MarkerMax srtC inp s1 t1 isMarkerShown with
      | .error e => .error e
      | .ok (changed2, s2, t2) => .ok (changed1 || changed2, s2, t2)

/-- The interaction state after the first `n` iterations of the loop of `UpdateMarker`
(the array plays no part in it). -/
def temporaryStateAfter (inp : FrameInput) (hovered : Nat → Bool)
    (markerType : ImGradientHDRMarkerType) (t : ImGradientHDRTemporaryState) :
    Nat → ImGradientHDRTemporaryState
  | 0 => t
  | n + 1 => pressAndRelease inp hovered markerType n
      (temporaryStateAfter inp hovered markerType t n)

/-- Marker `i` is dragged in its iteration: after the interaction state has been written
it is the drag target, and `IsMouseDragging(0)` holds. -/
def DraggedAt (inp : FrameInput) (hovered : Nat → Bool) (markerType : ImGradientHDRMarkerType)
    (t : ImGradientHDRTemporaryState) (i : Nat) : Prop :=
  (temporaryStateAfter inp hovered markerType t (i + 1)).draggingMarkerType = markerType ∧
  (temporaryStateAfter inp hovered markerType t (i + 1)).draggingIndex = (i : Int) ∧
  inp.mouseDragging = true

/-- The live count of the array of a marker type (none for `Unknown`). -/
def countOf (s : ImGradientHDRState) : ImGradientHDRMarkerType → Nat
  | .Color => s.ColorCount
  | .Alpha => s.AlphaCount
  | .Unknown => 0

/-- A drag target exists: the dragging fields are not both at their "none" values. -/
def HasDragTarget (t : ImGradientHDRTemporaryState) : Prop :=
  t.draggingIndex ≠ -1 ∨ t.draggingMarkerType ≠ ImGradientHDRMarkerType.Unknown

/-- Whenever a drag target exists, the selection is that same marker and the dragging
index is a valid index into the array of its type. -/
def DragInvariant (s : ImGradientHDRState) (t : ImGradientHDRTemporaryState) : Prop :=
  HasDragTarget t →
    t.selectedMarkerType = t.draggingMarkerType ∧ t.selectedIndex = t.draggingIndex ∧
    0 ≤ t.draggingIndex ∧ t.draggingIndex < (countOf s t.draggingMarkerType : Int)

/-- The store is well-formed with both counts inside the arrays. -/
def CountsInRange (MarkerMax : Nat) (s : ImGradientHDRState) : Prop :=
  WellFormed MarkerMax s ∧ s.ColorCount ≤ MarkerMax ∧ s.AlphaCount ≤ MarkerMax

/-- The pairs of a store and an interaction state that a sequence of frames of
`ImGradientHDR` leads to, from the pair `(s0, t0)`, when nothing else touches them. -/
inductive ReachableBy (MarkerMax : Nat) (srtA : StdSort AlphaMarker AlphaMarker.Position)
    (srtC : StdSort ColorMarker ColorMarker.Position)
    (s0 : ImGradientHDRState) (t0 : ImGradientHDRTemporaryState) :
    ImGradientHDRState → ImGradientHDRTemporaryState → Prop where
  | start : ReachableBy MarkerMax srtA srtC s0 t0 s0 t0
  | frame (s s1 : ImGradientHDRState) (t t1 : ImGradientHDRTemporaryState)
      (inp : FrameInput) (isMarkerShown changed : Bool) :
      ReachableBy MarkerMax srtA srtC s0 t0 s t →
      ImGradientHDR MarkerMax srtA srtC inp s t isMarkerShown = .ok (changed, s1, t1) →
      ReachableBy MarkerMax srtA srtC s0 t0 s1 t1

/-- An interaction state with no selection and no drag target. -/
def idleState : ImGradientHDRTemporaryState where
  selectedMarkerType := ImGradientHDRMarkerType.Unknown
  selectedIndex := -1
  draggingMarkerType := ImGradientHDRMarkerType.Unknown
  draggingIndex := -1

/-- A frame in which the button is held down but was not pressed in this frame
(`IsMouseDown` holds, `IsMouseClicked` does not), the pointer rests over alpha marker `0`
and over no strip, and does not move. -/
def heldInput : FrameInput where
  width := 100
  mousePosX := 20
  mouseDeltaX := 0
  mouseDown := true
  mouseClicked := false
  mouseDragging := false
  alphaOriginX := 0
  colorOriginX := 0
  alphaMarkerHovered := fun i => i == 0
  colorMarkerHovered := fun _ => false
  alphaAreaHovered := false
  colorAreaHovered := false

/-- A frame in which alpha marker `0` is dragged: the button is down, the pointer is over
the marker and moves by `10` of the `100` units of the bar width. -/
def dragInput : FrameInput where
  width := 100
  mousePosX := 20
  mouseDeltaX := 10
  mouseDown := true
  mouseClicked := false
  mouseDragging := true
  alphaOriginX := 0
  colorOriginX := 0
  alphaMarkerHovered := fun i => i == 0
  colorMarkerHovered := fun _ => false
  alphaAreaHovered := false
  colorAreaHovered := false

/-- An interaction state in which alpha marker `0` is selected and is the drag target. -/
def draggingState : ImGradientHDRTemporaryState where
  selectedMarkerType := ImGradientHDRMarkerType.Alpha
  selectedIndex := 0
  draggingMarkerType := ImGradientHDRMarkerType.Alpha
  draggingIndex := 0

/-- A frame in which the button is not held and the pointer is over nothing. -/
def releasedInput : FrameInput where
  width := 100
  mousePosX := 20
  mouseDeltaX := 0
  mouseDown := false
  mouseClicked := false
  mouseDragging := false
  alphaOriginX := 0
  colorOriginX := 0
  alphaMarkerHovered := fun _ => false
  colorMarkerHovered := fun _ => false
  alphaAreaHovered := false
  colorAreaHovered := false

/-- The interaction state with the drag target cleared: `draggingIndex = -1`,
`draggingMarkerType = Unknown`. -/
def released (t : ImGradientHDRTemporaryState) : ImGradientHDRTemporaryState :=
  { t with draggingIndex := -1, draggingMarkerType := ImGradientHDRMarkerType.Unknown }

/-- The condition under which `ImGradientHDR` inserts an alpha stop. -/
def AddsAlpha (MarkerMax : Nat) (inp : FrameInput) (s : ImGradientHDRState)
    (isMarkerShown : Bool) : Prop :=
  isMarkerShown = true ∧ inp.alphaAreaHovered = true ∧ inp.mouseClicked = true ∧
    s.AlphaCount < MarkerMax

/-- The condition under which `ImGradientHDR` inserts a colour stop. -/
def AddsColor (MarkerMax : Nat) (inp : FrameInput) (s : ImGradientHDRState)
    (isMarkerShown : Bool) : Prop :=
  isMarkerShown = true ∧ inp.colorAreaHovered = true ∧ inp.mouseClicked = true ∧
    s.ColorCount < MarkerMax

/-- What `std::sort` does to a range that is already in order by `Position`: it returns
it as it is. The contract of `std::sort` leaves the order of stops of equal `Position`
open; its implementations leave a short range that is in order untouched (libstdc++ sorts
up to 16 elements by insertion), and so does every stable sort, which is how the
specification describes `SortMarkers`. -/
def KeepsSorted {T : Type} {pos : T → ℚ} (srt : StdSort T pos) : Prop :=
  ∀ v : List (SortedMarker T), v.Pairwise (fun p q => pos p.marker ≤ pos q.marker) →
    srt.run v = v

/-- The piecewise-linear function through the stops of a list, read from the left: the
first stop's value before the first stop, the interpolated value inside the first bracket
`[a, b)` that holds `y`, the last stop's value from the last stop on, and `d` for the
empty list. It is used to describe what `GetAlpha` and `GetColorAndIntensity` compute on
a sorted live range; `val` picks the interpolated field. -/
def gradientValue {T : Type} (pos val : T → ℚ) (d : ℚ) : List T → ℚ → ℚ
  | [], _ => d
  | [a], _ => val a
  | a :: b :: r, y =>
    if y < pos a then val a
    else if y < pos b then interpolate (pos a) (pos b) (val a) (val b) y
    else gradientValue pos val d (b :: r) y

/-- Stops of the list that share a `Position` share the value `val`. -/
def SameValueAtSamePosition {T : Type} (pos val : T → ℚ) (l : List T) : Prop :=
  ∀ m ∈ l, ∀ n ∈ l, pos m = pos n → val m = val n

/-- The list `l` with the stop `m` put in at the first index whose `Position` is not less
than that of `m` (the live range after `AddMarker`, on a sorted live range). -/
def insertStop {T : Type} (pos : T → ℚ) (l : List T) (m : T) : List T :=
  l.take (insertionPoint pos l (pos m)) ++ [m] ++ l.drop (insertionPoint pos l (pos m))

/-! ## The source on `float` values that may be NaN

The definitions above read every `float` as a rational number. The ones in `WithNaN` read
the same source lines of the store operations (`AddMarker`, `Add*Marker`, `Remove*Marker`,
`SortMarkers`) and of the two evaluation functions on values that are a number or NaN, with
the comparisons of `float` on NaN: they say what these functions do when an argument or a
value of the store is NaN. On numbers they agree with the definitions above. -/

namespace WithNaN

/-- A value of the type `float`: a number, or NaN. (The infinities are left out: no
comparison of the source treats them differently from a large number.) -/
inductive FloatVal where
  | num (q : ℚ)
  | nan
  deriving DecidableEq, Repr

/-- The comparison `a < b` on `float`: false when an operand is NaN. -/
def less : FloatVal → FloatVal → Bool
  | .num a, .num b => decide (a < b)
  | _, _ => false

/-- The comparison `a <= b` on `float`: false when an operand is NaN. -/
def lessEq : FloatVal → FloatVal → Bool
  | .num a, .num b => decide (a ≤ b)
  | _, _ => false

/-- The comparison `a != b` on `float`: true when an operand is NaN. -/
def notEq : FloatVal → FloatVal → Bool
  | .num a, .num b => decide (a ≠ b)
  | _, _ => true

/-- The comparison `a == b` on `float`: false when an operand is NaN. -/
def equal : FloatVal → FloatVal → Bool
  | .num a, .num b => decide (a = b)
  | _, _ => false

/-- The library routine `std::min(a, b)`, which is `(b < a) ? b : a`. -/
def fmin (a b : FloatVal) : FloatVal := if less b a = true then b else a

/-- The library routine `std::max(a, b)`, which is `(a < b) ? b : a`. -/
def fmax (a b : FloatVal) : FloatVal := if less a b = true then b else a

/-- The difference `a - b`: NaN when an operand is NaN. -/
def sub : FloatVal → FloatVal → FloatVal
  | .num a, .num b => .num (a - b)
  | _, _ => .nan

/-- The sum `a + b`: NaN when an operand is NaN. -/
def add : FloatVal → FloatVal → FloatVal
  | .num a, .num b => .num (a + b)
  | _, _ => .nan

/-- The product `a * b`: NaN when an operand is NaN. -/
def mul : FloatVal → FloatVal → FloatVal
  | .num a, .num b => .num (a * b)
  | _, _ => .nan

/-- A division `n / d` of the source, recorded as a fault when the divisor is the number
zero; NaN when an operand is NaN. -/
def divide : FloatVal → FloatVal → Except Fault FloatVal
  | .num a, .num b => if b = 0 then .error .divisionByZero else .ok (.num (a / b))
  | .nan, .num b => if b = 0 then .error .divisionByZero else .ok .nan
  | _, .nan => .ok .nan

/-- The blend `hi * alpha + lo * (1.0f - alpha)`. -/
def blend (lo hi alpha : FloatVal) : FloatVal :=
  add (mul hi alpha) (mul lo (sub (.num 1) alpha))

/-- A colour stop: `ColorMarker{Position, Color, Intensity}`. -/
structure ColorMarker where
  Position : FloatVal
  Color : FloatVal × FloatVal × FloatVal
  Intensity : FloatVal
  deriving DecidableEq, Repr

/-- An opacity stop: `AlphaMarker{Position, Alpha}`. -/
structure AlphaMarker where
  Position : FloatVal
  Alpha : FloatVal
  deriving DecidableEq, Repr

/-- The marker store `ImGradientHDRState`. -/
structure ImGradientHDRState where
  ColorCount : Nat
  AlphaCount : Nat
  Colors : List ColorMarker
  Alphas : List AlphaMarker
  deriving DecidableEq, Repr

/-- The loop of `std::lower_bound` with the comparison `m.Position < x`:
`while (len > 0) { half = len >> 1; middle = first + half;
   if (comp(*middle, val)) { first = middle + 1; len = len - half - 1; } else len = half; }`. -/
def lowerBoundLoop {T : Type} (pos : T → FloatVal) (a : List T) (x : FloatVal) :
    Nat → Nat → Nat → Except Fault Nat
  | 0, first, len => if 0 < len then .error .outOfFuel else .ok first
  | fuel + 1, first, len =>
    if 0 < len then
      let half := len / 2
      let middle := first + half
      match readAt a middle with
      | .error e => .error e
      | .ok m =>
        if less (pos m) x = true then lowerBoundLoop pos a x fuel (middle + 1) (len - half - 1)
        else lowerBoundLoop pos a x fuel first half
    else .ok first

/-- Call `std::lower_bound(a.begin(), a.begin() + count, key, byPosition)`; the result is
the offset of the returned iterator from `a.begin()`. -/
def lower_bound {T : Type} (pos : T → FloatVal) (a : List T) (count : Nat) (x : FloatVal) :
    Except Fault Nat :=
  if count ≤ a.length then lowerBoundLoop pos a x count 0 count else .error .outOfRange

/-- The helper `AddMarker(a, count, value)`; `a.end()` is the offset `a.length`. -/
def AddMarker {T : Type} (pos : T → FloatVal) (a : List T) (count : Nat) (value : T) :
    Except Fault (List T × Nat) :=
  match lower_bound pos a count (pos value) with
  | .error e => .error e
  | .ok lb =>
    if lb ≠ a.length then
      let ind := lb
      match copy a ind count (ind + 1) with
      | .error e => .error e
      | .ok a1 =>
        match writeAt a1 ind value with
        | .error e => .error e
        | .ok a2 => .ok (a2, count + 1)
    else .ok (a, count)

/-- Clamp `std::max(std::min(x, 1.0f), 0.0f)`. -/
def clamp01 (x : FloatVal) : FloatVal := fmax (fmin x (.num 1)) (.num 0)

/-- Method `ImGradientHDRState::AddColorMarker(x, color, intensity)`. -/
def AddColorMarker (MarkerMax : Nat) (s : ImGradientHDRState) (x : FloatVal)
    (color : FloatVal × FloatVal × FloatVal) (intensity : FloatVal) :
    Except Fault (Bool × ImGradientHDRState) :=
  if s.ColorCount ≥ MarkerMax then .ok (false, s)
  else
    let x := clamp01 x
    let marker : ColorMarker := { Position := x, Color := color, Intensity := intensity }
    match AddMarker ColorMarker.Position s.Colors s.ColorCount marker with
    | .error e => .error e
    | .ok (a, c) => .ok (true, { s with Colors := a, ColorCount := c })

/-- Method `ImGradientHDRState::AddAlphaMarker(x, alpha)`. -/
def AddAlphaMarker (MarkerMax : Nat) (s : ImGradientHDRState) (x : FloatVal)
    (alpha : FloatVal) : Except Fault (Bool × ImGradientHDRState) :=
  if s.AlphaCount ≥ MarkerMax then .ok (false, s)
  else
    let x := clamp01 x
    let marker : AlphaMarker := { Position := x, Alpha := alpha }
    match AddMarker AlphaMarker.Position s.Alphas s.AlphaCount marker with
    | .error e => .error e
    | .ok (a, c) => .ok (true, { s with Alphas := a, AlphaCount := c })

/-- Method `ImGradientHDRState::GetColorAndIntensity(x)`; the result is
`(r, g, b, intensity)`. -/
def GetColorAndIntensity (s : ImGradientHDRState) (x : FloatVal) :
    Except Fault (FloatVal × FloatVal × FloatVal × FloatVal) :=
  if s.ColorCount = 0 then .ok (.num 1, .num 1, .num 1, .num 1)
  else
    match readAt s.Colors 0 with
    | .error e => .error e
    | .ok c0 =>
      if less x c0.Position = true then
        .ok (c0.Color.1, c0.Color.2.1, c0.Color.2.2, c0.Intensity)
      else
        match readAt s.Colors (s.ColorCount - 1) with
        | .error e => .error e
        | .ok cn =>
          if lessEq cn.Position x = true then
            .ok (cn.Color.1, cn.Color.2.1, cn.Color.2.2, cn.Intensity)
          else
            match lower_bound ColorMarker.Position s.Colors s.ColorCount x with
            | .error e => .error e
            | .ok it =>
              match readAtInt s.Colors (it : Int) with
              | .error e => .error e
              | .ok c =>
                let ind : Int := if notEq c.Position x = true then (it : Int) - 1 else (it : Int)
                match readAtInt s.Colors ind with
                | .error e => .error e
                | .ok lo =>
                  if lessEq lo.Position x = true then
                    match readAtInt s.Colors (ind + 1) with
                    | .error e => .error e
                    | .ok hi =>
                      if lessEq x hi.Position = true then
                        let area := sub hi.Position lo.Position
                        if equal area (.num 0) = true then
                          .ok (lo.Color.1, lo.Color.2.1, lo.Color.2.2, lo.Intensity)
                        else
                          match divide (sub x lo.Position) area with
                          | .error e => .error e
                          | .ok alpha =>
                            .ok (blend lo.Color.1 hi.Color.1 alpha,
                                 blend lo.Color.2.1 hi.Color.2.1 alpha,
                                 blend lo.Color.2.2 hi.Color.2.2 alpha,
                                 blend lo.Intensity hi.Intensity alpha)
                      else .error .assertFailed
                  else .error .assertFailed

/-- Method `ImGradientHDRState::GetAlpha(x)`. -/
def GetAlpha (s : ImGradientHDRState) (x : FloatVal) : Except Fault FloatVal :=
  if s.AlphaCount = 0 then .ok (.num 1)
  else
    match readAt s.Alphas 0 with
    | .error e => .error e
    | .ok a0 =>
      if less x a0.Position = true then .ok a0.Alpha
      else
        match readAt s.Alphas (s.AlphaCount - 1) with
        | .error e => .error e
        | .ok an =>
          if lessEq an.Position x = true then .ok an.Alpha
          else
            match lower_bound AlphaMarker.Position s.Alphas s.AlphaCount x with
            | .error e => .error e
            | .ok it =>
              match readAtInt s.Alphas (it : Int) with
              | .error e => .error e
              | .ok c =>
                let ind : Int := if notEq c.Position x = true then (it : Int) - 1 else (it : Int)
                match readAtInt s.Alphas ind with
                | .error e => .error e
                | .ok lo =>
                  if lessEq lo.Position x = true then
                    match readAtInt s.Alphas (ind + 1) with
                    | .error e => .error e
                    | .ok hi =>
                      if lessEq x hi.Position = true then
                        let area := sub hi.Position lo.Position
                        if equal area (.num 0) = true then .ok lo.Alpha
                        else
                          match divide (sub x lo.Position) area with
                          | .error e => .error e
                          | .ok alpha => .ok (blend lo.Alpha hi.Alpha alpha)
                      else .error .assertFailed
                  else .error .assertFailed

/-- A colour stop of numbers as a colour stop of `float` values. -/
def ofColorMarker (m : ImGradientHDR.ColorMarker) : ColorMarker :=
  { Position := .num m.Position,
    Color := (.num m.Color.1, .num m.Color.2.1, .num m.Color.2.2),
    Intensity := .num m.Intensity }

/-- An opacity stop of numbers as an opacity stop of `float` values. -/
def ofAlphaMarker (m : ImGradientHDR.AlphaMarker) : AlphaMarker :=
  { Position := .num m.Position, Alpha := .num m.Alpha }

/-- A store of numbers as a store of `float` values. -/
def ofState (s : ImGradientHDR.ImGradientHDRState) : ImGradientHDRState :=
  { ColorCount := s.ColorCount, AlphaCount := s.AlphaCount,
    Colors := s.Colors.map ofColorMarker, Alphas := s.Alphas.map ofAlphaMarker }

/-- The store predicate of the data model on `float` values: both live ranges are sorted
ascending by `Position` (`<=` of `float`), every live `Position` lies in `[0, 1]`, and
both counts are at most `MarkerMax`. -/
def StoreInvariant (MarkerMax : Nat) (s : ImGradientHDRState) : Prop :=
  (live s.Colors s.ColorCount).Pairwise
    (fun m n => lessEq m.Position n.Position = true) ∧
  (live s.Alphas s.AlphaCount).Pairwise
    (fun m n => lessEq m.Position n.Position = true) ∧
  (∀ m ∈ live s.Colors s.ColorCount,
    lessEq (.num 0) m.Position = true ∧ lessEq m.Position (.num 1) = true) ∧
  (∀ m ∈ live s.Alphas s.AlphaCount,
    lessEq (.num 0) m.Position = true ∧ lessEq m.Position (.num 1) = true) ∧
  s.ColorCount ≤ MarkerMax ∧ s.AlphaCount ≤ MarkerMax

/-- The store `emptyStore` after `AddAlphaMarker(NaN, 1)`: one live alpha stop, whose
`Position` is NaN. -/
def nanStore : ImGradientHDRState where
  ColorCount := 0
  AlphaCount := 1
  Colors := List.replicate 4 ⟨.num 0, (.num 0, .num 0, .num 0), .num 0⟩
  Alphas := [⟨.nan, .num 1⟩, ⟨.num 0, .num 0⟩, ⟨.num 0, .num 0⟩, ⟨.num 0, .num 0⟩]

/-- The number that a `float` value is. NaN is no number and is given `0`; the function is
used for values known not to be NaN. -/
def FloatVal.toRat : FloatVal → ℚ
  | .num q => q
  | .nan => 0

/-- Both arrays of the store have `MarkerMax` slots. -/
def WellFormed (MarkerMax : Nat) (s : ImGradientHDRState) : Prop :=
  s.Colors.length = MarkerMax ∧ s.Alphas.length = MarkerMax

/-- Method `ImGradientHDRState::RemoveColorMarker(index)`; `Colors.end()` is the offset
`Colors.length`. -/
def RemoveColorMarker (s : ImGradientHDRState) (index : Int) :
    Except Fault (Bool × ImGradientHDRState) :=
  if index ≥ (s.ColorCount : Int) ∨ index < 0 then .ok (false, s)
  else
    match copy s.Colors (index.toNat + 1) s.Colors.length index.toNat with
    | .error e => .error e
    | .ok a => .ok (true, { s with Colors := a, ColorCount := s.ColorCount - 1 })

/-- Method `ImGradientHDRState::RemoveAlphaMarker(index)`. -/
def RemoveAlphaMarker (s : ImGradientHDRState) (index : Int) :
    Except Fault (Bool × ImGradientHDRState) :=
  if index ≥ (s.AlphaCount : Int) ∨ index < 0 then .ok (false, s)
  else
    match copy s.Alphas (index.toNat + 1) s.Alphas.length index.toNat with
    | .error e => .error e
    | .ok a => .ok (true, { s with Alphas := a, AlphaCount := s.AlphaCount - 1 })

/-- The library routine `std::sort` with the comparison
`a.marker.Position < b.marker.Position` on `float`, taken by its contract. The comparison
is a strict weak ordering, which `std::sort` requires, on a range without NaN: for such a
range the result is a rearrangement of the input in which no element compares less than an
earlier one. For a range with a NaN in it the contract says nothing. -/
structure StdSort (T : Type) (pos : T → FloatVal) where
  run : List (SortedMarker T) → List (SortedMarker T)
  perm : ∀ v, (∀ p ∈ v, pos p.marker ≠ .nan) → (run v).Perm v
  sorted : ∀ v, (∀ p ∈ v, pos p.marker ≠ .nan) →
    (run v).Pairwise (fun p q => less (pos q.marker) (pos p.marker) = false)

/-- The helper `SortMarkers(a, count, selectedIndex, draggingIndex)`; the result is the
values of the four reference parameters after the call. -/
def SortMarkers {T : Type} {pos : T → FloatVal} (srt : StdSort T pos) (a : List T)
    (count : Nat) (selectedIndex draggingIndex : Int) :
    Except Fault (List T × Nat × Int × Int) :=
  match collectMarkers a count with
  | .error e => .error e
  | .ok v =>
    let sortedMarker := srt.run v
    match storeMarkers sortedMarker count a with
    | .error e => .error e
    | .ok a1 =>
      match remapIndex sortedMarker count selectedIndex with
      | .error e => .error e
      | .ok sel =>
        match remapIndex sortedMarker count draggingIndex with
        | .error e => .error e
        | .ok drag => .ok (a1, count, sel, drag)

/-- An instance of the `std::sort` contract on `float`: insertion sort by `Position`, with
a NaN put where `0` would go. -/
def insertionStdSort (T : Type) (pos : T → FloatVal) : StdSort T pos where
  run := List.insertionSort (fun p q => (pos p.marker).toRat ≤ (pos q.marker).toRat)
  perm := fun v _ => List.perm_insertionSort _ v
  sorted := by
    intro v hv
    haveI : IsTotal (SortedMarker T)
        (fun p q => (pos p.marker).toRat ≤ (pos q.marker).toRat) :=
      ⟨fun p q => le_total _ _⟩
    haveI : IsTrans (SortedMarker T)
        (fun p q => (pos p.marker).toRat ≤ (pos q.marker).toRat) :=
      ⟨fun _ _ _ h1 h2 => le_trans h1 h2⟩
    have h := List.sorted_insertionSort
      (fun (p q : SortedMarker T) => (pos p.marker).toRat ≤ (pos q.marker).toRat) v
    refine List.Pairwise.imp_of_mem ?_ h
    intro p q hp hq hpq
    have hp1 := hv p ((List.perm_insertionSort _ v).mem_iff.mp hp)
    have hq1 := hv q ((List.perm_insertionSort _ v).mem_iff.mp hq)
    cases hpp : pos p.marker with
    | nan => exact absurd hpp hp1
    | num a =>
      cases hqq : pos q.marker with
      | nan => exact absurd hqq hq1
      | num b =>
        rw [hpp, hqq] at hpq
        simp only [less, decide_eq_false_iff_not, not_lt]
        exact hpq

/-- A sort on `float` positions as a sort on the numbers they are: on a range without NaN
it is the given sort. -/
def StdSort.onNumbers {T : Type} {pos : T → FloatVal} (srt : StdSort T pos) :
    ImGradientHDR.StdSort T (fun m => (pos m).toRat) where
  run := fun v =>
    if ∀ p ∈ v, pos p.marker ≠ .nan then srt.run v
    else (ImGradientHDR.insertionStdSort T (fun m => (pos m).toRat)).run v
  perm := by
    intro v
    by_cases h : ∀ p ∈ v, pos p.marker ≠ .nan
    · simp only []
      rw [if_pos h]
      exact srt.perm v h
    · simp only []
      rw [if_neg h]
      exact (ImGradientHDR.insertionStdSort T (fun m => (pos m).toRat)).perm v
  sorted := by
    intro v
    by_cases h : ∀ p ∈ v, pos p.marker ≠ .nan
    · simp only []
      rw [if_pos h]
      refine List.Pairwise.imp_of_mem ?_ (srt.sorted v h)
      intro p q hp hq hpq
      have hp1 := h p ((srt.perm v h).mem_iff.mp hp)
      have hq1 := h q ((srt.perm v h).mem_iff.mp hq)
      cases hpp : pos p.marker with
      | nan => exact absurd hpp hp1
      | num a =>
        cases hqq : pos q.marker with
        | nan => exact absurd hqq hq1
        | num b =>
          rw [hpp, hqq] at hpq
          simpa [less, FloatVal.toRat] using hpq
    · simp only []
      rw [if_neg h]
      exact (ImGradientHDR.insertionStdSort T (fun m => (pos m).toRat)).sorted v

/-- One call of a store operation, with its arguments. -/
inductive StoreOp where
  | addColor (x : FloatVal) (color : FloatVal × FloatVal × FloatVal) (intensity : FloatVal)
  | addAlpha (x : FloatVal) (alpha : FloatVal)
  | removeColor (index : Int)
  | removeAlpha (index : Int)
  | sortColors (selectedIndex draggingIndex : Int)
  | sortAlphas (selectedIndex draggingIndex : Int)

/-- The position argument `x` of an operation that has one is a number, not NaN. -/
def StoreOp.PositionIsNumber : StoreOp → Prop
  | .addColor x _ _ => x ≠ .nan
  | .addAlpha x _ => x ≠ .nan
  | _ => True

/-- The store after one operation; `SortMarkers` is called on an array of the store and
its count, as `ImGradientHDR` calls it. -/
def applyOp (MarkerMax : Nat) (srtC : StdSort ColorMarker ColorMarker.Position)
    (srtA : StdSort AlphaMarker AlphaMarker.Position) (s : ImGradientHDRState) :
    StoreOp → Except Fault ImGradientHDRState
  | .addColor x color intensity =>
    match AddColorMarker MarkerMax s x color intensity with
    | .error e => .error e
    | .ok (_, s1) => .ok s1
  | .addAlpha x alpha =>
    match AddAlphaMarker MarkerMax s x alpha with
    | .error e => .error e
    | .ok (_, s1) => .ok s1
  | .removeColor index =>
    match RemoveColorMarker s index with
    | .error e => .error e
    | .ok (_, s1) => .ok s1
  | .removeAlpha index =>
    match RemoveAlphaMarker s index with
    | .error e => .error e
    | .ok (_, s1) => .ok s1
  | .sortColors selectedIndex draggingIndex =>
    match SortMarkers srtC s.Colors s.ColorCount selectedIndex draggingIndex with
    | .error e => .error e
    | .ok (a, c, _, _) => .ok { s with Colors := a, ColorCount := c }
  | .sortAlphas selectedIndex draggingIndex =>
    match SortMarkers srtA s.Alphas s.AlphaCount selectedIndex draggingIndex with
    | .error e => .error e
    | .ok (a, c, _, _) => .ok { s with Alphas := a, AlphaCount := c }

/-- The store after a finite sequence of operations. -/
def applyOps (MarkerMax : Nat) (srtC : StdSort ColorMarker ColorMarker.Position)
    (srtA : StdSort AlphaMarker AlphaMarker.Position) :
    List StoreOp → ImGradientHDRState → Except Fault ImGradientHDRState
  | [], s => .ok s
  | op :: ops, s =>
    match applyOp MarkerMax srtC srtA s op with
    | .error e => .error e
    | .ok s1 => applyOps MarkerMax srtC srtA ops s1

/-- A store on `float` values with `MarkerMax = 4` whose live positions are numbers, in
order (colour stops at `0` and `1`, alpha stops at `0.2` and `0.8`), while a colour
component, an alpha value and all slots that are not live are NaN. -/
def mixedStore : ImGradientHDRState where
  ColorCount := 2
  AlphaCount := 2
  Colors := [⟨.num 0, (.num 0, .num 0, .num 0), .num 1⟩, ⟨.num 1, (.num 1, .nan, .num 1), .num 1⟩,
    ⟨.nan, (.nan, .nan, .nan), .nan⟩, ⟨.nan, (.nan, .nan, .nan), .nan⟩]
  Alphas := [⟨.num (1 / 5), .nan⟩, ⟨.num (4 / 5), .num 0⟩, ⟨.nan, .nan⟩, ⟨.nan, .nan⟩]

end WithNaN

/-! ## Binary search -/

theorem readAt_of_lt {T : Type} (a : List T) (i : Nat) (h : i < a.length) :
    readAt a i = .ok (a.get ⟨i, h⟩) := by
  simp [readAt, List.getElem?_eq_getElem h]

theorem insertionPoint_le_length {T : Type} (pos : T → ℚ) (l : List T) (x : ℚ) :
    insertionPoint pos l x ≤ l.length :=
  List.findIdx_le_length _

/-- Every stop before the insertion point is less than `x`. -/
theorem lt_of_lt_insertionPoint {T : Type} (pos : T → ℚ) (l : List T) (x : ℚ) (i : Nat)
    (h : i < insertionPoint pos l x) (hi : i < l.length) : pos (l.get ⟨i, hi⟩) < x := by
  have := List.not_of_lt_findIdx h
  simpa using this

/-- The stop at the insertion point, when there is one, is not less than `x`. -/
theorem insertionPoint_spec {T : Type} (pos : T → ℚ) (l : List T) (x : ℚ)
    (h : insertionPoint pos l x < l.length) :
    x ≤ pos (l.get ⟨insertionPoint pos l x, h⟩) := by
  have := @List.findIdx_getElem _ (fun m => decide (¬ pos m < x)) l h
  simpa [insertionPoint] using this

theorem insertionPoint_le_of_not_lt {T : Type} (pos : T → ℚ) (l : List T) (x : ℚ) (i : Nat)
    (hi : i < l.length) (h : ¬ pos (l.get ⟨i, hi⟩) < x) : insertionPoint pos l x ≤ i := by
  by_contra hc
  exact h (lt_of_lt_insertionPoint pos l x i (by omega) hi)

theorem lt_insertionPoint_of_lt {T : Type} (pos : T → ℚ) (l : List T) (x : ℚ) (i : Nat)
    (hs : SortedByPosition pos l) (hi : i < l.length) (h : pos (l.get ⟨i, hi⟩) < x) :
    i < insertionPoint pos l x := by
  by_contra hc
  have hk : insertionPoint pos l x < l.length := by omega
  have h1 := insertionPoint_spec pos l x hk
  rcases Nat.lt_or_ge (insertionPoint pos l x) i with hlt | hge
  · have := (List.pairwise_iff_getElem.mp hs) _ _ hk hi hlt
    simp only [List.get_eq_getElem] at h1 h
    linarith
  · have : insertionPoint pos l x = i := by omega
    simp only [List.get_eq_getElem] at h1 h
    simp only [this] at h1
    linarith

/-- On a sorted live range the loop of the binary search ends at the insertion point. -/
theorem lowerBoundLoop_sorted {T : Type} (pos : T → ℚ) (a : List T) (count : Nat) (x : ℚ)
    (hc : count ≤ a.length) (hs : SortedByPosition pos (live a count)) :
    ∀ (fuel first len : Nat), len ≤ fuel →
      first ≤ insertionPoint pos (live a count) x →
      insertionPoint pos (live a count) x ≤ first + len → first + len ≤ count →
      lowerBoundLoop pos a x fuel first len = .ok (insertionPoint pos (live a count) x) := by
  have hll : (live a count).length = count := by simp [live, hc]
  intro fuel
  induction fuel with
  | zero =>
    intro first len h0 h1 h2 _
    have : len = 0 := by omega
    subst this
    have : insertionPoint pos (live a count) x = first := by omega
    simp [lowerBoundLoop, this]
  | succ fuel ih =>
    intro first len h0 h1 h2 h3
    unfold lowerBoundLoop
    by_cases hlen : 0 < len
    · have hm : first + len / 2 < a.length := by omega
      have hm2 : first + len / 2 < (live a count).length := by omega
      have hget : (live a count).get ⟨first + len / 2, hm2⟩ = a.get ⟨first + len / 2, hm⟩ := by
        simp [live, List.getElem_take]
      simp only [hlen, if_true, readAt_of_lt a _ hm]
      by_cases hlt : pos (a.get ⟨first + len / 2, hm⟩) < x
      · simp only [hlt, if_true]
        have := lt_insertionPoint_of_lt pos (live a count) x _ hs hm2 (by rw [hget]; exact hlt)
        exact ih _ _ (by omega) (by omega) (by omega) (by omega)
      · simp only [hlt, if_false]
        have := insertionPoint_le_of_not_lt pos (live a count) x _ hm2 (by rw [hget]; exact hlt)
        exact ih _ _ (by omega) (by omega) (by omega) (by omega)
    · have : len = 0 := by omega
      subst this
      have : insertionPoint pos (live a count) x = first := by omega
      simp [this]

/-- On a sorted live range `std::lower_bound` returns the insertion point. -/
theorem lower_bound_sorted {T : Type} (pos : T → ℚ) (a : List T) (count : Nat) (x : ℚ)
    (hc : count ≤ a.length) (hs : SortedByPosition pos (live a count)) :
    lower_bound pos a count x = .ok (insertionPoint pos (live a count) x) := by
  have hk := insertionPoint_le_length pos (live a count) x
  have hll : (live a count).length = count := by simp [live, hc]
  simp only [lower_bound, hc, if_true]
  exact lowerBoundLoop_sorted pos a count x hc hs count 0 count (le_refl _) (Nat.zero_le _)
    (by omega) (by omega)

/-! ## Insertion -/

theorem live_getElem_opt {T : Type} (a : List T) (count i : Nat) (hi : i < count) :
    (live a count)[i]? = a[i]? := by
  simp only [live, List.getElem?_take, hi, if_true]

theorem mem_live_iff {T : Type} (a : List T) (count : Nat) (m : T) :
    m ∈ live a count ↔ ∃ j, j < count ∧ a[j]? = some m := by
  constructor
  · intro h
    obtain ⟨j, hj⟩ := List.mem_iff_getElem?.mp h
    have hlt : j < (live a count).length := by
      by_contra hge
      rw [List.getElem?_eq_none (by omega)] at hj
      cases hj
    have hjc : j < count := by
      have := hlt
      simp only [live, List.length_take] at this
      omega
    exact ⟨j, hjc, by rw [← live_getElem_opt a count j hjc]; exact hj⟩
  · rintro ⟨j, hj, hm⟩
    exact List.mem_iff_getElem?.mpr ⟨j, by rw [live_getElem_opt a count j hj]; exact hm⟩

theorem insertedArray_length {T : Type} (a : List T) (count k : Nat) (value : T)
    (hk : k ≤ count) (hc : count < a.length) :
    (insertedArray a count k value).length = a.length := by
  simp only [insertedArray, List.length_append, List.length_cons, List.length_take,
    List.length_drop]
  omega

theorem insertedArray_live {T : Type} (a : List T) (count k : Nat) (value : T)
    (hk : k ≤ count) (hc : count < a.length) :
    live (insertedArray a count k value) (count + 1) =
      (live a count).take k ++ [value] ++ (live a count).drop k := by
  have h1 : (a.take k).length = k := by simp; omega
  have h2 : ((a.drop k).take (count - k)).length = count - k := by simp; omega
  have e1 : (live a count).take k = a.take k := by
    simp [live, List.take_take, Nat.min_eq_left hk]
  have e2 : (live a count).drop k = (a.drop k).take (count - k) := by
    simp [live, List.drop_take]
  rw [e1, e2]
  unfold live insertedArray
  rw [List.take_append_eq_append_take, h1, List.take_of_length_le (by omega : (a.take k).length ≤ count + 1)]
  have : count + 1 - k = (count - k) + 1 := by omega
  rw [this, List.take_succ_cons, List.take_append_eq_append_take, h2]
  simp

/-- Without any assumption on the order of the stops, the loop of the binary search
returns an offset inside the range it was given. -/
theorem lowerBoundLoop_range {T : Type} (pos : T → ℚ) (a : List T) (x : ℚ) :
    ∀ (fuel first len : Nat), len ≤ fuel → first + len ≤ a.length →
      ∃ r, lowerBoundLoop pos a x fuel first len = .ok r ∧ first ≤ r ∧ r ≤ first + len := by
  intro fuel
  induction fuel with
  | zero =>
    intro first len h0 _
    have : len = 0 := by omega
    subst this
    exact ⟨first, by simp [lowerBoundLoop], le_refl _, by omega⟩
  | succ fuel ih =>
    intro first len h0 h1
    unfold lowerBoundLoop
    by_cases hlen : 0 < len
    · have hm : first + len / 2 < a.length := by omega
      simp only [hlen, if_true, readAt_of_lt a _ hm]
      by_cases hlt : pos (a.get ⟨first + len / 2, hm⟩) < x
      · simp only [hlt, if_true]
        obtain ⟨r, hr, h2, h3⟩ := ih (first + len / 2 + 1) (len - len / 2 - 1) (by omega) (by omega)
        exact ⟨r, hr, by omega, by omega⟩
      · simp only [hlt, if_false]
        obtain ⟨r, hr, h2, h3⟩ := ih first (len / 2) (by omega) (by omega)
        exact ⟨r, hr, by omega, by omega⟩
    · exact ⟨first, by simp [hlen], le_refl _, by omega⟩

/-- The binary search always returns an offset in `[0, count]`. -/
theorem lower_bound_range {T : Type} (pos : T → ℚ) (a : List T) (count : Nat) (x : ℚ)
    (hc : count ≤ a.length) : ∃ k, lower_bound pos a count x = .ok k ∧ k ≤ count := by
  obtain ⟨r, hr, _, h2⟩ := lowerBoundLoop_range pos a x count 0 count (le_refl _) (by omega)
  exact ⟨r, by simp only [lower_bound, hc, if_true, hr], by omega⟩

/-- With room for one more stop, `AddMarker` stores the stop at the offset found by the
binary search and raises the count. -/
theorem AddMarker_of_lower_bound {T : Type} (pos : T → ℚ) (a : List T) (count k : Nat)
    (value : T) (hc : count < a.length) (hk : k ≤ count)
    (hlb : lower_bound pos a count (pos value) = .ok k) :
    AddMarker pos a count value = .ok (insertedArray a count k value, count + 1) := by
  have hne : k ≠ a.length := by omega
  have hcopy : copy a k count (k + 1) =
      .ok (a.take (k + 1) ++ (a.drop k).take (count - k) ++ a.drop (k + 1 + (count - k))) := by
    unfold copy
    rw [if_pos]
    refine ⟨hk, by omega, by omega⟩
  have hlen1 : k < (a.take (k + 1) ++ (a.drop k).take (count - k) ++
      a.drop (k + 1 + (count - k))).length := by
    simp only [List.length_append, List.length_take, List.length_drop]
    omega
  have hk3 : k + 1 + (count - k) = count + 1 := by omega
  have hset : (a.take (k + 1) ++ (a.drop k).take (count - k) ++
      a.drop (k + 1 + (count - k))).set k value = insertedArray a count k value := by
    have hlt : k < (a.take (k + 1)).length := by simp; omega
    rw [List.append_assoc, List.set_append_left _ _ hlt, hk3]
    unfold insertedArray
    have : (a.take (k + 1)).set k value = a.take k ++ [value] := by
      rw [List.set_eq_take_append_cons_drop, if_pos hlt, List.take_take,
        Nat.min_eq_left (Nat.le_succ k)]
      have : List.drop (k + 1) (List.take (k + 1) a) = [] := by
        apply List.drop_eq_nil_of_le
        simp
      rw [this]
    rw [this]
    simp
  simp only [AddMarker, hlb, hne, ne_eq, not_false_eq_true, if_true, hcopy, writeAt, hlen1, hset]

/-- On a sorted live range with room for one more stop, `AddMarker` inserts at the
insertion point. -/
theorem AddMarker_sorted {T : Type} (pos : T → ℚ) (a : List T) (count : Nat) (value : T)
    (hc : count < a.length) (hs : SortedByPosition pos (live a count)) :
    AddMarker pos a count value =
      .ok (insertedArray a count (insertionPoint pos (live a count) (pos value)) value,
        count + 1) := by
  have hk := insertionPoint_le_length pos (live a count) (pos value)
  have hll : (live a count).length = count := by simp [live]; omega
  rw [hll] at hk
  exact AddMarker_of_lower_bound pos a count _ value hc hk
    (lower_bound_sorted pos a count (pos value) (by omega) hs)

/-- Claim C1. On a well-formed store whose live colour stops are sorted by `Position` and
whose `ColorCount` is below `MarkerMax`, `AddColorMarker(x, color, intensity)` returns
`true`, raises `ColorCount` by exactly one and leaves the live sequence
`old[0..k) ++ [new stop] ++ old[k..ColorCount)`, where the new stop has
`Position = clamp(x, 0, 1)` and `k` is the first index whose `Position` is not less
than it (`ColorCount` if there is none); nothing else of the store changes. The same
holds for `AddAlphaMarker(x, alpha)` over the alpha stops. -/
theorem AddMarker_inserts_at_insertion_point (MarkerMax : Nat) (s : ImGradientHDRState)
    (x : ℚ) (color : ℚ × ℚ × ℚ) (intensity alpha : ℚ) (hwf : WellFormed MarkerMax s) :
    (s.ColorCount < MarkerMax →
      SortedByPosition ColorMarker.Position (live s.Colors s.ColorCount) →
      ∃ a, AddColorMarker MarkerMax s x color intensity =
            .ok (true, { s with Colors := a, ColorCount := s.ColorCount + 1 }) ∧
          a.length = MarkerMax ∧
          live a (s.ColorCount + 1) =
            (live s.Colors s.ColorCount).take
                (insertionPoint ColorMarker.Position (live s.Colors s.ColorCount) (clamp01 x))
              ++ [{ Position := clamp01 x, Color := color, Intensity := intensity }]
              ++ (live s.Colors s.ColorCount).drop
                (insertionPoint ColorMarker.Position (live s.Colors s.ColorCount) (clamp01 x)))
    ∧
    (s.AlphaCount < MarkerMax →
      SortedByPosition AlphaMarker.Position (live s.Alphas s.AlphaCount) →
      ∃ a, AddAlphaMarker MarkerMax s x alpha =
            .ok (true, { s with Alphas := a, AlphaCount := s.AlphaCount + 1 }) ∧
          a.length = MarkerMax ∧
          live a (s.AlphaCount + 1) =
            (live s.Alphas s.AlphaCount).take
                (insertionPoint AlphaMarker.Position (live s.Alphas s.AlphaCount) (clamp01 x))
              ++ [{ Position := clamp01 x, Alpha := alpha }]
              ++ (live s.Alphas s.AlphaCount).drop
                (insertionPoint AlphaMarker.Position (live s.Alphas s.AlphaCount) (clamp01 x))) := by
  obtain ⟨hcl, hal⟩ := hwf
  constructor
  · intro hcap hs
    have hc : s.ColorCount < s.Colors.length := by omega
    have hk := insertionPoint_le_length ColorMarker.Position (live s.Colors s.ColorCount)
      (clamp01 x)
    have hll : (live s.Colors s.ColorCount).length = s.ColorCount := by simp [live]; omega
    rw [hll] at hk
    refine ⟨_, ?_, ?_, insertedArray_live s.Colors s.ColorCount _
      { Position := clamp01 x, Color := color, Intensity := intensity } hk hc⟩
    · have hnot : ¬ s.ColorCount ≥ MarkerMax := by omega
      simp only [AddColorMarker, hnot, if_false,
        AddMarker_sorted ColorMarker.Position s.Colors s.ColorCount _ hc hs]
    · rw [insertedArray_length _ _ _ _ hk hc, hcl]
  · intro hcap hs
    have hc : s.AlphaCount < s.Alphas.length := by omega
    have hk := insertionPoint_le_length AlphaMarker.Position (live s.Alphas s.AlphaCount)
      (clamp01 x)
    have hll : (live s.Alphas s.AlphaCount).length = s.AlphaCount := by simp [live]; omega
    rw [hll] at hk
    refine ⟨_, ?_, ?_, insertedArray_live s.Alphas s.AlphaCount _
      { Position := clamp01 x, Alpha := alpha } hk hc⟩
    · have hnot : ¬ s.AlphaCount ≥ MarkerMax := by omega
      simp only [AddAlphaMarker, hnot, if_false,
        AddMarker_sorted AlphaMarker.Position s.Alphas s.AlphaCount _ hc hs]
    · rw [insertedArray_length _ _ _ _ hk hc, hal]

theorem exampleStore_wellFormed : WellFormed 4 exampleStore := ⟨rfl, rfl⟩

theorem exampleStore_colors_sorted :
    SortedByPosition ColorMarker.Position (live exampleStore.Colors exampleStore.ColorCount) := by
  simp [SortedByPosition, live, exampleStore]

theorem exampleStore_alphas_sorted :
    SortedByPosition AlphaMarker.Position (live exampleStore.Alphas exampleStore.AlphaCount) := by
  norm_num [SortedByPosition, live, exampleStore]

/-- Witness of C1 on `exampleStore`: a colour stop and an alpha stop added at `x = 1/2`. -/
theorem AddMarker_inserts_at_insertion_point_witness :
    (∃ a, AddColorMarker 4 exampleStore (1 / 2) (5, 6, 7) 2 =
          .ok (true, { exampleStore with Colors := a, ColorCount := 3 }) ∧
        a.length = 4 ∧
        live a 3 = [⟨0, (0, 0, 0), 1⟩, ⟨1 / 2, (5, 6, 7), 2⟩, ⟨1, (1, 1, 1), 1⟩]) ∧
    (∃ a, AddAlphaMarker 4 exampleStore (1 / 2) 9 =
          .ok (true, { exampleStore with Alphas := a, AlphaCount := 3 }) ∧
        a.length = 4 ∧
        live a 3 = [⟨1 / 5, 1⟩, ⟨1 / 2, 9⟩, ⟨4 / 5, 0⟩]) := by
  have h := AddMarker_inserts_at_insertion_point 4 exampleStore (1 / 2) (5, 6, 7) 2 9
    exampleStore_wellFormed
  have hx : clamp01 (1 / 2) = 1 / 2 := by norm_num [clamp01]
  constructor
  · obtain ⟨a, h1, h2, h3⟩ := h.1 (by decide) exampleStore_colors_sorted
    refine ⟨a, h1, h2, h3.trans ?_⟩
    rw [hx]
    norm_num [insertionPoint, live, exampleStore, List.findIdx_cons]
  · obtain ⟨a, h1, h2, h3⟩ := h.2 (by decide) exampleStore_alphas_sorted
    refine ⟨a, h1, h2, h3.trans ?_⟩
    rw [hx]
    norm_num [insertionPoint, live, exampleStore, List.findIdx_cons]

/-- Claim C6. On a well-formed store `AddColorMarker` returns `false` exactly when
`ColorCount >= MarkerMax` on entry, and then the whole store is left as it was; when it
returns `true` the stop really was stored: `ColorCount` went up by one and the live
sequence is the old one with the new stop put in at some offset `k <= ColorCount` (the
guard `lb != a.end()` of the helper never skips the insertion). The stops need not be
sorted. Symmetrically for `AddAlphaMarker`. -/
theorem AddMarker_false_iff_full (MarkerMax : Nat) (s : ImGradientHDRState) (x : ℚ)
    (color : ℚ × ℚ × ℚ) (intensity alpha : ℚ) (hwf : WellFormed MarkerMax s) :
    (∃ b s', AddColorMarker MarkerMax s x color intensity = .ok (b, s') ∧
      (b = false ↔ s.ColorCount ≥ MarkerMax) ∧
      (b = false → s' = s) ∧
      (b = true → s'.ColorCount = s.ColorCount + 1 ∧ s'.Colors.length = MarkerMax ∧
        s'.Alphas = s.Alphas ∧ s'.AlphaCount = s.AlphaCount ∧
        ∃ k, k ≤ s.ColorCount ∧
          live s'.Colors s'.ColorCount =
            (live s.Colors s.ColorCount).take k
              ++ [{ Position := clamp01 x, Color := color, Intensity := intensity }]
              ++ (live s.Colors s.ColorCount).drop k))
    ∧
    (∃ b s', AddAlphaMarker MarkerMax s x alpha = .ok (b, s') ∧
      (b = false ↔ s.AlphaCount ≥ MarkerMax) ∧
      (b = false → s' = s) ∧
      (b = true → s'.AlphaCount = s.AlphaCount + 1 ∧ s'.Alphas.length = MarkerMax ∧
        s'.Colors = s.Colors ∧ s'.ColorCount = s.ColorCount ∧
        ∃ k, k ≤ s.AlphaCount ∧
          live s'.Alphas s'.AlphaCount =
            (live s.Alphas s.AlphaCount).take k
              ++ [{ Position := clamp01 x, Alpha := alpha }]
              ++ (live s.Alphas s.AlphaCount).drop k)) := by
  obtain ⟨hcl, hal⟩ := hwf
  constructor
  · by_cases hfull : s.ColorCount ≥ MarkerMax
    · exact ⟨false, s, by simp only [AddColorMarker, hfull, if_true], by simp [hfull],
        fun _ => rfl, by simp⟩
    · have hc : s.ColorCount < s.Colors.length := by omega
      obtain ⟨k, hlb, hk⟩ := lower_bound_range ColorMarker.Position s.Colors s.ColorCount
        (clamp01 x) (by omega)
      have hadd := AddMarker_of_lower_bound ColorMarker.Position s.Colors s.ColorCount k
        { Position := clamp01 x, Color := color, Intensity := intensity } hc hk hlb
      refine ⟨true, { s with
          Colors := insertedArray s.Colors s.ColorCount k
            { Position := clamp01 x, Color := color, Intensity := intensity },
          ColorCount := s.ColorCount + 1 },
        by simp only [AddColorMarker, hfull, if_false, hadd], by simp [hfull],
        by simp, fun _ => ⟨rfl, ?_, rfl, rfl, k, hk, ?_⟩⟩
      · simp only [insertedArray_length _ _ _ _ hk hc, hcl]
      · exact insertedArray_live _ _ _ _ hk hc
  · by_cases hfull : s.AlphaCount ≥ MarkerMax
    · exact ⟨false, s, by simp only [AddAlphaMarker, hfull, if_true], by simp [hfull],
        fun _ => rfl, by simp⟩
    · have hc : s.AlphaCount < s.Alphas.length := by omega
      obtain ⟨k, hlb, hk⟩ := lower_bound_range AlphaMarker.Position s.Alphas s.AlphaCount
        (clamp01 x) (by omega)
      have hadd := AddMarker_of_lower_bound AlphaMarker.Position s.Alphas s.AlphaCount k
        { Position := clamp01 x, Alpha := alpha } hc hk hlb
      refine ⟨true, { s with
          Alphas := insertedArray s.Alphas s.AlphaCount k
            { Position := clamp01 x, Alpha := alpha },
          AlphaCount := s.AlphaCount + 1 },
        by simp only [AddAlphaMarker, hfull, if_false, hadd], by simp [hfull],
        by simp, fun _ => ⟨rfl, ?_, rfl, rfl, k, hk, ?_⟩⟩
      · simp only [insertedArray_length _ _ _ _ hk hc, hal]
      · exact insertedArray_live _ _ _ _ hk hc

/-- Witness of C6 on `exampleStore`, which has room for more stops of both kinds. -/
theorem AddMarker_false_iff_full_witness :
    (∃ b s', AddColorMarker 4 exampleStore (3 / 2) (5, 6, 7) 2 = .ok (b, s') ∧
      (b = false ↔ exampleStore.ColorCount ≥ 4) ∧ (b = false → s' = exampleStore) ∧
      (b = true → s'.ColorCount = exampleStore.ColorCount + 1 ∧ s'.Colors.length = 4 ∧
        s'.Alphas = exampleStore.Alphas ∧ s'.AlphaCount = exampleStore.AlphaCount ∧
        ∃ k, k ≤ exampleStore.ColorCount ∧
          live s'.Colors s'.ColorCount =
            (live exampleStore.Colors exampleStore.ColorCount).take k
              ++ [{ Position := clamp01 (3 / 2), Color := (5, 6, 7), Intensity := 2 }]
              ++ (live exampleStore.Colors exampleStore.ColorCount).drop k))
    ∧
    (∃ b s', AddAlphaMarker 4 exampleStore (3 / 2) 9 = .ok (b, s') ∧
      (b = false ↔ exampleStore.AlphaCount ≥ 4) ∧ (b = false → s' = exampleStore) ∧
      (b = true → s'.AlphaCount = exampleStore.AlphaCount + 1 ∧ s'.Alphas.length = 4 ∧
        s'.Colors = exampleStore.Colors ∧ s'.ColorCount = exampleStore.ColorCount ∧
        ∃ k, k ≤ exampleStore.AlphaCount ∧
          live s'.Alphas s'.AlphaCount =
            (live exampleStore.Alphas exampleStore.AlphaCount).take k
              ++ [{ Position := clamp01 (3 / 2), Alpha := 9 }]
              ++ (live exampleStore.Alphas exampleStore.AlphaCount).drop k)) :=
  AddMarker_false_iff_full 4 exampleStore (3 / 2) (5, 6, 7) 2 9 exampleStore_wellFormed

/-! ## Removal -/

theorem take_insert_drop_eraseIdx {T : Type} (l : List T) (k : Nat) (m : T)
    (hk : k ≤ l.length) : (l.take k ++ [m] ++ l.drop k).eraseIdx k = l := by
  rw [List.append_assoc, List.eraseIdx_append_of_length_le (by simp [hk])]
  simp [hk]

/-- The copy made by `Remove*Marker` at a live offset `i`: the array keeps its size and the
live range loses exactly the stop at `i`. -/
theorem copy_remove {T : Type} (a : List T) (count i : Nat) (hi : i < count)
    (hc : count ≤ a.length) :
    ∃ a1, copy a (i + 1) a.length i = .ok a1 ∧ a1.length = a.length ∧
      live a1 (count - 1) = (live a count).eraseIdx i := by
  refine ⟨a.take i ++ (a.drop (i + 1)).take (a.length - (i + 1)) ++
    a.drop (i + (a.length - (i + 1))), ?_, ?_, ?_⟩
  · unfold copy
    rw [if_pos]
    refine ⟨by omega, le_refl _, by omega⟩
  · simp only [List.length_append, List.length_take, List.length_drop]
    omega
  · have h1 : (a.take i).length = i := by simp; omega
    have hfull : (a.drop (i + 1)).take (a.length - (i + 1)) = a.drop (i + 1) :=
      List.take_of_length_le (by simp)
    have h2 : (a.take i ++ a.drop (i + 1)).length = a.length - 1 := by
      simp only [List.length_append, List.length_take, List.length_drop]
      omega
    unfold live
    rw [hfull, List.take_append_of_le_length (by rw [h2]; omega),
      List.take_append_eq_append_take, h1, List.take_of_length_le (by omega),
      List.eraseIdx_eq_take_drop_succ, List.take_take, Nat.min_eq_left (by omega),
      List.drop_take]
    congr 2
    omega

/-- Removing a live colour stop. -/
theorem RemoveColorMarker_live (s : ImGradientHDRState) (i : Nat) (hi : i < s.ColorCount)
    (hc : s.ColorCount ≤ s.Colors.length) :
    ∃ a, RemoveColorMarker s (i : Int) =
          .ok (true, { s with Colors := a, ColorCount := s.ColorCount - 1 }) ∧
      a.length = s.Colors.length ∧
      live a (s.ColorCount - 1) = (live s.Colors s.ColorCount).eraseIdx i := by
  obtain ⟨a, h1, h2, h3⟩ := copy_remove s.Colors s.ColorCount i hi hc
  have hg : ¬ ((i : Int) ≥ (s.ColorCount : Int) ∨ (i : Int) < 0) := by omega
  exact ⟨a, by simp only [RemoveColorMarker, hg, if_false, Int.toNat_ofNat, h1], h2, h3⟩

/-- Removing a live alpha stop. -/
theorem RemoveAlphaMarker_live (s : ImGradientHDRState) (i : Nat) (hi : i < s.AlphaCount)
    (hc : s.AlphaCount ≤ s.Alphas.length) :
    ∃ a, RemoveAlphaMarker s (i : Int) =
          .ok (true, { s with Alphas := a, AlphaCount := s.AlphaCount - 1 }) ∧
      a.length = s.Alphas.length ∧
      live a (s.AlphaCount - 1) = (live s.Alphas s.AlphaCount).eraseIdx i := by
  obtain ⟨a, h1, h2, h3⟩ := copy_remove s.Alphas s.AlphaCount i hi hc
  have hg : ¬ ((i : Int) ≥ (s.AlphaCount : Int) ∨ (i : Int) < 0) := by omega
  exact ⟨a, by simp only [RemoveAlphaMarker, hg, if_false, Int.toNat_ofNat, h1], h2, h3⟩

/-- Claim C5. For every store whose `ColorCount` does not exceed the array size and every
`index` with `0 <= index < ColorCount`, `RemoveColorMarker(index)` returns `true`, lowers
`ColorCount` by exactly one, and leaves as live colour sequence the old one with exactly
the element at `index` erased; the alpha stops and `AlphaCount` are untouched.
Symmetrically for `RemoveAlphaMarker`. -/
theorem RemoveMarker_erases_index (s : ImGradientHDRState) (index : Int) (h0 : 0 ≤ index) :
    (index < (s.ColorCount : Int) → s.ColorCount ≤ s.Colors.length →
      ∃ a, RemoveColorMarker s index =
            .ok (true, { s with Colors := a, ColorCount := s.ColorCount - 1 }) ∧
        s.ColorCount - 1 + 1 = s.ColorCount ∧
        a.length = s.Colors.length ∧
        live a (s.ColorCount - 1) = (live s.Colors s.ColorCount).eraseIdx index.toNat)
    ∧
    (index < (s.AlphaCount : Int) → s.AlphaCount ≤ s.Alphas.length →
      ∃ a, RemoveAlphaMarker s index =
            .ok (true, { s with Alphas := a, AlphaCount := s.AlphaCount - 1 }) ∧
        s.AlphaCount - 1 + 1 = s.AlphaCount ∧
        a.length = s.Alphas.length ∧
        live a (s.AlphaCount - 1) = (live s.Alphas s.AlphaCount).eraseIdx index.toNat) := by
  obtain ⟨i, rfl⟩ := Int.eq_ofNat_of_zero_le h0
  constructor
  · intro hi hc
    have hi' : i < s.ColorCount := by omega
    obtain ⟨a, h1, h2, h3⟩ := RemoveColorMarker_live s i hi' hc
    exact ⟨a, h1, by omega, h2, by simpa using h3⟩
  · intro hi hc
    have hi' : i < s.AlphaCount := by omega
    obtain ⟨a, h1, h2, h3⟩ := RemoveAlphaMarker_live s i hi' hc
    exact ⟨a, h1, by omega, h2, by simpa using h3⟩

/-- Witness of C5 on `exampleStore`: the first colour stop and the first alpha stop are
removed; the second stop of each kind is what stays live. -/
theorem RemoveMarker_erases_index_witness :
    (∃ a, RemoveColorMarker exampleStore 0 =
          .ok (true, { exampleStore with Colors := a, ColorCount := 1 }) ∧
        a.length = 4 ∧ live a 1 = [⟨1, (1, 1, 1), 1⟩]) ∧
    (∃ a, RemoveAlphaMarker exampleStore 0 =
          .ok (true, { exampleStore with Alphas := a, AlphaCount := 1 }) ∧
        a.length = 4 ∧ live a 1 = [⟨4 / 5, 0⟩]) := by
  have h := RemoveMarker_erases_index exampleStore 0 (le_refl _)
  constructor
  · obtain ⟨a, h1, _, h2, h3⟩ := h.1 (by decide) (by decide)
    exact ⟨a, h1, h2, h3.trans (by simp [live, exampleStore])⟩
  · obtain ⟨a, h1, _, h2, h3⟩ := h.2 (by decide) (by decide)
    exact ⟨a, h1, h2, h3.trans (by simp [live, exampleStore])⟩

/-- Claim C7. Round trip. On a well-formed store whose live alpha stops are sorted and whose
`AlphaCount` is below `MarkerMax`, `AddAlphaMarker(x, alpha)` followed by
`RemoveAlphaMarker(k)`, with `k` the first index whose `Position` is not less than
`clamp(x, 0, 1)`, both return `true` and leave `AlphaCount` and the live alpha sequence
as they were before the add (and the colour side untouched). The same holds for
`AddColorMarker` followed by `RemoveColorMarker`. -/
theorem add_then_remove_restores (MarkerMax : Nat) (s : ImGradientHDRState) (x : ℚ)
    (color : ℚ × ℚ × ℚ) (intensity alpha : ℚ) (hwf : WellFormed MarkerMax s) :
    (s.AlphaCount < MarkerMax →
      SortedByPosition AlphaMarker.Position (live s.Alphas s.AlphaCount) →
      ∃ s1 s2, AddAlphaMarker MarkerMax s x alpha = .ok (true, s1) ∧
        RemoveAlphaMarker s1
          (insertionPoint AlphaMarker.Position (live s.Alphas s.AlphaCount) (clamp01 x) : Nat)
          = .ok (true, s2) ∧
        s2.AlphaCount = s.AlphaCount ∧
        live s2.Alphas s2.AlphaCount = live s.Alphas s.AlphaCount ∧
        s2.Colors = s.Colors ∧ s2.ColorCount = s.ColorCount)
    ∧
    (s.ColorCount < MarkerMax →
      SortedByPosition ColorMarker.Position (live s.Colors s.ColorCount) →
      ∃ s1 s2, AddColorMarker MarkerMax s x color intensity = .ok (true, s1) ∧
        RemoveColorMarker s1
          (insertionPoint ColorMarker.Position (live s.Colors s.ColorCount) (clamp01 x) : Nat)
          = .ok (true, s2) ∧
        s2.ColorCount = s.ColorCount ∧
        live s2.Colors s2.ColorCount = live s.Colors s.ColorCount ∧
        s2.Alphas = s.Alphas ∧ s2.AlphaCount = s.AlphaCount) := by
  obtain ⟨hcl, hal⟩ := hwf
  constructor
  · intro hcap hs
    have hc : s.AlphaCount < s.Alphas.length := by omega
    have hk := insertionPoint_le_length AlphaMarker.Position (live s.Alphas s.AlphaCount)
      (clamp01 x)
    have hll : (live s.Alphas s.AlphaCount).length = s.AlphaCount := by simp [live]; omega
    generalize hkdef :
      insertionPoint AlphaMarker.Position (live s.Alphas s.AlphaCount) (clamp01 x) = k at hk
    rw [hll] at hk
    have hnot : ¬ s.AlphaCount ≥ MarkerMax := by omega
    have hadd : AddAlphaMarker MarkerMax s x alpha = .ok (true, { s with
        Alphas := insertedArray s.Alphas s.AlphaCount k { Position := clamp01 x, Alpha := alpha },
        AlphaCount := s.AlphaCount + 1 }) := by
      simp only [AddAlphaMarker, hnot, if_false,
        AddMarker_sorted AlphaMarker.Position s.Alphas s.AlphaCount _ hc hs, hkdef]
    obtain ⟨a, h1, _, h3⟩ := RemoveAlphaMarker_live { s with
        Alphas := insertedArray s.Alphas s.AlphaCount k { Position := clamp01 x, Alpha := alpha },
        AlphaCount := s.AlphaCount + 1 } k (by simp; omega)
      (by simp only [insertedArray_length _ _ _ _ hk hc]; omega)
    refine ⟨_, _, hadd, h1, by simp, ?_, rfl, rfl⟩
    simp only [Nat.add_sub_cancel] at h3 ⊢
    rw [h3, insertedArray_live _ _ _ _ hk hc]
    exact take_insert_drop_eraseIdx _ _ _ (by omega)
  · intro hcap hs
    have hc : s.ColorCount < s.Colors.length := by omega
    have hk := insertionPoint_le_length ColorMarker.Position (live s.Colors s.ColorCount)
      (clamp01 x)
    have hll : (live s.Colors s.ColorCount).length = s.ColorCount := by simp [live]; omega
    generalize hkdef :
      insertionPoint ColorMarker.Position (live s.Colors s.ColorCount) (clamp01 x) = k at hk
    rw [hll] at hk
    have hnot : ¬ s.ColorCount ≥ MarkerMax := by omega
    have hadd : AddColorMarker MarkerMax s x color intensity = .ok (true, { s with
        Colors := insertedArray s.Colors s.ColorCount k
          { Position := clamp01 x, Color := color, Intensity := intensity },
        ColorCount := s.ColorCount + 1 }) := by
      simp only [AddColorMarker, hnot, if_false,
        AddMarker_sorted ColorMarker.Position s.Colors s.ColorCount _ hc hs, hkdef]
    obtain ⟨a, h1, _, h3⟩ := RemoveColorMarker_live { s with
        Colors := insertedArray s.Colors s.ColorCount k
          { Position := clamp01 x, Color := color, Intensity := intensity },
        ColorCount := s.ColorCount + 1 } k (by simp; omega)
      (by simp only [insertedArray_length _ _ _ _ hk hc]; omega)
    refine ⟨_, _, hadd, h1, by simp, ?_, rfl, rfl⟩
    simp only [Nat.add_sub_cancel] at h3 ⊢
    rw [h3, insertedArray_live _ _ _ _ hk hc]
    exact take_insert_drop_eraseIdx _ _ _ (by omega)

/-- Witness of C7 on `exampleStore`, adding at `x = 1/2`. -/
theorem add_then_remove_restores_witness :
    (∃ s1 s2, AddAlphaMarker 4 exampleStore (1 / 2) 9 = .ok (true, s1) ∧
        RemoveAlphaMarker s1
          (insertionPoint AlphaMarker.Position
            (live exampleStore.Alphas exampleStore.AlphaCount) (clamp01 (1 / 2)) : Nat)
          = .ok (true, s2) ∧
        s2.AlphaCount = exampleStore.AlphaCount ∧
        live s2.Alphas s2.AlphaCount = live exampleStore.Alphas exampleStore.AlphaCount ∧
        s2.Colors = exampleStore.Colors ∧ s2.ColorCount = exampleStore.ColorCount) ∧
    (∃ s1 s2, AddColorMarker 4 exampleStore (1 / 2) (5, 6, 7) 2 = .ok (true, s1) ∧
        RemoveColorMarker s1
          (insertionPoint ColorMarker.Position
            (live exampleStore.Colors exampleStore.ColorCount) (clamp01 (1 / 2)) : Nat)
          = .ok (true, s2) ∧
        s2.ColorCount = exampleStore.ColorCount ∧
        live s2.Colors s2.ColorCount = live exampleStore.Colors exampleStore.ColorCount ∧
        s2.Alphas = exampleStore.Alphas ∧ s2.AlphaCount = exampleStore.AlphaCount) :=
  ⟨(add_then_remove_restores 4 exampleStore (1 / 2) (5, 6, 7) 2 9 exampleStore_wellFormed).1
      (by decide) exampleStore_alphas_sorted,
    (add_then_remove_restores 4 exampleStore (1 / 2) (5, 6, 7) 2 9 exampleStore_wellFormed).2
      (by decide) exampleStore_colors_sorted⟩

/-! ## Re-sorting -/

/-- The first loop of `SortMarkers` pairs every live stop with its index. -/
theorem collectMarkers_ok {T : Type} (a : List T) :
    ∀ n, n ≤ a.length →
      ∃ v, collectMarkers a n = .ok v ∧ v.length = n ∧
        v.map SortedMarker.marker = a.take n ∧
        ∀ (j : Nat) (sm : SortedMarker T), v[j]? = some sm →
          sm.index = (j : Int) ∧ a[j]? = some sm.marker := by
  intro n
  induction n with
  | zero => intro _; exact ⟨[], rfl, rfl, by simp, by simp⟩
  | succ n ih =>
    intro hn
    obtain ⟨v, h1, h2, h3, h4⟩ := ih (by omega)
    have hlt : n < a.length := by omega
    refine ⟨v ++ [{ index := (n : Int), marker := a.get ⟨n, hlt⟩ }], ?_, ?_, ?_, ?_⟩
    · simp only [collectMarkers, h1, readAt_of_lt a n hlt]
    · simp [h2]
    · rw [List.map_append, h3, List.take_succ, List.getElem?_eq_getElem hlt]
      rfl
    · intro j sm hj
      by_cases hjn : j < v.length
      · rw [List.getElem?_append_left hjn] at hj
        exact h4 j sm hj
      · rw [List.getElem?_append_right (by omega)] at hj
        have hjl : j - v.length = 0 := by
          by_contra hne
          have : ([({ index := (n : Int), marker := a.get ⟨n, hlt⟩ } : SortedMarker T)])[j - v.length]? = none :=
            List.getElem?_eq_none (by simp; omega)
          rw [this] at hj
          exact Option.noConfusion hj
        rw [hjl] at hj
        have hjeq : j = n := by omega
        simp only [List.getElem?_cons_zero, Option.some.injEq] at hj
        subst hj
        subst hjeq
        exact ⟨rfl, by simp [List.getElem?_eq_getElem hlt]⟩

/-- The second loop of `SortMarkers` overwrites the first `n` slots and no other. -/
theorem storeMarkers_ok {T : Type} (w : List (SortedMarker T)) (a : List T) :
    ∀ n, n ≤ w.length → n ≤ a.length →
      storeMarkers w n a = .ok ((w.take n).map SortedMarker.marker ++ a.drop n) := by
  intro n
  induction n with
  | zero => intro _ _; simp [storeMarkers]
  | succ n ih =>
    intro hw ha
    have hwn : n < w.length := by omega
    have han : n < a.length := by omega
    have hlen : ((w.take n).map SortedMarker.marker).length = n := by simp; omega
    simp only [storeMarkers, ih (by omega) (by omega), readAt_of_lt w n hwn, writeAt]
    rw [if_pos (by simp only [List.length_append, List.length_drop, hlen]; omega)]
    rw [List.set_append_right _ _ (by omega), hlen, Nat.sub_self, List.drop_eq_getElem_cons han,
      List.set_cons_zero, List.take_succ, List.getElem?_eq_getElem hwn, List.map_append,
      List.append_assoc]
    rfl

/-- The remapping loop returns the first position in its range whose record carries the
index looked for, and the index itself if there is none. -/
theorem remapLoop_ok {T : Type} (w : List (SortedMarker T)) (idx : Int) :
    ∀ n i, i + n ≤ w.length →
      (∃ (j : Nat) (sm : SortedMarker T), remapLoop w idx i n = .ok (j : Int) ∧ i ≤ j ∧
          j < i + n ∧ w[j]? = some sm ∧ sm.index = idx) ∨
      (remapLoop w idx i n = .ok idx ∧
          ∀ (j : Nat) (sm : SortedMarker T), i ≤ j → j < i + n → w[j]? = some sm →
            sm.index ≠ idx) := by
  intro n
  induction n with
  | zero =>
    intro i _
    right
    exact ⟨rfl, fun j sm h1 h2 => by omega⟩
  | succ n ih =>
    intro i hi
    have hlt : i < w.length := by omega
    by_cases heq : (w.get ⟨i, hlt⟩).index = idx
    · left
      refine ⟨i, w.get ⟨i, hlt⟩, ?_, le_refl _, by omega, ?_, heq⟩
      · simp only [remapLoop, readAt_of_lt w i hlt, heq, if_true]
      · simp [List.getElem?_eq_getElem hlt]
    · have hstep : remapLoop w idx i (n + 1) = remapLoop w idx (i + 1) n := by
        simp only [remapLoop, readAt_of_lt w i hlt, heq, if_false]
      rcases ih (i + 1) (by omega) with ⟨j, sm, h1, h2, h3, h4, h5⟩ | ⟨h1, h2⟩
      · left
        exact ⟨j, sm, by rw [hstep, h1], by omega, by omega, h4, h5⟩
      · right
        refine ⟨by rw [hstep, h1], ?_⟩
        intro j sm hj1 hj2 hj
        by_cases hji : j = i
        · subst hji
          rw [List.getElem?_eq_getElem hlt] at hj
          simp only [Option.some.injEq] at hj
          subst hj
          exact heq
        · exact h2 j sm (by omega) (by omega) hj

/-- Remapping of one index against the sorted records `w` of the collected records `v`:
an index of a live stop moves to the position of the record that carries it, any other
index stays. -/
theorem remapIndex_ok {T : Type} (a : List T) (v w : List (SortedMarker T)) (count : Nat)
    (idx : Int) (hperm : w.Perm v) (hv : v.length = count)
    (hvs : ∀ (j : Nat) (sm : SortedMarker T), v[j]? = some sm →
      sm.index = (j : Int) ∧ a[j]? = some sm.marker) :
    ∃ r, remapIndex w count idx = .ok r ∧
      (0 ≤ idx ∧ idx < (count : Int) →
        ∃ (j : Nat) (sm : SortedMarker T), r = (j : Int) ∧ j < count ∧ w[j]? = some sm ∧
          sm.index = idx ∧ a[idx.toNat]? = some sm.marker) ∧
      (¬ (0 ≤ idx ∧ idx < (count : Int)) → r = idx) := by
  have hw : w.length = count := by rw [hperm.length_eq, hv]
  by_cases hneg : idx = -1
  · refine ⟨idx, by simp [remapIndex, hneg], ?_, fun _ => rfl⟩
    intro h
    omega
  · have hunf : remapIndex w count idx = remapLoop w idx 0 count := by
      simp only [remapIndex, ne_eq, hneg, not_false_eq_true, if_true]
    rcases remapLoop_ok w idx count 0 (by omega) with ⟨j, sm, h1, _, h3, h4, h5⟩ | ⟨h1, h2⟩
    · obtain ⟨j', hj'⟩ := List.mem_iff_getElem?.mp ((hperm.mem_iff).mp (List.getElem?_mem h4))
      obtain ⟨hi, ha⟩ := hvs j' sm hj'
      have hj'lt : j' < count := by
        have := (List.getElem?_eq_some.mp hj').1
        omega
      have hidx : idx = (j' : Int) := by rw [← h5, hi]
      refine ⟨(j : Int), by rw [hunf, h1], ?_, ?_⟩
      · intro _
        refine ⟨j, sm, rfl, by omega, h4, h5, ?_⟩
        rw [hidx, Int.toNat_ofNat]
        exact ha
      · intro hn
        exact absurd ⟨by omega, by omega⟩ hn
    · refine ⟨idx, by rw [hunf, h1], ?_, fun _ => rfl⟩
      intro ⟨hge, hlt⟩
      exfalso
      obtain ⟨i, rfl⟩ := Int.eq_ofNat_of_zero_le hge
      have hi : i < v.length := by omega
      have hvi := hvs i (v.get ⟨i, hi⟩) (by simp [List.getElem?_eq_getElem hi])
      have hmem : v.get ⟨i, hi⟩ ∈ w := (hperm.mem_iff).mpr (List.get_mem v i hi)
      obtain ⟨j, hj⟩ := List.mem_iff_getElem?.mp hmem
      have hjlt : j < count := by
        have := (List.getElem?_eq_some.mp hj).1
        omega
      exact h2 j _ (Nat.zero_le _) (by omega) hj hvi.1

/-- The whole of `SortMarkers` on an array that holds at least `count` slots. -/
theorem SortMarkers_ok {T : Type} {pos : T → ℚ} (srt : StdSort T pos) (a : List T)
    (count : Nat) (sel drag : Int) (hc : count ≤ a.length) :
    ∃ v sel1 drag1, collectMarkers a count = .ok v ∧ v.length = count ∧
      v.map SortedMarker.marker = a.take count ∧
      (∀ (j : Nat) (sm : SortedMarker T), v[j]? = some sm →
        sm.index = (j : Int) ∧ a[j]? = some sm.marker) ∧
      remapIndex (srt.run v) count sel = .ok sel1 ∧
      remapIndex (srt.run v) count drag = .ok drag1 ∧
      SortMarkers srt a count sel drag =
        .ok ((srt.run v).map SortedMarker.marker ++ a.drop count, count, sel1, drag1) := by
  obtain ⟨v, h1, h2, h3, h4⟩ := collectMarkers_ok a count hc
  have hw : (srt.run v).length = count := by rw [(srt.perm v).length_eq, h2]
  obtain ⟨sel1, hs, _⟩ := remapIndex_ok a v (srt.run v) count sel (srt.perm v) h2 h4
  obtain ⟨drag1, hd, _⟩ := remapIndex_ok a v (srt.run v) count drag (srt.perm v) h2 h4
  have hst := storeMarkers_ok (srt.run v) a count (by omega) hc
  rw [List.take_of_length_le (by omega)] at hst
  exact ⟨v, sel1, drag1, h1, h2, h3, h4, hs, hd, by simp only [SortMarkers, h1, hst, hs, hd]⟩

/-- The live range after `SortMarkers` is the sorted records' markers. -/
theorem live_sorted_array {T : Type} (w : List (SortedMarker T)) (a : List T) (count : Nat)
    (hw : w.length = count) :
    live (w.map SortedMarker.marker ++ a.drop count) count = w.map SortedMarker.marker := by
  unfold live
  exact List.take_left' (by simp [hw])

/-- Claim C8. For every array, every `count` within the array and every `selectedIndex`
`s` with `0 <= s < count`: after `SortMarkers` the new `selectedIndex` `s1` satisfies
`0 <= s1 < count`, the record at `s1` of the sorted vector is the one that was collected
from original index `s`, and so the stop now at `s1` is the stop that was at `s` before
the call. The same holds for `draggingIndex`. An index equal to `-1` or outside
`[0, count)` is left unchanged. -/
theorem SortMarkers_remaps_indices {T : Type} {pos : T → ℚ} (srt : StdSort T pos)
    (a : List T) (count : Nat) (selectedIndex draggingIndex : Int) (hc : count ≤ a.length) :
    ∃ v a1 sel1 drag1, collectMarkers a count = .ok v ∧
      SortMarkers srt a count selectedIndex draggingIndex = .ok (a1, count, sel1, drag1) ∧
      (0 ≤ selectedIndex ∧ selectedIndex < (count : Int) →
        0 ≤ sel1 ∧ sel1 < (count : Int) ∧
        ((srt.run v)[sel1.toNat]?).map SortedMarker.index = some selectedIndex ∧
        (∃ m, a[selectedIndex.toNat]? = some m ∧ a1[sel1.toNat]? = some m)) ∧
      (¬ (0 ≤ selectedIndex ∧ selectedIndex < (count : Int)) → sel1 = selectedIndex) ∧
      (0 ≤ draggingIndex ∧ draggingIndex < (count : Int) →
        0 ≤ drag1 ∧ drag1 < (count : Int) ∧
        ((srt.run v)[drag1.toNat]?).map SortedMarker.index = some draggingIndex ∧
        (∃ m, a[draggingIndex.toNat]? = some m ∧ a1[drag1.toNat]? = some m)) ∧
      (¬ (0 ≤ draggingIndex ∧ draggingIndex < (count : Int)) → drag1 = draggingIndex) := by
  obtain ⟨v, sel1, drag1, h1, h2, _, h4, h5, h6, h7⟩ :=
    SortMarkers_ok srt a count selectedIndex draggingIndex hc
  have hw : (srt.run v).length = count := by rw [(srt.perm v).length_eq, h2]
  have key : ∀ (idx r : Int), remapIndex (srt.run v) count idx = .ok r →
      (0 ≤ idx ∧ idx < (count : Int) →
        0 ≤ r ∧ r < (count : Int) ∧
        ((srt.run v)[r.toNat]?).map SortedMarker.index = some idx ∧
        (∃ m, a[idx.toNat]? = some m ∧
          ((srt.run v).map SortedMarker.marker ++ a.drop count)[r.toNat]? = some m)) ∧
      (¬ (0 ≤ idx ∧ idx < (count : Int)) → r = idx) := by
    intro idx r hr
    obtain ⟨r1, e1, p1, p2⟩ := remapIndex_ok a v (srt.run v) count idx (srt.perm v) h2 h4
    rw [hr] at e1
    have hrr : r = r1 := by injection e1
    subst hrr
    refine ⟨?_, p2⟩
    intro hin
    obtain ⟨j, sm, hj, hjc, hwj, hidx, ham⟩ := p1 hin
    subst hj
    refine ⟨by omega, by omega, ?_, sm.marker, ham, ?_⟩
    · rw [Int.toNat_ofNat, hwj]
      simp [hidx]
    · rw [Int.toNat_ofNat, List.getElem?_append_left (by simp [hw, hjc]), List.getElem?_map, hwj]
      rfl
  obtain ⟨ks1, ks2⟩ := key selectedIndex sel1 h5
  obtain ⟨kd1, kd2⟩ := key draggingIndex drag1 h6
  exact ⟨v, _, sel1, drag1, h1, h7, ks1, ks2, kd1, kd2⟩

/-- Witness of C8: after the two live alpha stops have exchanged positions, a selection
at slot `0` (the stop with alpha `1`) follows that stop to slot `1`, while a dragging
index of `-1` stays `-1`. -/
theorem SortMarkers_remaps_indices_witness :
    SortMarkers (insertionStdSort AlphaMarker AlphaMarker.Position) swappedAlphas 2 0 (-1)
        = .ok ([⟨1 / 5, 0⟩, ⟨4 / 5, 1⟩, ⟨0, 0⟩, ⟨0, 0⟩], 2, 1, -1) ∧
    ∃ v a1 sel1 drag1, collectMarkers swappedAlphas 2 = .ok v ∧
      SortMarkers (insertionStdSort AlphaMarker AlphaMarker.Position) swappedAlphas 2 0 (-1)
        = .ok (a1, 2, sel1, drag1) ∧
      ((0 : Int) ≤ 0 ∧ (0 : Int) < ((2 : Nat) : Int) →
        0 ≤ sel1 ∧ sel1 < ((2 : Nat) : Int) ∧
        (((insertionStdSort AlphaMarker AlphaMarker.Position).run v)[sel1.toNat]?).map
          SortedMarker.index = some 0 ∧
        (∃ m, swappedAlphas[(0 : Int).toNat]? = some m ∧ a1[sel1.toNat]? = some m)) ∧
      (¬ ((0 : Int) ≤ 0 ∧ (0 : Int) < ((2 : Nat) : Int)) → sel1 = 0) ∧
      ((0 : Int) ≤ -1 ∧ (-1 : Int) < ((2 : Nat) : Int) →
        0 ≤ drag1 ∧ drag1 < ((2 : Nat) : Int) ∧
        (((insertionStdSort AlphaMarker AlphaMarker.Position).run v)[drag1.toNat]?).map
          SortedMarker.index = some (-1) ∧
        (∃ m, swappedAlphas[(-1 : Int).toNat]? = some m ∧ a1[drag1.toNat]? = some m)) ∧
      (¬ ((0 : Int) ≤ -1 ∧ (-1 : Int) < ((2 : Nat) : Int)) → drag1 = -1) := by
  refine ⟨?_, SortMarkers_remaps_indices (insertionStdSort AlphaMarker AlphaMarker.Position)
    swappedAlphas 2 0 (-1) (by decide)⟩
  norm_num [SortMarkers, collectMarkers, readAt, swappedAlphas, insertionStdSort,
    List.insertionSort, List.orderedInsert, storeMarkers, writeAt, remapIndex, remapLoop]

/-! ## The store invariant -/

theorem clamp01_mem (x : ℚ) : 0 ≤ clamp01 x ∧ clamp01 x ≤ 1 := by
  unfold clamp01
  exact ⟨le_max_right _ _, max_le (min_le_right _ _) zero_le_one⟩

/-- Putting a stop in at the insertion point keeps a sorted list sorted. -/
theorem sorted_insert {T : Type} (pos : T → ℚ) (m : T) :
    ∀ l : List T, SortedByPosition pos l →
      SortedByPosition pos
        (l.take (insertionPoint pos l (pos m)) ++ [m] ++ l.drop (insertionPoint pos l (pos m))) := by
  intro l
  induction l with
  | nil => intro _; simp [SortedByPosition, insertionPoint]
  | cons b t ih =>
    intro hs
    have hs' := hs
    unfold SortedByPosition at hs'
    rw [List.pairwise_cons] at hs'
    obtain ⟨hb, ht⟩ := hs'
    by_cases hlt : pos b < pos m
    · have hk : insertionPoint pos (b :: t) (pos m) = insertionPoint pos t (pos m) + 1 := by
        have h1 : ¬ pos m ≤ pos b := not_le.mpr hlt
        simp [insertionPoint, List.findIdx_cons, h1]
      rw [hk]
      have iht := ih ht
      unfold SortedByPosition at iht ⊢
      simp only [List.take_succ_cons, List.drop_succ_cons, List.cons_append, List.pairwise_cons]
      refine ⟨?_, iht⟩
      intro c hc
      simp only [List.mem_append, List.mem_singleton] at hc
      rcases hc with (hc | hc) | hc
      · exact hb c (List.mem_of_mem_take hc)
      · rw [hc]; exact le_of_lt hlt
      · exact hb c (List.mem_of_mem_drop hc)
    · have hk : insertionPoint pos (b :: t) (pos m) = 0 := by
        have h1 : pos m ≤ pos b := not_lt.mp hlt
        simp [insertionPoint, List.findIdx_cons, h1]
      rw [hk]
      unfold SortedByPosition
      simp only [List.take_zero, List.nil_append, List.drop_zero, List.singleton_append,
        List.pairwise_cons]
      refine ⟨?_, hb, ht⟩
      intro c hc
      rcases List.mem_cons.mp hc with hc | hc
      · rw [hc]; exact not_lt.mp hlt
      · exact le_trans (not_lt.mp hlt) (hb c hc)

theorem positionsInUnit_insert {T : Type} (pos : T → ℚ) (l : List T) (k : Nat) (m : T)
    (hl : PositionsInUnit pos l) (hm : 0 ≤ pos m ∧ pos m ≤ 1) :
    PositionsInUnit pos (l.take k ++ [m] ++ l.drop k) := by
  intro c hc
  simp only [List.mem_append, List.mem_singleton] at hc
  rcases hc with (hc | hc) | hc
  · exact hl c (List.mem_of_mem_take hc)
  · rw [hc]; exact hm
  · exact hl c (List.mem_of_mem_drop hc)

theorem sorted_eraseIdx {T : Type} (pos : T → ℚ) (l : List T) (i : Nat)
    (hs : SortedByPosition pos l) : SortedByPosition pos (l.eraseIdx i) :=
  List.Pairwise.sublist (List.eraseIdx_sublist l i) hs

theorem positionsInUnit_eraseIdx {T : Type} (pos : T → ℚ) (l : List T) (i : Nat)
    (hl : PositionsInUnit pos l) : PositionsInUnit pos (l.eraseIdx i) :=
  fun c hc => hl c (List.mem_of_mem_eraseIdx hc)

theorem positionsInUnit_perm {T : Type} (pos : T → ℚ) (l l1 : List T) (hp : l1.Perm l)
    (hl : PositionsInUnit pos l) : PositionsInUnit pos l1 :=
  fun c hc => hl c ((hp.mem_iff).mp hc)

/-- The array written by `SortMarkers`: same size, live range sorted and a permutation of
the old live range. -/
theorem sortedArray_facts {T : Type} {pos : T → ℚ} (srt : StdSort T pos) (a : List T)
    (count : Nat) (v : List (SortedMarker T)) (hv : v.length = count)
    (hm : v.map SortedMarker.marker = a.take count) (hc : count ≤ a.length) :
    ((srt.run v).map SortedMarker.marker ++ a.drop count).length = a.length ∧
    SortedByPosition pos (live ((srt.run v).map SortedMarker.marker ++ a.drop count) count) ∧
    (live ((srt.run v).map SortedMarker.marker ++ a.drop count) count).Perm (live a count) := by
  have hw : (srt.run v).length = count := by rw [(srt.perm v).length_eq, hv]
  rw [live_sorted_array _ _ _ hw]
  refine ⟨?_, ?_, ?_⟩
  · simp only [List.length_append, List.length_map, List.length_drop, hw]
    omega
  · unfold SortedByPosition
    rw [List.pairwise_map]
    exact List.Pairwise.imp (fun h => not_lt.mp h) (srt.sorted v)
  · unfold live
    rw [← hm]
    exact (srt.perm v).map _

/-- `AddColorMarker` keeps the array sizes and the store invariant. -/
theorem AddColorMarker_preserves (MarkerMax : Nat) (s : ImGradientHDRState) (x : ℚ)
    (color : ℚ × ℚ × ℚ) (intensity : ℚ) (hwf : WellFormed MarkerMax s)
    (hinv : StoreInvariant MarkerMax s) :
    ∃ b s1, AddColorMarker MarkerMax s x color intensity = .ok (b, s1) ∧
      WellFormed MarkerMax s1 ∧ StoreInvariant MarkerMax s1 := by
  obtain ⟨hcl, hal⟩ := hwf
  obtain ⟨i1, i2, i3, i4, i5, i6⟩ := hinv
  by_cases hfull : s.ColorCount ≥ MarkerMax
  · exact ⟨false, s, by simp only [AddColorMarker, hfull, if_true], ⟨hcl, hal⟩,
      ⟨i1, i2, i3, i4, i5, i6⟩⟩
  · have hc : s.ColorCount < s.Colors.length := by omega
    have hk := insertionPoint_le_length ColorMarker.Position (live s.Colors s.ColorCount)
      (clamp01 x)
    have hll : (live s.Colors s.ColorCount).length = s.ColorCount := by simp [live]; omega
    rw [hll] at hk
    have hlive := insertedArray_live s.Colors s.ColorCount _
      ({ Position := clamp01 x, Color := color, Intensity := intensity } : ColorMarker) hk hc
    refine ⟨true, { s with
        Colors := insertedArray s.Colors s.ColorCount
          (insertionPoint ColorMarker.Position (live s.Colors s.ColorCount) (clamp01 x))
          { Position := clamp01 x, Color := color, Intensity := intensity },
        ColorCount := s.ColorCount + 1 }, ?_, ⟨?_, hal⟩, ?_, i2, ?_, i4, ?_, i6⟩
    · simp only [AddColorMarker, hfull, if_false,
        AddMarker_sorted ColorMarker.Position s.Colors s.ColorCount _ hc i1]
    · simp only [insertedArray_length _ _ _ _ hk hc, hcl]
    · simp only [hlive]
      exact sorted_insert ColorMarker.Position
        { Position := clamp01 x, Color := color, Intensity := intensity } _ i1
    · simp only [hlive]
      exact positionsInUnit_insert ColorMarker.Position _ _ _ i3 (clamp01_mem x)
    · show s.ColorCount + 1 ≤ MarkerMax
      omega

/-- `AddAlphaMarker` keeps the array sizes and the store invariant. -/
theorem AddAlphaMarker_preserves (MarkerMax : Nat) (s : ImGradientHDRState) (x alpha : ℚ)
    (hwf : WellFormed MarkerMax s) (hinv : StoreInvariant MarkerMax s) :
    ∃ b s1, AddAlphaMarker MarkerMax s x alpha = .ok (b, s1) ∧
      WellFormed MarkerMax s1 ∧ StoreInvariant MarkerMax s1 := by
  obtain ⟨hcl, hal⟩ := hwf
  obtain ⟨i1, i2, i3, i4, i5, i6⟩ := hinv
  by_cases hfull : s.AlphaCount ≥ MarkerMax
  · exact ⟨false, s, by simp only [AddAlphaMarker, hfull, if_true], ⟨hcl, hal⟩,
      ⟨i1, i2, i3, i4, i5, i6⟩⟩
  · have hc : s.AlphaCount < s.Alphas.length := by omega
    have hk := insertionPoint_le_length AlphaMarker.Position (live s.Alphas s.AlphaCount)
      (clamp01 x)
    have hll : (live s.Alphas s.AlphaCount).length = s.AlphaCount := by simp [live]; omega
    rw [hll] at hk
    have hlive := insertedArray_live s.Alphas s.AlphaCount _
      ({ Position := clamp01 x, Alpha := alpha } : AlphaMarker) hk hc
    refine ⟨true, { s with
        Alphas := insertedArray s.Alphas s.AlphaCount
          (insertionPoint AlphaMarker.Position (live s.Alphas s.AlphaCount) (clamp01 x))
          { Position := clamp01 x, Alpha := alpha },
        AlphaCount := s.AlphaCount + 1 }, ?_, ⟨hcl, ?_⟩, i1, ?_, i3, ?_, i5, ?_⟩
    · simp only [AddAlphaMarker, hfull, if_false,
        AddMarker_sorted AlphaMarker.Position s.Alphas s.AlphaCount _ hc i2]
    · simp only [insertedArray_length _ _ _ _ hk hc, hal]
    · simp only [hlive]
      exact sorted_insert AlphaMarker.Position { Position := clamp01 x, Alpha := alpha } _ i2
    · simp only [hlive]
      exact positionsInUnit_insert AlphaMarker.Position _ _ _ i4 (clamp01_mem x)
    · show s.AlphaCount + 1 ≤ MarkerMax
      omega

/-- `RemoveColorMarker` keeps the array sizes and the store invariant. -/
theorem RemoveColorMarker_preserves (MarkerMax : Nat) (s : ImGradientHDRState) (index : Int)
    (hwf : WellFormed MarkerMax s) (hinv : StoreInvariant MarkerMax s) :
    ∃ b s1, RemoveColorMarker s index = .ok (b, s1) ∧
      WellFormed MarkerMax s1 ∧ StoreInvariant MarkerMax s1 := by
  obtain ⟨hcl, hal⟩ := hwf
  obtain ⟨i1, i2, i3, i4, i5, i6⟩ := hinv
  by_cases hbad : index ≥ (s.ColorCount : Int) ∨ index < 0
  · exact ⟨false, s, by simp only [RemoveColorMarker, hbad, if_true], ⟨hcl, hal⟩,
      ⟨i1, i2, i3, i4, i5, i6⟩⟩
  · obtain ⟨i, rfl⟩ := Int.eq_ofNat_of_zero_le (by omega : 0 ≤ index)
    obtain ⟨a, h1, h2, h3⟩ := RemoveColorMarker_live s i (by omega) (by omega)
    refine ⟨true, _, h1, ⟨by rw [h2, hcl], hal⟩, ?_, i2, ?_, i4, ?_, i6⟩
    · simp only [h3]
      exact sorted_eraseIdx _ _ _ i1
    · simp only [h3]
      exact positionsInUnit_eraseIdx _ _ _ i3
    · show s.ColorCount - 1 ≤ MarkerMax
      omega

/-- `RemoveAlphaMarker` keeps the array sizes and the store invariant. -/
theorem RemoveAlphaMarker_preserves (MarkerMax : Nat) (s : ImGradientHDRState) (index : Int)
    (hwf : WellFormed MarkerMax s) (hinv : StoreInvariant MarkerMax s) :
    ∃ b s1, RemoveAlphaMarker s index = .ok (b, s1) ∧
      WellFormed MarkerMax s1 ∧ StoreInvariant MarkerMax s1 := by
  obtain ⟨hcl, hal⟩ := hwf
  obtain ⟨i1, i2, i3, i4, i5, i6⟩ := hinv
  by_cases hbad : index ≥ (s.AlphaCount : Int) ∨ index < 0
  · exact ⟨false, s, by simp only [RemoveAlphaMarker, hbad, if_true], ⟨hcl, hal⟩,
      ⟨i1, i2, i3, i4, i5, i6⟩⟩
  · obtain ⟨i, rfl⟩ := Int.eq_ofNat_of_zero_le (by omega : 0 ≤ index)
    obtain ⟨a, h1, h2, h3⟩ := RemoveAlphaMarker_live s i (by omega) (by omega)
    refine ⟨true, _, h1, ⟨hcl, by rw [h2, hal]⟩, i1, ?_, i3, ?_, i5, ?_⟩
    · simp only [h3]
      exact sorted_eraseIdx _ _ _ i2
    · simp only [h3]
      exact positionsInUnit_eraseIdx _ _ _ i4
    · show s.AlphaCount - 1 ≤ MarkerMax
      omega

/-- One store operation keeps the array sizes and the store invariant. -/
theorem applyOp_preserves (MarkerMax : Nat) (srtC : StdSort ColorMarker ColorMarker.Position)
    (srtA : StdSort AlphaMarker AlphaMarker.Position) (s : ImGradientHDRState) (op : StoreOp)
    (hwf : WellFormed MarkerMax s) (hinv : StoreInvariant MarkerMax s) :
    ∃ s1, applyOp MarkerMax srtC srtA s op = .ok s1 ∧
      WellFormed MarkerMax s1 ∧ StoreInvariant MarkerMax s1 := by
  cases op with
  | addColor x color intensity =>
    obtain ⟨b, s1, h1, h2, h3⟩ := AddColorMarker_preserves MarkerMax s x color intensity hwf hinv
    exact ⟨s1, by simp only [applyOp, h1], h2, h3⟩
  | addAlpha x alpha =>
    obtain ⟨b, s1, h1, h2, h3⟩ := AddAlphaMarker_preserves MarkerMax s x alpha hwf hinv
    exact ⟨s1, by simp only [applyOp, h1], h2, h3⟩
  | removeColor index =>
    obtain ⟨b, s1, h1, h2, h3⟩ := RemoveColorMarker_preserves MarkerMax s index hwf hinv
    exact ⟨s1, by simp only [applyOp, h1], h2, h3⟩
  | removeAlpha index =>
    obtain ⟨b, s1, h1, h2, h3⟩ := RemoveAlphaMarker_preserves MarkerMax s index hwf hinv
    exact ⟨s1, by simp only [applyOp, h1], h2, h3⟩
  | sortColors sel drag =>
    obtain ⟨hcl, hal⟩ := hwf
    obtain ⟨i1, i2, i3, i4, i5, i6⟩ := hinv
    obtain ⟨v, sel1, drag1, _, h2, h3, _, _, _, h7⟩ :=
      SortMarkers_ok srtC s.Colors s.ColorCount sel drag (by omega)
    obtain ⟨f1, f2, f3⟩ := sortedArray_facts srtC s.Colors s.ColorCount v h2 h3 (by omega)
    exact ⟨{ s with
        Colors := (srtC.run v).map SortedMarker.marker ++ s.Colors.drop s.ColorCount,
        ColorCount := s.ColorCount },
      by simp only [applyOp, h7], ⟨by rw [f1, hcl], hal⟩, f2, i2,
      positionsInUnit_perm _ _ _ f3 i3, i4, i5, i6⟩
  | sortAlphas sel drag =>
    obtain ⟨hcl, hal⟩ := hwf
    obtain ⟨i1, i2, i3, i4, i5, i6⟩ := hinv
    obtain ⟨v, sel1, drag1, _, h2, h3, _, _, _, h7⟩ :=
      SortMarkers_ok srtA s.Alphas s.AlphaCount sel drag (by omega)
    obtain ⟨f1, f2, f3⟩ := sortedArray_facts srtA s.Alphas s.AlphaCount v h2 h3 (by omega)
    exact ⟨{ s with
        Alphas := (srtA.run v).map SortedMarker.marker ++ s.Alphas.drop s.AlphaCount,
        AlphaCount := s.AlphaCount },
      by simp only [applyOp, h7], ⟨hcl, by rw [f1, hal]⟩, i1, f2, i3,
      positionsInUnit_perm _ _ _ f3 i4, i5, i6⟩

/-- A store without live stops satisfies the store invariant. -/
theorem storeInvariant_of_empty (MarkerMax : Nat) (s : ImGradientHDRState)
    (hc : s.ColorCount = 0) (ha : s.AlphaCount = 0) : StoreInvariant MarkerMax s := by
  unfold StoreInvariant
  rw [hc, ha]
  simp [live, SortedByPosition, PositionsInUnit]

/-! ## Float values that may be NaN -/

theorem readAt_map {T U : Type} (f : T → U) (a : List T) (i : Nat) :
    readAt (a.map f) i =
      match readAt a i with
      | .ok v => .ok (f v)
      | .error e => .error e := by
  unfold readAt
  rw [List.getElem?_map]
  cases a[i]? <;> rfl

theorem readAtInt_map {T U : Type} (f : T → U) (a : List T) (i : Int) :
    readAtInt (a.map f) i =
      match readAtInt a i with
      | .ok v => .ok (f v)
      | .error e => .error e := by
  unfold readAtInt
  by_cases h : i < 0
  · rw [if_pos h, if_pos h]
  · rw [if_neg h, if_neg h, readAt_map]

theorem lowerBoundLoop_num {T U : Type} (pos : T → ℚ) (posF : U → WithNaN.FloatVal)
    (f : T → U) (hf : ∀ m, posF (f m) = .num (pos m)) (a : List T) (x : ℚ) :
    ∀ fuel first len, WithNaN.lowerBoundLoop posF (a.map f) (.num x) fuel first len =
      lowerBoundLoop pos a x fuel first len := by
  intro fuel
  induction fuel with
  | zero => intro first len; rfl
  | succ n ih =>
    intro first len
    unfold WithNaN.lowerBoundLoop lowerBoundLoop
    by_cases hlen : 0 < len
    · rw [if_pos hlen, if_pos hlen]
      simp only [readAt_map]
      cases readAt a (first + len / 2) with
      | error e => rfl
      | ok m =>
        simp only [hf, WithNaN.less, decide_eq_true_eq, ih]
    · rw [if_neg hlen, if_neg hlen]

theorem lower_bound_num {T U : Type} (pos : T → ℚ) (posF : U → WithNaN.FloatVal)
    (f : T → U) (hf : ∀ m, posF (f m) = .num (pos m)) (a : List T) (count : Nat) (x : ℚ) :
    WithNaN.lower_bound posF (a.map f) count (.num x) = lower_bound pos a count x := by
  unfold WithNaN.lower_bound lower_bound
  rw [List.length_map, lowerBoundLoop_num pos posF f hf]

theorem copy_map {T U : Type} (f : T → U) (a : List T) (first last dest : Nat) :
    copy (a.map f) first last dest =
      match copy a first last dest with
      | .ok a1 => .ok (a1.map f)
      | .error e => .error e := by
  unfold copy
  rw [List.length_map]
  split_ifs
  · simp only [List.map_append, List.map_take, List.map_drop]
  · rfl

theorem writeAt_map {T U : Type} (f : T → U) (a : List T) (i : Nat) (v : T) :
    writeAt (a.map f) i (f v) =
      match writeAt a i v with
      | .ok a1 => .ok (a1.map f)
      | .error e => .error e := by
  unfold writeAt
  rw [List.length_map]
  split_ifs
  · simp only [List.map_set]
  · rfl

theorem AddMarker_num {T U : Type} (pos : T → ℚ) (posF : U → WithNaN.FloatVal)
    (f : T → U) (hf : ∀ m, posF (f m) = .num (pos m)) (a : List T) (count : Nat) (v : T) :
    WithNaN.AddMarker posF (a.map f) count (f v) =
      match AddMarker pos a count v with
      | .ok (a1, c) => .ok (a1.map f, c)
      | .error e => .error e := by
  unfold WithNaN.AddMarker AddMarker
  rw [hf, lower_bound_num pos posF f hf, List.length_map]
  cases lower_bound pos a count (pos v) with
  | error e => rfl
  | ok lb =>
    simp only
    by_cases h : lb ≠ a.length
    · simp only [if_pos h, copy_map]
      cases copy a lb count (lb + 1) with
      | error e => rfl
      | ok a1 =>
        simp only [writeAt_map]
        cases writeAt a1 lb v with
        | error e => rfl
        | ok a2 => rfl
    · simp only [if_neg h]

theorem clamp01_num (x : ℚ) : WithNaN.clamp01 (.num x) = .num (clamp01 x) := by
  unfold WithNaN.clamp01 WithNaN.fmin WithNaN.fmax clamp01
  by_cases h1 : (1 : ℚ) < x
  · have : ¬ ((1 : ℚ) < 0) := by norm_num
    simp [WithNaN.less, h1, this, min_eq_right (le_of_lt h1)]
  · by_cases h0 : x < 0
    · simp [WithNaN.less, h1, h0, min_eq_left (not_lt.mp h1), max_eq_right (le_of_lt h0)]
    · simp [WithNaN.less, h1, h0, min_eq_left (not_lt.mp h1), max_eq_left (not_lt.mp h0)]

/-- On arguments that are numbers, `AddAlphaMarker` on `float` values is `AddAlphaMarker`
on numbers. -/
theorem AddAlphaMarker_num (MarkerMax : Nat) (s : ImGradientHDRState) (x alpha : ℚ) :
    WithNaN.AddAlphaMarker MarkerMax (WithNaN.ofState s) (.num x) (.num alpha) =
      match AddAlphaMarker MarkerMax s x alpha with
      | .ok (b, s1) => .ok (b, WithNaN.ofState s1)
      | .error e => .error e := by
  unfold WithNaN.AddAlphaMarker AddAlphaMarker
  by_cases h : s.AlphaCount ≥ MarkerMax
  · simp only [WithNaN.ofState, h, if_true]
  · have hm : ({ Position := WithNaN.clamp01 (.num x), Alpha := .num alpha } :
        WithNaN.AlphaMarker) = WithNaN.ofAlphaMarker { Position := clamp01 x, Alpha := alpha } := by
      rw [clamp01_num]; rfl
    have hadd := AddMarker_num AlphaMarker.Position WithNaN.AlphaMarker.Position
      WithNaN.ofAlphaMarker (fun _ => rfl) s.Alphas s.AlphaCount
      { Position := clamp01 x, Alpha := alpha }
    simp only [WithNaN.ofState, h, if_false, hm, hadd]
    cases AddMarker AlphaMarker.Position s.Alphas s.AlphaCount
        { Position := clamp01 x, Alpha := alpha } with
    | error e => rfl
    | ok r => rfl

/-- On arguments that are numbers, `AddColorMarker` on `float` values is `AddColorMarker`
on numbers. -/
theorem AddColorMarker_num (MarkerMax : Nat) (s : ImGradientHDRState) (x : ℚ)
    (color : ℚ × ℚ × ℚ) (intensity : ℚ) :
    WithNaN.AddColorMarker MarkerMax (WithNaN.ofState s) (.num x)
        (.num color.1, .num color.2.1, .num color.2.2) (.num intensity) =
      match AddColorMarker MarkerMax s x color intensity with
      | .ok (b, s1) => .ok (b, WithNaN.ofState s1)
      | .error e => .error e := by
  unfold WithNaN.AddColorMarker AddColorMarker
  by_cases h : s.ColorCount ≥ MarkerMax
  · simp only [WithNaN.ofState, h, if_true]
  · have hm : WithNaN.ColorMarker.mk (WithNaN.clamp01 (.num x))
          (.num color.1, .num color.2.1, .num color.2.2) (.num intensity)
        = WithNaN.ofColorMarker
            { Position := clamp01 x, Color := color, Intensity := intensity } := by
      rw [clamp01_num]; rfl
    have hadd := AddMarker_num ColorMarker.Position WithNaN.ColorMarker.Position
      WithNaN.ofColorMarker (fun _ => rfl) s.Colors s.ColorCount
      { Position := clamp01 x, Color := color, Intensity := intensity }
    simp only [WithNaN.ofState, h, if_false, hm, hadd]
    cases AddMarker ColorMarker.Position s.Colors s.ColorCount
        { Position := clamp01 x, Color := color, Intensity := intensity } with
    | error e => rfl
    | ok r => rfl


theorem divide_num (a b : ℚ) :
    WithNaN.divide (.num a) (.num b) =
      match divide a b with
      | .ok v => .ok (.num v)
      | .error e => .error e := by
  unfold WithNaN.divide divide
  by_cases h : b = 0
  · simp only [h, if_true]
  · simp only [h, if_false]

theorem blend_num (lo hi alpha : ℚ) :
    WithNaN.blend (.num lo) (.num hi) (.num alpha) = .num (blend lo hi alpha) := rfl

/-- On an argument that is a number, `GetAlpha` on `float` values is `GetAlpha` on
numbers. -/
theorem GetAlpha_num (s : ImGradientHDRState) (x : ℚ) :
    WithNaN.GetAlpha (WithNaN.ofState s) (.num x) =
      match GetAlpha s x with
      | .ok v => .ok (.num v)
      | .error e => .error e := by
  have hlb := lower_bound_num AlphaMarker.Position WithNaN.AlphaMarker.Position
    WithNaN.ofAlphaMarker (fun _ => rfl) s.Alphas s.AlphaCount x
  unfold WithNaN.GetAlpha GetAlpha
  simp only [WithNaN.ofState, readAt_map, readAtInt_map, hlb]
  by_cases h0 : s.AlphaCount = 0
  · simp only [h0, if_true, if_false, decide_True, decide_False, Bool.false_eq_true]
  simp only [h0, if_false, if_true, decide_True, decide_False, Bool.false_eq_true]
  cases readAt s.Alphas 0 with
  | error e => rfl
  | ok a0 =>
  simp only [WithNaN.ofAlphaMarker, WithNaN.less, WithNaN.lessEq, decide_eq_true_eq]
  by_cases h1 : x < a0.Position
  · simp only [h1, if_true, if_false, decide_True, decide_False, Bool.false_eq_true]
  simp only [h1, if_false, if_true, decide_True, decide_False, Bool.false_eq_true]
  cases readAt s.Alphas (s.AlphaCount - 1) with
  | error e => rfl
  | ok an =>
  simp only
  by_cases h2 : an.Position ≤ x
  · simp only [h2, if_true, if_false, decide_True, decide_False, Bool.false_eq_true]
  simp only [h2, if_false, if_true, decide_True, decide_False, Bool.false_eq_true]
  cases lower_bound AlphaMarker.Position s.Alphas s.AlphaCount x with
  | error e => rfl
  | ok it =>
  simp only
  cases readAtInt s.Alphas (it : Int) with
  | error e => rfl
  | ok c =>
  simp only [WithNaN.notEq, decide_eq_true_eq]
  cases readAtInt s.Alphas (if c.Position ≠ x then (it : Int) - 1 else (it : Int)) with
  | error e => rfl
  | ok lo =>
  simp only
  by_cases h3 : lo.Position ≤ x
  swap
  · simp only [h3, if_false, if_true, decide_True, decide_False, Bool.false_eq_true]
  simp only [h3, if_true, if_false, decide_True, decide_False, Bool.false_eq_true]
  cases readAtInt s.Alphas ((if c.Position ≠ x then (it : Int) - 1 else (it : Int)) + 1) with
  | error e => rfl
  | ok hi =>
  simp only
  by_cases h4 : x ≤ hi.Position
  swap
  · simp only [h4, if_false, if_true, decide_True, decide_False, Bool.false_eq_true]
  simp only [h4, if_true, if_false, decide_True, decide_False, Bool.false_eq_true, WithNaN.sub, WithNaN.equal, decide_eq_true_eq]
  by_cases h5 : hi.Position - lo.Position = 0
  · simp only [h5, if_true, if_false, decide_True, decide_False, Bool.false_eq_true]
  simp only [h5, if_false, if_true, decide_True, decide_False, Bool.false_eq_true, divide_num]
  cases divide (x - lo.Position) (hi.Position - lo.Position) with
  | error e => rfl
  | ok alpha => rfl

/-- On an argument that is a number, `GetColorAndIntensity` on `float` values is
`GetColorAndIntensity` on numbers. -/
theorem GetColorAndIntensity_num (s : ImGradientHDRState) (x : ℚ) :
    WithNaN.GetColorAndIntensity (WithNaN.ofState s) (.num x) =
      match GetColorAndIntensity s x with
      | .ok v => .ok (.num v.1, .num v.2.1, .num v.2.2.1, .num v.2.2.2)
      | .error e => .error e := by
  have hlb := lower_bound_num ColorMarker.Position WithNaN.ColorMarker.Position
    WithNaN.ofColorMarker (fun _ => rfl) s.Colors s.ColorCount x
  unfold WithNaN.GetColorAndIntensity GetColorAndIntensity
  simp only [WithNaN.ofState, readAt_map, readAtInt_map, hlb]
  by_cases h0 : s.ColorCount = 0
  · simp only [h0, if_true, if_false, decide_True, decide_False, Bool.false_eq_true]
  simp only [h0, if_false, if_true, decide_True, decide_False, Bool.false_eq_true]
  cases readAt s.Colors 0 with
  | error e => rfl
  | ok a0 =>
  simp only [WithNaN.ofColorMarker, WithNaN.less, WithNaN.lessEq, decide_eq_true_eq]
  by_cases h1 : x < a0.Position
  · simp only [h1, if_true, if_false, decide_True, decide_False, Bool.false_eq_true]
  simp only [h1, if_false, if_true, decide_True, decide_False, Bool.false_eq_true]
  cases readAt s.Colors (s.ColorCount - 1) with
  | error e => rfl
  | ok an =>
  simp only
  by_cases h2 : an.Position ≤ x
  · simp only [h2, if_true, if_false, decide_True, decide_False, Bool.false_eq_true]
  simp only [h2, if_false, if_true, decide_True, decide_False, Bool.false_eq_true]
  cases lower_bound ColorMarker.Position s.Colors s.ColorCount x with
  | error e => rfl
  | ok it =>
  simp only
  cases readAtInt s.Colors (it : Int) with
  | error e => rfl
  | ok c =>
  simp only [WithNaN.notEq, decide_eq_true_eq]
  cases readAtInt s.Colors (if c.Position ≠ x then (it : Int) - 1 else (it : Int)) with
  | error e => rfl
  | ok lo =>
  simp only
  by_cases h3 : lo.Position ≤ x
  swap
  · simp only [h3, if_false, if_true, decide_True, decide_False, Bool.false_eq_true]
  simp only [h3, if_true, if_false, decide_True, decide_False, Bool.false_eq_true]
  cases readAtInt s.Colors ((if c.Position ≠ x then (it : Int) - 1 else (it : Int)) + 1) with
  | error e => rfl
  | ok hi =>
  simp only
  by_cases h4 : x ≤ hi.Position
  swap
  · simp only [h4, if_false, if_true, decide_True, decide_False, Bool.false_eq_true]
  simp only [h4, if_true, if_false, decide_True, decide_False, Bool.false_eq_true, WithNaN.sub, WithNaN.equal, decide_eq_true_eq]
  by_cases h5 : hi.Position - lo.Position = 0
  · simp only [h5, if_true, if_false, decide_True, decide_False, Bool.false_eq_true]
  simp only [h5, if_false, if_true, decide_True, decide_False, Bool.false_eq_true, divide_num]
  cases divide (x - lo.Position) (hi.Position - lo.Position) with
  | error e => rfl
  | ok alpha => rfl

theorem live_map {T U : Type} (f : T → U) (a : List T) (count : Nat) :
    live (a.map f) count = (live a count).map f := by
  simp only [live, List.map_take]

/-- On a store of numbers the store predicate on `float` values is the store predicate on
numbers. -/
theorem storeInvariant_ofState (MarkerMax : Nat) (s : ImGradientHDRState) :
    WithNaN.StoreInvariant MarkerMax (WithNaN.ofState s) ↔ StoreInvariant MarkerMax s := by
  unfold WithNaN.StoreInvariant StoreInvariant SortedByPosition PositionsInUnit
  simp only [WithNaN.ofState, live_map, List.pairwise_map, List.forall_mem_map,
    WithNaN.ofColorMarker, WithNaN.ofAlphaMarker, WithNaN.lessEq, decide_eq_true_eq]

theorem exampleStore_invariant : StoreInvariant 4 exampleStore := by
  refine ⟨exampleStore_colors_sorted, exampleStore_alphas_sorted, ?_, ?_, by decide, by decide⟩
  · intro m hm
    simp only [live, exampleStore, List.take_succ_cons, List.take_zero, List.mem_cons,
      List.mem_singleton, List.not_mem_nil, or_false] at hm
    rcases hm with h | h <;> subst h <;> norm_num
  · intro m hm
    simp only [live, exampleStore, List.take_succ_cons, List.take_zero, List.mem_cons,
      List.mem_singleton, List.not_mem_nil, or_false] at hm
    rcases hm with h | h <;> subst h <;> norm_num

theorem ne_nan_iff (p : WithNaN.FloatVal) : p ≠ .nan ↔ p = .num p.toRat := by
  cases p <;> simp [WithNaN.FloatVal.toRat]

theorem lessEq_iff (p q : WithNaN.FloatVal) :
    WithNaN.lessEq p q = true ↔ p ≠ .nan ∧ q ≠ .nan ∧ p.toRat ≤ q.toRat := by
  cases p <;> cases q <;> simp [WithNaN.lessEq, WithNaN.FloatVal.toRat]

theorem less_iff (p q : WithNaN.FloatVal) :
    WithNaN.less p q = true ↔ p ≠ .nan ∧ q ≠ .nan ∧ p.toRat < q.toRat := by
  cases p <;> cases q <;> simp [WithNaN.less, WithNaN.FloatVal.toRat]

/-- The store predicate on one live range of `float` positions: it says that no position
is NaN and that the numbers are sorted and lie in `[0, 1]`. -/
theorem liveInvariant_iff {T : Type} (pos : T → WithNaN.FloatVal) (l : List T) :
    (l.Pairwise (fun m n => WithNaN.lessEq (pos m) (pos n) = true) ∧
      ∀ m ∈ l, WithNaN.lessEq (.num 0) (pos m) = true ∧
        WithNaN.lessEq (pos m) (.num 1) = true) ↔
    ((∀ m ∈ l, pos m ≠ .nan) ∧ SortedByPosition (fun m => (pos m).toRat) l ∧
      PositionsInUnit (fun m => (pos m).toRat) l) := by
  constructor
  · rintro ⟨h1, h2⟩
    refine ⟨fun m hm => ((lessEq_iff _ _).mp (h2 m hm).1).2.1, ?_, ?_⟩
    · exact List.Pairwise.imp (fun h => ((lessEq_iff _ _).mp h).2.2) h1
    · intro m hm
      have a := (lessEq_iff _ _).mp (h2 m hm).1
      have b := (lessEq_iff _ _).mp (h2 m hm).2
      exact ⟨by simpa [WithNaN.FloatVal.toRat] using a.2.2,
        by simpa [WithNaN.FloatVal.toRat] using b.2.2⟩
  · rintro ⟨h0, h1, h2⟩
    refine ⟨?_, ?_⟩
    · refine List.Pairwise.imp_of_mem ?_ h1
      intro m n hm hn h
      exact (lessEq_iff _ _).mpr ⟨h0 m hm, h0 n hn, h⟩
    · intro m hm
      have hu := h2 m hm
      exact ⟨(lessEq_iff _ _).mpr ⟨by simp, h0 m hm, by simpa [WithNaN.FloatVal.toRat] using hu.1⟩,
        (lessEq_iff _ _).mpr ⟨h0 m hm, by simp, by simpa [WithNaN.FloatVal.toRat] using hu.2⟩⟩

/-- The binary search on `float` positions, for a key that is a number and a range without
NaN, is the binary search on the numbers. -/
theorem lowerBoundLoop_live {T : Type} (pos : T → WithNaN.FloatVal) (a : List T) (x : ℚ)
    (bound : Nat) (hnum : ∀ i m, i < bound → a[i]? = some m → pos m ≠ .nan) :
    ∀ fuel first len, first + len ≤ bound →
      WithNaN.lowerBoundLoop pos a (.num x) fuel first len =
        lowerBoundLoop (fun m => (pos m).toRat) a x fuel first len := by
  intro fuel
  induction fuel with
  | zero => intro first len _; rfl
  | succ n ih =>
    intro first len hb
    unfold WithNaN.lowerBoundLoop lowerBoundLoop
    by_cases hlen : 0 < len
    · rw [if_pos hlen, if_pos hlen]
      simp only
      cases hr : readAt a (first + len / 2) with
      | error e => rfl
      | ok m =>
        have hm : a[first + len / 2]? = some m := by
          unfold readAt at hr
          cases h : a[first + len / 2]? with
          | none => rw [h] at hr; cases hr
          | some v => rw [h] at hr; cases hr; rfl
        have hlt : first + len / 2 < bound := by
          have := Nat.div_lt_self hlen (by decide : 1 < 2)
          omega
        have hp := (ne_nan_iff _).mp (hnum _ m hlt hm)
        simp only
        rw [hp, ih (first + len / 2 + 1) (len - len / 2 - 1) (by
            have := Nat.div_lt_self hlen (by decide : 1 < 2)
            omega),
          ih first (len / 2) (by have := Nat.div_le_self len 2; omega)]
        simp only [WithNaN.less, decide_eq_true_eq, WithNaN.FloatVal.toRat]
    · rw [if_neg hlen, if_neg hlen]

theorem lower_bound_live {T : Type} (pos : T → WithNaN.FloatVal) (a : List T) (count : Nat)
    (x : ℚ) (hnum : ∀ m ∈ live a count, pos m ≠ .nan) :
    WithNaN.lower_bound pos a count (.num x) =
      lower_bound (fun m => (pos m).toRat) a count x := by
  unfold WithNaN.lower_bound lower_bound
  rw [lowerBoundLoop_live pos a x count
    (fun i m hi hm => hnum m ((mem_live_iff a count m).mpr ⟨i, hi, hm⟩)) count 0 count
    (by omega)]

theorem AddMarker_live {T : Type} (pos : T → WithNaN.FloatVal) (a : List T) (count : Nat)
    (value : T) (hv : pos value ≠ .nan) (hnum : ∀ m ∈ live a count, pos m ≠ .nan) :
    WithNaN.AddMarker pos a count value =
      AddMarker (fun m => (pos m).toRat) a count value := by
  unfold WithNaN.AddMarker AddMarker
  have hp := (ne_nan_iff _).mp hv
  rw [hp, lower_bound_live pos a count _ hnum]

/-- The helper `AddMarker` on `float` positions, for a value whose position is a number in
`[0, 1]`, on an array with room whose live range meets the store predicate: it returns,
the size is kept, the count grows by one and the new live range meets the predicate. -/
theorem AddMarker_keeps {T : Type} (pos : T → WithNaN.FloatVal) (a : List T) (count : Nat)
    (value : T) (q : ℚ) (hv : pos value = .num q) (hq : 0 ≤ q ∧ q ≤ 1)
    (hc : count < a.length)
    (h1 : (live a count).Pairwise (fun m n => WithNaN.lessEq (pos m) (pos n) = true))
    (h2 : ∀ m ∈ live a count, WithNaN.lessEq (.num 0) (pos m) = true ∧
      WithNaN.lessEq (pos m) (.num 1) = true) :
    ∃ a1, WithNaN.AddMarker pos a count value = .ok (a1, count + 1) ∧
      a1.length = a.length ∧
      (live a1 (count + 1)).Pairwise (fun m n => WithNaN.lessEq (pos m) (pos n) = true) ∧
      ∀ m ∈ live a1 (count + 1), WithNaN.lessEq (.num 0) (pos m) = true ∧
        WithNaN.lessEq (pos m) (.num 1) = true := by
  obtain ⟨n0, n1, n2⟩ := (liveInvariant_iff pos (live a count)).mp ⟨h1, h2⟩
  have hvn : pos value ≠ .nan := by rw [hv]; simp
  have hk := insertionPoint_le_length (fun m => (pos m).toRat) (live a count)
    ((pos value).toRat)
  have hll : (live a count).length = count := by simp [live]; omega
  rw [hll] at hk
  have hlive := insertedArray_live a count _ value hk hc
  refine ⟨insertedArray a count
      (insertionPoint (fun m => (pos m).toRat) (live a count) ((pos value).toRat)) value,
    ?_, insertedArray_length _ _ _ _ hk hc, ?_⟩
  · rw [AddMarker_live pos a count value hvn n0,
      AddMarker_sorted (fun m => (pos m).toRat) a count value hc n1]
  · rw [hlive]
    refine (liveInvariant_iff pos _).mpr ⟨?_, ?_, ?_⟩
    · intro m hm
      simp only [List.mem_append, List.mem_singleton] at hm
      rcases hm with (hm | hm) | hm
      · exact n0 m (List.mem_of_mem_take hm)
      · rw [hm]; exact hvn
      · exact n0 m (List.mem_of_mem_drop hm)
    · exact sorted_insert (fun m => (pos m).toRat) value _ n1
    · refine positionsInUnit_insert (fun m => (pos m).toRat) _ _ _ n2 ?_
      simp only [hv, WithNaN.FloatVal.toRat]
      exact hq

/-- The shift of `RemoveColorMarker` / `RemoveAlphaMarker` on an array whose live range
meets the store predicate on `float` positions: the new live range meets it. -/
theorem remove_keeps {T : Type} (pos : T → WithNaN.FloatVal) (a : List T) (count i : Nat)
    (hi : i < count) (hc : count ≤ a.length)
    (h1 : (live a count).Pairwise (fun m n => WithNaN.lessEq (pos m) (pos n) = true))
    (h2 : ∀ m ∈ live a count, WithNaN.lessEq (.num 0) (pos m) = true ∧
      WithNaN.lessEq (pos m) (.num 1) = true) :
    ∃ a1, copy a (i + 1) a.length i = .ok a1 ∧ a1.length = a.length ∧
      (live a1 (count - 1)).Pairwise (fun m n => WithNaN.lessEq (pos m) (pos n) = true) ∧
      ∀ m ∈ live a1 (count - 1), WithNaN.lessEq (.num 0) (pos m) = true ∧
        WithNaN.lessEq (pos m) (.num 1) = true := by
  obtain ⟨a1, e1, e2, e3⟩ := copy_remove a count i hi hc
  refine ⟨a1, e1, e2, ?_⟩
  rw [e3]
  exact ⟨List.Pairwise.sublist (List.eraseIdx_sublist _ i) h1,
    fun m hm => h2 m (List.mem_of_mem_eraseIdx hm)⟩

/-- The helper `SortMarkers` with a sort on `float` positions, on an array whose live range
has no NaN position, is `SortMarkers` with that sort taken on the numbers. -/
theorem SortMarkers_live {T : Type} {pos : T → WithNaN.FloatVal} (srt : WithNaN.StdSort T pos)
    (a : List T) (count : Nat) (sel drag : Int) (hc : count ≤ a.length)
    (hnum : ∀ m ∈ live a count, pos m ≠ .nan) :
    WithNaN.SortMarkers srt a count sel drag = SortMarkers srt.onNumbers a count sel drag := by
  obtain ⟨v, _, _, h1, _, h3, _, _, _, _⟩ :=
    SortMarkers_ok srt.onNumbers a count sel drag hc
  have hv : ∀ p ∈ v, pos p.marker ≠ .nan := by
    intro p hp
    have : p.marker ∈ v.map SortedMarker.marker := List.mem_map_of_mem _ hp
    rw [h3] at this
    exact hnum _ this
  have hrun : srt.onNumbers.run v = srt.run v := by
    simp only [WithNaN.StdSort.onNumbers]
    rw [if_pos hv]
  unfold WithNaN.SortMarkers SortMarkers
  simp only [h1, hrun]

/-- The helper `SortMarkers` on an array whose live range meets the store predicate on
`float` positions: it returns, size and count are kept and the new live range meets the
predicate. -/
theorem SortMarkers_keeps {T : Type} {pos : T → WithNaN.FloatVal}
    (srt : WithNaN.StdSort T pos) (a : List T) (count : Nat) (sel drag : Int)
    (hc : count ≤ a.length)
    (h1 : (live a count).Pairwise (fun m n => WithNaN.lessEq (pos m) (pos n) = true))
    (h2 : ∀ m ∈ live a count, WithNaN.lessEq (.num 0) (pos m) = true ∧
      WithNaN.lessEq (pos m) (.num 1) = true) :
    ∃ a1 sel1 drag1, WithNaN.SortMarkers srt a count sel drag = .ok (a1, count, sel1, drag1) ∧
      a1.length = a.length ∧
      (live a1 count).Pairwise (fun m n => WithNaN.lessEq (pos m) (pos n) = true) ∧
      ∀ m ∈ live a1 count, WithNaN.lessEq (.num 0) (pos m) = true ∧
        WithNaN.lessEq (pos m) (.num 1) = true := by
  obtain ⟨n0, n1, n2⟩ := (liveInvariant_iff pos (live a count)).mp ⟨h1, h2⟩
  obtain ⟨v, sel1, drag1, _, k2, k3, _, _, _, k7⟩ :=
    SortMarkers_ok srt.onNumbers a count sel drag hc
  obtain ⟨f1, f2, f3⟩ := sortedArray_facts srt.onNumbers a count v k2 k3 hc
  refine ⟨_, sel1, drag1, by rw [SortMarkers_live srt a count sel drag hc n0, k7], f1, ?_⟩
  exact (liveInvariant_iff pos _).mpr
    ⟨fun m hm => n0 m (f3.mem_iff.mp hm), f2, positionsInUnit_perm _ _ _ f3 n2⟩

theorem clamp01_of_ne_nan (x : WithNaN.FloatVal) (hx : x ≠ .nan) :
    WithNaN.clamp01 x = .num (clamp01 x.toRat) := by
  have h := (ne_nan_iff x).mp hx
  rw [h, clamp01_num]
  simp only [WithNaN.FloatVal.toRat]

/-- Every operation of the store on `float` values whose position argument is not NaN
returns and keeps the array sizes and the store predicate. -/
theorem applyOp_keeps (MarkerMax : Nat)
    (srtC : WithNaN.StdSort WithNaN.ColorMarker WithNaN.ColorMarker.Position)
    (srtA : WithNaN.StdSort WithNaN.AlphaMarker WithNaN.AlphaMarker.Position)
    (s : WithNaN.ImGradientHDRState) (op : WithNaN.StoreOp) (hop : op.PositionIsNumber)
    (hwf : WithNaN.WellFormed MarkerMax s) (hinv : WithNaN.StoreInvariant MarkerMax s) :
    ∃ s1, WithNaN.applyOp MarkerMax srtC srtA s op = .ok s1 ∧
      WithNaN.WellFormed MarkerMax s1 ∧ WithNaN.StoreInvariant MarkerMax s1 := by
  obtain ⟨hcl, hal⟩ := hwf
  obtain ⟨i1, i2, i3, i4, i5, i6⟩ := hinv
  cases op with
  | addColor x color intensity =>
    by_cases hfull : s.ColorCount ≥ MarkerMax
    · exact ⟨s, by simp only [WithNaN.applyOp, WithNaN.AddColorMarker, hfull, if_true],
        ⟨hcl, hal⟩, ⟨i1, i2, i3, i4, i5, i6⟩⟩
    · have hx : x ≠ .nan := hop
      obtain ⟨a1, e1, e2, e3, e4⟩ := AddMarker_keeps WithNaN.ColorMarker.Position s.Colors
        s.ColorCount ⟨WithNaN.clamp01 x, color, intensity⟩ (clamp01 x.toRat)
        (clamp01_of_ne_nan x hx) (clamp01_mem _) (by omega) i1 i3
      refine ⟨{ s with Colors := a1, ColorCount := s.ColorCount + 1 }, ?_,
        ⟨by rw [← hcl]; exact e2, hal⟩, ⟨e3, i2, e4, i4, ?_, i6⟩⟩
      · simp only [WithNaN.applyOp, WithNaN.AddColorMarker, hfull, if_false, e1]
      · show s.ColorCount + 1 ≤ MarkerMax
        omega
  | addAlpha x alpha =>
    by_cases hfull : s.AlphaCount ≥ MarkerMax
    · exact ⟨s, by simp only [WithNaN.applyOp, WithNaN.AddAlphaMarker, hfull, if_true],
        ⟨hcl, hal⟩, ⟨i1, i2, i3, i4, i5, i6⟩⟩
    · have hx : x ≠ .nan := hop
      obtain ⟨a1, e1, e2, e3, e4⟩ := AddMarker_keeps WithNaN.AlphaMarker.Position s.Alphas
        s.AlphaCount ⟨WithNaN.clamp01 x, alpha⟩ (clamp01 x.toRat)
        (clamp01_of_ne_nan x hx) (clamp01_mem _) (by omega) i2 i4
      refine ⟨{ s with Alphas := a1, AlphaCount := s.AlphaCount + 1 }, ?_,
        ⟨hcl, by rw [← hal]; exact e2⟩, ⟨i1, e3, i3, e4, i5, ?_⟩⟩
      · simp only [WithNaN.applyOp, WithNaN.AddAlphaMarker, hfull, if_false, e1]
      · show s.AlphaCount + 1 ≤ MarkerMax
        omega
  | removeColor index =>
    by_cases hbad : index ≥ (s.ColorCount : Int) ∨ index < 0
    · exact ⟨s, by simp only [WithNaN.applyOp, WithNaN.RemoveColorMarker, hbad, if_true],
        ⟨hcl, hal⟩, ⟨i1, i2, i3, i4, i5, i6⟩⟩
    · obtain ⟨i, rfl⟩ := Int.eq_ofNat_of_zero_le (by omega : 0 ≤ index)
      obtain ⟨a1, e1, e2, e3, e4⟩ := remove_keeps WithNaN.ColorMarker.Position s.Colors
        s.ColorCount i (by omega) (by omega) i1 i3
      refine ⟨{ s with Colors := a1, ColorCount := s.ColorCount - 1 }, ?_,
        ⟨by rw [← hcl]; exact e2, hal⟩, ⟨e3, i2, e4, i4, ?_, i6⟩⟩
      · simp only [WithNaN.applyOp, WithNaN.RemoveColorMarker, hbad, if_false,
          Int.toNat_ofNat, e1]
      · show s.ColorCount - 1 ≤ MarkerMax
        omega
  | removeAlpha index =>
    by_cases hbad : index ≥ (s.AlphaCount : Int) ∨ index < 0
    · exact ⟨s, by simp only [WithNaN.applyOp, WithNaN.RemoveAlphaMarker, hbad, if_true],
        ⟨hcl, hal⟩, ⟨i1, i2, i3, i4, i5, i6⟩⟩
    · obtain ⟨i, rfl⟩ := Int.eq_ofNat_of_zero_le (by omega : 0 ≤ index)
      obtain ⟨a1, e1, e2, e3, e4⟩ := remove_keeps WithNaN.AlphaMarker.Position s.Alphas
        s.AlphaCount i (by omega) (by omega) i2 i4
      refine ⟨{ s with Alphas := a1, AlphaCount := s.AlphaCount - 1 }, ?_,
        ⟨hcl, by rw [← hal]; exact e2⟩, ⟨i1, e3, i3, e4, i5, ?_⟩⟩
      · simp only [WithNaN.applyOp, WithNaN.RemoveAlphaMarker, hbad, if_false,
          Int.toNat_ofNat, e1]
      · show s.AlphaCount - 1 ≤ MarkerMax
        omega
  | sortColors sel drag =>
    obtain ⟨a1, sel1, drag1, e1, e2, e3, e4⟩ := SortMarkers_keeps srtC s.Colors
      s.ColorCount sel drag (by omega) i1 i3
    exact ⟨{ s with Colors := a1, ColorCount := s.ColorCount },
      by simp only [WithNaN.applyOp, e1], ⟨by rw [← hcl]; exact e2, hal⟩,
      ⟨e3, i2, e4, i4, i5, i6⟩⟩
  | sortAlphas sel drag =>
    obtain ⟨a1, sel1, drag1, e1, e2, e3, e4⟩ := SortMarkers_keeps srtA s.Alphas
      s.AlphaCount sel drag (by omega) i2 i4
    exact ⟨{ s with Alphas := a1, AlphaCount := s.AlphaCount },
      by simp only [WithNaN.applyOp, e1], ⟨hcl, by rw [← hal]; exact e2⟩,
      ⟨i1, e3, i3, e4, i5, i6⟩⟩

/-- A store on `float` values without live stops satisfies the store predicate. -/
theorem storeInvariant_of_no_live (MarkerMax : Nat) (s : WithNaN.ImGradientHDRState)
    (hc : s.ColorCount = 0) (ha : s.AlphaCount = 0) : WithNaN.StoreInvariant MarkerMax s := by
  unfold WithNaN.StoreInvariant
  rw [hc, ha]
  simp [live]

/-- Every finite sequence of operations on `float` values whose position arguments are not
NaN returns and keeps the array sizes and the store predicate. -/
theorem applyOps_keeps (MarkerMax : Nat)
    (srtC : WithNaN.StdSort WithNaN.ColorMarker WithNaN.ColorMarker.Position)
    (srtA : WithNaN.StdSort WithNaN.AlphaMarker WithNaN.AlphaMarker.Position) :
    ∀ (ops : List WithNaN.StoreOp) (s : WithNaN.ImGradientHDRState),
      (∀ op ∈ ops, op.PositionIsNumber) →
      WithNaN.WellFormed MarkerMax s → WithNaN.StoreInvariant MarkerMax s →
      ∃ s1, WithNaN.applyOps MarkerMax srtC srtA ops s = .ok s1 ∧
        WithNaN.WellFormed MarkerMax s1 ∧ WithNaN.StoreInvariant MarkerMax s1 := by
  intro ops
  induction ops with
  | nil => intro s _ hwf hinv; exact ⟨s, rfl, hwf, hinv⟩
  | cons op ops ih =>
    intro s hops hwf hinv
    obtain ⟨s1, h1, h2, h3⟩ := applyOp_keeps MarkerMax srtC srtA s op
      (hops op (List.mem_cons_self _ _)) hwf hinv
    obtain ⟨s2, k1, k2, k3⟩ := ih s1 (fun o ho => hops o (List.mem_cons_of_mem _ ho)) h2 h3
    exact ⟨s2, by simp only [WithNaN.applyOps, h1, k1], k2, k3⟩

theorem mixedStore_invariant : WithNaN.StoreInvariant 4 WithNaN.mixedStore := by
  refine ⟨?_, ?_, ?_, ?_, by decide, by decide⟩
  · simp [live, WithNaN.mixedStore, WithNaN.lessEq]
  · norm_num [live, WithNaN.mixedStore, WithNaN.lessEq]
  · simp [live, WithNaN.mixedStore, WithNaN.lessEq]
  · norm_num [live, WithNaN.mixedStore, WithNaN.lessEq]

/-- Counterexample to C3 as stated, with the argument `x` = NaN. The clamp
`std::max(std::min(x, 1.0f), 0.0f)` returns NaN for NaN, since both comparisons with NaN
are false. On the store without live stops, which satisfies the store predicate,
`AddAlphaMarker(NaN, 1)` returns `true` and stores a live stop whose `Position` is NaN,
which does not lie in `[0, 1]`: the predicate does not hold afterwards. -/
theorem nan_position_counterexample :
    WithNaN.StoreInvariant 4 (WithNaN.ofState emptyStore) ∧
    WithNaN.clamp01 .nan = .nan ∧
    WithNaN.AddAlphaMarker 4 (WithNaN.ofState emptyStore) .nan (.num 1)
      = .ok (true, WithNaN.nanStore) ∧
    live WithNaN.nanStore.Alphas WithNaN.nanStore.AlphaCount = [⟨.nan, .num 1⟩] ∧
    ¬ WithNaN.StoreInvariant 4 WithNaN.nanStore := by
  refine ⟨?_, rfl, ?_, rfl, ?_⟩
  · rw [storeInvariant_ofState]
    exact storeInvariant_of_empty 4 emptyStore rfl rfl
  · simp [WithNaN.AddAlphaMarker, WithNaN.ofState, emptyStore, WithNaN.clamp01, WithNaN.fmin,
      WithNaN.fmax, WithNaN.less, WithNaN.AddMarker, WithNaN.lower_bound,
      WithNaN.lowerBoundLoop, copy, writeAt, WithNaN.ofAlphaMarker, List.replicate,
      WithNaN.nanStore, WithNaN.ofColorMarker]
  · intro h
    have h4 := h.2.2.2.1 ⟨.nan, .num 1⟩ (by simp [live, WithNaN.nanStore])
    simp [WithNaN.lessEq] at h4

/-- Claim C3, amended. The store predicate "both live ranges are sorted ascending by
`Position`, every live `Position` lies in `[0, 1]`, and both counts are at most
`MarkerMax`" is preserved, on a well-formed store, by `AddColorMarker`, `AddAlphaMarker`,
`RemoveColorMarker`, `RemoveAlphaMarker` and `SortMarkers` for all arguments in which the
position `x` is not NaN, each of which returns; hence it holds after every finite sequence
of these operations with such arguments applied to a store without live stops. The first
two parts say it on numbers, the last two on `float` values: there the store may hold any
values, the other arguments may be NaN, and `std::sort` is taken by its contract on
ranges without NaN. -/
theorem store_invariant_preserved (MarkerMax : Nat)
    (srtC : StdSort ColorMarker ColorMarker.Position)
    (srtA : StdSort AlphaMarker AlphaMarker.Position)
    (floatSortC : WithNaN.StdSort WithNaN.ColorMarker WithNaN.ColorMarker.Position)
    (floatSortA : WithNaN.StdSort WithNaN.AlphaMarker WithNaN.AlphaMarker.Position) :
    (∀ (s : ImGradientHDRState) (op : StoreOp),
      WellFormed MarkerMax s → StoreInvariant MarkerMax s →
      ∃ s1, applyOp MarkerMax srtC srtA s op = .ok s1 ∧
        WellFormed MarkerMax s1 ∧ StoreInvariant MarkerMax s1) ∧
    (∀ (ops : List StoreOp) (s : ImGradientHDRState),
      WellFormed MarkerMax s → s.ColorCount = 0 → s.AlphaCount = 0 →
      ∃ s1, applyOps MarkerMax srtC srtA ops s = .ok s1 ∧
        WellFormed MarkerMax s1 ∧ StoreInvariant MarkerMax s1) ∧
    (∀ (s : WithNaN.ImGradientHDRState) (op : WithNaN.StoreOp),
      op.PositionIsNumber →
      WithNaN.WellFormed MarkerMax s → WithNaN.StoreInvariant MarkerMax s →
      ∃ s1, WithNaN.applyOp MarkerMax floatSortC floatSortA s op = .ok s1 ∧
        WithNaN.WellFormed MarkerMax s1 ∧ WithNaN.StoreInvariant MarkerMax s1) ∧
    (∀ (ops : List WithNaN.StoreOp) (s : WithNaN.ImGradientHDRState),
      (∀ op ∈ ops, op.PositionIsNumber) →
      WithNaN.WellFormed MarkerMax s → s.ColorCount = 0 → s.AlphaCount = 0 →
      ∃ s1, WithNaN.applyOps MarkerMax floatSortC floatSortA ops s = .ok s1 ∧
        WithNaN.WellFormed MarkerMax s1 ∧ WithNaN.StoreInvariant MarkerMax s1) := by
  have hseq : ∀ (ops : List StoreOp) (s : ImGradientHDRState),
      WellFormed MarkerMax s → StoreInvariant MarkerMax s →
      ∃ s1, applyOps MarkerMax srtC srtA ops s = .ok s1 ∧
        WellFormed MarkerMax s1 ∧ StoreInvariant MarkerMax s1 := by
    intro ops
    induction ops with
    | nil => intro s hwf hinv; exact ⟨s, rfl, hwf, hinv⟩
    | cons op ops ih =>
      intro s hwf hinv
      obtain ⟨s1, h1, h2, h3⟩ := applyOp_preserves MarkerMax srtC srtA s op hwf hinv
      obtain ⟨s2, k1, k2, k3⟩ := ih s1 h2 h3
      exact ⟨s2, by simp only [applyOps, h1, k1], k2, k3⟩
  refine ⟨fun s op hwf hinv => applyOp_preserves MarkerMax srtC srtA s op hwf hinv, ?_,
    fun s op hop hwf hinv => applyOp_keeps MarkerMax floatSortC floatSortA s op hop hwf hinv,
    ?_⟩
  · intro ops s hwf hc ha
    exact hseq ops s hwf (storeInvariant_of_empty MarkerMax s hc ha)
  · intro ops s hops hwf hc ha
    exact applyOps_keeps MarkerMax floatSortC floatSortA ops s hops hwf
      (storeInvariant_of_no_live MarkerMax s hc ha)

/-- Witness of C3: one operation on `exampleStore` and a sequence of five operations on
`emptyStore`, on numbers; on `float` values, `AddAlphaMarker(0.5, NaN)` on `mixedStore`
and a sequence of four operations on the empty store. -/
theorem store_invariant_preserved_witness :
    (∃ s1, applyOp 4 (insertionStdSort ColorMarker ColorMarker.Position)
          (insertionStdSort AlphaMarker AlphaMarker.Position) exampleStore
          (StoreOp.addAlpha (1 / 2) 9) = .ok s1 ∧
        WellFormed 4 s1 ∧ StoreInvariant 4 s1) ∧
    (∃ s1, applyOps 4 (insertionStdSort ColorMarker ColorMarker.Position)
          (insertionStdSort AlphaMarker AlphaMarker.Position)
          [StoreOp.addColor 2 (1, 1, 1) 1, StoreOp.addColor (-1) (0, 0, 0) 1,
            StoreOp.addAlpha (1 / 2) 1, StoreOp.sortColors 0 (-1), StoreOp.removeColor 0]
          emptyStore = .ok s1 ∧
        WellFormed 4 s1 ∧ StoreInvariant 4 s1) ∧
    (∃ s1, WithNaN.applyOp 4
          (WithNaN.insertionStdSort WithNaN.ColorMarker WithNaN.ColorMarker.Position)
          (WithNaN.insertionStdSort WithNaN.AlphaMarker WithNaN.AlphaMarker.Position)
          WithNaN.mixedStore (WithNaN.StoreOp.addAlpha (.num (1 / 2)) .nan) = .ok s1 ∧
        WithNaN.WellFormed 4 s1 ∧ WithNaN.StoreInvariant 4 s1) ∧
    (∃ s1, WithNaN.applyOps 4
          (WithNaN.insertionStdSort WithNaN.ColorMarker WithNaN.ColorMarker.Position)
          (WithNaN.insertionStdSort WithNaN.AlphaMarker WithNaN.AlphaMarker.Position)
          [WithNaN.StoreOp.addColor (.num 2) (.num 1, .num 1, .num 1) (.num 1),
            WithNaN.StoreOp.addAlpha (.num (1 / 2)) .nan,
            WithNaN.StoreOp.sortColors 0 (-1), WithNaN.StoreOp.removeColor 0]
          (WithNaN.ofState emptyStore) = .ok s1 ∧
        WithNaN.WellFormed 4 s1 ∧ WithNaN.StoreInvariant 4 s1) := by
  have h := store_invariant_preserved 4 (insertionStdSort ColorMarker ColorMarker.Position)
    (insertionStdSort AlphaMarker AlphaMarker.Position)
    (WithNaN.insertionStdSort WithNaN.ColorMarker WithNaN.ColorMarker.Position)
    (WithNaN.insertionStdSort WithNaN.AlphaMarker WithNaN.AlphaMarker.Position)
  refine ⟨h.1 exampleStore _ exampleStore_wellFormed exampleStore_invariant,
    h.2.1 _ emptyStore ⟨rfl, rfl⟩ rfl rfl,
    h.2.2.1 WithNaN.mixedStore _ ?_ ⟨rfl, rfl⟩ mixedStore_invariant,
    h.2.2.2 _ (WithNaN.ofState emptyStore) ?_ ⟨rfl, rfl⟩ rfl rfl⟩
  · simp [WithNaN.StoreOp.PositionIsNumber]
  · intro op hop
    simp only [List.mem_cons, List.mem_singleton, List.not_mem_nil, or_false] at hop
    rcases hop with h | h | h | h <;> subst h <;> simp [WithNaN.StoreOp.PositionIsNumber]

/-! ## Evaluation -/

theorem readAtInt_ofNat {T : Type} (a : List T) (i : Nat) (h : i < a.length) :
    readAtInt a (i : Int) = .ok (a.get ⟨i, h⟩) := by
  have : ¬ ((i : Int) < 0) := by omega
  simp only [readAtInt, this, if_false, Int.toNat_ofNat, readAt_of_lt a i h]

theorem live_length {T : Type} (a : List T) (count : Nat) (hc : count ≤ a.length) :
    (live a count).length = count := by
  simp [live, hc]

theorem live_get {T : Type} (a : List T) (count i : Nat) (h1 : i < (live a count).length)
    (h2 : i < a.length) : (live a count).get ⟨i, h1⟩ = a.get ⟨i, h2⟩ := by
  simp [live, List.getElem_take]

/-- The stop found by the specification's description of `lo`, when the stop at the
insertion point `k` has `Position == x`: it is `k`. -/
theorem lowerStop_of_eq {T : Type} (pos : T → ℚ) (l : List T) (x : ℚ)
    (hk : insertionPoint pos l x < l.length)
    (heq : pos (l.get ⟨insertionPoint pos l x, hk⟩) = x) :
    lowerStop pos l x = some (insertionPoint pos l x) := by
  have hfind : l.findIdx (fun m => decide (pos m = x)) = insertionPoint pos l x := by
    rw [List.findIdx_eq hk]
    refine ⟨by simpa using heq, ?_⟩
    intro j hj
    have hlt := lt_of_lt_insertionPoint pos l x j hj (by omega)
    simp only [List.get_eq_getElem] at hlt
    simpa using ne_of_lt hlt
  simp only [lowerStop, firstStopAt, hfind, hk, if_true]

/-- The stop found by the specification's description of `lo`, when the stop at the
insertion point `k` of a sorted list has a `Position` other than `x` and `k > 0`: it is
`k - 1`. -/
theorem lowerStop_of_ne {T : Type} (pos : T → ℚ) (l : List T) (x : ℚ)
    (hs : SortedByPosition pos l) (hk : insertionPoint pos l x < l.length)
    (hne : pos (l.get ⟨insertionPoint pos l x, hk⟩) ≠ x) (hpos : 0 < insertionPoint pos l x) :
    lowerStop pos l x = some (insertionPoint pos l x - 1) := by
  have hge := insertionPoint_spec pos l x hk
  have hgt : x < pos (l.get ⟨insertionPoint pos l x, hk⟩) := lt_of_le_of_ne hge (Ne.symm hne)
  have habove : ∀ (j : Nat) (hj : j < l.length), insertionPoint pos l x ≤ j →
      x < pos (l.get ⟨j, hj⟩) := by
    intro j hj hkj
    rcases Nat.lt_or_ge (insertionPoint pos l x) j with h | h
    · have := (List.pairwise_iff_getElem.mp hs) _ _ hk hj h
      simp only [List.get_eq_getElem] at hgt ⊢
      exact lt_of_lt_of_le hgt this
    · have hjk : j = insertionPoint pos l x := by omega
      subst hjk
      exact hgt
  have hnone : l.findIdx (fun m => decide (pos m = x)) = l.length := by
    rw [List.findIdx_eq_length]
    intro m hm
    obtain ⟨j, hj, rfl⟩ := List.mem_iff_getElem.mp hm
    rcases Nat.lt_or_ge j (insertionPoint pos l x) with h | h
    · have := lt_of_lt_insertionPoint pos l x j h hj
      simp only [List.get_eq_getElem] at this
      simpa using ne_of_lt this
    · have := habove j hj h
      simp only [List.get_eq_getElem] at this
      simpa using (ne_of_lt this).symm
  have hrl : l.length - insertionPoint pos l x < l.reverse.length := by
    simp only [List.length_reverse]
    omega
  have hrev : l.reverse.findIdx (fun m => decide (pos m < x))
      = l.length - insertionPoint pos l x := by
    rw [List.findIdx_eq hrl]
    constructor
    · have hidx : l.length - 1 - (l.length - insertionPoint pos l x)
          = insertionPoint pos l x - 1 := by omega
      have := lt_of_lt_insertionPoint pos l x (insertionPoint pos l x - 1) (by omega) (by omega)
      simp only [List.get_eq_getElem] at this
      simp only [List.getElem_reverse, hidx]
      simpa using this
    · intro j hj
      have := habove (l.length - 1 - j) (by omega) (by omega)
      simp only [List.get_eq_getElem] at this
      simp only [List.getElem_reverse]
      simpa using le_of_lt this
  have hlt : l.length - insertionPoint pos l x < l.length := by omega
  have hidx : l.length - 1 - (l.length - insertionPoint pos l x)
      = insertionPoint pos l x - 1 := by omega
  simp only [lowerStop, firstStopAt, hnone, lt_irrefl, if_false, lastStopBelow, hrev, hlt,
    if_true, hidx]

/-- The search of `GetColorAndIntensity` / `GetAlpha` on a sorted live range, for an `x`
that is neither before the first stop nor at or after the last one: the binary search,
the reads at `ind` and `ind + 1` and the bracket test all succeed inside the live range,
and `ind` is the stop described by the specification. -/
theorem bracket_search {T : Type} (pos : T → ℚ) (a : List T) (count : Nat) (x : ℚ)
    (c0 cn : T) (hc : count ≤ a.length) (hs : SortedByPosition pos (live a count))
    (h0 : a[0]? = some c0) (hn : a[count - 1]? = some cn) (hcount : 0 < count)
    (hx0 : ¬ x < pos c0) (hxn : ¬ pos cn ≤ x) :
    ∃ (it i : Nat) (c lo hi : T),
      lower_bound pos a count x = .ok it ∧
      readAtInt a (it : Int) = .ok c ∧
      (if pos c ≠ x then (it : Int) - 1 else (it : Int)) = (i : Int) ∧
      readAtInt a (i : Int) = .ok lo ∧
      readAtInt a ((i : Int) + 1) = .ok hi ∧
      i + 1 < count ∧
      (live a count)[i]? = some lo ∧ (live a count)[i + 1]? = some hi ∧
      pos lo ≤ x ∧ x ≤ pos hi ∧
      lowerStop pos (live a count) x = some i := by
  have hll := live_length a count hc
  have hlb := lower_bound_sorted pos a count x hc hs
  have hcn : a.get ⟨count - 1, by omega⟩ = cn := by
    have := List.getElem?_eq_getElem (l := a) (n := count - 1) (by omega)
    rw [this] at hn
    simpa using hn
  have hc0 : a.get ⟨0, by omega⟩ = c0 := by
    have := List.getElem?_eq_getElem (l := a) (n := 0) (by omega)
    rw [this] at h0
    simpa using h0
  have hklt : insertionPoint pos (live a count) x < count := by
    have := insertionPoint_le_of_not_lt pos (live a count) x (count - 1) (by omega)
      (by rw [live_get a count (count - 1) (by omega) (by omega), hcn]
          exact fun h => hxn (le_of_lt h))
    omega
  have hkl : insertionPoint pos (live a count) x < (live a count).length := by omega
  have hge := insertionPoint_spec pos (live a count) x hkl
  rw [live_get a count _ hkl (by omega)] at hge
  have hgetq : ∀ (j : Nat) (hj : j < count),
      (live a count)[j]? = some (a.get ⟨j, by omega⟩) := by
    intro j hj
    simp only [live, List.getElem?_take, hj, if_true]
    exact List.getElem?_eq_getElem (by omega)
  by_cases heq : pos (a.get ⟨insertionPoint pos (live a count) x, by omega⟩) = x
  · -- the stop at the insertion point is at `x`
    have hk1 : insertionPoint pos (live a count) x + 1 < count := by
      by_contra hcon
      have hkc : insertionPoint pos (live a count) x = count - 1 := by omega
      have : pos cn = x := by
        rw [← hcn]
        simp only [← hkc]
        exact heq
      exact hxn (le_of_eq this)
    have hnext := (List.pairwise_iff_getElem.mp hs) (insertionPoint pos (live a count) x)
      (insertionPoint pos (live a count) x + 1) hkl (by omega) (Nat.lt_succ_self _)
    have e1 := live_get a count (insertionPoint pos (live a count) x) hkl (by omega)
    have e2 := live_get a count (insertionPoint pos (live a count) x + 1) (by omega) (by omega)
    simp only [List.get_eq_getElem] at e1 e2 heq
    rw [e1, e2] at hnext
    refine ⟨_, insertionPoint pos (live a count) x, _, _, _, hlb,
      readAtInt_ofNat a _ (by omega), ?_, readAtInt_ofNat a _ (by omega), ?_, hk1,
      hgetq _ (by omega), hgetq _ hk1, ?_, ?_, ?_⟩
    · simp only [List.get_eq_getElem, heq, ne_eq, not_true_eq_false, if_false]
    · exact_mod_cast readAtInt_ofNat a (insertionPoint pos (live a count) x + 1) (by omega)
    · simp only [List.get_eq_getElem, heq, le_refl]
    · simp only [List.get_eq_getElem]
      exact le_trans (le_of_eq heq.symm) hnext
    · exact lowerStop_of_eq pos (live a count) x hkl
        (by rw [live_get a count _ hkl (by omega)]; exact heq)
  · -- the stop at the insertion point is beyond `x`
    have hkpos : 0 < insertionPoint pos (live a count) x := by
      by_contra hcon
      have hk0 : insertionPoint pos (live a count) x = 0 := by omega
      have h1 : x ≤ pos c0 := by
        rw [← hc0]
        simp only [hk0] at hge
        exact hge
      have h2 : pos c0 ≠ x := by
        rw [← hc0]
        simp only [hk0] at heq
        exact heq
      exact hx0 (lt_of_le_of_ne h1 (Ne.symm h2))
    have hlo := lt_of_lt_insertionPoint pos (live a count) x
      (insertionPoint pos (live a count) x - 1) (by omega) (by omega)
    rw [live_get a count _ (by omega) (by omega)] at hlo
    have hsucc : insertionPoint pos (live a count) x - 1 + 1
        = insertionPoint pos (live a count) x := by omega
    refine ⟨_, insertionPoint pos (live a count) x - 1, _, _,
      a.get ⟨insertionPoint pos (live a count) x, by omega⟩, hlb,
      readAtInt_ofNat a _ (by omega), ?_, readAtInt_ofNat a _ (by omega), ?_, by omega,
      hgetq _ (by omega), ?_, le_of_lt hlo, hge, ?_⟩
    · simp only [ne_eq, heq, not_false_eq_true, if_true]
      omega
    · have := readAtInt_ofNat a (insertionPoint pos (live a count) x) (by omega)
      have hcast : ((insertionPoint pos (live a count) x - 1 : Nat) : Int) + 1
          = ((insertionPoint pos (live a count) x : Nat) : Int) := by omega
      rw [hcast]
      exact this
    · have hgen : ∀ j, j = insertionPoint pos (live a count) x →
          (live a count)[j]? = some (a.get ⟨insertionPoint pos (live a count) x, by omega⟩) := by
        intro j hj
        subst hj
        exact hgetq _ hklt
      exact hgen _ hsucc
    · exact lowerStop_of_ne pos (live a count) x hs hkl
        (by rw [live_get a count _ hkl (by omega)]; exact heq) hkpos

theorem readAt_of_some {T : Type} (a : List T) (i : Nat) (v : T) (h : a[i]? = some v) :
    readAt a i = .ok v := by
  simp [readAt, h]

/-- Before the first alpha stop `GetAlpha` returns the first stop's alpha. -/
theorem GetAlpha_before_first (s : ImGradientHDRState) (x : ℚ) (a0 : AlphaMarker)
    (hcount : s.AlphaCount ≠ 0) (h0 : s.Alphas[0]? = some a0) (hx : x < a0.Position) :
    GetAlpha s x = .ok a0.Alpha := by
  simp only [GetAlpha, hcount, if_false, readAt_of_some _ _ _ h0, hx, if_true]

/-- At or after the last alpha stop, and not before the first, `GetAlpha` returns the last
stop's alpha. -/
theorem GetAlpha_after_last (s : ImGradientHDRState) (x : ℚ) (a0 an : AlphaMarker)
    (hcount : s.AlphaCount ≠ 0) (h0 : s.Alphas[0]? = some a0)
    (hn : s.Alphas[s.AlphaCount - 1]? = some an) (hx0 : ¬ x < a0.Position)
    (hx : an.Position ≤ x) : GetAlpha s x = .ok an.Alpha := by
  simp only [GetAlpha, hcount, if_false, readAt_of_some _ _ _ h0, hx0,
    readAt_of_some _ _ _ hn, hx, if_true]

/-- Between the first and the last alpha stop of a sorted live range `GetAlpha` blends the
two stops around `x`. -/
theorem GetAlpha_between (s : ImGradientHDRState) (x : ℚ) (a0 an : AlphaMarker)
    (hc : s.AlphaCount ≤ s.Alphas.length)
    (hs : SortedByPosition AlphaMarker.Position (live s.Alphas s.AlphaCount))
    (hcount : s.AlphaCount ≠ 0) (h0 : s.Alphas[0]? = some a0)
    (hn : s.Alphas[s.AlphaCount - 1]? = some an) (hx0 : ¬ x < a0.Position)
    (hxn : ¬ an.Position ≤ x) :
    ∃ (i : Nat) (lo hi : AlphaMarker),
      lowerStop AlphaMarker.Position (live s.Alphas s.AlphaCount) x = some i ∧
      i + 1 < s.AlphaCount ∧
      (live s.Alphas s.AlphaCount)[i]? = some lo ∧
      (live s.Alphas s.AlphaCount)[i + 1]? = some hi ∧
      lo.Position ≤ x ∧ x ≤ hi.Position ∧
      GetAlpha s x = .ok (interpolate lo.Position hi.Position lo.Alpha hi.Alpha x) := by
  obtain ⟨it, i, c, lo, hi, b1, b2, b3, b4, b5, b6, b7, b8, b9, b10, b11⟩ :=
    bracket_search AlphaMarker.Position s.Alphas s.AlphaCount x a0 an hc hs h0 hn
      (Nat.pos_of_ne_zero hcount) hx0 hxn
  refine ⟨i, lo, hi, b11, b6, b7, b8, b9, b10, ?_⟩
  simp only [GetAlpha, hcount, if_false, readAt_of_some _ _ _ h0, hx0,
    readAt_of_some _ _ _ hn, hxn, b1, b2, b3, b4, b5, b9, b10, if_true]
  by_cases he : lo.Position = hi.Position
  · have : hi.Position - lo.Position = 0 := by rw [he]; ring
    rw [if_pos this]
    simp only [interpolate, if_pos he]
  · have : hi.Position - lo.Position ≠ 0 := fun h => he (by linarith)
    simp only [this, if_false, divide, interpolate, he, blend]

/-- Before the first colour stop `GetColorAndIntensity` returns the first stop's values. -/
theorem GetColorAndIntensity_before_first (s : ImGradientHDRState) (x : ℚ) (c0 : ColorMarker)
    (hcount : s.ColorCount ≠ 0) (h0 : s.Colors[0]? = some c0) (hx : x < c0.Position) :
    GetColorAndIntensity s x = .ok (c0.Color.1, c0.Color.2.1, c0.Color.2.2, c0.Intensity) := by
  simp only [GetColorAndIntensity, hcount, if_false, readAt_of_some _ _ _ h0, hx, if_true]

/-- At or after the last colour stop, and not before the first, `GetColorAndIntensity`
returns the last stop's values. -/
theorem GetColorAndIntensity_after_last (s : ImGradientHDRState) (x : ℚ) (c0 cn : ColorMarker)
    (hcount : s.ColorCount ≠ 0) (h0 : s.Colors[0]? = some c0)
    (hn : s.Colors[s.ColorCount - 1]? = some cn) (hx0 : ¬ x < c0.Position)
    (hx : cn.Position ≤ x) :
    GetColorAndIntensity s x = .ok (cn.Color.1, cn.Color.2.1, cn.Color.2.2, cn.Intensity) := by
  simp only [GetColorAndIntensity, hcount, if_false, readAt_of_some _ _ _ h0, hx0,
    readAt_of_some _ _ _ hn, hx, if_true]

/-- Between the first and the last colour stop of a sorted live range
`GetColorAndIntensity` blends the two stops around `x`. -/
theorem GetColorAndIntensity_between (s : ImGradientHDRState) (x : ℚ) (c0 cn : ColorMarker)
    (hc : s.ColorCount ≤ s.Colors.length)
    (hs : SortedByPosition ColorMarker.Position (live s.Colors s.ColorCount))
    (hcount : s.ColorCount ≠ 0) (h0 : s.Colors[0]? = some c0)
    (hn : s.Colors[s.ColorCount - 1]? = some cn) (hx0 : ¬ x < c0.Position)
    (hxn : ¬ cn.Position ≤ x) :
    ∃ (i : Nat) (lo hi : ColorMarker),
      lowerStop ColorMarker.Position (live s.Colors s.ColorCount) x = some i ∧
      i + 1 < s.ColorCount ∧
      (live s.Colors s.ColorCount)[i]? = some lo ∧
      (live s.Colors s.ColorCount)[i + 1]? = some hi ∧
      lo.Position ≤ x ∧ x ≤ hi.Position ∧
      GetColorAndIntensity s x =
        .ok (interpolate lo.Position hi.Position lo.Color.1 hi.Color.1 x,
             interpolate lo.Position hi.Position lo.Color.2.1 hi.Color.2.1 x,
             interpolate lo.Position hi.Position lo.Color.2.2 hi.Color.2.2 x,
             interpolate lo.Position hi.Position lo.Intensity hi.Intensity x) := by
  obtain ⟨it, i, c, lo, hi, b1, b2, b3, b4, b5, b6, b7, b8, b9, b10, b11⟩ :=
    bracket_search ColorMarker.Position s.Colors s.ColorCount x c0 cn hc hs h0 hn
      (Nat.pos_of_ne_zero hcount) hx0 hxn
  refine ⟨i, lo, hi, b11, b6, b7, b8, b9, b10, ?_⟩
  simp only [GetColorAndIntensity, hcount, if_false, readAt_of_some _ _ _ h0, hx0,
    readAt_of_some _ _ _ hn, hxn, b1, b2, b3, b4, b5, b9, b10, if_true]
  by_cases he : lo.Position = hi.Position
  · have : hi.Position - lo.Position = 0 := by rw [he]; ring
    rw [if_pos this]
    simp only [interpolate, if_pos he]
  · have : hi.Position - lo.Position ≠ 0 := fun h => he (by linarith)
    simp only [this, if_false, divide, interpolate, he, blend]

/-- Claim C2. On a store whose live colour stops are sorted by `Position` (and fit the
array), for every `x` with `Colors[0].Position <= x < Colors[ColorCount-1].Position`,
`GetColorAndIntensity(x)` returns, on each of `r`, `g`, `b` and intensity,
`hi * t + lo * (1 - t)` with `t = (x - lo.Position) / (hi.Position - lo.Position)`, where
`lo` is the first live stop with `Position == x` if one exists and otherwise the last
live stop with `Position < x`, and `hi` is the stop right after `lo`; when `lo` and `hi`
share the same `Position` the result is `lo`'s values. `GetAlpha(x)` is the same formula
over the alpha stops. -/
theorem interpolation_between_stops (s : ImGradientHDRState) (x : ℚ)
    (c0 cn : ColorMarker) (a0 an : AlphaMarker) :
    (s.ColorCount ≠ 0 → s.ColorCount ≤ s.Colors.length →
      SortedByPosition ColorMarker.Position (live s.Colors s.ColorCount) →
      s.Colors[0]? = some c0 → s.Colors[s.ColorCount - 1]? = some cn →
      c0.Position ≤ x → x < cn.Position →
      ∃ (i : Nat) (lo hi : ColorMarker),
        lowerStop ColorMarker.Position (live s.Colors s.ColorCount) x = some i ∧
        (live s.Colors s.ColorCount)[i]? = some lo ∧
        (live s.Colors s.ColorCount)[i + 1]? = some hi ∧
        GetColorAndIntensity s x =
          .ok (interpolate lo.Position hi.Position lo.Color.1 hi.Color.1 x,
               interpolate lo.Position hi.Position lo.Color.2.1 hi.Color.2.1 x,
               interpolate lo.Position hi.Position lo.Color.2.2 hi.Color.2.2 x,
               interpolate lo.Position hi.Position lo.Intensity hi.Intensity x))
    ∧
    (s.AlphaCount ≠ 0 → s.AlphaCount ≤ s.Alphas.length →
      SortedByPosition AlphaMarker.Position (live s.Alphas s.AlphaCount) →
      s.Alphas[0]? = some a0 → s.Alphas[s.AlphaCount - 1]? = some an →
      a0.Position ≤ x → x < an.Position →
      ∃ (i : Nat) (lo hi : AlphaMarker),
        lowerStop AlphaMarker.Position (live s.Alphas s.AlphaCount) x = some i ∧
        (live s.Alphas s.AlphaCount)[i]? = some lo ∧
        (live s.Alphas s.AlphaCount)[i + 1]? = some hi ∧
        GetAlpha s x = .ok (interpolate lo.Position hi.Position lo.Alpha hi.Alpha x)) := by
  constructor
  · intro hcount hc hs h0 hn hx0 hxn
    obtain ⟨i, lo, hi, h1, _, h3, h4, _, _, h7⟩ :=
      GetColorAndIntensity_between s x c0 cn hc hs hcount h0 hn (not_lt.mpr hx0)
        (not_le.mpr hxn)
    exact ⟨i, lo, hi, h1, h3, h4, h7⟩
  · intro hcount hc hs h0 hn hx0 hxn
    obtain ⟨i, lo, hi, h1, _, h3, h4, _, _, h7⟩ :=
      GetAlpha_between s x a0 an hc hs hcount h0 hn (not_lt.mpr hx0) (not_le.mpr hxn)
    exact ⟨i, lo, hi, h1, h3, h4, h7⟩

/-- Witness of C2: with colour stops black at `0` and white at `1` (intensity `1`) the
value at `x = 1/2` is `(1/2, 1/2, 1/2, 1)`; with alpha stops `1` at `0.2` and `0` at `0.8`
the alpha at `x = 1/2` is `1/2`. -/
theorem interpolation_between_stops_witness :
    GetColorAndIntensity exampleStore (1 / 2) = .ok (1 / 2, 1 / 2, 1 / 2, 1) ∧
    GetAlpha exampleStore (1 / 2) = .ok (1 / 2) := by
  have h := interpolation_between_stops exampleStore (1 / 2) ⟨0, (0, 0, 0), 1⟩
    ⟨1, (1, 1, 1), 1⟩ ⟨1 / 5, 1⟩ ⟨4 / 5, 0⟩
  constructor
  · obtain ⟨i, lo, hi, h1, h2, h3, h4⟩ := h.1 (by decide) (by decide)
      exampleStore_colors_sorted rfl rfl (by norm_num) (by norm_num)
    have hi0 : i = 0 := by
      have : lowerStop ColorMarker.Position (live exampleStore.Colors exampleStore.ColorCount)
          (1 / 2) = some 0 := by
        norm_num [lowerStop, firstStopAt, lastStopBelow, live, exampleStore, List.findIdx_cons]
      rw [this] at h1
      exact (Option.some.inj h1).symm
    subst hi0
    have hlo : lo = ⟨0, (0, 0, 0), 1⟩ := by
      simpa [live, exampleStore] using h2.symm
    have hhi : hi = ⟨1, (1, 1, 1), 1⟩ := by
      simpa [live, exampleStore] using h3.symm
    rw [h4, hlo, hhi]
    norm_num [interpolate]
  · obtain ⟨i, lo, hi, h1, h2, h3, h4⟩ := h.2 (by decide) (by decide)
      exampleStore_alphas_sorted rfl rfl (by norm_num) (by norm_num)
    have hi0 : i = 0 := by
      have : lowerStop AlphaMarker.Position (live exampleStore.Alphas exampleStore.AlphaCount)
          (1 / 2) = some 0 := by
        norm_num [lowerStop, firstStopAt, lastStopBelow, live, exampleStore, List.findIdx_cons]
      rw [this] at h1
      exact (Option.some.inj h1).symm
    subst hi0
    have hlo : lo = ⟨1 / 5, 1⟩ := by
      simpa [live, exampleStore] using h2.symm
    have hhi : hi = ⟨4 / 5, 0⟩ := by
      simpa [live, exampleStore] using h3.symm
    rw [h4, hlo, hhi]
    norm_num [interpolate]

/-- In a sorted live range the first stop is not after the last one. -/
theorem first_le_last {T : Type} (pos : T → ℚ) (a : List T) (count : Nat) (c0 cn : T)
    (hc : count ≤ a.length) (hs : SortedByPosition pos (live a count))
    (h0 : a[0]? = some c0) (hn : a[count - 1]? = some cn) (hcount : count ≠ 0) :
    pos c0 ≤ pos cn := by
  have hll := live_length a count hc
  have e0 : (live a count)[0]? = some c0 := by
    simp only [live, List.getElem?_take, Nat.pos_of_ne_zero hcount, if_true, h0]
  have en : (live a count)[count - 1]? = some cn := by
    have : count - 1 < count := by omega
    simp only [live, List.getElem?_take, this, if_true, hn]
  obtain ⟨k0, g0⟩ := List.getElem?_eq_some.mp e0
  obtain ⟨kn, gn⟩ := List.getElem?_eq_some.mp en
  rcases Nat.eq_zero_or_pos (count - 1) with hz | hp
  · have : c0 = cn := by
      rw [← g0, ← gn]
      simp only [hz]
    rw [this]
  · have := (List.pairwise_iff_getElem.mp hs) 0 (count - 1) k0 kn hp
    rw [g0, gn] at this
    exact this

/-- Counterexample to C4 as stated: in `swappedStore` the live alpha stops are at
`0.8` (alpha `1`) and `0.2` (alpha `0`), in this order. At `x = 1/2` the last stop's
`Position` `0.2` is `<= x`, yet `GetAlpha(1/2)` is `1`, the alpha of the first stop, and
not `0`, the alpha of the last stop: the test `x < Alphas[0].Position` comes first. -/
theorem GetAlpha_last_stop_counterexample :
    swappedStore.AlphaCount = 2 ∧
    swappedStore.Alphas[swappedStore.AlphaCount - 1]? = some ⟨1 / 5, 0⟩ ∧
    (⟨1 / 5, 0⟩ : AlphaMarker).Position ≤ 1 / 2 ∧
    GetAlpha swappedStore (1 / 2) = .ok 1 ∧
    GetAlpha swappedStore (1 / 2) ≠ .ok (⟨1 / 5, 0⟩ : AlphaMarker).Alpha := by
  have hval : GetAlpha swappedStore (1 / 2) = .ok 1 := by
    norm_num [GetAlpha, swappedStore, swappedAlphas, exampleStore, readAt]
  refine ⟨rfl, rfl, by norm_num, hval, ?_⟩
  rw [hval]
  intro h
  injection h with h1
  norm_num at h1

/-- Claim C4, amended. For every store with at least one live alpha stop (inside the
array) and every `x`: if `x < Alphas[0].Position` then `GetAlpha(x)` is exactly
`Alphas[0].Alpha`; if `Alphas[AlphaCount-1].Position <= x` and `x` is not before the first
stop -- which is always so when the live alpha stops are sorted -- then `GetAlpha(x)` is
exactly `Alphas[AlphaCount-1].Alpha`. Likewise `GetColorAndIntensity(x)` returns the first
colour stop's `(r, g, b, intensity)` before the first stop and the last colour stop's at
or after the last stop. -/
theorem flat_extrapolation (s : ImGradientHDRState) (x : ℚ) :
    (s.AlphaCount ≠ 0 → s.AlphaCount ≤ s.Alphas.length →
      ∃ a0 an, s.Alphas[0]? = some a0 ∧ s.Alphas[s.AlphaCount - 1]? = some an ∧
        (x < a0.Position → GetAlpha s x = .ok a0.Alpha) ∧
        (¬ x < a0.Position → an.Position ≤ x → GetAlpha s x = .ok an.Alpha) ∧
        (SortedByPosition AlphaMarker.Position (live s.Alphas s.AlphaCount) →
          an.Position ≤ x → GetAlpha s x = .ok an.Alpha))
    ∧
    (s.ColorCount ≠ 0 → s.ColorCount ≤ s.Colors.length →
      ∃ c0 cn, s.Colors[0]? = some c0 ∧ s.Colors[s.ColorCount - 1]? = some cn ∧
        (x < c0.Position →
          GetColorAndIntensity s x =
            .ok (c0.Color.1, c0.Color.2.1, c0.Color.2.2, c0.Intensity)) ∧
        (¬ x < c0.Position → cn.Position ≤ x →
          GetColorAndIntensity s x =
            .ok (cn.Color.1, cn.Color.2.1, cn.Color.2.2, cn.Intensity)) ∧
        (SortedByPosition ColorMarker.Position (live s.Colors s.ColorCount) →
          cn.Position ≤ x →
          GetColorAndIntensity s x =
            .ok (cn.Color.1, cn.Color.2.1, cn.Color.2.2, cn.Intensity))) := by
  constructor
  · intro hcount hc
    have h0 : s.Alphas[0]? = some (s.Alphas.get ⟨0, by omega⟩) :=
      List.getElem?_eq_getElem (by omega)
    have hn : s.Alphas[s.AlphaCount - 1]? = some (s.Alphas.get ⟨s.AlphaCount - 1, by omega⟩) :=
      List.getElem?_eq_getElem (by omega)
    refine ⟨_, _, h0, hn, ?_, ?_, ?_⟩
    · exact fun hx => GetAlpha_before_first s x _ hcount h0 hx
    · exact fun hx0 hx => GetAlpha_after_last s x _ _ hcount h0 hn hx0 hx
    · intro hs hx
      have hle := first_le_last AlphaMarker.Position s.Alphas s.AlphaCount _ _ hc hs h0 hn hcount
      exact GetAlpha_after_last s x _ _ hcount h0 hn (not_lt.mpr (le_trans hle hx)) hx
  · intro hcount hc
    have h0 : s.Colors[0]? = some (s.Colors.get ⟨0, by omega⟩) :=
      List.getElem?_eq_getElem (by omega)
    have hn : s.Colors[s.ColorCount - 1]? = some (s.Colors.get ⟨s.ColorCount - 1, by omega⟩) :=
      List.getElem?_eq_getElem (by omega)
    refine ⟨_, _, h0, hn, ?_, ?_, ?_⟩
    · exact fun hx => GetColorAndIntensity_before_first s x _ hcount h0 hx
    · exact fun hx0 hx => GetColorAndIntensity_after_last s x _ _ hcount h0 hn hx0 hx
    · intro hs hx
      have hle := first_le_last ColorMarker.Position s.Colors s.ColorCount _ _ hc hs h0 hn hcount
      exact GetColorAndIntensity_after_last s x _ _ hcount h0 hn
        (not_lt.mpr (le_trans hle hx)) hx

/-- Witness of C4 (amended): with alpha stops at `0.2` and `0.8`, `GetAlpha(0)` is the
alpha of stop `0` and `GetAlpha(1)` the alpha of stop `1`; with colour stops at `0` and
`1`, `GetColorAndIntensity(-1)` is black and `GetColorAndIntensity(1)` is white. -/
theorem flat_extrapolation_witness :
    GetAlpha exampleStore 0 = .ok 1 ∧ GetAlpha exampleStore 1 = .ok 0 ∧
    GetColorAndIntensity exampleStore (-1) = .ok (0, 0, 0, 1) ∧
    GetColorAndIntensity exampleStore 1 = .ok (1, 1, 1, 1) := by
  obtain ⟨a0, an, h0, hn, hfirst, _, hlast⟩ :=
    (flat_extrapolation exampleStore 0).1 (by decide) (by decide)
  obtain ⟨a0', an', h0', hn', _, _, hlast'⟩ :=
    (flat_extrapolation exampleStore 1).1 (by decide) (by decide)
  obtain ⟨c0, cn, k0, kn, kfirst, _, _⟩ :=
    (flat_extrapolation exampleStore (-1)).2 (by decide) (by decide)
  obtain ⟨c0', cn', k0', kn', _, _, klast'⟩ :=
    (flat_extrapolation exampleStore 1).2 (by decide) (by decide)
  have e0 : a0 = ⟨1 / 5, 1⟩ := by simpa [exampleStore] using h0.symm
  have en' : an' = ⟨4 / 5, 0⟩ := by simpa [exampleStore] using hn'.symm
  have f0 : c0 = ⟨0, (0, 0, 0), 1⟩ := by simpa [exampleStore] using k0.symm
  have fn' : cn' = ⟨1, (1, 1, 1), 1⟩ := by simpa [exampleStore] using kn'.symm
  subst e0 en' f0 fn'
  exact ⟨hfirst (by norm_num), hlast' exampleStore_alphas_sorted (by norm_num),
    kfirst (by norm_num), klast' exampleStore_colors_sorted (by norm_num)⟩

theorem live_live {T : Type} (a : List T) (count : Nat) :
    live (live a count) count = live a count := by
  simp [live, List.take_take]

/-- On a sorted live range `GetAlpha` returns a value, and returns the same value when the
array is cut down to its live range, where any read at an index `>= AlphaCount` would be
a fault. -/
theorem GetAlpha_on_live_range (s : ImGradientHDRState) (x : ℚ)
    (hc : s.AlphaCount ≤ s.Alphas.length)
    (hs : SortedByPosition AlphaMarker.Position (live s.Alphas s.AlphaCount)) :
    ∃ v, GetAlpha s x = .ok v ∧
      GetAlpha { s with Alphas := live s.Alphas s.AlphaCount } x = .ok v := by
  by_cases hcount : s.AlphaCount = 0
  · exact ⟨1, by simp only [GetAlpha, hcount, if_true], by simp only [GetAlpha, hcount, if_true]⟩
  · have h0 : s.Alphas[0]? = some (s.Alphas.get ⟨0, by omega⟩) :=
      List.getElem?_eq_getElem (by omega)
    have hn : s.Alphas[s.AlphaCount - 1]? = some (s.Alphas.get ⟨s.AlphaCount - 1, by omega⟩) :=
      List.getElem?_eq_getElem (by omega)
    have h0' : ({ s with Alphas := live s.Alphas s.AlphaCount } : ImGradientHDRState).Alphas[0]?
        = some (s.Alphas.get ⟨0, by omega⟩) := by
      show (live s.Alphas s.AlphaCount)[0]? = _
      rw [live_getElem_opt _ _ _ (by omega), h0]
    have hn' : ({ s with Alphas := live s.Alphas s.AlphaCount } :
        ImGradientHDRState).Alphas[s.AlphaCount - 1]?
        = some (s.Alphas.get ⟨s.AlphaCount - 1, by omega⟩) := by
      show (live s.Alphas s.AlphaCount)[s.AlphaCount - 1]? = _
      rw [live_getElem_opt _ _ _ (by omega), hn]
    by_cases hx0 : x < (s.Alphas.get ⟨0, by omega⟩).Position
    · exact ⟨_, GetAlpha_before_first s x _ hcount h0 hx0,
        GetAlpha_before_first _ x _ hcount h0' hx0⟩
    · by_cases hxn : (s.Alphas.get ⟨s.AlphaCount - 1, by omega⟩).Position ≤ x
      · exact ⟨_, GetAlpha_after_last s x _ _ hcount h0 hn hx0 hxn,
          GetAlpha_after_last _ x _ _ hcount h0' hn' hx0 hxn⟩
      · obtain ⟨i, lo, hi, p1, _, p3, p4, _, _, p7⟩ :=
          GetAlpha_between s x _ _ hc hs hcount h0 hn hx0 hxn
        obtain ⟨j, lo1, hi1, q1, _, q3, q4, _, _, q7⟩ :=
          GetAlpha_between { s with Alphas := live s.Alphas s.AlphaCount } x _ _
            (by show s.AlphaCount ≤ (live s.Alphas s.AlphaCount).length
                rw [live_length _ _ hc])
            (by show SortedByPosition AlphaMarker.Position
                  (live (live s.Alphas s.AlphaCount) s.AlphaCount)
                rw [live_live]; exact hs)
            hcount h0' hn' hx0 hxn
        have q1' : lowerStop AlphaMarker.Position (live s.Alphas s.AlphaCount) x = some j := by
          have := q1
          simp only [live_live] at this
          exact this
        have q3' : (live s.Alphas s.AlphaCount)[j]? = some lo1 := by
          have := q3
          simp only [live_live] at this
          exact this
        have q4' : (live s.Alphas s.AlphaCount)[j + 1]? = some hi1 := by
          have := q4
          simp only [live_live] at this
          exact this
        have hij : i = j := Option.some.inj (p1.symm.trans q1')
        subst hij
        have hlo : lo = lo1 := Option.some.inj (p3.symm.trans q3')
        have hhi : hi = hi1 := Option.some.inj (p4.symm.trans q4')
        subst hlo hhi
        exact ⟨_, p7, q7⟩

/-- On a sorted live range `GetColorAndIntensity` returns a value, and returns the same
value when the array is cut down to its live range, where any read at an index
`>= ColorCount` would be a fault. -/
theorem GetColorAndIntensity_on_live_range (s : ImGradientHDRState) (x : ℚ)
    (hc : s.ColorCount ≤ s.Colors.length)
    (hs : SortedByPosition ColorMarker.Position (live s.Colors s.ColorCount)) :
    ∃ v, GetColorAndIntensity s x = .ok v ∧
      GetColorAndIntensity { s with Colors := live s.Colors s.ColorCount } x = .ok v := by
  by_cases hcount : s.ColorCount = 0
  · exact ⟨(1, 1, 1, 1), by simp only [GetColorAndIntensity, hcount, if_true],
      by simp only [GetColorAndIntensity, hcount, if_true]⟩
  · have h0 : s.Colors[0]? = some (s.Colors.get ⟨0, by omega⟩) :=
      List.getElem?_eq_getElem (by omega)
    have hn : s.Colors[s.ColorCount - 1]? = some (s.Colors.get ⟨s.ColorCount - 1, by omega⟩) :=
      List.getElem?_eq_getElem (by omega)
    have h0' : ({ s with Colors := live s.Colors s.ColorCount } : ImGradientHDRState).Colors[0]?
        = some (s.Colors.get ⟨0, by omega⟩) := by
      show (live s.Colors s.ColorCount)[0]? = _
      rw [live_getElem_opt _ _ _ (by omega), h0]
    have hn' : ({ s with Colors := live s.Colors s.ColorCount } :
        ImGradientHDRState).Colors[s.ColorCount - 1]?
        = some (s.Colors.get ⟨s.ColorCount - 1, by omega⟩) := by
      show (live s.Colors s.ColorCount)[s.ColorCount - 1]? = _
      rw [live_getElem_opt _ _ _ (by omega), hn]
    by_cases hx0 : x < (s.Colors.get ⟨0, by omega⟩).Position
    · exact ⟨_, GetColorAndIntensity_before_first s x _ hcount h0 hx0,
        GetColorAndIntensity_before_first _ x _ hcount h0' hx0⟩
    · by_cases hxn : (s.Colors.get ⟨s.ColorCount - 1, by omega⟩).Position ≤ x
      · exact ⟨_, GetColorAndIntensity_after_last s x _ _ hcount h0 hn hx0 hxn,
          GetColorAndIntensity_after_last _ x _ _ hcount h0' hn' hx0 hxn⟩
      · obtain ⟨i, lo, hi, p1, _, p3, p4, _, _, p7⟩ :=
          GetColorAndIntensity_between s x _ _ hc hs hcount h0 hn hx0 hxn
        obtain ⟨j, lo1, hi1, q1, _, q3, q4, _, _, q7⟩ :=
          GetColorAndIntensity_between { s with Colors := live s.Colors s.ColorCount } x _ _
            (by show s.ColorCount ≤ (live s.Colors s.ColorCount).length
                rw [live_length _ _ hc])
            (by show SortedByPosition ColorMarker.Position
                  (live (live s.Colors s.ColorCount) s.ColorCount)
                rw [live_live]; exact hs)
            hcount h0' hn' hx0 hxn
        have q1' : lowerStop ColorMarker.Position (live s.Colors s.ColorCount) x = some j := by
          have := q1
          simp only [live_live] at this
          exact this
        have q3' : (live s.Colors s.ColorCount)[j]? = some lo1 := by
          have := q3
          simp only [live_live] at this
          exact this
        have q4' : (live s.Colors s.ColorCount)[j + 1]? = some hi1 := by
          have := q4
          simp only [live_live] at this
          exact this
        have hij : i = j := Option.some.inj (p1.symm.trans q1')
        subst hij
        have hlo : lo = lo1 := Option.some.inj (p3.symm.trans q3')
        have hhi : hi = hi1 := Option.some.inj (p4.symm.trans q4')
        subst hlo hhi
        exact ⟨_, p7, q7⟩

theorem notEq_iff (p q : WithNaN.FloatVal) (hp : p ≠ .nan) (hq : q ≠ .nan) :
    WithNaN.notEq p q = true ↔ p.toRat ≠ q.toRat := by
  cases p <;> cases q <;> simp [WithNaN.notEq, WithNaN.FloatVal.toRat] at hp hq ⊢

theorem num_ne_nan (x : ℚ) : WithNaN.FloatVal.num x ≠ .nan := by simp

theorem toRat_num (x : ℚ) : (WithNaN.FloatVal.num x).toRat = x := rfl

theorem mem_live_of_getElem {T : Type} (a : List T) (count i : Nat) (m : T)
    (h : (live a count)[i]? = some m) : m ∈ live a count :=
  List.mem_iff_getElem?.mpr ⟨i, h⟩

/-- Before the first alpha stop `GetAlpha` on `float` values returns the first stop's
alpha. -/
theorem GetAlpha_float_before_first (s : WithNaN.ImGradientHDRState) (x : ℚ)
    (a0 : WithNaN.AlphaMarker) (hcount : s.AlphaCount ≠ 0) (h0 : s.Alphas[0]? = some a0)
    (hn0 : a0.Position ≠ .nan) (hx : x < a0.Position.toRat) :
    WithNaN.GetAlpha s (.num x) = .ok a0.Alpha := by
  have t1 : WithNaN.less (.num x) a0.Position = true :=
    (less_iff _ _).mpr ⟨num_ne_nan x, hn0, hx⟩
  simp only [WithNaN.GetAlpha, hcount, if_false, readAt_of_some _ _ _ h0, t1, if_true]

/-- At or after the last alpha stop, and not before the first, `GetAlpha` on `float`
values returns the last stop's alpha. -/
theorem GetAlpha_float_after_last (s : WithNaN.ImGradientHDRState) (x : ℚ)
    (a0 an : WithNaN.AlphaMarker) (hcount : s.AlphaCount ≠ 0) (h0 : s.Alphas[0]? = some a0)
    (hn : s.Alphas[s.AlphaCount - 1]? = some an) (hnn : an.Position ≠ .nan)
    (hx0 : ¬ x < a0.Position.toRat) (hx : an.Position.toRat ≤ x) :
    WithNaN.GetAlpha s (.num x) = .ok an.Alpha := by
  have t1 : WithNaN.less (.num x) a0.Position = false :=
    Bool.eq_false_iff.mpr (fun h => hx0 ((less_iff _ _).mp h).2.2)
  have t2 : WithNaN.lessEq an.Position (.num x) = true :=
    (lessEq_iff _ _).mpr ⟨hnn, num_ne_nan x, hx⟩
  simp only [WithNaN.GetAlpha, hcount, if_false, readAt_of_some _ _ _ h0, t1,
    readAt_of_some _ _ _ hn, t2, if_true, Bool.false_eq_true]

/-- Between the first and the last alpha stop of a sorted live range without NaN position,
`GetAlpha` on `float` values finds the two stops around `x` inside the live range, the
bracket test succeeds, and it returns the lower stop's alpha when the two positions are
equal and the blend otherwise. -/
theorem GetAlpha_float_between (s : WithNaN.ImGradientHDRState) (x : ℚ)
    (a0 an : WithNaN.AlphaMarker) (hc : s.AlphaCount ≤ s.Alphas.length)
    (hnum : ∀ m ∈ live s.Alphas s.AlphaCount, m.Position ≠ .nan)
    (hs : SortedByPosition (fun m : WithNaN.AlphaMarker => m.Position.toRat)
      (live s.Alphas s.AlphaCount))
    (hcount : s.AlphaCount ≠ 0) (h0 : s.Alphas[0]? = some a0)
    (hn : s.Alphas[s.AlphaCount - 1]? = some an) (hx0 : ¬ x < a0.Position.toRat)
    (hxn : ¬ an.Position.toRat ≤ x) :
    ∃ (i : Nat) (lo hi : WithNaN.AlphaMarker),
      lowerStop (fun m : WithNaN.AlphaMarker => m.Position.toRat)
        (live s.Alphas s.AlphaCount) x = some i ∧
      i + 1 < s.AlphaCount ∧
      (live s.Alphas s.AlphaCount)[i]? = some lo ∧
      (live s.Alphas s.AlphaCount)[i + 1]? = some hi ∧
      WithNaN.lessEq lo.Position (.num x) = true ∧
      WithNaN.lessEq (.num x) hi.Position = true ∧
      WithNaN.GetAlpha s (.num x) =
        .ok (if WithNaN.equal (WithNaN.sub hi.Position lo.Position) (.num 0) = true
          then lo.Alpha
          else WithNaN.blend lo.Alpha hi.Alpha
            (.num ((x - lo.Position.toRat) / (hi.Position.toRat - lo.Position.toRat)))) := by
  obtain ⟨it, i, c, lo, hi, b1, b2, b3, b4, b5, b6, b7, b8, b9, b10, b11⟩ :=
    bracket_search (fun m : WithNaN.AlphaMarker => m.Position.toRat) s.Alphas s.AlphaCount x
      a0 an hc hs h0 hn (Nat.pos_of_ne_zero hcount) hx0 hxn
  have hn0 : a0.Position ≠ .nan :=
    hnum a0 ((mem_live_iff _ _ _).mpr ⟨0, Nat.pos_of_ne_zero hcount, h0⟩)
  have hnn : an.Position ≠ .nan :=
    hnum an ((mem_live_iff _ _ _).mpr ⟨s.AlphaCount - 1, by omega, hn⟩)
  have hlo : lo.Position ≠ .nan := hnum lo (mem_live_of_getElem _ _ i lo b7)
  have hhi : hi.Position ≠ .nan := hnum hi (mem_live_of_getElem _ _ (i + 1) hi b8)
  have hit : it < s.AlphaCount := by
    by_cases hne : c.Position.toRat ≠ x
    · rw [if_pos hne] at b3; omega
    · rw [if_neg hne] at b3; omega
  have hcm : s.Alphas[it]? = some c := by
    have hr : ¬ ((it : Int) < 0) := by omega
    simp only [readAtInt, hr, if_false, Int.toNat_ofNat, readAt] at b2
    cases h : s.Alphas[it]? with
    | none => rw [h] at b2; cases b2
    | some v => rw [h] at b2; cases b2; rfl
  have hcn : c.Position ≠ .nan := hnum c ((mem_live_iff _ _ _).mpr ⟨it, hit, hcm⟩)
  have t1 : WithNaN.less (.num x) a0.Position = false :=
    Bool.eq_false_iff.mpr (fun h => hx0 ((less_iff _ _).mp h).2.2)
  have t2 : WithNaN.lessEq an.Position (.num x) = false :=
    Bool.eq_false_iff.mpr (fun h => hxn ((lessEq_iff _ _).mp h).2.2)
  have t3 : WithNaN.lower_bound WithNaN.AlphaMarker.Position s.Alphas s.AlphaCount (.num x)
      = .ok it := by
    rw [lower_bound_live WithNaN.AlphaMarker.Position s.Alphas s.AlphaCount x hnum]
    exact b1
  have t4 : (if WithNaN.notEq c.Position (.num x) = true then (it : Int) - 1 else (it : Int))
      = (i : Int) := by
    rw [← b3]
    by_cases hne : c.Position.toRat ≠ x
    · rw [if_pos hne, if_pos ((notEq_iff _ _ hcn (num_ne_nan x)).mpr hne)]
    · rw [if_neg hne, if_neg (fun h => hne ((notEq_iff _ _ hcn (num_ne_nan x)).mp h))]
  have t5 : WithNaN.lessEq lo.Position (.num x) = true :=
    (lessEq_iff _ _).mpr ⟨hlo, num_ne_nan x, b9⟩
  have t6 : WithNaN.lessEq (.num x) hi.Position = true :=
    (lessEq_iff _ _).mpr ⟨num_ne_nan x, hhi, b10⟩
  refine ⟨i, lo, hi, b11, b6, b7, b8, t5, t6, ?_⟩
  simp only [WithNaN.GetAlpha, hcount, if_false, readAt_of_some _ _ _ h0, t1,
    readAt_of_some _ _ _ hn, t2, t3, b2, t4, b4, b5, t5, t6, if_true, Bool.false_eq_true]
  obtain ⟨pl, epl⟩ : ∃ q, lo.Position = .num q := ⟨_, (ne_nan_iff _).mp hlo⟩
  obtain ⟨ph, eph⟩ : ∃ q, hi.Position = .num q := ⟨_, (ne_nan_iff _).mp hhi⟩
  simp only [epl, eph, WithNaN.sub, WithNaN.equal, WithNaN.divide, WithNaN.FloatVal.toRat,
    decide_eq_true_eq]
  by_cases hd : ph - pl = 0
  · simp only [hd, if_true]
  · simp only [hd, if_false]

/-- On a sorted live range without NaN position, `GetAlpha` on `float` values returns a
value for every `x` that is a number, and returns the same value when the array is cut
down to its live range, where any read at an index `>= AlphaCount` would be a fault. -/
theorem GetAlpha_float_on_live_range (s : WithNaN.ImGradientHDRState) (x : ℚ)
    (hc : s.AlphaCount ≤ s.Alphas.length)
    (hnum : ∀ m ∈ live s.Alphas s.AlphaCount, m.Position ≠ .nan)
    (hs : SortedByPosition (fun m : WithNaN.AlphaMarker => m.Position.toRat)
      (live s.Alphas s.AlphaCount)) :
    ∃ v, WithNaN.GetAlpha s (.num x) = .ok v ∧
      WithNaN.GetAlpha { s with Alphas := live s.Alphas s.AlphaCount } (.num x) = .ok v := by
  by_cases hcount : s.AlphaCount = 0
  · exact ⟨.num 1, by simp only [WithNaN.GetAlpha, hcount, if_true],
      by simp only [WithNaN.GetAlpha, hcount, if_true]⟩
  · have h0 : s.Alphas[0]? = some (s.Alphas.get ⟨0, by omega⟩) :=
      List.getElem?_eq_getElem (by omega)
    have hn : s.Alphas[s.AlphaCount - 1]? = some (s.Alphas.get ⟨s.AlphaCount - 1, by omega⟩) :=
      List.getElem?_eq_getElem (by omega)
    have h0' : ({ s with Alphas := live s.Alphas s.AlphaCount } :
        WithNaN.ImGradientHDRState).Alphas[0]?
        = some (s.Alphas.get ⟨0, by omega⟩) := by
      show (live s.Alphas s.AlphaCount)[0]? = _
      rw [live_getElem_opt _ _ _ (by omega), h0]
    have hn' : ({ s with Alphas := live s.Alphas s.AlphaCount } :
        WithNaN.ImGradientHDRState).Alphas[s.AlphaCount - 1]?
        = some (s.Alphas.get ⟨s.AlphaCount - 1, by omega⟩) := by
      show (live s.Alphas s.AlphaCount)[s.AlphaCount - 1]? = _
      rw [live_getElem_opt _ _ _ (by omega), hn]
    have hn0 : (s.Alphas.get ⟨0, by omega⟩).Position ≠ .nan :=
      hnum _ ((mem_live_iff _ _ _).mpr ⟨0, by omega, h0⟩)
    have hnn : (s.Alphas.get ⟨s.AlphaCount - 1, by omega⟩).Position ≠ .nan :=
      hnum _ ((mem_live_iff _ _ _).mpr ⟨s.AlphaCount - 1, by omega, hn⟩)
    by_cases hx0 : x < (s.Alphas.get ⟨0, by omega⟩).Position.toRat
    · exact ⟨_, GetAlpha_float_before_first s x _ hcount h0 hn0 hx0,
        GetAlpha_float_before_first _ x _ hcount h0' hn0 hx0⟩
    · by_cases hxn : (s.Alphas.get ⟨s.AlphaCount - 1, by omega⟩).Position.toRat ≤ x
      · exact ⟨_, GetAlpha_float_after_last s x _ _ hcount h0 hn hnn hx0 hxn,
          GetAlpha_float_after_last _ x _ _ hcount h0' hn' hnn hx0 hxn⟩
      · obtain ⟨i, lo, hi, p1, _, p3, p4, _, _, p7⟩ :=
          GetAlpha_float_between s x _ _ hc hnum hs hcount h0 hn hx0 hxn
        obtain ⟨j, lo1, hi1, q1, _, q3, q4, _, _, q7⟩ :=
          GetAlpha_float_between { s with Alphas := live s.Alphas s.AlphaCount } x _ _
            (by show s.AlphaCount ≤ (live s.Alphas s.AlphaCount).length
                rw [live_length _ _ hc])
            (by show ∀ m ∈ live (live s.Alphas s.AlphaCount) s.AlphaCount, m.Position ≠ .nan
                rw [live_live]; exact hnum)
            (by show SortedByPosition (fun m : WithNaN.AlphaMarker => m.Position.toRat)
                  (live (live s.Alphas s.AlphaCount) s.AlphaCount)
                rw [live_live]; exact hs)
            hcount h0' hn' hx0 hxn
        have q1' : lowerStop (fun m : WithNaN.AlphaMarker => m.Position.toRat)
            (live s.Alphas s.AlphaCount) x = some j := by
          have := q1
          simp only [live_live] at this
          exact this
        have q3' : (live s.Alphas s.AlphaCount)[j]? = some lo1 := by
          have := q3
          simp only [live_live] at this
          exact this
        have q4' : (live s.Alphas s.AlphaCount)[j + 1]? = some hi1 := by
          have := q4
          simp only [live_live] at this
          exact this
        have hij : i = j := Option.some.inj (p1.symm.trans q1')
        subst hij
        have hlo : lo = lo1 := Option.some.inj (p3.symm.trans q3')
        have hhi : hi = hi1 := Option.some.inj (p4.symm.trans q4')
        subst hlo hhi
        exact ⟨_, p7, q7⟩

/-- Before the first colour stop `GetColorAndIntensity` on `float` values returns the first
stop's values. -/
theorem GetColorAndIntensity_float_before_first (s : WithNaN.ImGradientHDRState) (x : ℚ)
    (a0 : WithNaN.ColorMarker) (hcount : s.ColorCount ≠ 0) (h0 : s.Colors[0]? = some a0)
    (hn0 : a0.Position ≠ .nan) (hx : x < a0.Position.toRat) :
    WithNaN.GetColorAndIntensity s (.num x) = .ok (a0.Color.1, a0.Color.2.1, a0.Color.2.2, a0.Intensity) := by
  have t1 : WithNaN.less (.num x) a0.Position = true :=
    (less_iff _ _).mpr ⟨num_ne_nan x, hn0, hx⟩
  simp only [WithNaN.GetColorAndIntensity, hcount, if_false, readAt_of_some _ _ _ h0, t1, if_true]

/-- At or after the last colour stop, and not before the first, `GetColorAndIntensity` on
`float` values returns the last stop's values. -/
theorem GetColorAndIntensity_float_after_last (s : WithNaN.ImGradientHDRState) (x : ℚ)
    (a0 an : WithNaN.ColorMarker) (hcount : s.ColorCount ≠ 0) (h0 : s.Colors[0]? = some a0)
    (hn : s.Colors[s.ColorCount - 1]? = some an) (hnn : an.Position ≠ .nan)
    (hx0 : ¬ x < a0.Position.toRat) (hx : an.Position.toRat ≤ x) :
    WithNaN.GetColorAndIntensity s (.num x) = .ok (an.Color.1, an.Color.2.1, an.Color.2.2, an.Intensity) := by
  have t1 : WithNaN.less (.num x) a0.Position = false :=
    Bool.eq_false_iff.mpr (fun h => hx0 ((less_iff _ _).mp h).2.2)
  have t2 : WithNaN.lessEq an.Position (.num x) = true :=
    (lessEq_iff _ _).mpr ⟨hnn, num_ne_nan x, hx⟩
  simp only [WithNaN.GetColorAndIntensity, hcount, if_false, readAt_of_some _ _ _ h0, t1,
    readAt_of_some _ _ _ hn, t2, if_true, Bool.false_eq_true]

/-- Between the first and the last colour stop of a sorted live range without NaN position,
`GetColorAndIntensity` on `float` values finds the two stops around `x` inside the live
range, the bracket test succeeds, and it returns the lower stop's values when the two
positions are equal and the blend otherwise. -/
theorem GetColorAndIntensity_float_between (s : WithNaN.ImGradientHDRState) (x : ℚ)
    (a0 an : WithNaN.ColorMarker) (hc : s.ColorCount ≤ s.Colors.length)
    (hnum : ∀ m ∈ live s.Colors s.ColorCount, m.Position ≠ .nan)
    (hs : SortedByPosition (fun m : WithNaN.ColorMarker => m.Position.toRat)
      (live s.Colors s.ColorCount))
    (hcount : s.ColorCount ≠ 0) (h0 : s.Colors[0]? = some a0)
    (hn : s.Colors[s.ColorCount - 1]? = some an) (hx0 : ¬ x < a0.Position.toRat)
    (hxn : ¬ an.Position.toRat ≤ x) :
    ∃ (i : Nat) (lo hi : WithNaN.ColorMarker),
      lowerStop (fun m : WithNaN.ColorMarker => m.Position.toRat)
        (live s.Colors s.ColorCount) x = some i ∧
      i + 1 < s.ColorCount ∧
      (live s.Colors s.ColorCount)[i]? = some lo ∧
      (live s.Colors s.ColorCount)[i + 1]? = some hi ∧
      WithNaN.lessEq lo.Position (.num x) = true ∧
      WithNaN.lessEq (.num x) hi.Position = true ∧
      WithNaN.GetColorAndIntensity s (.num x) =
        .ok (if WithNaN.equal (WithNaN.sub hi.Position lo.Position) (.num 0) = true
          then (lo.Color.1, lo.Color.2.1, lo.Color.2.2, lo.Intensity)
          else
            (WithNaN.blend lo.Color.1 hi.Color.1
                (.num ((x - lo.Position.toRat) / (hi.Position.toRat - lo.Position.toRat))),
              WithNaN.blend lo.Color.2.1 hi.Color.2.1
                (.num ((x - lo.Position.toRat) / (hi.Position.toRat - lo.Position.toRat))),
              WithNaN.blend lo.Color.2.2 hi.Color.2.2
                (.num ((x - lo.Position.toRat) / (hi.Position.toRat - lo.Position.toRat))),
              WithNaN.blend lo.Intensity hi.Intensity
                (.num ((x - lo.Position.toRat) / (hi.Position.toRat - lo.Position.toRat))))) := by
  obtain ⟨it, i, c, lo, hi, b1, b2, b3, b4, b5, b6, b7, b8, b9, b10, b11⟩ :=
    bracket_search (fun m : WithNaN.ColorMarker => m.Position.toRat) s.Colors s.ColorCount x
      a0 an hc hs h0 hn (Nat.pos_of_ne_zero hcount) hx0 hxn
  have hn0 : a0.Position ≠ .nan :=
    hnum a0 ((mem_live_iff _ _ _).mpr ⟨0, Nat.pos_of_ne_zero hcount, h0⟩)
  have hnn : an.Position ≠ .nan :=
    hnum an ((mem_live_iff _ _ _).mpr ⟨s.ColorCount - 1, by omega, hn⟩)
  have hlo : lo.Position ≠ .nan := hnum lo (mem_live_of_getElem _ _ i lo b7)
  have hhi : hi.Position ≠ .nan := hnum hi (mem_live_of_getElem _ _ (i + 1) hi b8)
  have hit : it < s.ColorCount := by
    by_cases hne : c.Position.toRat ≠ x
    · rw [if_pos hne] at b3; omega
    · rw [if_neg hne] at b3; omega
  have hcm : s.Colors[it]? = some c := by
    have hr : ¬ ((it : Int) < 0) := by omega
    simp only [readAtInt, hr, if_false, Int.toNat_ofNat, readAt] at b2
    cases h : s.Colors[it]? with
    | none => rw [h] at b2; cases b2
    | some v => rw [h] at b2; cases b2; rfl
  have hcn : c.Position ≠ .nan := hnum c ((mem_live_iff _ _ _).mpr ⟨it, hit, hcm⟩)
  have t1 : WithNaN.less (.num x) a0.Position = false :=
    Bool.eq_false_iff.mpr (fun h => hx0 ((less_iff _ _).mp h).2.2)
  have t2 : WithNaN.lessEq an.Position (.num x) = false :=
    Bool.eq_false_iff.mpr (fun h => hxn ((lessEq_iff _ _).mp h).2.2)
  have t3 : WithNaN.lower_bound WithNaN.ColorMarker.Position s.Colors s.ColorCount (.num x)
      = .ok it := by
    rw [lower_bound_live WithNaN.ColorMarker.Position s.Colors s.ColorCount x hnum]
    exact b1
  have t4 : (if WithNaN.notEq c.Position (.num x) = true then (it : Int) - 1 else (it : Int))
      = (i : Int) := by
    rw [← b3]
    by_cases hne : c.Position.toRat ≠ x
    · rw [if_pos hne, if_pos ((notEq_iff _ _ hcn (num_ne_nan x)).mpr hne)]
    · rw [if_neg hne, if_neg (fun h => hne ((notEq_iff _ _ hcn (num_ne_nan x)).mp h))]
  have t5 : WithNaN.lessEq lo.Position (.num x) = true :=
    (lessEq_iff _ _).mpr ⟨hlo, num_ne_nan x, b9⟩
  have t6 : WithNaN.lessEq (.num x) hi.Position = true :=
    (lessEq_iff _ _).mpr ⟨num_ne_nan x, hhi, b10⟩
  refine ⟨i, lo, hi, b11, b6, b7, b8, t5, t6, ?_⟩
  simp only [WithNaN.GetColorAndIntensity, hcount, if_false, readAt_of_some _ _ _ h0, t1,
    readAt_of_some _ _ _ hn, t2, t3, b2, t4, b4, b5, t5, t6, if_true, Bool.false_eq_true]
  obtain ⟨pl, epl⟩ : ∃ q, lo.Position = .num q := ⟨_, (ne_nan_iff _).mp hlo⟩
  obtain ⟨ph, eph⟩ : ∃ q, hi.Position = .num q := ⟨_, (ne_nan_iff _).mp hhi⟩
  simp only [epl, eph, WithNaN.sub, WithNaN.equal, WithNaN.divide, WithNaN.FloatVal.toRat,
    decide_eq_true_eq]
  by_cases hd : ph - pl = 0
  · simp only [hd, if_true]
  · simp only [hd, if_false]

/-- On a sorted live range without NaN position, `GetColorAndIntensity` on `float` values
returns a value for every `x` that is a number, and returns the same value when the array
is cut down to its live range, where any read at an index `>= ColorCount` would be a
fault. -/
theorem GetColorAndIntensity_float_on_live_range (s : WithNaN.ImGradientHDRState) (x : ℚ)
    (hc : s.ColorCount ≤ s.Colors.length)
    (hnum : ∀ m ∈ live s.Colors s.ColorCount, m.Position ≠ .nan)
    (hs : SortedByPosition (fun m : WithNaN.ColorMarker => m.Position.toRat)
      (live s.Colors s.ColorCount)) :
    ∃ v, WithNaN.GetColorAndIntensity s (.num x) = .ok v ∧
      WithNaN.GetColorAndIntensity { s with Colors := live s.Colors s.ColorCount } (.num x) = .ok v := by
  by_cases hcount : s.ColorCount = 0
  · exact ⟨(.num 1, .num 1, .num 1, .num 1), by simp only [WithNaN.GetColorAndIntensity, hcount, if_true],
      by simp only [WithNaN.GetColorAndIntensity, hcount, if_true]⟩
  · have h0 : s.Colors[0]? = some (s.Colors.get ⟨0, by omega⟩) :=
      List.getElem?_eq_getElem (by omega)
    have hn : s.Colors[s.ColorCount - 1]? = some (s.Colors.get ⟨s.ColorCount - 1, by omega⟩) :=
      List.getElem?_eq_getElem (by omega)
    have h0' : ({ s with Colors := live s.Colors s.ColorCount } :
        WithNaN.ImGradientHDRState).Colors[0]?
        = some (s.Colors.get ⟨0, by omega⟩) := by
      show (live s.Colors s.ColorCount)[0]? = _
      rw [live_getElem_opt _ _ _ (by omega), h0]
    have hn' : ({ s with Colors := live s.Colors s.ColorCount } :
        WithNaN.ImGradientHDRState).Colors[s.ColorCount - 1]?
        = some (s.Colors.get ⟨s.ColorCount - 1, by omega⟩) := by
      show (live s.Colors s.ColorCount)[s.ColorCount - 1]? = _
      rw [live_getElem_opt _ _ _ (by omega), hn]
    have hn0 : (s.Colors.get ⟨0, by omega⟩).Position ≠ .nan :=
      hnum _ ((mem_live_iff _ _ _).mpr ⟨0, by omega, h0⟩)
    have hnn : (s.Colors.get ⟨s.ColorCount - 1, by omega⟩).Position ≠ .nan :=
      hnum _ ((mem_live_iff _ _ _).mpr ⟨s.ColorCount - 1, by omega, hn⟩)
    by_cases hx0 : x < (s.Colors.get ⟨0, by omega⟩).Position.toRat
    · exact ⟨_, GetColorAndIntensity_float_before_first s x _ hcount h0 hn0 hx0,
        GetColorAndIntensity_float_before_first _ x _ hcount h0' hn0 hx0⟩
    · by_cases hxn : (s.Colors.get ⟨s.ColorCount - 1, by omega⟩).Position.toRat ≤ x
      · exact ⟨_, GetColorAndIntensity_float_after_last s x _ _ hcount h0 hn hnn hx0 hxn,
          GetColorAndIntensity_float_after_last _ x _ _ hcount h0' hn' hnn hx0 hxn⟩
      · obtain ⟨i, lo, hi, p1, _, p3, p4, _, _, p7⟩ :=
          GetColorAndIntensity_float_between s x _ _ hc hnum hs hcount h0 hn hx0 hxn
        obtain ⟨j, lo1, hi1, q1, _, q3, q4, _, _, q7⟩ :=
          GetColorAndIntensity_float_between { s with Colors := live s.Colors s.ColorCount } x _ _
            (by show s.ColorCount ≤ (live s.Colors s.ColorCount).length
                rw [live_length _ _ hc])
            (by show ∀ m ∈ live (live s.Colors s.ColorCount) s.ColorCount, m.Position ≠ .nan
                rw [live_live]; exact hnum)
            (by show SortedByPosition (fun m : WithNaN.ColorMarker => m.Position.toRat)
                  (live (live s.Colors s.ColorCount) s.ColorCount)
                rw [live_live]; exact hs)
            hcount h0' hn' hx0 hxn
        have q1' : lowerStop (fun m : WithNaN.ColorMarker => m.Position.toRat)
            (live s.Colors s.ColorCount) x = some j := by
          have := q1
          simp only [live_live] at this
          exact this
        have q3' : (live s.Colors s.ColorCount)[j]? = some lo1 := by
          have := q3
          simp only [live_live] at this
          exact this
        have q4' : (live s.Colors s.ColorCount)[j + 1]? = some hi1 := by
          have := q4
          simp only [live_live] at this
          exact this
        have hij : i = j := Option.some.inj (p1.symm.trans q1')
        subst hij
        have hlo : lo = lo1 := Option.some.inj (p3.symm.trans q3')
        have hhi : hi = hi1 := Option.some.inj (p4.symm.trans q4')
        subst hlo hhi
        exact ⟨_, p7, q7⟩


theorem sorted_toRat {T : Type} (pos : T → WithNaN.FloatVal) (l : List T)
    (hs : l.Pairwise (fun m n => WithNaN.lessEq (pos m) (pos n) = true)) :
    SortedByPosition (fun m => (pos m).toRat) l :=
  List.Pairwise.imp (fun h => ((lessEq_iff _ _).mp h).2.2) hs

/-- Counterexample to C10 as stated, with a NaN. With `x` = NaN on `exampleStore`, whose
live stops are sorted ascending by `Position`: both range tests `x < first.Position` and
`last.Position <= x` are false, the lower-bound search returns offset 0 (no `Position` is
less than NaN), the stop there has `Position != x`, so `ind` becomes `-1`: `GetAlpha`
reads `Alphas[-1]` and `GetColorAndIntensity` reads `Colors[-1]`, an index outside
`[0, count)`. The same happens with `x = 0.5` on `nanStore`, whose single live alpha stop
(a sorted range) has the `Position` NaN. -/
theorem nan_argument_counterexample :
    WithNaN.StoreInvariant 4 (WithNaN.ofState exampleStore) ∧
    WithNaN.lower_bound WithNaN.AlphaMarker.Position (WithNaN.ofState exampleStore).Alphas
      (WithNaN.ofState exampleStore).AlphaCount .nan = .ok 0 ∧
    WithNaN.GetAlpha (WithNaN.ofState exampleStore) .nan = .error .outOfRange ∧
    WithNaN.GetColorAndIntensity (WithNaN.ofState exampleStore) .nan = .error .outOfRange ∧
    (live WithNaN.nanStore.Alphas WithNaN.nanStore.AlphaCount).Pairwise
      (fun m n => WithNaN.lessEq m.Position n.Position = true) ∧
    WithNaN.GetAlpha WithNaN.nanStore (.num (1 / 2)) = .error .outOfRange := by
  refine ⟨?_, ?_, ?_, ?_, ?_, ?_⟩
  · rw [storeInvariant_ofState]
    exact exampleStore_invariant
  · simp [WithNaN.ofState, exampleStore, readAt, WithNaN.ofAlphaMarker, WithNaN.less,
      WithNaN.lower_bound, WithNaN.lowerBoundLoop]
  · simp [WithNaN.GetAlpha, WithNaN.ofState, exampleStore, readAt, WithNaN.ofAlphaMarker,
      WithNaN.less, WithNaN.lessEq, WithNaN.lower_bound, WithNaN.lowerBoundLoop,
      WithNaN.notEq, readAtInt]
  · simp [WithNaN.GetColorAndIntensity, WithNaN.ofState, exampleStore, readAt,
      WithNaN.ofColorMarker, WithNaN.less, WithNaN.lessEq, WithNaN.lower_bound,
      WithNaN.lowerBoundLoop, WithNaN.notEq, readAtInt]
  · simp [live, WithNaN.nanStore]
  · simp [WithNaN.GetAlpha, WithNaN.nanStore, readAt, WithNaN.less, WithNaN.lessEq,
      WithNaN.lower_bound, WithNaN.lowerBoundLoop, WithNaN.notEq, readAtInt]

/-- Claim C10, amended. On a store whose live stops are sorted ascending by `Position`
(and fit the array) and have no NaN `Position`, for every `x` that is not NaN,
`GetColorAndIntensity(x)` and `GetAlpha(x)` return a value: the `assert(0)` branch is not
reached, no subscript leaves the array and no division by zero is made. They return the
same value when the array holds nothing but its live range, in which a read at any index
outside `[0, count)` would be a fault: every array access is at an index in `[0, count)`.
When the search is made (`x` not before the first stop and before the last one), the two
stops it reaches are live and satisfy the bracket test `lo.Position <= x <= hi.Position`,
and if they share the same `Position` the lower stop's values are returned. The first two
parts say it on numbers (`s`), the last two on `float` values (`f`): there the values of
the stops and the slots that are not live may be NaN. -/
theorem evaluation_is_safe (s : ImGradientHDRState) (f : WithNaN.ImGradientHDRState)
    (x : ℚ) :
    (s.ColorCount ≤ s.Colors.length →
      SortedByPosition ColorMarker.Position (live s.Colors s.ColorCount) →
      (∃ v, GetColorAndIntensity s x = .ok v ∧
        GetColorAndIntensity { s with Colors := live s.Colors s.ColorCount } x = .ok v) ∧
      (∀ c0 cn, s.ColorCount ≠ 0 → s.Colors[0]? = some c0 →
        s.Colors[s.ColorCount - 1]? = some cn → c0.Position ≤ x → x < cn.Position →
        ∃ (i : Nat) (lo hi : ColorMarker), i + 1 < s.ColorCount ∧
          s.Colors[i]? = some lo ∧ s.Colors[i + 1]? = some hi ∧
          lo.Position ≤ x ∧ x ≤ hi.Position ∧
          (lo.Position = hi.Position →
            GetColorAndIntensity s x =
              .ok (lo.Color.1, lo.Color.2.1, lo.Color.2.2, lo.Intensity))))
    ∧
    (s.AlphaCount ≤ s.Alphas.length →
      SortedByPosition AlphaMarker.Position (live s.Alphas s.AlphaCount) →
      (∃ v, GetAlpha s x = .ok v ∧
        GetAlpha { s with Alphas := live s.Alphas s.AlphaCount } x = .ok v) ∧
      (∀ a0 an, s.AlphaCount ≠ 0 → s.Alphas[0]? = some a0 →
        s.Alphas[s.AlphaCount - 1]? = some an → a0.Position ≤ x → x < an.Position →
        ∃ (i : Nat) (lo hi : AlphaMarker), i + 1 < s.AlphaCount ∧
          s.Alphas[i]? = some lo ∧ s.Alphas[i + 1]? = some hi ∧
          lo.Position ≤ x ∧ x ≤ hi.Position ∧
          (lo.Position = hi.Position → GetAlpha s x = .ok lo.Alpha)))
    ∧
    (f.ColorCount ≤ f.Colors.length →
      (∀ m ∈ live f.Colors f.ColorCount, m.Position ≠ .nan) →
      (live f.Colors f.ColorCount).Pairwise
        (fun m n => WithNaN.lessEq m.Position n.Position = true) →
      (∃ v, WithNaN.GetColorAndIntensity f (.num x) = .ok v ∧
        WithNaN.GetColorAndIntensity { f with Colors := live f.Colors f.ColorCount } (.num x)
          = .ok v) ∧
      (∀ c0 cn, f.ColorCount ≠ 0 → f.Colors[0]? = some c0 →
        f.Colors[f.ColorCount - 1]? = some cn →
        WithNaN.lessEq c0.Position (.num x) = true →
        WithNaN.less (.num x) cn.Position = true →
        ∃ (i : Nat) (lo hi : WithNaN.ColorMarker), i + 1 < f.ColorCount ∧
          f.Colors[i]? = some lo ∧ f.Colors[i + 1]? = some hi ∧
          WithNaN.lessEq lo.Position (.num x) = true ∧
          WithNaN.lessEq (.num x) hi.Position = true ∧
          (lo.Position = hi.Position →
            WithNaN.GetColorAndIntensity f (.num x) =
              .ok (lo.Color.1, lo.Color.2.1, lo.Color.2.2, lo.Intensity))))
    ∧
    (f.AlphaCount ≤ f.Alphas.length →
      (∀ m ∈ live f.Alphas f.AlphaCount, m.Position ≠ .nan) →
      (live f.Alphas f.AlphaCount).Pairwise
        (fun m n => WithNaN.lessEq m.Position n.Position = true) →
      (∃ v, WithNaN.GetAlpha f (.num x) = .ok v ∧
        WithNaN.GetAlpha { f with Alphas := live f.Alphas f.AlphaCount } (.num x) = .ok v) ∧
      (∀ a0 an, f.AlphaCount ≠ 0 → f.Alphas[0]? = some a0 →
        f.Alphas[f.AlphaCount - 1]? = some an →
        WithNaN.lessEq a0.Position (.num x) = true →
        WithNaN.less (.num x) an.Position = true →
        ∃ (i : Nat) (lo hi : WithNaN.AlphaMarker), i + 1 < f.AlphaCount ∧
          f.Alphas[i]? = some lo ∧ f.Alphas[i + 1]? = some hi ∧
          WithNaN.lessEq lo.Position (.num x) = true ∧
          WithNaN.lessEq (.num x) hi.Position = true ∧
          (lo.Position = hi.Position → WithNaN.GetAlpha f (.num x) = .ok lo.Alpha))) := by
  refine ⟨?_, ?_, ?_, ?_⟩
  · intro hc hs
    refine ⟨GetColorAndIntensity_on_live_range s x hc hs, ?_⟩
    intro c0 cn hcount h0 hn hx0 hxn
    obtain ⟨i, lo, hi, _, h2, h3, h4, h5, h6, h7⟩ :=
      GetColorAndIntensity_between s x c0 cn hc hs hcount h0 hn (not_lt.mpr hx0)
        (not_le.mpr hxn)
    rw [live_getElem_opt _ _ _ (by omega)] at h3 h4
    refine ⟨i, lo, hi, h2, h3, h4, h5, h6, ?_⟩
    intro he
    rw [h7]
    simp only [interpolate, if_pos he]
  · intro hc hs
    refine ⟨GetAlpha_on_live_range s x hc hs, ?_⟩
    intro a0 an hcount h0 hn hx0 hxn
    obtain ⟨i, lo, hi, _, h2, h3, h4, h5, h6, h7⟩ :=
      GetAlpha_between s x a0 an hc hs hcount h0 hn (not_lt.mpr hx0) (not_le.mpr hxn)
    rw [live_getElem_opt _ _ _ (by omega)] at h3 h4
    refine ⟨i, lo, hi, h2, h3, h4, h5, h6, ?_⟩
    intro he
    rw [h7]
    simp only [interpolate, if_pos he]
  · intro hc hnum hs
    have hsq := sorted_toRat WithNaN.ColorMarker.Position _ hs
    refine ⟨GetColorAndIntensity_float_on_live_range f x hc hnum hsq, ?_⟩
    intro c0 cn hcount h0 hn hx0 hxn
    have k0 := ((lessEq_iff _ _).mp hx0).2.2
    have kn := ((less_iff _ _).mp hxn).2.2
    simp only [toRat_num] at k0 kn
    obtain ⟨i, lo, hi, _, h2, h3, h4, h5, h6, h7⟩ :=
      GetColorAndIntensity_float_between f x c0 cn hc hnum hsq hcount h0 hn (not_lt.mpr k0)
        (not_le.mpr kn)
    have hlo : lo.Position ≠ .nan := hnum lo (mem_live_of_getElem _ _ i lo h3)
    rw [live_getElem_opt _ _ _ (by omega)] at h3 h4
    refine ⟨i, lo, hi, h2, h3, h4, h5, h6, ?_⟩
    intro he
    rw [h7, ← he, (ne_nan_iff _).mp hlo]
    simp [WithNaN.sub, WithNaN.equal]
  · intro hc hnum hs
    have hsq := sorted_toRat WithNaN.AlphaMarker.Position _ hs
    refine ⟨GetAlpha_float_on_live_range f x hc hnum hsq, ?_⟩
    intro a0 an hcount h0 hn hx0 hxn
    have k0 := ((lessEq_iff _ _).mp hx0).2.2
    have kn := ((less_iff _ _).mp hxn).2.2
    simp only [toRat_num] at k0 kn
    obtain ⟨i, lo, hi, _, h2, h3, h4, h5, h6, h7⟩ :=
      GetAlpha_float_between f x a0 an hc hnum hsq hcount h0 hn (not_lt.mpr k0)
        (not_le.mpr kn)
    have hlo : lo.Position ≠ .nan := hnum lo (mem_live_of_getElem _ _ i lo h3)
    rw [live_getElem_opt _ _ _ (by omega)] at h3 h4
    refine ⟨i, lo, hi, h2, h3, h4, h5, h6, ?_⟩
    intro he
    rw [h7, ← he, (ne_nan_iff _).mp hlo]
    simp [WithNaN.sub, WithNaN.equal]

/-- Witness of C10 at `x = 1/2`, between the stops: on `exampleStore`, and on `float`
values on `mixedStore`. -/
theorem evaluation_is_safe_witness :
    (∃ v, GetColorAndIntensity exampleStore (1 / 2) = .ok v ∧
        GetColorAndIntensity
          { exampleStore with Colors := live exampleStore.Colors exampleStore.ColorCount }
          (1 / 2) = .ok v) ∧
    (∃ v, GetAlpha exampleStore (1 / 2) = .ok v ∧
        GetAlpha
          { exampleStore with Alphas := live exampleStore.Alphas exampleStore.AlphaCount }
          (1 / 2) = .ok v) ∧
    (∃ (i : Nat) (lo hi : AlphaMarker), i + 1 < exampleStore.AlphaCount ∧
        exampleStore.Alphas[i]? = some lo ∧ exampleStore.Alphas[i + 1]? = some hi ∧
        lo.Position ≤ 1 / 2 ∧ 1 / 2 ≤ hi.Position ∧
        (lo.Position = hi.Position → GetAlpha exampleStore (1 / 2) = .ok lo.Alpha)) ∧
    (∃ v, WithNaN.GetColorAndIntensity WithNaN.mixedStore (.num (1 / 2)) = .ok v ∧
        WithNaN.GetColorAndIntensity
          { WithNaN.mixedStore with
            Colors := live WithNaN.mixedStore.Colors WithNaN.mixedStore.ColorCount }
          (.num (1 / 2)) = .ok v) ∧
    (∃ v, WithNaN.GetAlpha WithNaN.mixedStore (.num (1 / 2)) = .ok v ∧
        WithNaN.GetAlpha
          { WithNaN.mixedStore with
            Alphas := live WithNaN.mixedStore.Alphas WithNaN.mixedStore.AlphaCount }
          (.num (1 / 2)) = .ok v) ∧
    (∃ (i : Nat) (lo hi : WithNaN.AlphaMarker), i + 1 < WithNaN.mixedStore.AlphaCount ∧
        WithNaN.mixedStore.Alphas[i]? = some lo ∧
        WithNaN.mixedStore.Alphas[i + 1]? = some hi ∧
        WithNaN.lessEq lo.Position (.num (1 / 2)) = true ∧
        WithNaN.lessEq (.num (1 / 2)) hi.Position = true ∧
        (lo.Position = hi.Position →
          WithNaN.GetAlpha WithNaN.mixedStore (.num (1 / 2)) = .ok lo.Alpha)) := by
  have h := evaluation_is_safe exampleStore WithNaN.mixedStore (1 / 2)
  have hc : ∀ m ∈ live WithNaN.mixedStore.Colors WithNaN.mixedStore.ColorCount,
      m.Position ≠ .nan := by
    simp [live, WithNaN.mixedStore]
  have ha : ∀ m ∈ live WithNaN.mixedStore.Alphas WithNaN.mixedStore.AlphaCount,
      m.Position ≠ .nan := by
    simp [live, WithNaN.mixedStore]
  have sc : (live WithNaN.mixedStore.Colors WithNaN.mixedStore.ColorCount).Pairwise
      (fun m n => WithNaN.lessEq m.Position n.Position = true) := by
    simp [live, WithNaN.mixedStore, WithNaN.lessEq]
  have sa : (live WithNaN.mixedStore.Alphas WithNaN.mixedStore.AlphaCount).Pairwise
      (fun m n => WithNaN.lessEq m.Position n.Position = true) := by
    norm_num [live, WithNaN.mixedStore, WithNaN.lessEq]
  exact ⟨(h.1 (by decide) exampleStore_colors_sorted).1,
    (h.2.1 (by decide) exampleStore_alphas_sorted).1,
    (h.2.1 (by decide) exampleStore_alphas_sorted).2
      ⟨1 / 5, 1⟩ ⟨4 / 5, 0⟩ (by decide) rfl rfl (by norm_num) (by norm_num),
    (h.2.2.1 (by decide) hc sc).1,
    (h.2.2.2 (by decide) ha sa).1,
    (h.2.2.2 (by decide) ha sa).2 ⟨.num (1 / 5), .nan⟩ ⟨.num (4 / 5), .num 0⟩ (by decide)
      rfl rfl (by norm_num [WithNaN.lessEq]) (by norm_num [WithNaN.less])⟩

/-! ## Index queries and empty stores -/

/-- Claim C11. For every store and every `index` with `index < 0` or `index >= count` of
the respective kind, `RemoveColorMarker` / `RemoveAlphaMarker` returns `false` and leaves
the whole store unchanged, and `GetColorMarker` / `GetAlphaMarker` returns the null
result; conversely, for every `index` in `[0, count)` (with the count inside the array)
`GetColorMarker` / `GetAlphaMarker` returns the pointer to the slot at exactly that
index, which holds a stop. -/
theorem invalid_index_is_rejected (s : ImGradientHDRState) (index : Int) :
    ((index < 0 ∨ index ≥ (s.ColorCount : Int)) →
      RemoveColorMarker s index = .ok (false, s) ∧ GetColorMarker s index = .ok none) ∧
    ((index < 0 ∨ index ≥ (s.AlphaCount : Int)) →
      RemoveAlphaMarker s index = .ok (false, s) ∧ GetAlphaMarker s index = .ok none) ∧
    (0 ≤ index → index < (s.ColorCount : Int) → s.ColorCount ≤ s.Colors.length →
      GetColorMarker s index = .ok (some index.toNat) ∧
      (index.toNat : Int) = index ∧ ∃ m, s.Colors[index.toNat]? = some m) ∧
    (0 ≤ index → index < (s.AlphaCount : Int) → s.AlphaCount ≤ s.Alphas.length →
      GetAlphaMarker s index = .ok (some index.toNat) ∧
      (index.toNat : Int) = index ∧ ∃ m, s.Alphas[index.toNat]? = some m) := by
  refine ⟨?_, ?_, ?_, ?_⟩
  · intro h
    have h' : index ≥ (s.ColorCount : Int) ∨ index < 0 := h.symm
    exact ⟨by simp only [RemoveColorMarker, h', if_true],
      by simp only [GetColorMarker, h, if_true]⟩
  · intro h
    have h' : index ≥ (s.AlphaCount : Int) ∨ index < 0 := h.symm
    exact ⟨by simp only [RemoveAlphaMarker, h', if_true],
      by simp only [GetAlphaMarker, h, if_true]⟩
  · intro h0 h1 hc
    obtain ⟨i, rfl⟩ := Int.eq_ofNat_of_zero_le h0
    have hi : i < s.Colors.length := by omega
    have hg : ¬ ((i : Int) < 0 ∨ (i : Int) ≥ (s.ColorCount : Int)) := by omega
    refine ⟨?_, by simp, s.Colors.get ⟨i, hi⟩, ?_⟩
    · simp only [GetColorMarker, hg, if_false, readAtInt_ofNat s.Colors i hi, Int.toNat_ofNat]
    · simp only [Int.toNat_ofNat]
      exact List.getElem?_eq_getElem hi
  · intro h0 h1 hc
    obtain ⟨i, rfl⟩ := Int.eq_ofNat_of_zero_le h0
    have hi : i < s.Alphas.length := by omega
    have hg : ¬ ((i : Int) < 0 ∨ (i : Int) ≥ (s.AlphaCount : Int)) := by omega
    refine ⟨?_, by simp, s.Alphas.get ⟨i, hi⟩, ?_⟩
    · simp only [GetAlphaMarker, hg, if_false, readAtInt_ofNat s.Alphas i hi, Int.toNat_ofNat]
    · simp only [Int.toNat_ofNat]
      exact List.getElem?_eq_getElem hi

/-- Witness of C11 on `exampleStore`, which holds two stops of each kind: index `2` and
index `-1` are rejected, index `1` is served. -/
theorem invalid_index_is_rejected_witness :
    (RemoveColorMarker exampleStore 2 = .ok (false, exampleStore) ∧
      GetColorMarker exampleStore 2 = .ok none) ∧
    (RemoveAlphaMarker exampleStore (-1) = .ok (false, exampleStore) ∧
      GetAlphaMarker exampleStore (-1) = .ok none) ∧
    (GetColorMarker exampleStore 1 = .ok (some 1) ∧
      exampleStore.Colors[1]? = some ⟨1, (1, 1, 1), 1⟩) ∧
    (GetAlphaMarker exampleStore 1 = .ok (some 1) ∧
      exampleStore.Alphas[1]? = some ⟨4 / 5, 0⟩) :=
  ⟨(invalid_index_is_rejected exampleStore 2).1 (Or.inr (by decide)),
    (invalid_index_is_rejected exampleStore (-1)).2.1 (Or.inl (by decide)),
    ⟨((invalid_index_is_rejected exampleStore 1).2.2.1 (by decide) (by decide) (by decide)).1,
      rfl⟩,
    ⟨((invalid_index_is_rejected exampleStore 1).2.2.2 (by decide) (by decide) (by decide)).1,
      rfl⟩⟩

/-- Claim C14. For every `x`, `GetColorAndIntensity(x)` on a store with `ColorCount = 0`
returns `(1, 1, 1, 1)` and `GetAlpha(x)` on a store with `AlphaCount = 0` returns `1`,
whatever the arrays hold. -/
theorem empty_store_default (s : ImGradientHDRState) (x : ℚ) :
    (s.ColorCount = 0 → GetColorAndIntensity s x = .ok (1, 1, 1, 1)) ∧
    (s.AlphaCount = 0 → GetAlpha s x = .ok 1) := by
  constructor
  · intro h
    unfold GetColorAndIntensity
    rw [if_pos h]
  · intro h
    unfold GetAlpha
    rw [if_pos h]

/-- Witness of C14: a store whose counts are zero while its arrays hold stops. -/
theorem empty_store_default_witness :
    GetColorAndIntensity { exampleStore with ColorCount := 0, AlphaCount := 0 } (1 / 3)
      = .ok (1, 1, 1, 1) ∧
    GetAlpha { exampleStore with ColorCount := 0, AlphaCount := 0 } (1 / 3) = .ok 1 :=
  ⟨(empty_store_default { exampleStore with ColorCount := 0, AlphaCount := 0 } (1 / 3)).1 rfl,
    (empty_store_default { exampleStore with ColorCount := 0, AlphaCount := 0 } (1 / 3)).2 rfl⟩

/-! ## Bounds of the interpolation -/

/-- The blend factor of a bracket `loPos <= x <= hiPos` of positive width lies in
`[0, 1]`. -/
theorem blend_factor_mem (loPos hiPos x : ℚ) (h1 : loPos ≤ x) (h2 : x ≤ hiPos)
    (hne : loPos ≠ hiPos) :
    0 ≤ (x - loPos) / (hiPos - loPos) ∧ (x - loPos) / (hiPos - loPos) ≤ 1 := by
  have hlt : loPos < hiPos := lt_of_le_of_ne (le_trans h1 h2) hne
  have hpos : 0 < hiPos - loPos := by linarith
  constructor
  · exact div_nonneg (by linarith) (le_of_lt hpos)
  · rw [div_le_one hpos]
    linarith

/-- The interpolated value inside a bracket lies between the two values it blends. -/
theorem interpolate_between (loPos hiPos lo hi x : ℚ) (h1 : loPos ≤ x) (h2 : x ≤ hiPos) :
    (lo ≤ interpolate loPos hiPos lo hi x ∨ hi ≤ interpolate loPos hiPos lo hi x) ∧
    (interpolate loPos hiPos lo hi x ≤ lo ∨ interpolate loPos hiPos lo hi x ≤ hi) := by
  by_cases he : loPos = hiPos
  · simp only [interpolate, if_pos he]
    exact ⟨Or.inl (le_refl _), Or.inl (le_refl _)⟩
  · obtain ⟨t0, t1⟩ := blend_factor_mem loPos hiPos x h1 h2 he
    simp only [interpolate, if_neg he]
    generalize (x - loPos) / (hiPos - loPos) = t at t0 t1
    rcases le_total lo hi with hle | hle
    · refine ⟨Or.inl ?_, Or.inr ?_⟩
      · nlinarith
      · nlinarith
    · refine ⟨Or.inr ?_, Or.inl ?_⟩
      · nlinarith
      · nlinarith

/-- On a sorted, non-empty live range every value returned by `GetAlpha` is at least some
live stop's alpha and at most some live stop's alpha. -/
theorem GetAlpha_bounded (s : ImGradientHDRState) (x : ℚ)
    (hc : s.AlphaCount ≤ s.Alphas.length)
    (hs : SortedByPosition AlphaMarker.Position (live s.Alphas s.AlphaCount))
    (hcount : s.AlphaCount ≠ 0) :
    ∃ v, GetAlpha s x = .ok v ∧
      (∃ m ∈ live s.Alphas s.AlphaCount, m.Alpha ≤ v) ∧
      (∃ m ∈ live s.Alphas s.AlphaCount, v ≤ m.Alpha) := by
  have h0 : s.Alphas[0]? = some (s.Alphas.get ⟨0, by omega⟩) :=
    List.getElem?_eq_getElem (by omega)
  have hn : s.Alphas[s.AlphaCount - 1]? = some (s.Alphas.get ⟨s.AlphaCount - 1, by omega⟩) :=
    List.getElem?_eq_getElem (by omega)
  have m0 : s.Alphas.get ⟨0, by omega⟩ ∈ live s.Alphas s.AlphaCount :=
    List.getElem?_mem (n := 0) (by rw [live_getElem_opt _ _ 0 (by omega)]; exact h0)
  have mn : s.Alphas.get ⟨s.AlphaCount - 1, by omega⟩ ∈ live s.Alphas s.AlphaCount :=
    List.getElem?_mem (n := s.AlphaCount - 1)
      (by rw [live_getElem_opt _ _ (s.AlphaCount - 1) (by omega)]; exact hn)
  by_cases hx0 : x < (s.Alphas.get ⟨0, by omega⟩).Position
  · exact ⟨_, GetAlpha_before_first s x _ hcount h0 hx0, ⟨_, m0, le_refl _⟩, ⟨_, m0, le_refl _⟩⟩
  · by_cases hxn : (s.Alphas.get ⟨s.AlphaCount - 1, by omega⟩).Position ≤ x
    · exact ⟨_, GetAlpha_after_last s x _ _ hcount h0 hn hx0 hxn, ⟨_, mn, le_refl _⟩,
        ⟨_, mn, le_refl _⟩⟩
    · obtain ⟨i, lo, hi, _, _, p3, p4, p5, p6, p7⟩ :=
        GetAlpha_between s x _ _ hc hs hcount h0 hn hx0 hxn
      have mlo := List.getElem?_mem p3
      have mhi := List.getElem?_mem p4
      obtain ⟨b1, b2⟩ := interpolate_between lo.Position hi.Position lo.Alpha hi.Alpha x p5 p6
      refine ⟨_, p7, ?_, ?_⟩
      · rcases b1 with b | b
        · exact ⟨lo, mlo, b⟩
        · exact ⟨hi, mhi, b⟩
      · rcases b2 with b | b
        · exact ⟨lo, mlo, b⟩
        · exact ⟨hi, mhi, b⟩

/-- On a sorted, non-empty live range every channel `val` of the value returned by
`GetColorAndIntensity` is at least some live stop's and at most some live stop's. -/
theorem GetColorAndIntensity_bounded (s : ImGradientHDRState) (x : ℚ)
    (hc : s.ColorCount ≤ s.Colors.length)
    (hs : SortedByPosition ColorMarker.Position (live s.Colors s.ColorCount))
    (hcount : s.ColorCount ≠ 0) :
    ∃ v, GetColorAndIntensity s x = .ok v ∧
      ((∃ m ∈ live s.Colors s.ColorCount, m.Color.1 ≤ v.1) ∧
        (∃ m ∈ live s.Colors s.ColorCount, v.1 ≤ m.Color.1)) ∧
      ((∃ m ∈ live s.Colors s.ColorCount, m.Color.2.1 ≤ v.2.1) ∧
        (∃ m ∈ live s.Colors s.ColorCount, v.2.1 ≤ m.Color.2.1)) ∧
      ((∃ m ∈ live s.Colors s.ColorCount, m.Color.2.2 ≤ v.2.2.1) ∧
        (∃ m ∈ live s.Colors s.ColorCount, v.2.2.1 ≤ m.Color.2.2)) ∧
      ((∃ m ∈ live s.Colors s.ColorCount, m.Intensity ≤ v.2.2.2) ∧
        (∃ m ∈ live s.Colors s.ColorCount, v.2.2.2 ≤ m.Intensity)) := by
  have h0 : s.Colors[0]? = some (s.Colors.get ⟨0, by omega⟩) :=
    List.getElem?_eq_getElem (by omega)
  have hn : s.Colors[s.ColorCount - 1]? = some (s.Colors.get ⟨s.ColorCount - 1, by omega⟩) :=
    List.getElem?_eq_getElem (by omega)
  have m0 : s.Colors.get ⟨0, by omega⟩ ∈ live s.Colors s.ColorCount :=
    List.getElem?_mem (n := 0) (by rw [live_getElem_opt _ _ 0 (by omega)]; exact h0)
  have mn : s.Colors.get ⟨s.ColorCount - 1, by omega⟩ ∈ live s.Colors s.ColorCount :=
    List.getElem?_mem (n := s.ColorCount - 1)
      (by rw [live_getElem_opt _ _ (s.ColorCount - 1) (by omega)]; exact hn)
  by_cases hx0 : x < (s.Colors.get ⟨0, by omega⟩).Position
  · exact ⟨_, GetColorAndIntensity_before_first s x _ hcount h0 hx0,
      ⟨⟨_, m0, le_refl _⟩, ⟨_, m0, le_refl _⟩⟩, ⟨⟨_, m0, le_refl _⟩, ⟨_, m0, le_refl _⟩⟩,
      ⟨⟨_, m0, le_refl _⟩, ⟨_, m0, le_refl _⟩⟩, ⟨⟨_, m0, le_refl _⟩, ⟨_, m0, le_refl _⟩⟩⟩
  · by_cases hxn : (s.Colors.get ⟨s.ColorCount - 1, by omega⟩).Position ≤ x
    · exact ⟨_, GetColorAndIntensity_after_last s x _ _ hcount h0 hn hx0 hxn,
        ⟨⟨_, mn, le_refl _⟩, ⟨_, mn, le_refl _⟩⟩, ⟨⟨_, mn, le_refl _⟩, ⟨_, mn, le_refl _⟩⟩,
        ⟨⟨_, mn, le_refl _⟩, ⟨_, mn, le_refl _⟩⟩, ⟨⟨_, mn, le_refl _⟩, ⟨_, mn, le_refl _⟩⟩⟩
    · obtain ⟨i, lo, hi, _, _, p3, p4, p5, p6, p7⟩ :=
        GetColorAndIntensity_between s x _ _ hc hs hcount h0 hn hx0 hxn
      have mlo := List.getElem?_mem p3
      have mhi := List.getElem?_mem p4
      have key : ∀ (val : ColorMarker → ℚ),
          (∃ m ∈ live s.Colors s.ColorCount,
            val m ≤ interpolate lo.Position hi.Position (val lo) (val hi) x) ∧
          (∃ m ∈ live s.Colors s.ColorCount,
            interpolate lo.Position hi.Position (val lo) (val hi) x ≤ val m) := by
        intro val
        obtain ⟨b1, b2⟩ :=
          interpolate_between lo.Position hi.Position (val lo) (val hi) x p5 p6
        constructor
        · rcases b1 with b | b
          · exact ⟨lo, mlo, b⟩
          · exact ⟨hi, mhi, b⟩
        · rcases b2 with b | b
          · exact ⟨lo, mlo, b⟩
          · exact ⟨hi, mhi, b⟩
      exact ⟨_, p7, key (fun m => m.Color.1), key (fun m => m.Color.2.1),
        key (fun m => m.Color.2.2), key (fun m => m.Intensity)⟩

/-- Claim C19. On a store whose live alpha stops are sorted (inside the array) with
`AlphaCount >= 1`, for every `x`, `GetAlpha(x)` returns a value that is at least some
live stop's `Alpha` and at most some live stop's `Alpha`, so it lies between the
smallest and the largest; in particular it is in `[0, 1]` when every live `Alpha` is.
The same holds for each of `r`, `g`, `b` and intensity returned by
`GetColorAndIntensity`. On a bracket `lo.Position <= x <= hi.Position` of positive width
the blend factor `(x - lo.Position) / (hi.Position - lo.Position)` is in `[0, 1]`. -/
theorem interpolation_never_overshoots (s : ImGradientHDRState) (x : ℚ) :
    (1 ≤ s.AlphaCount → s.AlphaCount ≤ s.Alphas.length →
      SortedByPosition AlphaMarker.Position (live s.Alphas s.AlphaCount) →
      ∃ v, GetAlpha s x = .ok v ∧
        (∃ m ∈ live s.Alphas s.AlphaCount, m.Alpha ≤ v) ∧
        (∃ m ∈ live s.Alphas s.AlphaCount, v ≤ m.Alpha) ∧
        ((∀ m ∈ live s.Alphas s.AlphaCount, 0 ≤ m.Alpha ∧ m.Alpha ≤ 1) → 0 ≤ v ∧ v ≤ 1))
    ∧
    (1 ≤ s.ColorCount → s.ColorCount ≤ s.Colors.length →
      SortedByPosition ColorMarker.Position (live s.Colors s.ColorCount) →
      ∃ v, GetColorAndIntensity s x = .ok v ∧
        ((∃ m ∈ live s.Colors s.ColorCount, m.Color.1 ≤ v.1) ∧
          (∃ m ∈ live s.Colors s.ColorCount, v.1 ≤ m.Color.1)) ∧
        ((∃ m ∈ live s.Colors s.ColorCount, m.Color.2.1 ≤ v.2.1) ∧
          (∃ m ∈ live s.Colors s.ColorCount, v.2.1 ≤ m.Color.2.1)) ∧
        ((∃ m ∈ live s.Colors s.ColorCount, m.Color.2.2 ≤ v.2.2.1) ∧
          (∃ m ∈ live s.Colors s.ColorCount, v.2.2.1 ≤ m.Color.2.2)) ∧
        ((∃ m ∈ live s.Colors s.ColorCount, m.Intensity ≤ v.2.2.2) ∧
          (∃ m ∈ live s.Colors s.ColorCount, v.2.2.2 ≤ m.Intensity)))
    ∧
    (∀ loPos hiPos : ℚ, loPos ≤ x → x ≤ hiPos → loPos ≠ hiPos →
      0 ≤ (x - loPos) / (hiPos - loPos) ∧ (x - loPos) / (hiPos - loPos) ≤ 1) := by
  refine ⟨?_, ?_, ?_⟩
  · intro h1 hc hs
    obtain ⟨v, hv, ⟨m1, hm1, b1⟩, ⟨m2, hm2, b2⟩⟩ := GetAlpha_bounded s x hc hs (by omega)
    refine ⟨v, hv, ⟨m1, hm1, b1⟩, ⟨m2, hm2, b2⟩, ?_⟩
    intro hall
    exact ⟨le_trans (hall m1 hm1).1 b1, le_trans b2 (hall m2 hm2).2⟩
  · intro h1 hc hs
    exact GetColorAndIntensity_bounded s x hc hs (by omega)
  · intro loPos hiPos h1 h2 hne
    exact blend_factor_mem loPos hiPos x h1 h2 hne

/-- Witness of C19 on `exampleStore` at `x = 1/2`: every live alpha is in `[0, 1]`, and
so is the value of `GetAlpha`. -/
theorem interpolation_never_overshoots_witness :
    (∃ v, GetAlpha exampleStore (1 / 2) = .ok v ∧ 0 ≤ v ∧ v ≤ 1) ∧
    (∃ v, GetColorAndIntensity exampleStore (1 / 2) = .ok v ∧
      (∃ m ∈ live exampleStore.Colors exampleStore.ColorCount, m.Intensity ≤ v.2.2.2)) ∧
    (0 ≤ ((1 : ℚ) / 2 - 1 / 5) / (4 / 5 - 1 / 5) ∧ ((1 : ℚ) / 2 - 1 / 5) / (4 / 5 - 1 / 5) ≤ 1) := by
  have h := interpolation_never_overshoots exampleStore (1 / 2)
  refine ⟨?_, ?_, h.2.2 (1 / 5) (4 / 5) (by norm_num) (by norm_num) (by norm_num)⟩
  · obtain ⟨v, hv, _, _, hunit⟩ := h.1 (by decide) (by decide) exampleStore_alphas_sorted
    refine ⟨v, hv, hunit ?_⟩
    intro m hm
    simp only [live, exampleStore, List.take_succ_cons, List.take_zero, List.mem_cons,
      List.mem_singleton, List.not_mem_nil, or_false] at hm
    rcases hm with rfl | rfl <;> norm_num
  · obtain ⟨v, hv, _, _, _, hi, _⟩ := h.2.1 (by decide) (by decide) exampleStore_colors_sorted
    exact ⟨v, hv, hi⟩

/-! ## The per-marker update -/

/-- One iteration of `UpdateMarker` on a slot inside the array, in closed form. -/
theorem updateMarkerStep_eq {T : Type} (pos : T → ℚ) (setPos : T → ℚ → T) (inp : FrameInput)
    (hovered : Nat → Bool) (markerType : ImGradientHDRMarkerType) (i : Nat) (a : List T)
    (t : ImGradientHDRTemporaryState) (ret : UpdateMarkerResult) (hi : i < a.length) :
    updateMarkerStep pos setPos inp hovered markerType i a t ret =
      if (pressAndRelease inp hovered markerType i t).draggingMarkerType = markerType ∧
          (pressAndRelease inp hovered markerType i t).draggingIndex = (i : Int) ∧
          inp.mouseDragging = true then
        if inp.width = 0 then .error .divisionByZero
        else .ok (a.set i (setPos (a.get ⟨i, hi⟩)
              (clamp01 (pos (a.get ⟨i, hi⟩) + inp.mouseDeltaX / inp.width))),
            pressAndRelease inp hovered markerType i t,
            { isChanged := ret.isChanged || decide (inp.mouseDeltaX / inp.width ≠ 0),
              isHovered := ret.isHovered || hovered i })
      else .ok (a, pressAndRelease inp hovered markerType i t,
            { isChanged := ret.isChanged, isHovered := ret.isHovered || hovered i }) := by
  unfold updateMarkerStep
  rw [readAt_of_lt a i hi]
  by_cases hd : (pressAndRelease inp hovered markerType i t).draggingMarkerType = markerType ∧
      (pressAndRelease inp hovered markerType i t).draggingIndex = (i : Int) ∧
      inp.mouseDragging = true
  · simp only [hd, and_self, if_true]
    by_cases hw : inp.width = 0
    · simp only [divide, hw, if_true]
    · simp only [divide, hw, if_false, writeAt, hi, if_true]
  · simp only [hd, if_false]

/-- A slot outside the array makes the iteration fail. -/
theorem updateMarkerStep_outside {T : Type} (pos : T → ℚ) (setPos : T → ℚ → T)
    (inp : FrameInput) (hovered : Nat → Bool) (markerType : ImGradientHDRMarkerType) (i : Nat)
    (a : List T) (t : ImGradientHDRTemporaryState) (ret : UpdateMarkerResult)
    (hi : a.length ≤ i) :
    updateMarkerStep pos setPos inp hovered markerType i a t ret = .error .outOfRange := by
  unfold updateMarkerStep
  simp [readAt, List.getElem?_eq_none hi]

/-- What is known of an iteration of `UpdateMarker` that returned. -/
theorem updateMarkerStep_ok {T : Type} (pos : T → ℚ) (setPos : T → ℚ → T) (inp : FrameInput)
    (hovered : Nat → Bool) (markerType : ImGradientHDRMarkerType) (i : Nat) (a a1 : List T)
    (t t1 : ImGradientHDRTemporaryState) (ret ret1 : UpdateMarkerResult)
    (h : updateMarkerStep pos setPos inp hovered markerType i a t ret = .ok (a1, t1, ret1)) :
    i < a.length ∧ t1 = pressAndRelease inp hovered markerType i t ∧
    ret1.isHovered = (ret.isHovered || hovered i) ∧
    ((a1 = a ∧ ret1.isChanged = ret.isChanged ∧
        ¬ (t1.draggingMarkerType = markerType ∧ t1.draggingIndex = (i : Int) ∧
          inp.mouseDragging = true)) ∨
      ((t1.draggingMarkerType = markerType ∧ t1.draggingIndex = (i : Int) ∧
          inp.mouseDragging = true) ∧ inp.width ≠ 0 ∧
        ∃ m, a[i]? = some m ∧
          a1 = a.set i (setPos m (clamp01 (pos m + inp.mouseDeltaX / inp.width))) ∧
          ret1.isChanged = (ret.isChanged || decide (inp.mouseDeltaX / inp.width ≠ 0)))) := by
  have hi : i < a.length := by
    by_contra hc
    rw [updateMarkerStep_outside pos setPos inp hovered markerType i a t ret (by omega)] at h
    exact Except.noConfusion h
  rw [updateMarkerStep_eq pos setPos inp hovered markerType i a t ret hi] at h
  by_cases hd : (pressAndRelease inp hovered markerType i t).draggingMarkerType = markerType ∧
      (pressAndRelease inp hovered markerType i t).draggingIndex = (i : Int) ∧
      inp.mouseDragging = true
  · rw [if_pos hd] at h
    by_cases hw : inp.width = 0
    · rw [if_pos hw] at h
      exact Except.noConfusion h
    · rw [if_neg hw] at h
      injection h with h
      injection h with h1 h
      injection h with h2 h3
      subst h1 h2 h3
      exact ⟨hi, rfl, rfl, Or.inr ⟨hd, hw, a.get ⟨i, hi⟩, List.getElem?_eq_getElem hi, rfl, rfl⟩⟩
  · rw [if_neg hd] at h
    injection h with h
    injection h with h1 h
    injection h with h2 h3
    subst h1 h2 h3
    exact ⟨hi, rfl, rfl, Or.inl ⟨rfl, rfl, hd⟩⟩

/-- The interaction state written by the loop of `UpdateMarker` does not depend on the
array, and the array keeps its size. -/
theorem updateMarkerLoop_ok {T : Type} (pos : T → ℚ) (setPos : T → ℚ → T) (inp : FrameInput)
    (hovered : Nat → Bool) (markerType : ImGradientHDRMarkerType) (a : List T)
    (t : ImGradientHDRTemporaryState) :
    ∀ (n : Nat) (a1 : List T) (t1 : ImGradientHDRTemporaryState) (ret1 : UpdateMarkerResult),
      updateMarkerLoop pos setPos inp hovered markerType a t n = .ok (a1, t1, ret1) →
      n ≤ a.length ∧ a1.length = a.length ∧
      t1 = temporaryStateAfter inp hovered markerType t n ∧
      (ret1.isHovered = true ↔ ∃ j, j < n ∧ hovered j = true) := by
  intro n
  induction n with
  | zero =>
    intro a1 t1 ret1 h
    simp only [updateMarkerLoop] at h
    injection h with h
    injection h with h1 h
    injection h with h2 h3
    subst h1 h2 h3
    exact ⟨Nat.zero_le _, rfl, rfl, by simp⟩
  | succ n ih =>
    intro a1 t1 ret1 h
    simp only [updateMarkerLoop] at h
    cases hl : updateMarkerLoop pos setPos inp hovered markerType a t n with
    | error e => rw [hl] at h; exact Except.noConfusion h
    | ok r =>
      obtain ⟨a0, t0, r0⟩ := r
      rw [hl] at h
      obtain ⟨k1, k2, k3, k4⟩ := ih a0 t0 r0 hl
      obtain ⟨s1, s2, s3, s4⟩ :=
        updateMarkerStep_ok pos setPos inp hovered markerType n a0 a1 t0 t1 r0 ret1 h
      have hlen : a1.length = a0.length := by
        rcases s4 with ⟨e, _, _⟩ | ⟨_, _, m, _, e, _⟩
        · rw [e]
        · rw [e, List.length_set]
      refine ⟨by omega, by rw [hlen, k2], ?_, ?_⟩
      · rw [s2, k3]
        rfl
      · rw [s3, Bool.or_eq_true, k4]
        constructor
        · rintro (⟨j, hj, hh⟩ | hh)
          · exact ⟨j, by omega, hh⟩
          · exact ⟨n, by omega, hh⟩
        · rintro ⟨j, hj, hh⟩
          rcases Nat.lt_or_ge j n with hlt | hge
          · exact Or.inl ⟨j, hlt, hh⟩
          · have : j = n := by omega
            subst this
            exact Or.inr hh

/-- With the button not down, an iteration only clears the drag target. -/
theorem pressAndRelease_not_down (inp : FrameInput) (hovered : Nat → Bool)
    (markerType : ImGradientHDRMarkerType) (i : Nat) (t : ImGradientHDRTemporaryState)
    (h : inp.mouseDown = false) :
    pressAndRelease inp hovered markerType i t =
      { t with draggingIndex := -1, draggingMarkerType := ImGradientHDRMarkerType.Unknown } := by
  simp [pressAndRelease, h]

/-- With the button down, an iteration selects and drags marker `i` if nothing is dragged
and the marker is hovered, and writes nothing otherwise. -/
theorem pressAndRelease_down (inp : FrameInput) (hovered : Nat → Bool)
    (markerType : ImGradientHDRMarkerType) (i : Nat) (t : ImGradientHDRTemporaryState)
    (h : inp.mouseDown = true) :
    pressAndRelease inp hovered markerType i t =
      if t.draggingIndex = -1 ∧ hovered i = true then
        { selectedMarkerType := markerType, selectedIndex := (i : Int),
          draggingMarkerType := markerType, draggingIndex := (i : Int) }
      else t := by
  simp [pressAndRelease, h]

/-- With the button not down, the loop leaves the interaction state with no drag target
as soon as it has made one iteration. -/
theorem temporaryStateAfter_not_down (inp : FrameInput) (hovered : Nat → Bool)
    (markerType : ImGradientHDRMarkerType) (t : ImGradientHDRTemporaryState)
    (h : inp.mouseDown = false) :
    ∀ n, 0 < n → temporaryStateAfter inp hovered markerType t n =
      { t with draggingIndex := -1, draggingMarkerType := ImGradientHDRMarkerType.Unknown } := by
  intro n
  induction n with
  | zero => intro h0; omega
  | succ n ih =>
    intro _
    simp only [temporaryStateAfter, pressAndRelease_not_down inp hovered markerType n _ h]
    rcases Nat.eq_zero_or_pos n with hz | hp
    · subst hz
      rfl
    · rw [ih hp]

/-- An iteration on a live marker keeps the drag invariant. -/
theorem pressAndRelease_inv (inp : FrameInput) (hovered : Nat → Bool)
    (markerType : ImGradientHDRMarkerType) (i : Nat) (s : ImGradientHDRState)
    (t : ImGradientHDRTemporaryState) (hi : i < countOf s markerType)
    (hinv : DragInvariant s t) :
    DragInvariant s (pressAndRelease inp hovered markerType i t) := by
  cases hd : inp.mouseDown with
  | false =>
    rw [pressAndRelease_not_down inp hovered markerType i t hd]
    intro htgt
    rcases htgt with h | h
    · exact absurd rfl h
    · exact absurd rfl h
  | true =>
    rw [pressAndRelease_down inp hovered markerType i t hd]
    by_cases hsel : t.draggingIndex = -1 ∧ hovered i = true
    · rw [if_pos hsel]
      intro _
      refine ⟨rfl, rfl, ?_, ?_⟩
      · show (0 : Int) ≤ (i : Int)
        omega
      · show (i : Int) < (countOf s markerType : Int)
        omega
    · rw [if_neg hsel]
      exact hinv

/-- The loop of `UpdateMarker` over live markers keeps the drag invariant. -/
theorem temporaryStateAfter_inv (inp : FrameInput) (hovered : Nat → Bool)
    (markerType : ImGradientHDRMarkerType) (s : ImGradientHDRState)
    (t : ImGradientHDRTemporaryState) (hinv : DragInvariant s t) :
    ∀ n, n ≤ countOf s markerType →
      DragInvariant s (temporaryStateAfter inp hovered markerType t n) := by
  intro n
  induction n with
  | zero => intro _; exact hinv
  | succ n ih =>
    intro hn
    exact pressAndRelease_inv inp hovered markerType n s _ (by omega) (ih (by omega))

/-- The selection is rewritten by an iteration only when the marker is taken as drag
target. -/
theorem pressAndRelease_selection (inp : FrameInput) (hovered : Nat → Bool)
    (markerType : ImGradientHDRMarkerType) (i : Nat) (t : ImGradientHDRTemporaryState) :
    (t.draggingIndex = -1 ∧ hovered i = true ∧ inp.mouseDown = true →
      pressAndRelease inp hovered markerType i t =
        { selectedMarkerType := markerType, selectedIndex := (i : Int),
          draggingMarkerType := markerType, draggingIndex := (i : Int) }) ∧
    (¬ (t.draggingIndex = -1 ∧ hovered i = true ∧ inp.mouseDown = true) →
      (pressAndRelease inp hovered markerType i t).selectedMarkerType = t.selectedMarkerType ∧
      (pressAndRelease inp hovered markerType i t).selectedIndex = t.selectedIndex ∧
      (pressAndRelease inp hovered markerType i t = t ∨
        pressAndRelease inp hovered markerType i t =
          { t with draggingIndex := -1,
                   draggingMarkerType := ImGradientHDRMarkerType.Unknown })) := by
  constructor
  · intro ⟨h1, h2, h3⟩
    rw [pressAndRelease_down inp hovered markerType i t h3, if_pos ⟨h1, h2⟩]
  · intro hn
    cases hd : inp.mouseDown with
    | false =>
      rw [pressAndRelease_not_down inp hovered markerType i t hd]
      exact ⟨rfl, rfl, Or.inr rfl⟩
    | true =>
      have : ¬ (t.draggingIndex = -1 ∧ hovered i = true) := fun ⟨h1, h2⟩ => hn ⟨h1, h2, hd⟩
      rw [pressAndRelease_down inp hovered markerType i t hd, if_neg this]
      exact ⟨rfl, rfl, Or.inl rfl⟩

theorem clamp01_of_mem (p : ℚ) (h0 : 0 ≤ p) (h1 : p ≤ 1) : clamp01 p = p := by
  unfold clamp01
  rw [min_eq_left h1, max_eq_left h0]

theorem set_same {T : Type} (a : List T) (i : Nat) (m : T) (h : a[i]? = some m) :
    a.set i m = a := by
  apply List.ext_getElem?
  intro j
  rw [List.getElem?_set]
  by_cases hij : i = j
  · subst hij
    have hlt : i < a.length := (List.getElem?_eq_some.mp h).1
    rw [if_pos rfl, if_pos hlt, h]
  · rw [if_neg hij]

/-- With the button not down the loop of `UpdateMarker` returns, moves no marker and
reports no change. -/
theorem updateMarkerLoop_not_down {T : Type} (pos : T → ℚ) (setPos : T → ℚ → T)
    (inp : FrameInput) (hovered : Nat → Bool) (markerType : ImGradientHDRMarkerType)
    (a : List T) (t : ImGradientHDRTemporaryState) (hd : inp.mouseDown = false) :
    ∀ n, n ≤ a.length →
      ∃ ret, updateMarkerLoop pos setPos inp hovered markerType a t n =
          .ok (a, temporaryStateAfter inp hovered markerType t n, ret) ∧
        ret.isChanged = false := by
  intro n
  induction n with
  | zero => intro _; exact ⟨_, rfl, rfl⟩
  | succ n ih =>
    intro hn
    obtain ⟨r0, h0, hc0⟩ := ih (by omega)
    have hnot : ¬ ((pressAndRelease inp hovered markerType n
          (temporaryStateAfter inp hovered markerType t n)).draggingMarkerType = markerType ∧
        (pressAndRelease inp hovered markerType n
          (temporaryStateAfter inp hovered markerType t n)).draggingIndex = (n : Int) ∧
        inp.mouseDragging = true) := by
      rw [pressAndRelease_not_down inp hovered markerType n _ hd]
      intro ⟨_, h2, _⟩
      have h2' : (-1 : Int) = (n : Int) := h2
      omega
    refine ⟨{ isChanged := r0.isChanged, isHovered := r0.isHovered || hovered n }, ?_, hc0⟩
    simp only [updateMarkerLoop, h0,
      updateMarkerStep_eq pos setPos inp hovered markerType n a _ r0 (by omega), hnot, if_false]
    rfl

/-- With a width other than zero the loop of `UpdateMarker` over slots of the array
returns. -/
theorem updateMarkerLoop_total {T : Type} (pos : T → ℚ) (setPos : T → ℚ → T)
    (inp : FrameInput) (hovered : Nat → Bool) (markerType : ImGradientHDRMarkerType)
    (a : List T) (t : ImGradientHDRTemporaryState) (hw : inp.width ≠ 0) :
    ∀ n, n ≤ a.length →
      ∃ a1 t1 ret1,
        updateMarkerLoop pos setPos inp hovered markerType a t n = .ok (a1, t1, ret1) := by
  intro n
  induction n with
  | zero => intro _; exact ⟨_, _, _, rfl⟩
  | succ n ih =>
    intro hn
    obtain ⟨a0, t0, r0, h0⟩ := ih (by omega)
    obtain ⟨_, hlen, _, _⟩ := updateMarkerLoop_ok pos setPos inp hovered markerType a t n a0 t0 r0 h0
    have hi : n < a0.length := by omega
    simp only [updateMarkerLoop, h0,
      updateMarkerStep_eq pos setPos inp hovered markerType n a0 t0 r0 hi, hw, if_false]
    by_cases hdrag : (pressAndRelease inp hovered markerType n t0).draggingMarkerType = markerType ∧
        (pressAndRelease inp hovered markerType n t0).draggingIndex = (n : Int) ∧
        inp.mouseDragging = true
    · rw [if_pos hdrag]
      exact ⟨_, _, _, rfl⟩
    · rw [if_neg hdrag]
      exact ⟨_, _, _, rfl⟩

/-- What the loop of `UpdateMarker` does to the array: if it changed a stop, the button is
down and the drag target's type is still the marker type when the loop ends; and a
slot either holds what it held or holds a stop with a `Position` in `[0, 1]`. -/
theorem updateMarkerLoop_array {T : Type} (pos : T → ℚ) (setPos : T → ℚ → T)
    (inp : FrameInput) (hovered : Nat → Bool) (markerType : ImGradientHDRMarkerType)
    (a : List T) (t : ImGradientHDRTemporaryState)
    (hpos : ∀ m p, pos (setPos m p) = p) :
    ∀ (n : Nat) (a1 : List T) (t1 : ImGradientHDRTemporaryState) (ret1 : UpdateMarkerResult),
      updateMarkerLoop pos setPos inp hovered markerType a t n = .ok (a1, t1, ret1) →
      (a1 = a ∨ (inp.mouseDown = true ∧ t1.draggingMarkerType = markerType)) ∧
      (∀ (j : Nat) (m1 : T), a1[j]? = some m1 →
        ∃ m, a[j]? = some m ∧ (m1 = m ∨ (0 ≤ pos m1 ∧ pos m1 ≤ 1))) := by
  intro n
  induction n with
  | zero =>
    intro a1 t1 ret1 h
    simp only [updateMarkerLoop] at h
    injection h with h
    injection h with h1 h
    subst h1
    exact ⟨Or.inl rfl, fun j m1 hj => ⟨m1, hj, Or.inl rfl⟩⟩
  | succ n ih =>
    intro a1 t1 ret1 h
    simp only [updateMarkerLoop] at h
    cases hl : updateMarkerLoop pos setPos inp hovered markerType a t n with
    | error e => rw [hl] at h; exact Except.noConfusion h
    | ok r =>
      obtain ⟨a0, t0, r0⟩ := r
      rw [hl] at h
      obtain ⟨k1, k2⟩ := ih a0 t0 r0 hl
      obtain ⟨s1, s2, _, s4⟩ :=
        updateMarkerStep_ok pos setPos inp hovered markerType n a0 a1 t0 t1 r0 ret1 h
      have hdown_of_drag : t1.draggingIndex = (n : Int) → inp.mouseDown = true := by
        intro hidx
        cases hd : inp.mouseDown with
        | true => rfl
        | false =>
          rw [s2, pressAndRelease_not_down inp hovered markerType n t0 hd] at hidx
          have : (-1 : Int) = (n : Int) := hidx
          omega
      rcases s4 with ⟨e, _, _⟩ | ⟨⟨d1, d2, _⟩, _, m, hm, e, _⟩
      · subst e
        refine ⟨?_, k2⟩
        rcases k1 with k1 | ⟨kd, kt⟩
        · exact Or.inl k1
        · right
          refine ⟨kd, ?_⟩
          rw [s2, pressAndRelease_down inp hovered markerType n t0 kd]
          by_cases hsel : t0.draggingIndex = -1 ∧ hovered n = true
          · rw [if_pos hsel]
          · rw [if_neg hsel]; exact kt
      · refine ⟨Or.inr ⟨hdown_of_drag d2, d1⟩, ?_⟩
        intro j m1 hj
        rw [e, List.getElem?_set] at hj
        by_cases hnj : n = j
        · subst hnj
          rw [if_pos rfl, if_pos s1] at hj
          obtain ⟨m0, hm0, _⟩ := k2 n m hm
          refine ⟨m0, hm0, Or.inr ?_⟩
          have : m1 = setPos m (clamp01 (pos m + inp.mouseDeltaX / inp.width)) :=
            (Option.some.inj hj).symm
          rw [this, hpos]
          exact clamp01_mem _
        · rw [if_neg hnj] at hj
          exact k2 j m1 hj

/-- If the loop of `UpdateMarker` reports no change and the markers it visits have their
`Position` in `[0, 1]`, the array is as it was. -/
theorem updateMarkerLoop_unchanged {T : Type} (pos : T → ℚ) (setPos : T → ℚ → T)
    (inp : FrameInput) (hovered : Nat → Bool) (markerType : ImGradientHDRMarkerType)
    (a : List T) (t : ImGradientHDRTemporaryState)
    (hfix : ∀ m, setPos m (pos m) = m) :
    ∀ (n : Nat) (a1 : List T) (t1 : ImGradientHDRTemporaryState) (ret1 : UpdateMarkerResult),
      updateMarkerLoop pos setPos inp hovered markerType a t n = .ok (a1, t1, ret1) →
      (∀ (j : Nat) (m : T), j < n → a[j]? = some m → 0 ≤ pos m ∧ pos m ≤ 1) →
      ret1.isChanged = false → a1 = a := by
  intro n
  induction n with
  | zero =>
    intro a1 t1 ret1 h _ _
    simp only [updateMarkerLoop] at h
    injection h with h
    injection h with h1 h
    exact h1.symm
  | succ n ih =>
    intro a1 t1 ret1 h hunit hch
    simp only [updateMarkerLoop] at h
    cases hl : updateMarkerLoop pos setPos inp hovered markerType a t n with
    | error e => rw [hl] at h; exact Except.noConfusion h
    | ok r =>
      obtain ⟨a0, t0, r0⟩ := r
      rw [hl] at h
      obtain ⟨_, _, _, s4⟩ :=
        updateMarkerStep_ok pos setPos inp hovered markerType n a0 a1 t0 t1 r0 ret1 h
      rcases s4 with ⟨e, hc, _⟩ | ⟨_, _, m, hm, e, hc⟩
      · rw [e]
        exact ih a0 t0 r0 hl (fun j m hj => hunit j m (by omega)) (by rw [← hc]; exact hch)
      · rw [hch] at hc
        have hc' := hc.symm
        rw [Bool.or_eq_false_iff] at hc'
        obtain ⟨hc1, hc2⟩ := hc'
        have ha0 : a0 = a := ih a0 t0 r0 hl (fun j m hj => hunit j m (by omega)) hc1
        have hdiff : inp.mouseDeltaX / inp.width = 0 := by
          by_contra hne
          have : decide (inp.mouseDeltaX / inp.width ≠ 0) = true := decide_eq_true hne
          rw [this] at hc2
          exact Bool.noConfusion hc2
        rw [ha0] at hm e
        obtain ⟨u0, u1⟩ := hunit n m (by omega) hm
        rw [e, hdiff, add_zero, clamp01_of_mem _ u0 u1, hfix]
        exact set_same a n m hm

/-- If a marker is dragged in its iteration and the position delta is not zero, the loop
of `UpdateMarker` reports a change. -/
theorem updateMarkerLoop_changed {T : Type} (pos : T → ℚ) (setPos : T → ℚ → T)
    (inp : FrameInput) (hovered : Nat → Bool) (markerType : ImGradientHDRMarkerType)
    (a : List T) (t : ImGradientHDRTemporaryState)
    (hdelta : inp.mouseDeltaX / inp.width ≠ 0) :
    ∀ (n : Nat) (a1 : List T) (t1 : ImGradientHDRTemporaryState) (ret1 : UpdateMarkerResult),
      updateMarkerLoop pos setPos inp hovered markerType a t n = .ok (a1, t1, ret1) →
      (∃ i, i < n ∧ DraggedAt inp hovered markerType t i) → ret1.isChanged = true := by
  intro n
  induction n with
  | zero =>
    intro a1 t1 ret1 _ ⟨i, hi, _⟩
    omega
  | succ n ih =>
    intro a1 t1 ret1 h ⟨i, hi, hdr⟩
    simp only [updateMarkerLoop] at h
    cases hl : updateMarkerLoop pos setPos inp hovered markerType a t n with
    | error e => rw [hl] at h; exact Except.noConfusion h
    | ok r =>
      obtain ⟨a0, t0, r0⟩ := r
      rw [hl] at h
      obtain ⟨_, _, k3, _⟩ := updateMarkerLoop_ok pos setPos inp hovered markerType a t n a0 t0 r0 hl
      obtain ⟨_, s2, _, s4⟩ :=
        updateMarkerStep_ok pos setPos inp hovered markerType n a0 a1 t0 t1 r0 ret1 h
      rcases Nat.lt_or_ge i n with hlt | hge
      · have hprev := ih a0 t0 r0 hl ⟨i, hlt, hdr⟩
        rcases s4 with ⟨_, hc, _⟩ | ⟨_, _, m, _, _, hc⟩
        · rw [hc, hprev]
        · rw [hc, hprev]
          rfl
      · have hin : i = n := by omega
        subst hin
        have ht1 : t1 = temporaryStateAfter inp hovered markerType t (i + 1) := by
          rw [s2, k3]
          rfl
        rcases s4 with ⟨_, _, hnot⟩ | ⟨_, _, m, _, _, hc⟩
        · exfalso
          apply hnot
          rw [ht1]
          exact hdr
        · rw [hc, decide_eq_true hdelta]
          simp

/-! ## Selection in the per-marker update -/

/-- Counterexample to C15 as stated: in `heldInput` the button is down but not newly
pressed (`IsMouseClicked` is false); nothing is dragged and the pointer is over alpha
marker `0`. `UpdateMarker` makes marker `0` the selection and the drag target all the
same: its test is `IsMouseDown(0)`. -/
theorem held_button_selects_counterexample :
    heldInput.mouseDown = true ∧ heldInput.mouseClicked = false ∧
    idleState.draggingIndex = -1 ∧ heldInput.alphaMarkerHovered 0 = true ∧
    UpdateMarker AlphaMarker.Position AlphaMarker.setPosition heldInput
        heldInput.alphaMarkerHovered ImGradientHDRMarkerType.Alpha
        exampleStore.Alphas exampleStore.AlphaCount idleState =
      .ok (exampleStore.Alphas,
        { selectedMarkerType := ImGradientHDRMarkerType.Alpha, selectedIndex := 0,
          draggingMarkerType := ImGradientHDRMarkerType.Alpha, draggingIndex := 0 },
        { isChanged := false, isHovered := true }) := by
  refine ⟨rfl, rfl, rfl, rfl, ?_⟩
  simp [UpdateMarker, updateMarkerLoop, updateMarkerStep, readAt, exampleStore,
    pressAndRelease, heldInput, idleState]

/-- Claim C15, amended. In an iteration of `UpdateMarker`, marker `i` becomes the selection
and the drag target exactly when, at its turn, `draggingIndex` is `-1`, the pointer is
over marker `i` and the primary button is down; otherwise the iteration leaves the
selection as it is and the drag target as it is or cleared. The iteration returns for
every slot of the array (with a nonzero width) and does not look at `IsMouseClicked`: a
button held down from an earlier frame does the same as a newly pressed one. In a frame
where the button is not down the loop, over any number of markers, makes no marker the
selection or the drag target. -/
theorem marker_taken_when_button_down {T : Type} (pos : T → ℚ) (setPos : T → ℚ → T)
    (inp : FrameInput) (hovered : Nat → Bool) (markerType : ImGradientHDRMarkerType)
    (a : List T) (t : ImGradientHDRTemporaryState) (ret : UpdateMarkerResult) (i : Nat) :
    (∀ a1 t1 ret1,
      updateMarkerStep pos setPos inp hovered markerType i a t ret = .ok (a1, t1, ret1) →
      (t.draggingIndex = -1 ∧ hovered i = true ∧ inp.mouseDown = true →
        t1 = { selectedMarkerType := markerType, selectedIndex := (i : Int),
               draggingMarkerType := markerType, draggingIndex := (i : Int) }) ∧
      (¬ (t.draggingIndex = -1 ∧ hovered i = true ∧ inp.mouseDown = true) →
        t1.selectedMarkerType = t.selectedMarkerType ∧ t1.selectedIndex = t.selectedIndex ∧
        (t1 = t ∨ t1 = { t with draggingIndex := -1,
                                draggingMarkerType := ImGradientHDRMarkerType.Unknown }))) ∧
    (i < a.length → inp.width ≠ 0 → ∃ a1 t1 ret1,
      updateMarkerStep pos setPos inp hovered markerType i a t ret = .ok (a1, t1, ret1)) ∧
    (∀ b : Bool,
      updateMarkerStep pos setPos { inp with mouseClicked := b } hovered markerType i a t ret =
        updateMarkerStep pos setPos inp hovered markerType i a t ret) ∧
    (inp.mouseDown = false → ∀ n, n ≤ a.length →
      ∃ t1 ret1, UpdateMarker pos setPos inp hovered markerType a n t = .ok (a, t1, ret1) ∧
        t1.selectedMarkerType = t.selectedMarkerType ∧ t1.selectedIndex = t.selectedIndex ∧
        (t1 = t ∨ t1 = { t with draggingIndex := -1,
                                draggingMarkerType := ImGradientHDRMarkerType.Unknown })) := by
  refine ⟨?_, ?_, fun b => rfl, ?_⟩
  · intro a1 t1 ret1 h
    obtain ⟨_, ht1, _⟩ := updateMarkerStep_ok pos setPos inp hovered markerType i a a1 t t1
      ret ret1 h
    rw [ht1]
    exact pressAndRelease_selection inp hovered markerType i t
  · intro hi hw
    rw [updateMarkerStep_eq pos setPos inp hovered markerType i a t ret hi]
    by_cases hdrag : (pressAndRelease inp hovered markerType i t).draggingMarkerType = markerType ∧
        (pressAndRelease inp hovered markerType i t).draggingIndex = (i : Int) ∧
        inp.mouseDragging = true
    · rw [if_pos hdrag, if_neg hw]
      exact ⟨_, _, _, rfl⟩
    · rw [if_neg hdrag]
      exact ⟨_, _, _, rfl⟩
  · intro hd n hlen
    obtain ⟨ret1, h1, _⟩ :=
      updateMarkerLoop_not_down pos setPos inp hovered markerType a t hd n hlen
    refine ⟨_, ret1, h1, ?_⟩
    by_cases hn : 0 < n
    · rw [temporaryStateAfter_not_down inp hovered markerType t hd n hn]
      exact ⟨rfl, rfl, Or.inr rfl⟩
    · have h0 : n = 0 := by omega
      subst h0
      exact ⟨rfl, rfl, Or.inl rfl⟩

/-- Witness of C15 (amended): the iteration for alpha marker `0` of `exampleStore` under
`heldInput`, from the idle state, returns and makes the marker the selection and the
drag target; the loop over both alpha markers under `releasedInput`, from
`draggingState`, returns and leaves the selection as it is. -/
theorem marker_taken_when_button_down_witness :
    (∃ a1 t1 ret1,
      updateMarkerStep AlphaMarker.Position AlphaMarker.setPosition heldInput
          heldInput.alphaMarkerHovered ImGradientHDRMarkerType.Alpha 0 exampleStore.Alphas
          idleState { isChanged := false, isHovered := false } = .ok (a1, t1, ret1) ∧
      t1 = { selectedMarkerType := ImGradientHDRMarkerType.Alpha, selectedIndex := 0,
             draggingMarkerType := ImGradientHDRMarkerType.Alpha, draggingIndex := 0 }) ∧
    releasedInput.mouseDown = false ∧
    (∃ t1 ret1,
      UpdateMarker AlphaMarker.Position AlphaMarker.setPosition releasedInput
          releasedInput.alphaMarkerHovered ImGradientHDRMarkerType.Alpha exampleStore.Alphas
          2 draggingState = .ok (exampleStore.Alphas, t1, ret1) ∧
      t1.selectedMarkerType = draggingState.selectedMarkerType ∧
      t1.selectedIndex = draggingState.selectedIndex) := by
  have hthm := marker_taken_when_button_down AlphaMarker.Position AlphaMarker.setPosition
    heldInput heldInput.alphaMarkerHovered ImGradientHDRMarkerType.Alpha exampleStore.Alphas
    idleState { isChanged := false, isHovered := false } 0
  obtain ⟨a1, t1, ret1, h1⟩ := hthm.2.1 (by decide) (by norm_num [heldInput])
  obtain ⟨t2, ret2, h2, k1, k2, _⟩ :=
    (marker_taken_when_button_down AlphaMarker.Position AlphaMarker.setPosition
      releasedInput releasedInput.alphaMarkerHovered ImGradientHDRMarkerType.Alpha
      exampleStore.Alphas draggingState { isChanged := false, isHovered := false } 0).2.2.2
      rfl 2 (by decide)
  exact ⟨⟨a1, t1, ret1, h1, (hthm.1 a1 t1 ret1 h1).1 ⟨rfl, rfl, rfl⟩⟩, rfl,
    ⟨t2, ret2, h2, k1, k2⟩⟩

/-! ## The blocks of a frame -/

theorem sortIfDragging_ok {T : Type} {pos : T → ℚ} (srt : StdSort T pos)
    (markerType : ImGradientHDRMarkerType) (a : List T) (count : Nat)
    (t : ImGradientHDRTemporaryState) (hc : count ≤ a.length) :
    ∃ a1 t1, sortIfDragging srt markerType a count t = .ok (a1, count, t1) ∧
      a1.length = a.length ∧ a1.drop count = a.drop count ∧
      (live a1 count).Perm (live a count) ∧
      t1.selectedMarkerType = t.selectedMarkerType ∧
      t1.draggingMarkerType = t.draggingMarkerType ∧
      (t.draggingMarkerType ≠ markerType → a1 = a ∧ t1 = t) ∧
      (t.draggingMarkerType = markerType → SortedByPosition pos (live a1 count)) ∧
      (t.selectedIndex = t.draggingIndex → t1.selectedIndex = t1.draggingIndex) ∧
      (0 ≤ t.draggingIndex ∧ t.draggingIndex < (count : Int) →
        0 ≤ t1.draggingIndex ∧ t1.draggingIndex < (count : Int)) ∧
      (¬ (0 ≤ t.draggingIndex ∧ t.draggingIndex < (count : Int)) →
        t1.draggingIndex = t.draggingIndex) ∧
      (¬ (0 ≤ t.selectedIndex ∧ t.selectedIndex < (count : Int)) →
        t1.selectedIndex = t.selectedIndex) := by
  by_cases ht : t.draggingMarkerType = markerType
  · obtain ⟨v, sel1, drag1, h1, h2, h3, h4, h5, h6, h7⟩ :=
      SortMarkers_ok srt a count t.selectedIndex t.draggingIndex hc
    obtain ⟨f1, f2, f3⟩ := sortedArray_facts srt a count v h2 h3 hc
    have hw : (srt.run v).length = count := by rw [(srt.perm v).length_eq, h2]
    obtain ⟨r1, hr1, hr1a, hr1b⟩ :=
      remapIndex_ok a v (srt.run v) count t.selectedIndex (srt.perm v) h2 h4
    obtain ⟨r2, hr2, hr2a, hr2b⟩ :=
      remapIndex_ok a v (srt.run v) count t.draggingIndex (srt.perm v) h2 h4
    have e1 : sel1 = r1 := by
      have := h5.symm.trans hr1
      injection this
    have e2 : drag1 = r2 := by
      have := h6.symm.trans hr2
      injection this
    subst e1 e2
    refine ⟨(srt.run v).map SortedMarker.marker ++ a.drop count,
      { t with selectedIndex := sel1, draggingIndex := drag1 }, ?_, f1, ?_, f3, rfl, rfl,
      fun h => absurd ht h, fun _ => f2, ?_, ?_, ?_, ?_⟩
    · simp only [sortIfDragging, if_pos ht, h7]
    · rw [List.drop_append_eq_append_drop]
      simp [hw]
    · intro he
      show sel1 = drag1
      have : remapIndex (srt.run v) count t.selectedIndex
          = remapIndex (srt.run v) count t.draggingIndex := by rw [he]
      rw [h5, h6] at this
      injection this
    · intro h
      obtain ⟨j, sm, hj, hjc, _⟩ := hr2a h
      show 0 ≤ drag1 ∧ drag1 < (count : Int)
      rw [hj]
      omega
    · intro h
      exact hr2b h
    · intro h
      exact hr1b h
  · refine ⟨a, t, ?_, rfl, rfl, List.Perm.refl _, rfl, rfl, fun _ => ⟨rfl, rfl⟩,
      fun h => absurd h ht, fun h => h, fun h => h, fun _ => rfl, fun _ => rfl⟩
    simp only [sortIfDragging, if_neg ht]

theorem AddAlphaMarker_cases (MarkerMax : Nat) (s : ImGradientHDRState) (x alpha : ℚ)
    (hwf : WellFormed MarkerMax s) :
    (MarkerMax ≤ s.AlphaCount ∧ AddAlphaMarker MarkerMax s x alpha = .ok (false, s)) ∨
    (s.AlphaCount < MarkerMax ∧ ∃ k, k ≤ s.AlphaCount ∧
      AddAlphaMarker MarkerMax s x alpha = .ok (true,
        { s with Alphas := insertedArray s.Alphas s.AlphaCount k ⟨clamp01 x, alpha⟩,
                 AlphaCount := s.AlphaCount + 1 })) := by
  by_cases hfull : s.AlphaCount ≥ MarkerMax
  · exact Or.inl ⟨hfull, by simp only [AddAlphaMarker, hfull, if_true]⟩
  · right
    have hc : s.AlphaCount < s.Alphas.length := by rw [hwf.2]; omega
    obtain ⟨k, hk, hkc⟩ := lower_bound_range AlphaMarker.Position s.Alphas s.AlphaCount
      (clamp01 x) (by omega)
    refine ⟨by omega, k, hkc, ?_⟩
    have := AddMarker_of_lower_bound AlphaMarker.Position s.Alphas s.AlphaCount k
      ⟨clamp01 x, alpha⟩ hc hkc hk
    simp only [AddAlphaMarker, hfull, if_false, this]

theorem AddColorMarker_cases (MarkerMax : Nat) (s : ImGradientHDRState) (x : ℚ)
    (color : ℚ × ℚ × ℚ) (intensity : ℚ) (hwf : WellFormed MarkerMax s) :
    (MarkerMax ≤ s.ColorCount ∧
      AddColorMarker MarkerMax s x color intensity = .ok (false, s)) ∨
    (s.ColorCount < MarkerMax ∧ ∃ k, k ≤ s.ColorCount ∧
      AddColorMarker MarkerMax s x color intensity = .ok (true,
        { s with Colors := insertedArray s.Colors s.ColorCount k ⟨clamp01 x, color, intensity⟩,
                 ColorCount := s.ColorCount + 1 })) := by
  by_cases hfull : s.ColorCount ≥ MarkerMax
  · exact Or.inl ⟨hfull, by simp only [AddColorMarker, hfull, if_true]⟩
  · right
    have hc : s.ColorCount < s.Colors.length := by rw [hwf.1]; omega
    obtain ⟨k, hk, hkc⟩ := lower_bound_range ColorMarker.Position s.Colors s.ColorCount
      (clamp01 x) (by omega)
    refine ⟨by omega, k, hkc, ?_⟩
    have := AddMarker_of_lower_bound ColorMarker.Position s.Colors s.ColorCount k
      ⟨clamp01 x, color, intensity⟩ hc hkc hk
    simp only [AddColorMarker, hfull, if_false, this]

/-- What a returned `alphaAreaClick` did: nothing, or (strip hovered, button clicked, room
left) it inserted one alpha stop. -/
theorem alphaAreaClick_cases (MarkerMax : Nat) (inp : FrameInput) (s s1 : ImGradientHDRState)
    (b : Bool) (hwf : WellFormed MarkerMax s)
    (h : alphaAreaClick MarkerMax inp s = .ok (b, s1)) :
    (b = false ∧ s1 = s ∧
      ¬ (inp.alphaAreaHovered = true ∧ inp.mouseClicked = true ∧ s.AlphaCount < MarkerMax)) ∨
    (b = true ∧ inp.alphaAreaHovered = true ∧ inp.mouseClicked = true ∧
      s.AlphaCount < MarkerMax ∧ ∃ k m, k ≤ s.AlphaCount ∧
        s1 = { s with Alphas := insertedArray s.Alphas s.AlphaCount k m,
                      AlphaCount := s.AlphaCount + 1 }) := by
  unfold alphaAreaClick at h
  by_cases hh : inp.alphaAreaHovered = true
  · rw [if_pos hh] at h
    cases hd : divide (inp.mousePosX - inp.alphaOriginX) inp.width with
    | error e => rw [hd] at h; cases h
    | ok xn =>
      simp only [hd] at h
      cases hg : GetAlpha s xn with
      | error e => simp only [hg] at h; cases h
      | ok c =>
        simp only [hg] at h
        by_cases hcl : inp.mouseClicked = true
        · simp only [if_pos hcl] at h
          rcases AddAlphaMarker_cases MarkerMax s xn c hwf with ⟨hf, he⟩ | ⟨hf, k, hk, he⟩
          · rw [he] at h
            injection h with h
            injection h with h1 h2
            exact Or.inl ⟨h1.symm, h2.symm, fun hx => by omega⟩
          · rw [he] at h
            injection h with h
            injection h with h1 h2
            exact Or.inr ⟨h1.symm, hh, hcl, hf, k, _, hk, h2.symm⟩
        · simp only [if_neg hcl] at h
          injection h with h
          injection h with h1 h2
          exact Or.inl ⟨h1.symm, h2.symm, fun hx => hcl hx.2.1⟩
  · rw [if_neg hh] at h
    injection h with h
    injection h with h1 h2
    exact Or.inl ⟨h1.symm, h2.symm, fun hx => hh hx.1⟩

theorem colorAreaClick_cases (MarkerMax : Nat) (inp : FrameInput) (s s1 : ImGradientHDRState)
    (b : Bool) (hwf : WellFormed MarkerMax s)
    (h : colorAreaClick MarkerMax inp s = .ok (b, s1)) :
    (b = false ∧ s1 = s ∧
      ¬ (inp.colorAreaHovered = true ∧ inp.mouseClicked = true ∧ s.ColorCount < MarkerMax)) ∨
    (b = true ∧ inp.colorAreaHovered = true ∧ inp.mouseClicked = true ∧
      s.ColorCount < MarkerMax ∧ ∃ k m, k ≤ s.ColorCount ∧
        s1 = { s with Colors := insertedArray s.Colors s.ColorCount k m,
                      ColorCount := s.ColorCount + 1 }) := by
  unfold colorAreaClick at h
  by_cases hh : inp.colorAreaHovered = true
  · rw [if_pos hh] at h
    cases hd : divide (inp.mousePosX - inp.colorOriginX) inp.width with
    | error e => rw [hd] at h; cases h
    | ok xn =>
      simp only [hd] at h
      cases hg : GetColorAndIntensity s xn with
      | error e => simp only [hg] at h; cases h
      | ok c =>
        simp only [hg] at h
        by_cases hcl : inp.mouseClicked = true
        · simp only [if_pos hcl] at h
          rcases AddColorMarker_cases MarkerMax s xn (c.1, c.2.1, c.2.2.1) c.2.2.2 hwf with
            ⟨hf, he⟩ | ⟨hf, k, hk, he⟩
          · rw [he] at h
            injection h with h
            injection h with h1 h2
            exact Or.inl ⟨h1.symm, h2.symm, fun hx => by omega⟩
          · rw [he] at h
            injection h with h
            injection h with h1 h2
            exact Or.inr ⟨h1.symm, hh, hcl, hf, k, _, hk, h2.symm⟩
        · simp only [if_neg hcl] at h
          injection h with h
          injection h with h1 h2
          exact Or.inl ⟨h1.symm, h2.symm, fun hx => hcl hx.2.1⟩
  · rw [if_neg hh] at h
    injection h with h
    injection h with h1 h2
    exact Or.inl ⟨h1.symm, h2.symm, fun hx => hh hx.1⟩

theorem divide_ok (n d : ℚ) (hd : d ≠ 0) : divide n d = .ok (n / d) := by
  simp [divide, hd]

/-- On a store that meets the store predicate, with a nonzero width, `alphaAreaClick`
returns and keeps the predicate. -/
theorem alphaAreaClick_preserves (MarkerMax : Nat) (inp : FrameInput) (s : ImGradientHDRState)
    (hw : inp.width ≠ 0) (hwf : WellFormed MarkerMax s) (hinv : StoreInvariant MarkerMax s) :
    ∃ b s1, alphaAreaClick MarkerMax inp s = .ok (b, s1) ∧
      WellFormed MarkerMax s1 ∧ StoreInvariant MarkerMax s1 := by
  unfold alphaAreaClick
  by_cases hh : inp.alphaAreaHovered = true
  · rw [if_pos hh, divide_ok _ _ hw]
    obtain ⟨v, hv, _⟩ := GetAlpha_on_live_range s ((inp.mousePosX - inp.alphaOriginX) / inp.width)
      (by rw [hwf.2]; exact hinv.2.2.2.2.2) hinv.2.1
    simp only [hv]
    by_cases hcl : inp.mouseClicked = true
    · rw [if_pos hcl]
      exact AddAlphaMarker_preserves MarkerMax s _ _ hwf hinv
    · rw [if_neg hcl]
      exact ⟨false, s, rfl, hwf, hinv⟩
  · rw [if_neg hh]
    exact ⟨false, s, rfl, hwf, hinv⟩

theorem colorAreaClick_preserves (MarkerMax : Nat) (inp : FrameInput) (s : ImGradientHDRState)
    (hw : inp.width ≠ 0) (hwf : WellFormed MarkerMax s) (hinv : StoreInvariant MarkerMax s) :
    ∃ b s1, colorAreaClick MarkerMax inp s = .ok (b, s1) ∧
      WellFormed MarkerMax s1 ∧ StoreInvariant MarkerMax s1 := by
  unfold colorAreaClick
  by_cases hh : inp.colorAreaHovered = true
  · rw [if_pos hh, divide_ok _ _ hw]
    obtain ⟨v, hv, _⟩ := GetColorAndIntensity_on_live_range s
      ((inp.mousePosX - inp.colorOriginX) / inp.width)
      (by rw [hwf.1]; exact hinv.2.2.2.2.1) hinv.1
    simp only [hv]
    by_cases hcl : inp.mouseClicked = true
    · rw [if_pos hcl]
      exact AddColorMarker_preserves MarkerMax s _ _ _ hwf hinv
    · rw [if_neg hcl]
      exact ⟨false, s, rfl, hwf, hinv⟩
  · rw [if_neg hh]
    exact ⟨false, s, rfl, hwf, hinv⟩

theorem collectKeys_ok {T : Type} (pos : T → ℚ) (a : List T) :
    ∀ n, n ≤ a.length → ∃ ks, collectKeys pos a n = .ok ks := by
  intro n
  induction n with
  | zero => intro _; exact ⟨[], rfl⟩
  | succ n ih =>
    intro hn
    obtain ⟨ks, hks⟩ := ih (by omega)
    refine ⟨ks ++ [pos (a.get ⟨n, by omega⟩)], ?_⟩
    simp only [collectKeys, hks, readAt_of_lt a n (by omega)]

theorem GetCombinedColor_ok (s : ImGradientHDRState) (x : ℚ)
    (hc1 : s.ColorCount ≤ s.Colors.length) (hc2 : s.AlphaCount ≤ s.Alphas.length)
    (hs1 : SortedByPosition ColorMarker.Position (live s.Colors s.ColorCount))
    (hs2 : SortedByPosition AlphaMarker.Position (live s.Alphas s.AlphaCount)) :
    ∃ v, GetCombinedColor s x = .ok v := by
  obtain ⟨c, hc, _⟩ := GetColorAndIntensity_on_live_range s x hc1 hs1
  obtain ⟨a, ha, _⟩ := GetAlpha_on_live_range s x hc2 hs2
  exact ⟨(c.1 * c.2.2.2, c.2.1 * c.2.2.2, c.2.2.1 * c.2.2.2, a),
    by simp only [GetCombinedColor, hc, ha]⟩

theorem drawSegments_ok (s : ImGradientHDRState)
    (hc1 : s.ColorCount ≤ s.Colors.length) (hc2 : s.AlphaCount ≤ s.Alphas.length)
    (hs1 : SortedByPosition ColorMarker.Position (live s.Colors s.ColorCount))
    (hs2 : SortedByPosition AlphaMarker.Position (live s.Alphas s.AlphaCount)) :
    ∀ ks, drawSegments s ks = .ok () := by
  intro ks
  induction ks with
  | nil => rfl
  | cons k1 ks ih =>
    cases ks with
    | nil => rfl
    | cons k2 ks =>
      obtain ⟨v1, h1⟩ := GetCombinedColor_ok s k1 hc1 hc2 hs1 hs2
      obtain ⟨v2, h2⟩ := GetCombinedColor_ok s k2 hc1 hc2 hs1 hs2
      simp only [drawSegments, h1, h2, ih]

/-- On a store that meets the store predicate the bar is drawn without a fault. -/
theorem drawBar_ok (MarkerMax : Nat) (s : ImGradientHDRState)
    (hwf : WellFormed MarkerMax s) (hinv : StoreInvariant MarkerMax s) :
    drawBar s = .ok () := by
  obtain ⟨i1, i2, _, _, i5, i6⟩ := hinv
  have hc1 : s.ColorCount ≤ s.Colors.length := by rw [hwf.1]; exact i5
  have hc2 : s.AlphaCount ≤ s.Alphas.length := by rw [hwf.2]; exact i6
  obtain ⟨kc, hkc⟩ := collectKeys_ok ColorMarker.Position s.Colors s.ColorCount hc1
  obtain ⟨ka, hka⟩ := collectKeys_ok AlphaMarker.Position s.Alphas s.AlphaCount hc2
  simp only [drawBar, hkc, hka, drawSegments_ok s hc1 hc2 i1 i2]

/-- The markers of one type after `UpdateMarker` and the sort call that follows it: the
count is the same, and a live range that was sorted with positions in `[0, 1]` is so
again. -/
theorem updateAndSort_preserves {T : Type} {pos : T → ℚ} (srt : StdSort T pos)
    (setPos : T → ℚ → T) (inp : FrameInput) (hovered : Nat → Bool)
    (markerType : ImGradientHDRMarkerType) (a a1 a2 : List T) (count c2 : Nat)
    (t t1 t2 : ImGradientHDRTemporaryState) (res : UpdateMarkerResult)
    (hpos : ∀ m p, pos (setPos m p) = p)
    (h1 : UpdateMarker pos setPos inp hovered markerType a count t = .ok (a1, t1, res))
    (h2 : sortIfDragging srt markerType a1 count t1 = .ok (a2, c2, t2))
    (hs : SortedByPosition pos (live a count)) (hu : PositionsInUnit pos (live a count)) :
    c2 = count ∧ a2.length = a.length ∧
      SortedByPosition pos (live a2 count) ∧ PositionsInUnit pos (live a2 count) := by
  unfold UpdateMarker at h1
  obtain ⟨hc, hlen, _, _⟩ := updateMarkerLoop_ok pos setPos inp hovered markerType a t count
    a1 t1 res h1
  obtain ⟨harr, hslots⟩ := updateMarkerLoop_array pos setPos inp hovered markerType a t hpos
    count a1 t1 res h1
  obtain ⟨a2', t2', he, f1, _, f3, _, _, f6, f7, _⟩ :=
    sortIfDragging_ok srt markerType a1 count t1 (by omega)
  rw [he] at h2
  injection h2 with h2
  injection h2 with e1 h2
  injection h2 with e2 e3
  subst e1 e2 e3
  have hu1 : PositionsInUnit pos (live a1 count) := by
    intro m hm
    obtain ⟨j, hj, hjm⟩ := (mem_live_iff a1 count m).mp hm
    obtain ⟨m0, hm0, hor⟩ := hslots j m hjm
    rcases hor with h | h
    · subst h
      exact hu m ((mem_live_iff a count m).mpr ⟨j, hj, hm0⟩)
    · exact h
  refine ⟨rfl, by omega, ?_, positionsInUnit_perm pos _ _ f3 hu1⟩
  by_cases ht : t1.draggingMarkerType = markerType
  · exact f7 ht
  · obtain ⟨e, _⟩ := f6 ht
    rw [e]
    rcases harr with h | h
    · rw [h]; exact hs
    · exact absurd h.2 ht

theorem updateAndSort_total {T : Type} {pos : T → ℚ} (srt : StdSort T pos)
    (setPos : T → ℚ → T) (inp : FrameInput) (hovered : Nat → Bool)
    (markerType : ImGradientHDRMarkerType) (a : List T) (count : Nat)
    (t : ImGradientHDRTemporaryState) (hw : inp.width ≠ 0) (hc : count ≤ a.length) :
    ∃ a1 t1 res a2 t2,
      UpdateMarker pos setPos inp hovered markerType a count t = .ok (a1, t1, res) ∧
      sortIfDragging srt markerType a1 count t1 = .ok (a2, count, t2) := by
  obtain ⟨a1, t1, res, h1⟩ := updateMarkerLoop_total pos setPos inp hovered markerType a t hw
    count hc
  obtain ⟨_, hlen, _, _⟩ := updateMarkerLoop_ok pos setPos inp hovered markerType a t count
    a1 t1 res h1
  obtain ⟨a2, t2, he, _⟩ := sortIfDragging_ok srt markerType a1 count t1 (by omega)
  exact ⟨a1, t1, res, a2, t2, h1, he⟩

/-- What a returned alpha block did. -/
theorem alphaBlock_ok (MarkerMax : Nat) (srt : StdSort AlphaMarker AlphaMarker.Position)
    (inp : FrameInput) (s s3 : ImGradientHDRState) (t t2 : ImGradientHDRTemporaryState)
    (isMarkerShown c : Bool)
    (h : alphaBlock MarkerMax srt inp s t isMarkerShown = .ok (c, s3, t2)) :
    (isMarkerShown = false ∧ c = false ∧ s3 = s ∧ t2 = t) ∨
    (isMarkerShown = true ∧ ∃ a1 t1 res a2 added,
      UpdateMarker AlphaMarker.Position AlphaMarker.setPosition inp inp.alphaMarkerHovered
        ImGradientHDRMarkerType.Alpha s.Alphas s.AlphaCount t = .ok (a1, t1, res) ∧
      sortIfDragging srt ImGradientHDRMarkerType.Alpha a1 s.AlphaCount t1
        = .ok (a2, s.AlphaCount, t2) ∧
      alphaAreaClick MarkerMax inp { s with Alphas := a2 } = .ok (added, s3) ∧
      c = (res.isChanged || added)) := by
  unfold alphaBlock at h
  by_cases hs : isMarkerShown = true
  · right
    rw [if_pos hs] at h
    cases h1 : UpdateMarker AlphaMarker.Position AlphaMarker.setPosition inp
        inp.alphaMarkerHovered ImGradientHDRMarkerType.Alpha s.Alphas s.AlphaCount t with
    | error e => simp only [h1] at h; cases h
    | ok r1 =>
      obtain ⟨a1, t1, res⟩ := r1
      simp only [h1] at h
      cases h2 : sortIfDragging srt ImGradientHDRMarkerType.Alpha a1 s.AlphaCount t1 with
      | error e => simp only [h2] at h; cases h
      | ok r2 =>
        obtain ⟨a2, c2, t2'⟩ := r2
        simp only [h2] at h
        have hlen := updateMarkerLoop_ok _ _ _ _ _ _ _ _ _ _ _ h1
        obtain ⟨a2', t2'', he, _⟩ := sortIfDragging_ok srt ImGradientHDRMarkerType.Alpha a1
          s.AlphaCount t1 (by omega)
        have hc2 : c2 = s.AlphaCount := by
          rw [he] at h2
          injection h2 with h2
          injection h2 with _ h2
          injection h2 with e _
          exact e.symm
        subst hc2
        cases h3 : alphaAreaClick MarkerMax inp { s with Alphas := a2 } with
        | error e => simp only [h3] at h; cases h
        | ok r3 =>
          obtain ⟨added, s3'⟩ := r3
          simp only [h3] at h
          injection h with h
          injection h with e1 h
          injection h with e2 e3
          subst e1 e2 e3
          exact ⟨hs, a1, t1, res, a2, added, rfl, h2, h3, rfl⟩
  · left
    rw [if_neg hs] at h
    injection h with h
    injection h with e1 h
    injection h with e2 e3
    simp only [Bool.not_eq_true] at hs
    exact ⟨hs, e1.symm, e2.symm, e3.symm⟩

/-- What a returned colour block did. -/
theorem colorBlock_ok (MarkerMax : Nat) (srt : StdSort ColorMarker ColorMarker.Position)
    (inp : FrameInput) (s s3 : ImGradientHDRState) (t t2 : ImGradientHDRTemporaryState)
    (isMarkerShown c : Bool)
    (h : colorBlock MarkerMax srt inp s t isMarkerShown = .ok (c, s3, t2)) :
    (isMarkerShown = false ∧ c = false ∧ s3 = s ∧ t2 = t) ∨
    (isMarkerShown = true ∧ ∃ a1 t1 res a2 added,
      UpdateMarker ColorMarker.Position ColorMarker.setPosition inp inp.colorMarkerHovered
        ImGradientHDRMarkerType.Color s.Colors s.ColorCount t = .ok (a1, t1, res) ∧
      sortIfDragging srt ImGradientHDRMarkerType.Color a1 s.ColorCount t1
        = .ok (a2, s.ColorCount, t2) ∧
      colorAreaClick MarkerMax inp { s with Colors := a2 } = .ok (added, s3) ∧
      c = (res.isChanged || added)) := by
  unfold colorBlock at h
  by_cases hs : isMarkerShown = true
  · right
    rw [if_pos hs] at h
    cases h1 : UpdateMarker ColorMarker.Position ColorMarker.setPosition inp
        inp.colorMarkerHovered ImGradientHDRMarkerType.Color s.Colors s.ColorCount t with
    | error e => simp only [h1] at h; cases h
    | ok r1 =>
      obtain ⟨a1, t1, res⟩ := r1
      simp only [h1] at h
      cases h2 : sortIfDragging srt ImGradientHDRMarkerType.Color a1 s.ColorCount t1 with
      | error e => simp only [h2] at h; cases h
      | ok r2 =>
        obtain ⟨a2, c2, t2'⟩ := r2
        simp only [h2] at h
        have hlen := updateMarkerLoop_ok _ _ _ _ _ _ _ _ _ _ _ h1
        obtain ⟨a2', t2'', he, _⟩ := sortIfDragging_ok srt ImGradientHDRMarkerType.Color a1
          s.ColorCount t1 (by omega)
        have hc2 : c2 = s.ColorCount := by
          rw [he] at h2
          injection h2 with h2
          injection h2 with _ h2
          injection h2 with e _
          exact e.symm
        subst hc2
        cases h3 : colorAreaClick MarkerMax inp { s with Colors := a2 } with
        | error e => simp only [h3] at h; cases h
        | ok r3 =>
          obtain ⟨added, s3'⟩ := r3
          simp only [h3] at h
          injection h with h
          injection h with e1 h
          injection h with e2 e3
          subst e1 e2 e3
          exact ⟨hs, a1, t1, res, a2, added, rfl, h2, h3, rfl⟩
  · left
    rw [if_neg hs] at h
    injection h with h
    injection h with e1 h
    injection h with e2 e3
    simp only [Bool.not_eq_true] at hs
    exact ⟨hs, e1.symm, e2.symm, e3.symm⟩

/-- What a returned frame did: the alpha block, the bar, the colour block. -/
theorem frame_ok (MarkerMax : Nat) (srtA : StdSort AlphaMarker AlphaMarker.Position)
    (srtC : StdSort ColorMarker ColorMarker.Position) (inp : FrameInput)
    (s s2 : ImGradientHDRState) (t t2 : ImGradientHDRTemporaryState)
    (isMarkerShown changed : Bool)
    (h : ImGradientHDR MarkerMax srtA srtC inp s t isMarkerShown = .ok (changed, s2, t2)) :
    ∃ c1 s1 t1 c2, alphaBlock MarkerMax srtA inp s t isMarkerShown = .ok (c1, s1, t1) ∧
      drawBar s1 = .ok () ∧
      colorBlock MarkerMax srtC inp s1 t1 isMarkerShown = .ok (c2, s2, t2) ∧
      changed = (c1 || c2) := by
  unfold ImGradientHDR at h
  cases h1 : alphaBlock MarkerMax srtA inp s t isMarkerShown with
  | error e => simp only [h1] at h; cases h
  | ok r1 =>
    obtain ⟨c1, s1, t1⟩ := r1
    simp only [h1] at h
    cases h2 : drawBar s1 with
    | error e => simp only [h2] at h; cases h
    | ok u =>
      simp only [h2] at h
      cases h3 : colorBlock MarkerMax srtC inp s1 t1 isMarkerShown with
      | error e => simp only [h3] at h; cases h
      | ok r3 =>
        obtain ⟨c2, s2', t2'⟩ := r3
        simp only [h3] at h
        injection h with h
        injection h with e1 h
        injection h with e2 e3
        subst e1 e2 e3
        exact ⟨c1, s1, t1, c2, rfl, h2, h3, rfl⟩

/-- On a store that meets the store predicate, with a nonzero width, the alpha block
returns and keeps the predicate. -/
theorem alphaBlock_preserves (MarkerMax : Nat) (srt : StdSort AlphaMarker AlphaMarker.Position)
    (inp : FrameInput) (s : ImGradientHDRState) (t : ImGradientHDRTemporaryState)
    (isMarkerShown : Bool) (hw : inp.width ≠ 0)
    (hwf : WellFormed MarkerMax s) (hinv : StoreInvariant MarkerMax s) :
    ∃ c s3 t2, alphaBlock MarkerMax srt inp s t isMarkerShown = .ok (c, s3, t2) ∧
      WellFormed MarkerMax s3 ∧ StoreInvariant MarkerMax s3 := by
  by_cases hs : isMarkerShown = true
  · obtain ⟨i1, i2, i3, i4, i5, i6⟩ := hinv
    obtain ⟨a1, t1, res, a2, t2, h1, h2⟩ := updateAndSort_total srt AlphaMarker.setPosition inp
      inp.alphaMarkerHovered ImGradientHDRMarkerType.Alpha s.Alphas s.AlphaCount t hw
      (by rw [hwf.2]; exact i6)
    obtain ⟨_, f2, f3, f4⟩ := updateAndSort_preserves srt AlphaMarker.setPosition inp
      inp.alphaMarkerHovered ImGradientHDRMarkerType.Alpha s.Alphas a1 a2 s.AlphaCount
      s.AlphaCount t t1 t2 res (fun _ _ => rfl) h1 h2 i2 i4
    have hwf2 : WellFormed MarkerMax { s with Alphas := a2 } := ⟨hwf.1, by rw [← hwf.2]; exact f2⟩
    have hinv2 : StoreInvariant MarkerMax { s with Alphas := a2 } := ⟨i1, f3, i3, f4, i5, i6⟩
    obtain ⟨b, s3, h3, hwf3, hinv3⟩ := alphaAreaClick_preserves MarkerMax inp
      { s with Alphas := a2 } hw hwf2 hinv2
    refine ⟨res.isChanged || b, s3, t2, ?_, hwf3, hinv3⟩
    simp only [alphaBlock, if_pos hs, h1, h2, h3]
  · exact ⟨false, s, t, by simp only [alphaBlock, if_neg hs], hwf, hinv⟩

/-- On a store that meets the store predicate, with a nonzero width, the colour block
returns and keeps the predicate. -/
theorem colorBlock_preserves (MarkerMax : Nat) (srt : StdSort ColorMarker ColorMarker.Position)
    (inp : FrameInput) (s : ImGradientHDRState) (t : ImGradientHDRTemporaryState)
    (isMarkerShown : Bool) (hw : inp.width ≠ 0)
    (hwf : WellFormed MarkerMax s) (hinv : StoreInvariant MarkerMax s) :
    ∃ c s3 t2, colorBlock MarkerMax srt inp s t isMarkerShown = .ok (c, s3, t2) ∧
      WellFormed MarkerMax s3 ∧ StoreInvariant MarkerMax s3 := by
  by_cases hs : isMarkerShown = true
  · obtain ⟨i1, i2, i3, i4, i5, i6⟩ := hinv
    obtain ⟨a1, t1, res, a2, t2, h1, h2⟩ := updateAndSort_total srt ColorMarker.setPosition inp
      inp.colorMarkerHovered ImGradientHDRMarkerType.Color s.Colors s.ColorCount t hw
      (by rw [hwf.1]; exact i5)
    obtain ⟨_, f2, f3, f4⟩ := updateAndSort_preserves srt ColorMarker.setPosition inp
      inp.colorMarkerHovered ImGradientHDRMarkerType.Color s.Colors a1 a2 s.ColorCount
      s.ColorCount t t1 t2 res (fun _ _ => rfl) h1 h2 i1 i3
    have hwf2 : WellFormed MarkerMax { s with Colors := a2 } := ⟨by rw [← hwf.1]; exact f2, hwf.2⟩
    have hinv2 : StoreInvariant MarkerMax { s with Colors := a2 } := ⟨f3, i2, f4, i4, i5, i6⟩
    obtain ⟨b, s3, h3, hwf3, hinv3⟩ := colorAreaClick_preserves MarkerMax inp
      { s with Colors := a2 } hw hwf2 hinv2
    refine ⟨res.isChanged || b, s3, t2, ?_, hwf3, hinv3⟩
    simp only [colorBlock, if_pos hs, h1, h2, h3]
  · exact ⟨false, s, t, by simp only [colorBlock, if_neg hs], hwf, hinv⟩

/-- On a store that meets the store predicate, with a nonzero width, a frame returns and
keeps the predicate. -/
theorem frame_preserves (MarkerMax : Nat) (srtA : StdSort AlphaMarker AlphaMarker.Position)
    (srtC : StdSort ColorMarker ColorMarker.Position) (inp : FrameInput)
    (s : ImGradientHDRState) (t : ImGradientHDRTemporaryState) (isMarkerShown : Bool)
    (hw : inp.width ≠ 0) (hwf : WellFormed MarkerMax s) (hinv : StoreInvariant MarkerMax s) :
    ∃ changed s2 t2,
      ImGradientHDR MarkerMax srtA srtC inp s t isMarkerShown = .ok (changed, s2, t2) ∧
      WellFormed MarkerMax s2 ∧ StoreInvariant MarkerMax s2 := by
  obtain ⟨c1, s1, t1, h1, hwf1, hinv1⟩ :=
    alphaBlock_preserves MarkerMax srtA inp s t isMarkerShown hw hwf hinv
  obtain ⟨c2, s2, t2, h2, hwf2, hinv2⟩ :=
    colorBlock_preserves MarkerMax srtC inp s1 t1 isMarkerShown hw hwf1 hinv1
  refine ⟨c1 || c2, s2, t2, ?_, hwf2, hinv2⟩
  simp only [ImGradientHDR, h1, drawBar_ok MarkerMax s1 hwf1 hinv1, h2]

/-! ## The store predicate across a frame -/

/-- When `UpdateMarker` has changed the array, the drag target's type is the marker type
at the end of the loop, so the sort call that follows runs `SortMarkers`, and the live
range is sorted after it. -/
theorem sort_follows_drag {T : Type} {pos : T → ℚ} (srt : StdSort T pos)
    (setPos : T → ℚ → T) (inp : FrameInput) (hovered : Nat → Bool)
    (markerType : ImGradientHDRMarkerType) (a a1 : List T) (count : Nat)
    (t t1 : ImGradientHDRTemporaryState) (res : UpdateMarkerResult)
    (hpos : ∀ m p, pos (setPos m p) = p)
    (h1 : UpdateMarker pos setPos inp hovered markerType a count t = .ok (a1, t1, res))
    (hne : a1 ≠ a) :
    t1.draggingMarkerType = markerType ∧
    ∃ v sel drag, collectMarkers a1 count = .ok v ∧
      SortMarkers srt a1 count t1.selectedIndex t1.draggingIndex
        = .ok ((srt.run v).map SortedMarker.marker ++ a1.drop count, count, sel, drag) ∧
      sortIfDragging srt markerType a1 count t1
        = .ok ((srt.run v).map SortedMarker.marker ++ a1.drop count, count,
            { t1 with selectedIndex := sel, draggingIndex := drag }) ∧
      SortedByPosition pos
        (live ((srt.run v).map SortedMarker.marker ++ a1.drop count) count) := by
  unfold UpdateMarker at h1
  obtain ⟨hc, hlen, _, _⟩ := updateMarkerLoop_ok pos setPos inp hovered markerType a t count
    a1 t1 res h1
  obtain ⟨harr, _⟩ := updateMarkerLoop_array pos setPos inp hovered markerType a t hpos
    count a1 t1 res h1
  have ht : t1.draggingMarkerType = markerType := by
    rcases harr with h | h
    · exact absurd h hne
    · exact h.2
  obtain ⟨v, sel1, drag1, h1, h2, h3, _, _, _, h7⟩ :=
    SortMarkers_ok srt a1 count t1.selectedIndex t1.draggingIndex (by omega)
  obtain ⟨_, f2, _⟩ := sortedArray_facts srt a1 count v h2 h3 (by omega)
  refine ⟨ht, v, sel1, drag1, h1, h7, ?_, f2⟩
  simp only [sortIfDragging, if_pos ht, h7]

/-- Claim C12. For every frame of `ImGradientHDR` (every pointer input, every interaction
state, either value of `isMarkerShown`, bar width `> 0`) started from a store whose live
colour and alpha stops are sorted with positions in `[0, 1]`, the frame returns and the
store after it is again sorted with all positions in `[0, 1]`. The reason is stated for
both marker types and every array: whenever `UpdateMarker` changes the array, the drag
target's type is still that marker type when the loop ends, so `SortMarkers` is run on
that array in the same frame and leaves its live range sorted. -/
theorem frame_keeps_store_sorted (MarkerMax : Nat)
    (srtA : StdSort AlphaMarker AlphaMarker.Position)
    (srtC : StdSort ColorMarker ColorMarker.Position) (inp : FrameInput)
    (s : ImGradientHDRState) (t : ImGradientHDRTemporaryState) (isMarkerShown : Bool)
    (hw : 0 < inp.width) (hwf : WellFormed MarkerMax s) (hinv : StoreInvariant MarkerMax s) :
    (∃ changed s2 t2,
      ImGradientHDR MarkerMax srtA srtC inp s t isMarkerShown = .ok (changed, s2, t2) ∧
      WellFormed MarkerMax s2 ∧ StoreInvariant MarkerMax s2) ∧
    (∀ (a a1 : List AlphaMarker) (count : Nat) (t0 t1 : ImGradientHDRTemporaryState)
        (res : UpdateMarkerResult),
      UpdateMarker AlphaMarker.Position AlphaMarker.setPosition inp inp.alphaMarkerHovered
        ImGradientHDRMarkerType.Alpha a count t0 = .ok (a1, t1, res) → a1 ≠ a →
      t1.draggingMarkerType = ImGradientHDRMarkerType.Alpha ∧
      ∃ v sel drag, collectMarkers a1 count = .ok v ∧
        SortMarkers srtA a1 count t1.selectedIndex t1.draggingIndex
          = .ok ((srtA.run v).map SortedMarker.marker ++ a1.drop count, count, sel, drag) ∧
        sortIfDragging srtA ImGradientHDRMarkerType.Alpha a1 count t1
          = .ok ((srtA.run v).map SortedMarker.marker ++ a1.drop count, count,
              { t1 with selectedIndex := sel, draggingIndex := drag }) ∧
        SortedByPosition AlphaMarker.Position
          (live ((srtA.run v).map SortedMarker.marker ++ a1.drop count) count)) ∧
    (∀ (a a1 : List ColorMarker) (count : Nat) (t0 t1 : ImGradientHDRTemporaryState)
        (res : UpdateMarkerResult),
      UpdateMarker ColorMarker.Position ColorMarker.setPosition inp inp.colorMarkerHovered
        ImGradientHDRMarkerType.Color a count t0 = .ok (a1, t1, res) → a1 ≠ a →
      t1.draggingMarkerType = ImGradientHDRMarkerType.Color ∧
      ∃ v sel drag, collectMarkers a1 count = .ok v ∧
        SortMarkers srtC a1 count t1.selectedIndex t1.draggingIndex
          = .ok ((srtC.run v).map SortedMarker.marker ++ a1.drop count, count, sel, drag) ∧
        sortIfDragging srtC ImGradientHDRMarkerType.Color a1 count t1
          = .ok ((srtC.run v).map SortedMarker.marker ++ a1.drop count, count,
              { t1 with selectedIndex := sel, draggingIndex := drag }) ∧
        SortedByPosition ColorMarker.Position
          (live ((srtC.run v).map SortedMarker.marker ++ a1.drop count) count)) :=
  ⟨frame_preserves MarkerMax srtA srtC inp s t isMarkerShown (ne_of_gt hw) hwf hinv,
    fun a a1 count t0 t1 res h hne =>
      sort_follows_drag srtA AlphaMarker.setPosition inp inp.alphaMarkerHovered
        ImGradientHDRMarkerType.Alpha a a1 count t0 t1 res (fun _ _ => rfl) h hne,
    fun a a1 count t0 t1 res h hne =>
      sort_follows_drag srtC ColorMarker.setPosition inp inp.colorMarkerHovered
        ImGradientHDRMarkerType.Color a a1 count t0 t1 res (fun _ _ => rfl) h hne⟩

/-- Witness of C12: alpha marker `0` of `exampleStore` is dragged from `0.2` to `0.3`; the
frame returns a store that meets the predicate. -/
theorem frame_keeps_store_sorted_witness :
    (0 : ℚ) < dragInput.width ∧ WellFormed 4 exampleStore ∧ StoreInvariant 4 exampleStore ∧
    ∃ changed s2 t2,
      ImGradientHDR 4 (insertionStdSort AlphaMarker AlphaMarker.Position)
        (insertionStdSort ColorMarker ColorMarker.Position) dragInput exampleStore idleState
        true = .ok (changed, s2, t2) ∧
      WellFormed 4 s2 ∧ StoreInvariant 4 s2 :=
  ⟨by norm_num [dragInput], exampleStore_wellFormed, exampleStore_invariant,
    (frame_keeps_store_sorted 4 (insertionStdSort AlphaMarker AlphaMarker.Position)
      (insertionStdSort ColorMarker ColorMarker.Position) dragInput exampleStore idleState
      true (by norm_num [dragInput]) exampleStore_wellFormed exampleStore_invariant).1⟩

/-! ## Frames in which the button is not held -/

theorem sortIfDragging_zero {T : Type} {pos : T → ℚ} (srt : StdSort T pos)
    (markerType : ImGradientHDRMarkerType) (a : List T) (t : ImGradientHDRTemporaryState) :
    sortIfDragging srt markerType a 0 t = .ok (a, 0, t) := by
  have hnil : srt.run [] = [] := List.perm_nil.mp (srt.perm [])
  unfold sortIfDragging
  by_cases ht : t.draggingMarkerType = markerType
  · rw [if_pos ht]
    have h1 : ∀ idx : Int, remapIndex (srt.run ([] : List (SortedMarker T))) 0 idx = .ok idx := by
      intro idx
      unfold remapIndex
      by_cases hi : idx ≠ -1
      · rw [if_pos hi]; rfl
      · rw [if_neg hi]
    simp only [SortMarkers, collectMarkers, storeMarkers, h1]
  · rw [if_neg ht]

theorem AddMarker_count {T : Type} (pos : T → ℚ) (a a1 : List T) (count c : Nat) (value : T)
    (h : AddMarker pos a count value = .ok (a1, c)) : c = count ∨ c = count + 1 := by
  unfold AddMarker at h
  cases h1 : lower_bound pos a count (pos value) with
  | error e => simp only [h1] at h; cases h
  | ok lb =>
    simp only [h1] at h
    by_cases hlb : lb ≠ a.length
    · rw [if_pos hlb] at h
      cases h2 : copy a lb count (lb + 1) with
      | error e => simp only [h2] at h; cases h
      | ok b =>
        simp only [h2] at h
        cases h3 : writeAt b lb value with
        | error e => simp only [h3] at h; cases h
        | ok b2 =>
          simp only [h3] at h
          injection h with h
          injection h with _ e
          exact Or.inr e.symm
    · rw [if_neg hlb] at h
      injection h with h
      injection h with _ e
      exact Or.inl e.symm

/-- A returned `alphaAreaClick` leaves the colour stops alone, never lowers the alpha count,
and leaves the store alone when the button was not clicked. -/
theorem alphaAreaClick_frame (MarkerMax : Nat) (inp : FrameInput) (s s1 : ImGradientHDRState)
    (b : Bool) (h : alphaAreaClick MarkerMax inp s = .ok (b, s1)) :
    s1.Colors = s.Colors ∧ s1.ColorCount = s.ColorCount ∧ s.AlphaCount ≤ s1.AlphaCount ∧
    (inp.mouseClicked = false → s1 = s ∧ b = false) := by
  unfold alphaAreaClick at h
  by_cases hh : inp.alphaAreaHovered = true
  · rw [if_pos hh] at h
    cases hd : divide (inp.mousePosX - inp.alphaOriginX) inp.width with
    | error e => simp only [hd] at h; cases h
    | ok xn =>
      simp only [hd] at h
      cases hg : GetAlpha s xn with
      | error e => simp only [hg] at h; cases h
      | ok c =>
        simp only [hg] at h
        by_cases hcl : inp.mouseClicked = true
        · simp only [if_pos hcl] at h
          unfold AddAlphaMarker at h
          by_cases hfull : s.AlphaCount ≥ MarkerMax
          · rw [if_pos hfull] at h
            injection h with h
            injection h with e1 e2
            subst e2
            exact ⟨rfl, rfl, le_refl _, fun hx => by rw [hx] at hcl; cases hcl⟩
          · rw [if_neg hfull] at h
            cases ha : AddMarker AlphaMarker.Position s.Alphas s.AlphaCount
                { Position := clamp01 xn, Alpha := c } with
            | error e => simp only [ha] at h; cases h
            | ok r =>
              obtain ⟨a1, c1⟩ := r
              simp only [ha] at h
              injection h with h
              injection h with e1 e2
              subst e2
              have := AddMarker_count _ _ _ _ _ _ ha
              exact ⟨rfl, rfl, by show s.AlphaCount ≤ c1; omega,
                fun hx => by rw [hx] at hcl; cases hcl⟩
        · simp only [if_neg hcl] at h
          injection h with h
          injection h with e1 e2
          subst e2
          exact ⟨rfl, rfl, le_refl _, fun _ => ⟨rfl, e1.symm⟩⟩
  · rw [if_neg hh] at h
    injection h with h
    injection h with e1 e2
    subst e2
    exact ⟨rfl, rfl, le_refl _, fun _ => ⟨rfl, e1.symm⟩⟩

/-- A returned `colorAreaClick` leaves the alpha stops alone, never lowers the colour count,
and leaves the store alone when the button was not clicked. -/
theorem colorAreaClick_frame (MarkerMax : Nat) (inp : FrameInput) (s s1 : ImGradientHDRState)
    (b : Bool) (h : colorAreaClick MarkerMax inp s = .ok (b, s1)) :
    s1.Alphas = s.Alphas ∧ s1.AlphaCount = s.AlphaCount ∧ s.ColorCount ≤ s1.ColorCount ∧
    (inp.mouseClicked = false → s1 = s ∧ b = false) := by
  unfold colorAreaClick at h
  by_cases hh : inp.colorAreaHovered = true
  · rw [if_pos hh] at h
    cases hd : divide (inp.mousePosX - inp.colorOriginX) inp.width with
    | error e => simp only [hd] at h; cases h
    | ok xn =>
      simp only [hd] at h
      cases hg : GetColorAndIntensity s xn with
      | error e => simp only [hg] at h; cases h
      | ok c =>
        simp only [hg] at h
        by_cases hcl : inp.mouseClicked = true
        · simp only [if_pos hcl] at h
          unfold AddColorMarker at h
          by_cases hfull : s.ColorCount ≥ MarkerMax
          · rw [if_pos hfull] at h
            injection h with h
            injection h with e1 e2
            subst e2
            exact ⟨rfl, rfl, le_refl _, fun hx => by rw [hx] at hcl; cases hcl⟩
          · rw [if_neg hfull] at h
            cases ha : AddMarker ColorMarker.Position s.Colors s.ColorCount
                { Position := clamp01 xn, Color := (c.1, c.2.1, c.2.2.1),
                  Intensity := c.2.2.2 } with
            | error e => simp only [ha] at h; cases h
            | ok r =>
              obtain ⟨a1, c1⟩ := r
              simp only [ha] at h
              injection h with h
              injection h with e1 e2
              subst e2
              have := AddMarker_count _ _ _ _ _ _ ha
              exact ⟨rfl, rfl, by show s.ColorCount ≤ c1; omega,
                fun hx => by rw [hx] at hcl; cases hcl⟩
        · simp only [if_neg hcl] at h
          injection h with h
          injection h with e1 e2
          subst e2
          exact ⟨rfl, rfl, le_refl _, fun _ => ⟨rfl, e1.symm⟩⟩
  · rw [if_neg hh] at h
    injection h with h
    injection h with e1 e2
    subst e2
    exact ⟨rfl, rfl, le_refl _, fun _ => ⟨rfl, e1.symm⟩⟩

/-- With the button not held, `UpdateMarker` and the sort call after it return the array
as it was; the drag target is cleared if the array has a live marker and the interaction
state is as it was if it has none. -/
theorem updateAndSort_not_down {T : Type} {pos : T → ℚ} (srt : StdSort T pos)
    (setPos : T → ℚ → T) (inp : FrameInput) (hovered : Nat → Bool)
    (markerType : ImGradientHDRMarkerType) (a a1 a2 : List T) (count c2 : Nat)
    (t t1 t2 : ImGradientHDRTemporaryState) (res : UpdateMarkerResult)
    (hd : inp.mouseDown = false) (hty : markerType ≠ ImGradientHDRMarkerType.Unknown)
    (h1 : UpdateMarker pos setPos inp hovered markerType a count t = .ok (a1, t1, res))
    (h2 : sortIfDragging srt markerType a1 count t1 = .ok (a2, c2, t2)) :
    a1 = a ∧ a2 = a ∧ c2 = count ∧ res.isChanged = false ∧
    (0 < count → t2 = released t) ∧ (count = 0 → t2 = t) := by
  unfold UpdateMarker at h1
  obtain ⟨hc, _, _, _⟩ := updateMarkerLoop_ok pos setPos inp hovered markerType a t count
    a1 t1 res h1
  obtain ⟨ret, hr, hch⟩ := updateMarkerLoop_not_down pos setPos inp hovered markerType a t hd
    count hc
  rw [hr] at h1
  injection h1 with h1
  injection h1 with e1 h1
  injection h1 with e2 e3
  subst e1 e2 e3
  by_cases h0 : count = 0
  · subst h0
    rw [sortIfDragging_zero] at h2
    injection h2 with h2
    injection h2 with e1 h2
    injection h2 with e2 e3
    exact ⟨rfl, e1.symm, e2.symm, hch, fun h => absurd h (by omega), fun _ => e3.symm⟩
  · have hty2 : (temporaryStateAfter inp hovered markerType t count).draggingMarkerType
        ≠ markerType := by
      rw [temporaryStateAfter_not_down inp hovered markerType t hd count (by omega)]
      exact fun h => hty h.symm
    simp only [sortIfDragging, if_neg hty2] at h2
    injection h2 with h2
    injection h2 with e1 h2
    injection h2 with e2 e3
    refine ⟨rfl, e1.symm, e2.symm, hch, fun _ => ?_, fun h => absurd h h0⟩
    rw [← e3, temporaryStateAfter_not_down inp hovered markerType t hd count (by omega)]
    rfl

theorem released_released (t : ImGradientHDRTemporaryState) :
    released (released t) = released t := rfl

/-- Counterexample to C17 as stated: the button is not held and the interaction state has a
drag target (alpha marker `0`). With the markers hidden, and also with the markers shown on
a store with no live stop, the frame returns with the drag target as it was: the statement
that clears it sits in the loop over the markers of `UpdateMarker`. -/
theorem stale_drag_target_counterexample :
    releasedInput.mouseDown = false ∧
    ImGradientHDR 4 (insertionStdSort AlphaMarker AlphaMarker.Position)
        (insertionStdSort ColorMarker ColorMarker.Position) releasedInput exampleStore
        draggingState false = .ok (false, exampleStore, draggingState) ∧
    ImGradientHDR 4 (insertionStdSort AlphaMarker AlphaMarker.Position)
        (insertionStdSort ColorMarker ColorMarker.Position) releasedInput emptyStore
        draggingState true = .ok (false, emptyStore, draggingState) ∧
    draggingState.draggingIndex = 0 ∧
    draggingState.draggingMarkerType = ImGradientHDRMarkerType.Alpha := by
  refine ⟨rfl, ?_, ?_, rfl, rfl⟩
  · simp [ImGradientHDR, alphaBlock, colorBlock,
      drawBar_ok 4 exampleStore exampleStore_wellFormed exampleStore_invariant]
  · simp [ImGradientHDR, alphaBlock, colorBlock, UpdateMarker, updateMarkerLoop,
      sortIfDragging, SortMarkers, collectMarkers, storeMarkers, remapIndex, remapLoop,
      insertionStdSort, alphaAreaClick, colorAreaClick, releasedInput, emptyStore,
      draggingState, drawBar, collectKeys, unique, drawSegments, GetCombinedColor,
      GetColorAndIntensity, GetAlpha]

/-- Claim C17, amended. In a frame of `ImGradientHDR` in which the primary button is not
held (any store, any interaction state): if the markers are shown and the store has a live
stop of either type, the interaction state after the frame is the one before with the
drag target cleared (`draggingIndex = -1`, `draggingMarkerType = Unknown`); if the markers
are hidden or no stop is live, the interaction state is as it was. In either case no
stop's `Position` is changed by dragging: `UpdateMarker` returns every array as it got it
with `isChanged = false`, and the store after the frame is the store before, served by
the two strip clicks alone (so it is the same store if the button was not clicked). On a
store that meets the store predicate, with a nonzero width, the frame returns. -/
theorem release_ends_drag (MarkerMax : Nat)
    (srtA : StdSort AlphaMarker AlphaMarker.Position)
    (srtC : StdSort ColorMarker ColorMarker.Position) (inp : FrameInput)
    (s : ImGradientHDRState) (t : ImGradientHDRTemporaryState) (isMarkerShown : Bool)
    (hd : inp.mouseDown = false) :
    (∀ changed s2 t2,
      ImGradientHDR MarkerMax srtA srtC inp s t isMarkerShown = .ok (changed, s2, t2) →
      (isMarkerShown = true → 0 < s.AlphaCount ∨ 0 < s.ColorCount → t2 = released t) ∧
      (isMarkerShown = false ∨ (s.AlphaCount = 0 ∧ s.ColorCount = 0) → t2 = t) ∧
      (isMarkerShown = true → ∃ bA sA bC,
        alphaAreaClick MarkerMax inp s = .ok (bA, sA) ∧
        colorAreaClick MarkerMax inp sA = .ok (bC, s2) ∧ changed = (bA || bC)) ∧
      (isMarkerShown = false ∨ inp.mouseClicked = false → s2 = s ∧ changed = false)) ∧
    (∀ (a a1 : List AlphaMarker) (count : Nat) (t0 t1 : ImGradientHDRTemporaryState)
        (res : UpdateMarkerResult),
      UpdateMarker AlphaMarker.Position AlphaMarker.setPosition inp inp.alphaMarkerHovered
        ImGradientHDRMarkerType.Alpha a count t0 = .ok (a1, t1, res) →
      a1 = a ∧ res.isChanged = false) ∧
    (∀ (a a1 : List ColorMarker) (count : Nat) (t0 t1 : ImGradientHDRTemporaryState)
        (res : UpdateMarkerResult),
      UpdateMarker ColorMarker.Position ColorMarker.setPosition inp inp.colorMarkerHovered
        ImGradientHDRMarkerType.Color a count t0 = .ok (a1, t1, res) →
      a1 = a ∧ res.isChanged = false) ∧
    (inp.width ≠ 0 → WellFormed MarkerMax s → StoreInvariant MarkerMax s →
      ∃ changed s2 t2,
        ImGradientHDR MarkerMax srtA srtC inp s t isMarkerShown = .ok (changed, s2, t2)) := by
  have hum : ∀ {T : Type} (pos : T → ℚ) (setPos : T → ℚ → T) (hovered : Nat → Bool)
      (markerType : ImGradientHDRMarkerType) (a a1 : List T) (count : Nat)
      (t0 t1 : ImGradientHDRTemporaryState) (res : UpdateMarkerResult),
      UpdateMarker pos setPos inp hovered markerType a count t0 = .ok (a1, t1, res) →
      a1 = a ∧ res.isChanged = false := by
    intro T pos setPos hovered markerType a a1 count t0 t1 res h1
    unfold UpdateMarker at h1
    obtain ⟨hc, _, _, _⟩ := updateMarkerLoop_ok pos setPos inp hovered markerType a t0 count
      a1 t1 res h1
    obtain ⟨ret, hr, hch⟩ := updateMarkerLoop_not_down pos setPos inp hovered markerType a t0
      hd count hc
    rw [hr] at h1
    injection h1 with h1
    injection h1 with e1 h1
    injection h1 with e2 e3
    subst e1 e2 e3
    exact ⟨rfl, hch⟩
  refine ⟨?_, fun a a1 count t0 t1 res h => hum _ _ _ _ a a1 count t0 t1 res h,
    fun a a1 count t0 t1 res h => hum _ _ _ _ a a1 count t0 t1 res h, ?_⟩
  · intro changed s2 t2 h
    obtain ⟨c1, s1, t1, c2, hA, _, hC, hch⟩ := frame_ok MarkerMax srtA srtC inp s s2 t t2
      isMarkerShown changed h
    rcases alphaBlock_ok MarkerMax srtA inp s s1 t t1 isMarkerShown c1 hA with
      ⟨hs, e1, e2, e3⟩ | ⟨hs, a1, ta, resA, a2, addedA, hU, hS, hK, hcA⟩
    · rcases colorBlock_ok MarkerMax srtC inp s1 s2 t1 t2 isMarkerShown c2 hC with
        ⟨_, f1, f2, f3⟩ | ⟨hs2, _⟩
      · subst e1 e2 e3 f1 f2 f3 hch
        exact ⟨fun h => (by rw [hs] at h; cases h), fun _ => rfl,
          fun h => (by rw [hs] at h; cases h), fun _ => ⟨rfl, rfl⟩⟩
      · rw [hs] at hs2; cases hs2
    · rcases colorBlock_ok MarkerMax srtC inp s1 s2 t1 t2 isMarkerShown c2 hC with
        ⟨hs2, _⟩ | ⟨_, b1, tb, resC, b2, addedC, hU2, hS2, hK2, hcC⟩
      · rw [hs] at hs2; cases hs2
      · obtain ⟨_, ea, _, ra, ta1, ta0⟩ := updateAndSort_not_down srtA AlphaMarker.setPosition
          inp inp.alphaMarkerHovered ImGradientHDRMarkerType.Alpha s.Alphas a1 a2 s.AlphaCount
          s.AlphaCount t ta t1 resA hd (by decide) hU hS
        subst ea
        have hK' : alphaAreaClick MarkerMax inp s = .ok (addedA, s1) := hK
        obtain ⟨k1, k2, k3, k4⟩ := alphaAreaClick_frame MarkerMax inp s s1 addedA hK'
        obtain ⟨_, eb, _, rb, tb1, tb0⟩ := updateAndSort_not_down srtC ColorMarker.setPosition
          inp inp.colorMarkerHovered ImGradientHDRMarkerType.Color s1.Colors b1 b2
          s1.ColorCount s1.ColorCount t1 tb t2 resC hd (by decide) hU2 hS2
        subst eb
        have hK2' : colorAreaClick MarkerMax inp s1 = .ok (addedC, s2) := hK2
        obtain ⟨_, _, _, k8⟩ := colorAreaClick_frame MarkerMax inp s1 s2 addedC hK2'
        have hchanged : changed = (addedA || addedC) := by
          rw [hch, hcA, hcC, ra, rb]
          simp
        refine ⟨fun _ hpos => ?_, fun hz => ?_, fun _ => ⟨addedA, s1, addedC, hK', hK2', hchanged⟩,
          fun hcl => ?_⟩
        · by_cases hA0 : 0 < s.AlphaCount
          · by_cases hC0 : 0 < s1.ColorCount
            · rw [tb1 hC0, ta1 hA0]
              rfl
            · rw [tb0 (by omega), ta1 hA0]
          · have hC0 : 0 < s1.ColorCount := by rw [k2]; omega
            rw [tb1 hC0, ta0 (by omega)]
        · rcases hz with hz | ⟨z1, z2⟩
          · rw [hs] at hz; cases hz
          · rw [tb0 (by rw [k2]; exact z2), ta0 z1]
        · rcases hcl with hcl | hcl
          · rw [hs] at hcl; cases hcl
          · obtain ⟨x1, x2⟩ := k4 hcl
            obtain ⟨y1, y2⟩ := k8 hcl
            rw [hchanged, x2, y2, y1, x1]
            exact ⟨rfl, rfl⟩
  · intro hw hwf hinv
    obtain ⟨changed, s2, t2, h, _⟩ :=
      frame_preserves MarkerMax srtA srtC inp s t isMarkerShown hw hwf hinv
    exact ⟨changed, s2, t2, h⟩

/-- Witness of C17: the button is released over `exampleStore` while alpha marker `0` is
the drag target; the frame returns with the drag target cleared and the store as it
was. -/
theorem release_ends_drag_witness :
    releasedInput.mouseDown = false ∧ releasedInput.width ≠ 0 ∧
    WellFormed 4 exampleStore ∧ StoreInvariant 4 exampleStore ∧
    ∃ changed s2 t2,
      ImGradientHDR 4 (insertionStdSort AlphaMarker AlphaMarker.Position)
        (insertionStdSort ColorMarker ColorMarker.Position) releasedInput exampleStore
        draggingState true = .ok (changed, s2, t2) ∧
      t2 = released draggingState ∧ s2 = exampleStore ∧ changed = false := by
  have hw : releasedInput.width ≠ 0 := by norm_num [releasedInput]
  have hthm := release_ends_drag 4 (insertionStdSort AlphaMarker AlphaMarker.Position)
    (insertionStdSort ColorMarker ColorMarker.Position) releasedInput exampleStore
    draggingState true rfl
  obtain ⟨changed, s2, t2, h⟩ :=
    hthm.2.2.2 hw exampleStore_wellFormed exampleStore_invariant
  have hres := hthm.1 changed s2 t2 h
  exact ⟨rfl, hw, exampleStore_wellFormed, exampleStore_invariant, changed, s2, t2, h,
    hres.1 rfl (Or.inl (by decide)), (hres.2.2.2 (Or.inr rfl)).1,
    (hres.2.2.2 (Or.inr rfl)).2⟩

/-! ## Clicks on the background strips -/

/-- The alpha stops after a returned alpha block: one stop was inserted exactly under
`AddsAlpha`; otherwise the count is the same and the array is the one `UpdateMarker` and
the sort call left. The colour stops are untouched. -/
theorem alphaBlock_adds (MarkerMax : Nat) (srt : StdSort AlphaMarker AlphaMarker.Position)
    (inp : FrameInput) (s s1 : ImGradientHDRState) (t t1 : ImGradientHDRTemporaryState)
    (isMarkerShown c : Bool) (hwf : WellFormed MarkerMax s)
    (h : alphaBlock MarkerMax srt inp s t isMarkerShown = .ok (c, s1, t1)) :
    s1.Colors = s.Colors ∧ s1.ColorCount = s.ColorCount ∧
    ((AddsAlpha MarkerMax inp s isMarkerShown ∧ s1.AlphaCount = s.AlphaCount + 1) ∨
     (¬ AddsAlpha MarkerMax inp s isMarkerShown ∧ s1.AlphaCount = s.AlphaCount ∧
      (isMarkerShown = false → s1.Alphas = s.Alphas) ∧
      (isMarkerShown = true → ∃ a1 ta res a2,
        UpdateMarker AlphaMarker.Position AlphaMarker.setPosition inp inp.alphaMarkerHovered
          ImGradientHDRMarkerType.Alpha s.Alphas s.AlphaCount t = .ok (a1, ta, res) ∧
        sortIfDragging srt ImGradientHDRMarkerType.Alpha a1 s.AlphaCount ta
          = .ok (a2, s.AlphaCount, t1) ∧
        s1.Alphas = a2))) := by
  rcases alphaBlock_ok MarkerMax srt inp s s1 t t1 isMarkerShown c h with
    ⟨hs, _, e2, _⟩ | ⟨hs, a1, ta, res, a2, added, hU, hS, hK, _⟩
  · subst e2
    exact ⟨rfl, rfl, Or.inr ⟨fun hx => (by rw [hs] at hx; exact Bool.noConfusion hx.1), rfl,
      fun _ => rfl, fun hx => (by rw [hs] at hx; cases hx)⟩⟩
  · have hlen1 := updateMarkerLoop_ok _ _ _ _ _ _ _ _ _ _ _ hU
    obtain ⟨a2', t2', he, f1, _⟩ := sortIfDragging_ok srt ImGradientHDRMarkerType.Alpha a1
      s.AlphaCount ta (by omega)
    have ea : a2' = a2 := by
      rw [he] at hS
      injection hS with hS
      injection hS with e _
    subst ea
    have hwf2 : WellFormed MarkerMax { s with Alphas := a2' } :=
      ⟨hwf.1, by show a2'.length = MarkerMax; rw [f1, hlen1.2.1, hwf.2]⟩
    obtain ⟨k1, k2, _, _⟩ := alphaAreaClick_frame MarkerMax inp _ s1 added hK
    refine ⟨k1, k2, ?_⟩
    rcases alphaAreaClick_cases MarkerMax inp _ s1 added hwf2 hK with
      ⟨_, e, hn⟩ | ⟨_, g1, g2, g3, k, m, _, e⟩
    · right
      subst e
      exact ⟨fun hx => hn ⟨hx.2.1, hx.2.2.1, hx.2.2.2⟩, rfl,
        fun hx => (by rw [hs] at hx; cases hx), fun _ => ⟨a1, ta, res, a2', hU, hS, rfl⟩⟩
    · left
      subst e
      exact ⟨⟨hs, g1, g2, g3⟩, rfl⟩

/-- The colour stops after a returned colour block, as `alphaBlock_adds`. -/
theorem colorBlock_adds (MarkerMax : Nat) (srt : StdSort ColorMarker ColorMarker.Position)
    (inp : FrameInput) (s s1 : ImGradientHDRState) (t t1 : ImGradientHDRTemporaryState)
    (isMarkerShown c : Bool) (hwf : WellFormed MarkerMax s)
    (h : colorBlock MarkerMax srt inp s t isMarkerShown = .ok (c, s1, t1)) :
    s1.Alphas = s.Alphas ∧ s1.AlphaCount = s.AlphaCount ∧
    ((AddsColor MarkerMax inp s isMarkerShown ∧ s1.ColorCount = s.ColorCount + 1) ∨
     (¬ AddsColor MarkerMax inp s isMarkerShown ∧ s1.ColorCount = s.ColorCount ∧
      (isMarkerShown = false → s1.Colors = s.Colors) ∧
      (isMarkerShown = true → ∃ a1 ta res a2,
        UpdateMarker ColorMarker.Position ColorMarker.setPosition inp inp.colorMarkerHovered
          ImGradientHDRMarkerType.Color s.Colors s.ColorCount t = .ok (a1, ta, res) ∧
        sortIfDragging srt ImGradientHDRMarkerType.Color a1 s.ColorCount ta
          = .ok (a2, s.ColorCount, t1) ∧
        s1.Colors = a2))) := by
  rcases colorBlock_ok MarkerMax srt inp s s1 t t1 isMarkerShown c h with
    ⟨hs, _, e2, _⟩ | ⟨hs, a1, ta, res, a2, added, hU, hS, hK, _⟩
  · subst e2
    exact ⟨rfl, rfl, Or.inr ⟨fun hx => (by rw [hs] at hx; exact Bool.noConfusion hx.1), rfl,
      fun _ => rfl, fun hx => (by rw [hs] at hx; cases hx)⟩⟩
  · have hlen1 := updateMarkerLoop_ok _ _ _ _ _ _ _ _ _ _ _ hU
    obtain ⟨a2', t2', he, f1, _⟩ := sortIfDragging_ok srt ImGradientHDRMarkerType.Color a1
      s.ColorCount ta (by omega)
    have ea : a2' = a2 := by
      rw [he] at hS
      injection hS with hS
      injection hS with e _
    subst ea
    have hwf2 : WellFormed MarkerMax { s with Colors := a2' } :=
      ⟨by show a2'.length = MarkerMax; rw [f1, hlen1.2.1, hwf.1], hwf.2⟩
    obtain ⟨k1, k2, _, _⟩ := colorAreaClick_frame MarkerMax inp _ s1 added hK
    refine ⟨k1, k2, ?_⟩
    rcases colorAreaClick_cases MarkerMax inp _ s1 added hwf2 hK with
      ⟨_, e, hn⟩ | ⟨_, g1, g2, g3, k, m, _, e⟩
    · right
      subst e
      exact ⟨fun hx => hn ⟨hx.2.1, hx.2.2.1, hx.2.2.2⟩, rfl,
        fun hx => (by rw [hs] at hx; cases hx), fun _ => ⟨a1, ta, res, a2', hU, hS, rfl⟩⟩
    · left
      subst e
      exact ⟨⟨hs, g1, g2, g3⟩, rfl⟩

/-! ## The returned flag -/

theorem sorted_perm_positions {T : Type} (pos : T → ℚ) (l1 l2 : List T) (hp : l1.Perm l2)
    (h1 : SortedByPosition pos l1) (h2 : SortedByPosition pos l2) :
    l1.map pos = l2.map pos := by
  have s1 : (l1.map pos).Sorted (fun x y : ℚ => x ≤ y) := List.pairwise_map.mpr h1
  have s2 : (l2.map pos).Sorted (fun x y : ℚ => x ≤ y) := List.pairwise_map.mpr h2
  exact List.eq_of_perm_of_sorted (hp.map pos) s1 s2

theorem perm_eq_of_positions {T : Type} (pos : T → ℚ) :
    ∀ (l1 l2 : List T), l1.Perm l2 → l1.map pos = l2.map pos → (l2.map pos).Nodup →
      l1 = l2 := by
  intro l1
  induction l1 with
  | nil =>
    intro l2 hp _ _
    exact (List.perm_nil.mp hp.symm).symm
  | cons x l1 ih =>
    intro l2 hp hm hn
    cases l2 with
    | nil => cases hm
    | cons y l2 =>
      simp only [List.map_cons, List.cons.injEq] at hm
      obtain ⟨hxy, hm2⟩ := hm
      rw [List.map_cons, List.nodup_cons] at hn
      have hx : x ∈ y :: l2 := hp.subset (List.mem_cons_self x l1)
      have e : x = y := by
        rcases List.mem_cons.mp hx with h | h
        · exact h
        · exact absurd (by rw [← hxy]; exact List.mem_map_of_mem pos h) hn.1
      subst e
      rw [ih l2 (List.Perm.cons_inv hp) hm2 hn.2]

theorem sortIfDragging_keeps {T : Type} {pos : T → ℚ} (srt : StdSort T pos)
    (markerType : ImGradientHDRMarkerType) (a a2 : List T) (count c2 : Nat)
    (t t2 : ImGradientHDRTemporaryState) (hk : KeepsSorted srt) (hc : count ≤ a.length)
    (hs : SortedByPosition pos (live a count))
    (h : sortIfDragging srt markerType a count t = .ok (a2, c2, t2)) : a2 = a := by
  by_cases ht : t.draggingMarkerType = markerType
  · obtain ⟨v, sel1, drag1, _, _, h3, _, _, _, h7⟩ :=
      SortMarkers_ok srt a count t.selectedIndex t.draggingIndex hc
    have hv : v.Pairwise (fun p q => pos p.marker ≤ pos q.marker) := by
      have : (v.map SortedMarker.marker).Pairwise (fun m n => pos m ≤ pos n) := by
        rw [h3]; exact hs
      exact (List.pairwise_map (f := SortedMarker.marker)
        (R := fun m n => pos m ≤ pos n)).mp this
    simp only [sortIfDragging, if_pos ht, h7, hk v hv, h3, List.take_append_drop] at h
    injection h with h
    injection h with e _
    exact e.symm
  · simp only [sortIfDragging, if_neg ht] at h
    injection h with h
    injection h with e _
    exact e.symm

/-- The markers of one type after `UpdateMarker` reported no change and the sort call that
follows it ran: the same stops, in an order that can differ only among stops of equal
`Position`. -/
theorem updateAndSort_unchanged {T : Type} {pos : T → ℚ} (srt : StdSort T pos)
    (setPos : T → ℚ → T) (inp : FrameInput) (hovered : Nat → Bool)
    (markerType : ImGradientHDRMarkerType) (a a1 a2 : List T) (count c2 : Nat)
    (t t1 t2 : ImGradientHDRTemporaryState) (res : UpdateMarkerResult)
    (hpos : ∀ m p, pos (setPos m p) = p) (hfix : ∀ m, setPos m (pos m) = m)
    (h1 : UpdateMarker pos setPos inp hovered markerType a count t = .ok (a1, t1, res))
    (h2 : sortIfDragging srt markerType a1 count t1 = .ok (a2, c2, t2))
    (hs : SortedByPosition pos (live a count)) (hu : PositionsInUnit pos (live a count))
    (hres : res.isChanged = false) :
    a1 = a ∧ (live a2 count).Perm (live a count) ∧
    (live a2 count).map pos = (live a count).map pos ∧
    ((live a count).Pairwise (fun m n => pos m < pos n) → a2 = a) ∧
    (KeepsSorted srt → a2 = a) := by
  obtain ⟨_, _, f3, _⟩ := updateAndSort_preserves srt setPos inp hovered markerType a a1 a2
    count c2 t t1 t2 res hpos h1 h2 hs hu
  have h1' := h1
  unfold UpdateMarker at h1'
  obtain ⟨hc, hlen, _, _⟩ := updateMarkerLoop_ok pos setPos inp hovered markerType a t count
    a1 t1 res h1'
  have e1 : a1 = a := updateMarkerLoop_unchanged pos setPos inp hovered markerType a t hfix
    count a1 t1 res h1'
    (fun j m hj hm => hu m ((mem_live_iff a count m).mpr ⟨j, hj, hm⟩)) hres
  subst e1
  obtain ⟨a2', t2', he, _, g2, g3, _⟩ := sortIfDragging_ok srt markerType a1 count t1 hc
  have ea : a2' = a2 := by
    rw [he] at h2
    injection h2 with h2
    injection h2 with e _
  subst ea
  have hmap := sorted_perm_positions pos _ _ g3 f3 hs
  refine ⟨rfl, g3, hmap, fun hstrict => ?_, fun hk => sortIfDragging_keeps srt markerType a1 a2'
    count c2 t1 t2 hk hc hs h2⟩
  have hn : ((live a1 count).map pos).Nodup :=
    List.Pairwise.imp (fun h => ne_of_lt h) (List.pairwise_map.mpr hstrict)
  have hl := perm_eq_of_positions pos _ _ g3 hmap hn
  have h3 : a2'.take count ++ a2'.drop count = a1.take count ++ a1.drop count := by
    rw [g2]
    exact congrArg (fun l => l ++ a1.drop count) hl
  rwa [List.take_append_drop, List.take_append_drop] at h3

theorem alphaAreaClick_inv (MarkerMax : Nat) (inp : FrameInput) (s s1 : ImGradientHDRState)
    (b : Bool) (hwf : WellFormed MarkerMax s) (hinv : StoreInvariant MarkerMax s)
    (h : alphaAreaClick MarkerMax inp s = .ok (b, s1)) :
    WellFormed MarkerMax s1 ∧ StoreInvariant MarkerMax s1 := by
  rcases alphaAreaClick_cases MarkerMax inp s s1 b hwf h with ⟨_, e, _⟩ | ⟨_, g1, g2, _, _⟩
  · rw [e]; exact ⟨hwf, hinv⟩
  · unfold alphaAreaClick at h
    rw [if_pos g1] at h
    cases hd : divide (inp.mousePosX - inp.alphaOriginX) inp.width with
    | error e => simp only [hd] at h; cases h
    | ok xn =>
      simp only [hd] at h
      cases hg : GetAlpha s xn with
      | error e => simp only [hg] at h; cases h
      | ok c =>
        simp only [hg, if_pos g2] at h
        obtain ⟨b', s1', he, r1, r2⟩ := AddAlphaMarker_preserves MarkerMax s xn c hwf hinv
        rw [he] at h
        injection h with h
        injection h with _ e
        rw [← e]
        exact ⟨r1, r2⟩

theorem colorAreaClick_inv (MarkerMax : Nat) (inp : FrameInput) (s s1 : ImGradientHDRState)
    (b : Bool) (hwf : WellFormed MarkerMax s) (hinv : StoreInvariant MarkerMax s)
    (h : colorAreaClick MarkerMax inp s = .ok (b, s1)) :
    WellFormed MarkerMax s1 ∧ StoreInvariant MarkerMax s1 := by
  rcases colorAreaClick_cases MarkerMax inp s s1 b hwf h with ⟨_, e, _⟩ | ⟨_, g1, g2, _, _⟩
  · rw [e]; exact ⟨hwf, hinv⟩
  · unfold colorAreaClick at h
    rw [if_pos g1] at h
    cases hd : divide (inp.mousePosX - inp.colorOriginX) inp.width with
    | error e => simp only [hd] at h; cases h
    | ok xn =>
      simp only [hd] at h
      cases hg : GetColorAndIntensity s xn with
      | error e => simp only [hg] at h; cases h
      | ok c =>
        simp only [hg, if_pos g2] at h
        obtain ⟨b', s1', he, r1, r2⟩ :=
          AddColorMarker_preserves MarkerMax s xn (c.1, c.2.1, c.2.2.1) c.2.2.2 hwf hinv
        rw [he] at h
        injection h with h
        injection h with _ e
        rw [← e]
        exact ⟨r1, r2⟩

/-- A returned alpha block keeps the store predicate (also with a zero width). -/
theorem alphaBlock_inv (MarkerMax : Nat) (srt : StdSort AlphaMarker AlphaMarker.Position)
    (inp : FrameInput) (s s1 : ImGradientHDRState) (t t1 : ImGradientHDRTemporaryState)
    (isMarkerShown c : Bool) (hwf : WellFormed MarkerMax s) (hinv : StoreInvariant MarkerMax s)
    (h : alphaBlock MarkerMax srt inp s t isMarkerShown = .ok (c, s1, t1)) :
    WellFormed MarkerMax s1 ∧ StoreInvariant MarkerMax s1 := by
  rcases alphaBlock_ok MarkerMax srt inp s s1 t t1 isMarkerShown c h with
    ⟨_, _, e2, _⟩ | ⟨_, a1, ta, res, a2, added, hU, hS, hK, _⟩
  · rw [e2]; exact ⟨hwf, hinv⟩
  · obtain ⟨i1, i2, i3, i4, i5, i6⟩ := hinv
    obtain ⟨_, f2, f3, f4⟩ := updateAndSort_preserves srt AlphaMarker.setPosition inp
      inp.alphaMarkerHovered ImGradientHDRMarkerType.Alpha s.Alphas a1 a2 s.AlphaCount
      s.AlphaCount t ta t1 res (fun _ _ => rfl) hU hS i2 i4
    exact alphaAreaClick_inv MarkerMax inp { s with Alphas := a2 } s1 added
      ⟨hwf.1, by rw [← hwf.2]; exact f2⟩ ⟨i1, f3, i3, f4, i5, i6⟩ hK

/-- A returned colour block keeps the store predicate (also with a zero width). -/
theorem colorBlock_inv (MarkerMax : Nat) (srt : StdSort ColorMarker ColorMarker.Position)
    (inp : FrameInput) (s s1 : ImGradientHDRState) (t t1 : ImGradientHDRTemporaryState)
    (isMarkerShown c : Bool) (hwf : WellFormed MarkerMax s) (hinv : StoreInvariant MarkerMax s)
    (h : colorBlock MarkerMax srt inp s t isMarkerShown = .ok (c, s1, t1)) :
    WellFormed MarkerMax s1 ∧ StoreInvariant MarkerMax s1 := by
  rcases colorBlock_ok MarkerMax srt inp s s1 t t1 isMarkerShown c h with
    ⟨_, _, e2, _⟩ | ⟨_, a1, ta, res, a2, added, hU, hS, hK, _⟩
  · rw [e2]; exact ⟨hwf, hinv⟩
  · obtain ⟨i1, i2, i3, i4, i5, i6⟩ := hinv
    obtain ⟨_, f2, f3, f4⟩ := updateAndSort_preserves srt ColorMarker.setPosition inp
      inp.colorMarkerHovered ImGradientHDRMarkerType.Color s.Colors a1 a2 s.ColorCount
      s.ColorCount t ta t1 res (fun _ _ => rfl) hU hS i1 i3
    exact colorAreaClick_inv MarkerMax inp { s with Colors := a2 } s1 added
      ⟨by rw [← hwf.1]; exact f2, hwf.2⟩ ⟨f3, i2, f4, i4, i5, i6⟩ hK

/-- The alpha stops after an alpha block that contributed `false` to `changed`. -/
theorem alphaBlock_unchanged (MarkerMax : Nat) (srt : StdSort AlphaMarker AlphaMarker.Position)
    (inp : FrameInput) (s s1 : ImGradientHDRState) (t t1 : ImGradientHDRTemporaryState)
    (isMarkerShown : Bool) (hwf : WellFormed MarkerMax s) (hinv : StoreInvariant MarkerMax s)
    (h : alphaBlock MarkerMax srt inp s t isMarkerShown = .ok (false, s1, t1)) :
    s1.AlphaCount = s.AlphaCount ∧
    (live s1.Alphas s.AlphaCount).Perm (live s.Alphas s.AlphaCount) ∧
    (live s1.Alphas s.AlphaCount).map AlphaMarker.Position
      = (live s.Alphas s.AlphaCount).map AlphaMarker.Position ∧
    ((live s.Alphas s.AlphaCount).Pairwise (fun m n => m.Position < n.Position) →
      s1.Alphas = s.Alphas) ∧
    (KeepsSorted srt → s1.Alphas = s.Alphas) := by
  rcases alphaBlock_ok MarkerMax srt inp s s1 t t1 isMarkerShown false h with
    ⟨_, _, e2, _⟩ | ⟨_, a1, ta, res, a2, added, hU, hS, hK, hc⟩
  · rw [e2]; exact ⟨rfl, List.Perm.refl _, rfl, fun _ => rfl, fun _ => rfl⟩
  · have hres : res.isChanged = false := by
      cases hr : res.isChanged
      · rfl
      · rw [hr] at hc; cases hc
    have hadd : added = false := by
      cases ha : added
      · rfl
      · rw [ha, Bool.or_true] at hc; cases hc
    obtain ⟨i1, i2, i3, i4, i5, i6⟩ := hinv
    obtain ⟨_, f2, _, _⟩ := updateAndSort_preserves srt AlphaMarker.setPosition inp
      inp.alphaMarkerHovered ImGradientHDRMarkerType.Alpha s.Alphas a1 a2 s.AlphaCount
      s.AlphaCount t ta t1 res (fun _ _ => rfl) hU hS i2 i4
    obtain ⟨_, u2, u3, u4, u5⟩ := updateAndSort_unchanged srt AlphaMarker.setPosition inp
      inp.alphaMarkerHovered ImGradientHDRMarkerType.Alpha s.Alphas a1 a2 s.AlphaCount
      s.AlphaCount t ta t1 res (fun _ _ => rfl) (fun _ => rfl) hU hS i2 i4 hres
    rcases alphaAreaClick_cases MarkerMax inp { s with Alphas := a2 } s1 added
      ⟨hwf.1, by rw [← hwf.2]; exact f2⟩ hK with ⟨_, e, _⟩ | ⟨g, _⟩
    · rw [e]
      exact ⟨rfl, u2, u3, u4, u5⟩
    · rw [hadd] at g; cases g

/-- The colour stops after a colour block that contributed `false` to `changed`. -/
theorem colorBlock_unchanged (MarkerMax : Nat) (srt : StdSort ColorMarker ColorMarker.Position)
    (inp : FrameInput) (s s1 : ImGradientHDRState) (t t1 : ImGradientHDRTemporaryState)
    (isMarkerShown : Bool) (hwf : WellFormed MarkerMax s) (hinv : StoreInvariant MarkerMax s)
    (h : colorBlock MarkerMax srt inp s t isMarkerShown = .ok (false, s1, t1)) :
    s1.ColorCount = s.ColorCount ∧
    (live s1.Colors s.ColorCount).Perm (live s.Colors s.ColorCount) ∧
    (live s1.Colors s.ColorCount).map ColorMarker.Position
      = (live s.Colors s.ColorCount).map ColorMarker.Position ∧
    ((live s.Colors s.ColorCount).Pairwise (fun m n => m.Position < n.Position) →
      s1.Colors = s.Colors) ∧
    (KeepsSorted srt → s1.Colors = s.Colors) := by
  rcases colorBlock_ok MarkerMax srt inp s s1 t t1 isMarkerShown false h with
    ⟨_, _, e2, _⟩ | ⟨_, a1, ta, res, a2, added, hU, hS, hK, hc⟩
  · rw [e2]; exact ⟨rfl, List.Perm.refl _, rfl, fun _ => rfl, fun _ => rfl⟩
  · have hres : res.isChanged = false := by
      cases hr : res.isChanged
      · rfl
      · rw [hr] at hc; cases hc
    have hadd : added = false := by
      cases ha : added
      · rfl
      · rw [ha, Bool.or_true] at hc; cases hc
    obtain ⟨i1, i2, i3, i4, i5, i6⟩ := hinv
    obtain ⟨_, f2, _, _⟩ := updateAndSort_preserves srt ColorMarker.setPosition inp
      inp.colorMarkerHovered ImGradientHDRMarkerType.Color s.Colors a1 a2 s.ColorCount
      s.ColorCount t ta t1 res (fun _ _ => rfl) hU hS i1 i3
    obtain ⟨_, u2, u3, u4, u5⟩ := updateAndSort_unchanged srt ColorMarker.setPosition inp
      inp.colorMarkerHovered ImGradientHDRMarkerType.Color s.Colors a1 a2 s.ColorCount
      s.ColorCount t ta t1 res (fun _ _ => rfl) (fun _ => rfl) hU hS i1 i3 hres
    rcases colorAreaClick_cases MarkerMax inp { s with Colors := a2 } s1 added
      ⟨by rw [← hwf.1]; exact f2, hwf.2⟩ hK with ⟨_, e, _⟩ | ⟨g, _⟩
    · rw [e]
      exact ⟨rfl, u2, u3, u4, u5⟩
    · rw [hadd] at g; cases g

/-- What the returned flag of a frame says, for every sort meeting the `std::sort`
contract: after a frame that returned `false` the counts and both live position sequences
are what they were and each live range holds the stops it held, in an order that can
differ only among stops of equal `Position`; the arrays are what they were if the live
positions of the type are pairwise distinct, and for a sort with `KeepsSorted`. The frame
returns `true` whenever a count changed and whenever a marker is dragged (`DraggedAt`)
with a nonzero `MouseDelta.x / width`. -/
theorem frame_flag_facts (MarkerMax : Nat)
    (srtA : StdSort AlphaMarker AlphaMarker.Position)
    (srtC : StdSort ColorMarker ColorMarker.Position) (inp : FrameInput)
    (s s2 : ImGradientHDRState) (t t2 : ImGradientHDRTemporaryState)
    (isMarkerShown changed : Bool)
    (hwf : WellFormed MarkerMax s) (hinv : StoreInvariant MarkerMax s)
    (h : ImGradientHDR MarkerMax srtA srtC inp s t isMarkerShown = .ok (changed, s2, t2)) :
    (changed = false →
      s2.ColorCount = s.ColorCount ∧ s2.AlphaCount = s.AlphaCount ∧
      (live s2.Colors s2.ColorCount).Perm (live s.Colors s.ColorCount) ∧
      (live s2.Alphas s2.AlphaCount).Perm (live s.Alphas s.AlphaCount) ∧
      (live s2.Colors s2.ColorCount).map ColorMarker.Position
        = (live s.Colors s.ColorCount).map ColorMarker.Position ∧
      (live s2.Alphas s2.AlphaCount).map AlphaMarker.Position
        = (live s.Alphas s.AlphaCount).map AlphaMarker.Position ∧
      ((live s.Colors s.ColorCount).Pairwise (fun m n => m.Position < n.Position) →
        s2.Colors = s.Colors) ∧
      ((live s.Alphas s.AlphaCount).Pairwise (fun m n => m.Position < n.Position) →
        s2.Alphas = s.Alphas) ∧
      (KeepsSorted srtC → s2.Colors = s.Colors) ∧
      (KeepsSorted srtA → s2.Alphas = s.Alphas)) ∧
    (s2.ColorCount ≠ s.ColorCount ∨ s2.AlphaCount ≠ s.AlphaCount → changed = true) ∧
    (isMarkerShown = true → inp.mouseDeltaX / inp.width ≠ 0 →
      (∃ i, i < s.AlphaCount ∧
        DraggedAt inp inp.alphaMarkerHovered ImGradientHDRMarkerType.Alpha t i) →
      changed = true) ∧
    (isMarkerShown = true → inp.mouseDeltaX / inp.width ≠ 0 →
      ∀ c1 s1 t1, alphaBlock MarkerMax srtA inp s t isMarkerShown = .ok (c1, s1, t1) →
      (∃ i, i < s.ColorCount ∧
        DraggedAt inp inp.colorMarkerHovered ImGradientHDRMarkerType.Color t1 i) →
      changed = true) := by
  obtain ⟨c1, s1, t1, c2, hA, _, hC, hch⟩ := frame_ok MarkerMax srtA srtC inp s s2 t t2
    isMarkerShown changed h
  obtain ⟨hwf1, hinv1⟩ := alphaBlock_inv MarkerMax srtA inp s s1 t t1 isMarkerShown c1 hwf
    hinv hA
  obtain ⟨a1, a2, _⟩ := alphaBlock_adds MarkerMax srtA inp s s1 t t1 isMarkerShown c1 hwf hA
  obtain ⟨b1, b2, _⟩ := colorBlock_adds MarkerMax srtC inp s1 s2 t1 t2 isMarkerShown c2 hwf1 hC
  have hfalse : changed = false →
      s2.ColorCount = s.ColorCount ∧ s2.AlphaCount = s.AlphaCount ∧
      (live s2.Colors s2.ColorCount).Perm (live s.Colors s.ColorCount) ∧
      (live s2.Alphas s2.AlphaCount).Perm (live s.Alphas s.AlphaCount) ∧
      (live s2.Colors s2.ColorCount).map ColorMarker.Position
        = (live s.Colors s.ColorCount).map ColorMarker.Position ∧
      (live s2.Alphas s2.AlphaCount).map AlphaMarker.Position
        = (live s.Alphas s.AlphaCount).map AlphaMarker.Position ∧
      ((live s.Colors s.ColorCount).Pairwise (fun m n => m.Position < n.Position) →
        s2.Colors = s.Colors) ∧
      ((live s.Alphas s.AlphaCount).Pairwise (fun m n => m.Position < n.Position) →
        s2.Alphas = s.Alphas) ∧
      (KeepsSorted srtC → s2.Colors = s.Colors) ∧
      (KeepsSorted srtA → s2.Alphas = s.Alphas) := by
    intro hf
    rw [hf] at hch
    have hc1 : c1 = false := by
      cases hx : c1
      · rfl
      · rw [hx] at hch; cases hch
    have hc2 : c2 = false := by
      cases hx : c2
      · rfl
      · rw [hx, Bool.or_true] at hch; cases hch
    subst hc1 hc2
    obtain ⟨p1, p2, p3, p4, p5⟩ := alphaBlock_unchanged MarkerMax srtA inp s s1 t t1
      isMarkerShown hwf hinv hA
    obtain ⟨q1, q2, q3, q4, q5⟩ := colorBlock_unchanged MarkerMax srtC inp s1 s2 t1 t2
      isMarkerShown hwf1 hinv1 hC
    rw [a1, a2] at q2 q3 q4
    rw [a1] at q5
    refine ⟨by rw [q1, a2], by rw [b2, p1], ?_, ?_, ?_, ?_, q4, ?_, q5, ?_⟩
    · rw [q1, a2]; exact q2
    · rw [b2, b1, p1]; exact p2
    · rw [q1, a2]; exact q3
    · rw [b2, b1, p1]; exact p3
    · intro hx; rw [b1]; exact p4 hx
    · intro hx; rw [b1]; exact p5 hx
  have hdrag : ∀ {T : Type} (pos : T → ℚ) (setPos : T → ℚ → T) (hovered : Nat → Bool)
      (markerType : ImGradientHDRMarkerType) (a a' : List T) (count : Nat)
      (t0 t' : ImGradientHDRTemporaryState) (res : UpdateMarkerResult),
      inp.mouseDeltaX / inp.width ≠ 0 →
      UpdateMarker pos setPos inp hovered markerType a count t0 = .ok (a', t', res) →
      (∃ i, i < count ∧ DraggedAt inp hovered markerType t0 i) → res.isChanged = true := by
    intro T pos setPos hovered markerType a a' count t0 t' res hd hU hex
    exact updateMarkerLoop_changed pos setPos inp hovered markerType a t0 hd count a' t' res
      hU hex
  refine ⟨hfalse, ?_, ?_, ?_⟩
  · intro hne
    cases hx : changed
    · obtain ⟨e1, e2, _⟩ := hfalse hx
      rcases hne with hne | hne
      · exact absurd e1 hne
      · exact absurd e2 hne
    · rfl
  · intro hs hd hex
    rcases alphaBlock_ok MarkerMax srtA inp s s1 t t1 isMarkerShown c1 hA with
      ⟨hs', _⟩ | ⟨_, u1, ta, res, u2, added, hU, _, _, hc⟩
    · rw [hs] at hs'; cases hs'
    · have := hdrag _ _ _ _ _ _ _ _ _ _ hd hU hex
      rw [hch, hc, this]
      rfl
  · intro hs hd c1' s1' t1' hA' hex
    have e : t1' = t1 ∧ s1' = s1 := by
      rw [hA] at hA'
      injection hA' with hA'
      injection hA' with _ hA'
      injection hA' with e1 e2
      exact ⟨e2.symm, e1.symm⟩
    rw [e.1] at hex
    rcases colorBlock_ok MarkerMax srtC inp s1 s2 t1 t2 isMarkerShown c2 hC with
      ⟨hs', _⟩ | ⟨_, u1, ta, res, u2, added, hU, _, _, hc⟩
    · rw [hs] at hs'; cases hs'
    · rw [← a2] at hex
      have := hdrag _ _ _ _ _ _ _ _ _ _ hd hU hex
      rw [hch, hc, this]
      simp

theorem insertionStdSort_keepsSorted (T : Type) (pos : T → ℚ) :
    KeepsSorted (insertionStdSort T pos) := by
  intro v hv
  exact List.Sorted.insertionSort_eq hv

theorem heldInput_frame :
    ImGradientHDR 4 (insertionStdSort AlphaMarker AlphaMarker.Position)
        (insertionStdSort ColorMarker ColorMarker.Position) heldInput exampleStore idleState
        true = .ok (false, exampleStore, draggingState) := by
  have hA : alphaBlock 4 (insertionStdSort AlphaMarker AlphaMarker.Position) heldInput
        exampleStore idleState true = .ok (false, exampleStore, draggingState) := by
    norm_num [alphaBlock, UpdateMarker, updateMarkerLoop, updateMarkerStep, pressAndRelease,
      readAt, sortIfDragging, SortMarkers, collectMarkers, storeMarkers, writeAt, remapIndex,
      remapLoop, insertionStdSort, alphaAreaClick,
      heldInput, idleState, draggingState, exampleStore]
  have hC : colorBlock 4 (insertionStdSort ColorMarker ColorMarker.Position) heldInput
        exampleStore draggingState true = .ok (false, exampleStore, draggingState) := by
    simp [colorBlock, UpdateMarker, updateMarkerLoop, updateMarkerStep, pressAndRelease,
      readAt, sortIfDragging, colorAreaClick, heldInput, draggingState, exampleStore]
  simp only [ImGradientHDR, hA, hC,
    drawBar_ok 4 exampleStore exampleStore_wellFormed exampleStore_invariant, Bool.or_false]

/-- Claim C13. A frame of `ImGradientHDR` started from a store whose live stops are sorted
with positions in `[0, 1]`, with a `std::sort` that returns a range already in order as it
is (`KeepsSorted`), returns (with a nonzero width), and for what it returns: if the flag is
`false`, then `ColorCount`, `AlphaCount`, both arrays and so both live stop sequences are
what they were before the frame (no stop was added and no `Position` was moved); the flag
is `true` whenever a count changed (a stop was added by a click on a strip) and whenever a
marker is dragged (`DraggedAt`) with a nonzero `MouseDelta.x / width`. -/
theorem flag_reports_change (MarkerMax : Nat)
    (srtA : StdSort AlphaMarker AlphaMarker.Position)
    (srtC : StdSort ColorMarker ColorMarker.Position) (inp : FrameInput)
    (s : ImGradientHDRState) (t : ImGradientHDRTemporaryState) (isMarkerShown : Bool)
    (hkA : KeepsSorted srtA) (hkC : KeepsSorted srtC)
    (hwf : WellFormed MarkerMax s) (hinv : StoreInvariant MarkerMax s) :
    (inp.width ≠ 0 → ∃ changed s2 t2,
      ImGradientHDR MarkerMax srtA srtC inp s t isMarkerShown = .ok (changed, s2, t2)) ∧
    (∀ changed s2 t2,
      ImGradientHDR MarkerMax srtA srtC inp s t isMarkerShown = .ok (changed, s2, t2) →
      (changed = false →
        s2.ColorCount = s.ColorCount ∧ s2.AlphaCount = s.AlphaCount ∧
        live s2.Colors s2.ColorCount = live s.Colors s.ColorCount ∧
        live s2.Alphas s2.AlphaCount = live s.Alphas s.AlphaCount ∧
        s2 = s) ∧
      (s2.ColorCount ≠ s.ColorCount ∨ s2.AlphaCount ≠ s.AlphaCount → changed = true) ∧
      (isMarkerShown = true → inp.mouseDeltaX / inp.width ≠ 0 →
        (∃ i, i < s.AlphaCount ∧
          DraggedAt inp inp.alphaMarkerHovered ImGradientHDRMarkerType.Alpha t i) →
        changed = true) ∧
      (isMarkerShown = true → inp.mouseDeltaX / inp.width ≠ 0 →
        ∀ c1 s1 t1, alphaBlock MarkerMax srtA inp s t isMarkerShown = .ok (c1, s1, t1) →
        (∃ i, i < s.ColorCount ∧
          DraggedAt inp inp.colorMarkerHovered ImGradientHDRMarkerType.Color t1 i) →
        changed = true)) := by
  refine ⟨fun hw => ?_, fun changed s2 t2 h => ?_⟩
  · obtain ⟨changed, s2, t2, h, _⟩ :=
      frame_preserves MarkerMax srtA srtC inp s t isMarkerShown hw hwf hinv
    exact ⟨changed, s2, t2, h⟩
  obtain ⟨f1, f2, f3, f4⟩ := frame_flag_facts MarkerMax srtA srtC inp s s2 t t2 isMarkerShown
    changed hwf hinv h
  refine ⟨fun hf => ?_, f2, f3, f4⟩
  obtain ⟨c1, c2, _, _, _, _, _, _, k1, k2⟩ := f1 hf
  have e1 := k1 hkC
  have e2 := k2 hkA
  refine ⟨c1, c2, by rw [c1, e1], by rw [c2, e2], ?_⟩
  cases s2
  cases s
  simp only [ImGradientHDRState.mk.injEq]
  exact ⟨c1, c2, e1, e2⟩

/-- Witness of C13: in the frame `dragInput` alpha marker `0` of `exampleStore` is dragged by
a tenth of the width, and the frame returns `true`; in the frame `heldInput` the marker is
held and not moved, `SortMarkers` runs, the frame returns `false` and the store is what it
was. -/
theorem flag_reports_change_witness :
    KeepsSorted (insertionStdSort AlphaMarker AlphaMarker.Position) ∧
    KeepsSorted (insertionStdSort ColorMarker ColorMarker.Position) ∧
    WellFormed 4 exampleStore ∧ StoreInvariant 4 exampleStore ∧
    (∃ changed s2 t2,
      ImGradientHDR 4 (insertionStdSort AlphaMarker AlphaMarker.Position)
        (insertionStdSort ColorMarker ColorMarker.Position) dragInput exampleStore idleState
        true = .ok (changed, s2, t2) ∧ changed = true) ∧
    (∃ s2 t2,
      ImGradientHDR 4 (insertionStdSort AlphaMarker AlphaMarker.Position)
        (insertionStdSort ColorMarker ColorMarker.Position) heldInput exampleStore idleState
        true = .ok (false, s2, t2) ∧ s2 = exampleStore) := by
  have hdrag := flag_reports_change 4 (insertionStdSort AlphaMarker AlphaMarker.Position)
    (insertionStdSort ColorMarker ColorMarker.Position) dragInput exampleStore idleState true
    (insertionStdSort_keepsSorted _ _) (insertionStdSort_keepsSorted _ _)
    exampleStore_wellFormed exampleStore_invariant
  have hheld := flag_reports_change 4 (insertionStdSort AlphaMarker AlphaMarker.Position)
    (insertionStdSort ColorMarker ColorMarker.Position) heldInput exampleStore idleState true
    (insertionStdSort_keepsSorted _ _) (insertionStdSort_keepsSorted _ _)
    exampleStore_wellFormed exampleStore_invariant
  refine ⟨insertionStdSort_keepsSorted _ _, insertionStdSort_keepsSorted _ _,
    exampleStore_wellFormed, exampleStore_invariant, ?_, ?_⟩
  · obtain ⟨changed, s2, t2, h⟩ := hdrag.1 (by norm_num [dragInput])
    refine ⟨changed, s2, t2, h, ?_⟩
    refine (hdrag.2 changed s2 t2 h).2.2.1 rfl (by norm_num [dragInput]) ⟨0, by decide, ?_⟩
    simp [DraggedAt, temporaryStateAfter, pressAndRelease, dragInput, idleState]
  · exact ⟨exampleStore, draggingState, heldInput_frame,
      ((hheld.2 false exampleStore draggingState heldInput_frame).1 rfl).2.2.2.2⟩

/-! ## The drag target across frames -/

theorem dragInvariant_mono (s s1 : ImGradientHDRState) (t : ImGradientHDRTemporaryState)
    (hc : ∀ ty, countOf s ty ≤ countOf s1 ty) (h : DragInvariant s t) :
    DragInvariant s1 t := by
  intro ht
  obtain ⟨h1, h2, h3, h4⟩ := h ht
  have := hc t.draggingMarkerType
  exact ⟨h1, h2, h3, by omega⟩

/-- The sort call keeps the invariant of the drag target: both indices are remapped in the
same way, and a valid index stays valid. -/
theorem sortIfDragging_dragInvariant {T : Type} {pos : T → ℚ} (srt : StdSort T pos)
    (markerType : ImGradientHDRMarkerType) (s : ImGradientHDRState) (a a2 : List T)
    (c2 : Nat) (t t2 : ImGradientHDRTemporaryState)
    (hty : markerType ≠ ImGradientHDRMarkerType.Unknown)
    (hc : countOf s markerType ≤ a.length) (hinv : DragInvariant s t)
    (h : sortIfDragging srt markerType a (countOf s markerType) t = .ok (a2, c2, t2)) :
    DragInvariant s t2 ∧ a2.length = a.length ∧ c2 = countOf s markerType ∧
    (t.selectedMarkerType ≠ markerType → a2 = a ∧ t2 = t) := by
  obtain ⟨a2', t2', he, f1, _, _, f4, f5, f6, _, f8, f9, f10, _⟩ :=
    sortIfDragging_ok srt markerType a (countOf s markerType) t hc
  rw [he] at h
  injection h with h
  injection h with e1 h
  injection h with e2 e3
  subst e1 e2 e3
  by_cases ht : t.draggingMarkerType = markerType
  · have hd : HasDragTarget t := Or.inr (by rw [ht]; exact hty)
    obtain ⟨h1, h2, h3, h4⟩ := hinv hd
    rw [ht] at h4
    obtain ⟨g1, g2⟩ := f9 ⟨h3, h4⟩
    refine ⟨fun _ => ⟨by rw [f4, f5]; exact h1, f8 h2, g1, by rw [f5, ht]; exact g2⟩, f1, rfl,
      fun hne => absurd (h1.trans ht) hne⟩
  · obtain ⟨e1, e2⟩ := f6 ht
    subst e1 e2
    exact ⟨hinv, rfl, rfl, fun _ => ⟨rfl, rfl⟩⟩

theorem alphaBlock_dragInvariant (MarkerMax : Nat)
    (srt : StdSort AlphaMarker AlphaMarker.Position)
    (inp : FrameInput) (s s1 : ImGradientHDRState) (t t1 : ImGradientHDRTemporaryState)
    (isMarkerShown c : Bool) (hcr : CountsInRange MarkerMax s) (hinv : DragInvariant s t)
    (h : alphaBlock MarkerMax srt inp s t isMarkerShown = .ok (c, s1, t1)) :
    CountsInRange MarkerMax s1 ∧ DragInvariant s1 t1 := by
  rcases alphaBlock_ok MarkerMax srt inp s s1 t t1 isMarkerShown c h with
    ⟨_, _, e2, e3⟩ | ⟨_, a1, ta, res, a2, added, hU, hS, hK, _⟩
  · rw [e2, e3]; exact ⟨hcr, hinv⟩
  · obtain ⟨hwf, hcc, hca⟩ := hcr
    obtain ⟨hn, hlen, hta, _⟩ := updateMarkerLoop_ok _ _ _ _ _ _ _ _ _ _ _ hU
    have hinva : DragInvariant s ta := by
      rw [hta]
      exact temporaryStateAfter_inv inp inp.alphaMarkerHovered ImGradientHDRMarkerType.Alpha s t
        hinv s.AlphaCount (le_refl _)
    obtain ⟨g1, g2, _, _⟩ := sortIfDragging_dragInvariant srt ImGradientHDRMarkerType.Alpha s
      a1 a2 s.AlphaCount ta t1 (by decide) (by show s.AlphaCount ≤ a1.length; omega) hinva hS
    have hwf2 : WellFormed MarkerMax { s with Alphas := a2 } :=
      ⟨hwf.1, by show a2.length = MarkerMax; rw [g2, hlen, hwf.2]⟩
    rcases alphaAreaClick_cases MarkerMax inp { s with Alphas := a2 } s1 added hwf2 hK with
      ⟨_, e, _⟩ | ⟨_, _, _, hlt, k, m, hk, e⟩
    · rw [e]
      exact ⟨⟨hwf2, hcc, hca⟩, dragInvariant_mono s _ t1
        (fun ty => by cases ty <;> exact le_refl _) g1⟩
    · rw [e]
      refine ⟨⟨⟨hwf.1, ?_⟩, hcc, ?_⟩, dragInvariant_mono s _ t1
        (fun ty => by cases ty <;> simp [countOf]) g1⟩
      · show (insertedArray a2 s.AlphaCount k m).length = MarkerMax
        rw [insertedArray_length a2 s.AlphaCount k m hk (by rw [hwf2.2]; exact hlt)]
        exact hwf2.2
      · show s.AlphaCount + 1 ≤ MarkerMax
        exact hlt

theorem colorBlock_dragInvariant (MarkerMax : Nat)
    (srt : StdSort ColorMarker ColorMarker.Position)
    (inp : FrameInput) (s s1 : ImGradientHDRState) (t t1 : ImGradientHDRTemporaryState)
    (isMarkerShown c : Bool) (hcr : CountsInRange MarkerMax s) (hinv : DragInvariant s t)
    (h : colorBlock MarkerMax srt inp s t isMarkerShown = .ok (c, s1, t1)) :
    CountsInRange MarkerMax s1 ∧ DragInvariant s1 t1 := by
  rcases colorBlock_ok MarkerMax srt inp s s1 t t1 isMarkerShown c h with
    ⟨_, _, e2, e3⟩ | ⟨_, a1, ta, res, a2, added, hU, hS, hK, _⟩
  · rw [e2, e3]; exact ⟨hcr, hinv⟩
  · obtain ⟨hwf, hcc, hca⟩ := hcr
    obtain ⟨hn, hlen, hta, _⟩ := updateMarkerLoop_ok _ _ _ _ _ _ _ _ _ _ _ hU
    have hinva : DragInvariant s ta := by
      rw [hta]
      exact temporaryStateAfter_inv inp inp.colorMarkerHovered ImGradientHDRMarkerType.Color s t
        hinv s.ColorCount (le_refl _)
    obtain ⟨g1, g2, _, _⟩ := sortIfDragging_dragInvariant srt ImGradientHDRMarkerType.Color s
      a1 a2 s.ColorCount ta t1 (by decide) (by show s.ColorCount ≤ a1.length; omega) hinva hS
    have hwf2 : WellFormed MarkerMax { s with Colors := a2 } :=
      ⟨by show a2.length = MarkerMax; rw [g2, hlen, hwf.1], hwf.2⟩
    rcases colorAreaClick_cases MarkerMax inp { s with Colors := a2 } s1 added hwf2 hK with
      ⟨_, e, _⟩ | ⟨_, _, _, hlt, k, m, hk, e⟩
    · rw [e]
      exact ⟨⟨hwf2, hcc, hca⟩, dragInvariant_mono s _ t1
        (fun ty => by cases ty <;> exact le_refl _) g1⟩
    · rw [e]
      refine ⟨⟨⟨?_, hwf.2⟩, ?_, hca⟩, dragInvariant_mono s _ t1
        (fun ty => by cases ty <;> simp [countOf]) g1⟩
      · show (insertedArray a2 s.ColorCount k m).length = MarkerMax
        rw [insertedArray_length a2 s.ColorCount k m hk (by rw [hwf2.1]; exact hlt)]
        exact hwf2.1
      · show s.ColorCount + 1 ≤ MarkerMax
        exact hlt

/-- One frame keeps the invariant of the drag target (and the counts inside the
arrays). -/
theorem frame_dragInvariant (MarkerMax : Nat)
    (srtA : StdSort AlphaMarker AlphaMarker.Position)
    (srtC : StdSort ColorMarker ColorMarker.Position) (inp : FrameInput)
    (s s2 : ImGradientHDRState) (t t2 : ImGradientHDRTemporaryState)
    (isMarkerShown changed : Bool) (hcr : CountsInRange MarkerMax s)
    (hinv : DragInvariant s t)
    (h : ImGradientHDR MarkerMax srtA srtC inp s t isMarkerShown = .ok (changed, s2, t2)) :
    CountsInRange MarkerMax s2 ∧ DragInvariant s2 t2 := by
  obtain ⟨c1, s1, t1, c2, hA, _, hC, _⟩ := frame_ok MarkerMax srtA srtC inp s s2 t t2
    isMarkerShown changed h
  obtain ⟨k1, k2⟩ := alphaBlock_dragInvariant MarkerMax srtA inp s s1 t t1 isMarkerShown c1
    hcr hinv hA
  exact colorBlock_dragInvariant MarkerMax srtC inp s1 s2 t1 t2 isMarkerShown c2 k1 k2 hC

theorem reachable_dragInvariant (MarkerMax : Nat)
    (srtA : StdSort AlphaMarker AlphaMarker.Position)
    (srtC : StdSort ColorMarker ColorMarker.Position)
    (s0 s : ImGradientHDRState) (t0 t : ImGradientHDRTemporaryState)
    (h0 : CountsInRange MarkerMax s0) (hidle : ¬ HasDragTarget t0)
    (hr : ReachableBy MarkerMax srtA srtC s0 t0 s t) :
    CountsInRange MarkerMax s ∧ DragInvariant s t := by
  induction hr with
  | start => exact ⟨h0, fun h => absurd h hidle⟩
  | frame s s1 t t1 inp isMarkerShown changed _ hf ih =>
    exact frame_dragInvariant MarkerMax srtA srtC inp s s1 t t1 isMarkerShown changed ih.1
      ih.2 hf

/-- Claim C20. Let `(s, t)` be reached from a store `s0` with its counts inside the arrays
and an interaction state `t0` with no drag target by a sequence of frames of
`ImGradientHDR` (any inputs, either value of `isMarkerShown`, any sort meeting the
`std::sort` contract). Then, whenever `t` has a drag target, the selection is that same
marker and `draggingIndex` is a valid index into the array of its type. The same holds
at the two places of a further frame where `SortMarkers` can be called, after the loop of
`UpdateMarker`; so a selection of another type than the array being updated is never
remapped there: the sort call returns the array and the interaction state as they
are. -/
theorem drag_target_is_selection (MarkerMax : Nat)
    (srtA : StdSort AlphaMarker AlphaMarker.Position)
    (srtC : StdSort ColorMarker ColorMarker.Position)
    (s0 s : ImGradientHDRState) (t0 t : ImGradientHDRTemporaryState)
    (h0 : CountsInRange MarkerMax s0)
    (hidle : t0.draggingIndex = -1 ∧
      t0.draggingMarkerType = ImGradientHDRMarkerType.Unknown)
    (hr : ReachableBy MarkerMax srtA srtC s0 t0 s t) :
    (HasDragTarget t →
      t.selectedMarkerType = t.draggingMarkerType ∧ t.selectedIndex = t.draggingIndex ∧
      0 ≤ t.draggingIndex ∧ t.draggingIndex < (countOf s t.draggingMarkerType : Int)) ∧
    (∀ (inp : FrameInput) (a1 : List AlphaMarker) (ta : ImGradientHDRTemporaryState)
        (res : UpdateMarkerResult),
      UpdateMarker AlphaMarker.Position AlphaMarker.setPosition inp inp.alphaMarkerHovered
        ImGradientHDRMarkerType.Alpha s.Alphas s.AlphaCount t = .ok (a1, ta, res) →
      DragInvariant s ta ∧
      (ta.selectedMarkerType ≠ ImGradientHDRMarkerType.Alpha →
        sortIfDragging srtA ImGradientHDRMarkerType.Alpha a1 s.AlphaCount ta
          = .ok (a1, s.AlphaCount, ta))) ∧
    (∀ (inp : FrameInput) (isMarkerShown c1 : Bool) (s1 : ImGradientHDRState)
        (t1 tb : ImGradientHDRTemporaryState) (b1 : List ColorMarker)
        (res : UpdateMarkerResult),
      alphaBlock MarkerMax srtA inp s t isMarkerShown = .ok (c1, s1, t1) →
      UpdateMarker ColorMarker.Position ColorMarker.setPosition inp inp.colorMarkerHovered
        ImGradientHDRMarkerType.Color s1.Colors s1.ColorCount t1 = .ok (b1, tb, res) →
      DragInvariant s1 tb ∧
      (tb.selectedMarkerType ≠ ImGradientHDRMarkerType.Color →
        sortIfDragging srtC ImGradientHDRMarkerType.Color b1 s1.ColorCount tb
          = .ok (b1, s1.ColorCount, tb))) := by
  have hnot : ¬ HasDragTarget t0 := by
    intro h
    rcases h with h | h
    · exact h hidle.1
    · exact h hidle.2
  obtain ⟨hcr, hinv⟩ := reachable_dragInvariant MarkerMax srtA srtC s0 s t0 t h0 hnot hr
  have hsort : ∀ {T : Type} {pos : T → ℚ} (srt : StdSort T pos)
      (markerType : ImGradientHDRMarkerType) (a : List T) (count : Nat)
      (tx : ImGradientHDRTemporaryState) (sx : ImGradientHDRState),
      markerType ≠ ImGradientHDRMarkerType.Unknown → DragInvariant sx tx →
      tx.selectedMarkerType ≠ markerType →
      sortIfDragging srt markerType a count tx = .ok (a, count, tx) := by
    intro T pos srt markerType a count tx sx hty hix hne
    have ht : tx.draggingMarkerType ≠ markerType := by
      intro ht
      have hd : HasDragTarget tx := Or.inr (by rw [ht]; exact hty)
      exact hne ((hix hd).1.trans ht)
    simp only [sortIfDragging, if_neg ht]
  refine ⟨hinv, ?_, ?_⟩
  · intro inp a1 ta res hU
    obtain ⟨_, _, hta, _⟩ := updateMarkerLoop_ok _ _ _ _ _ _ _ _ _ _ _ hU
    have hinva : DragInvariant s ta := by
      rw [hta]
      exact temporaryStateAfter_inv inp inp.alphaMarkerHovered ImGradientHDRMarkerType.Alpha s t
        hinv s.AlphaCount (le_refl _)
    exact ⟨hinva, hsort srtA _ a1 s.AlphaCount ta s (by decide) hinva⟩
  · intro inp isMarkerShown c1 s1 t1 tb b1 res hA hU
    obtain ⟨_, hinv1⟩ := alphaBlock_dragInvariant MarkerMax srtA inp s s1 t t1 isMarkerShown
      c1 hcr hinv hA
    obtain ⟨_, _, htb, _⟩ := updateMarkerLoop_ok _ _ _ _ _ _ _ _ _ _ _ hU
    have hinvb : DragInvariant s1 tb := by
      rw [htb]
      exact temporaryStateAfter_inv inp inp.colorMarkerHovered ImGradientHDRMarkerType.Color
        s1 t1 hinv1 s1.ColorCount (le_refl _)
    exact ⟨hinvb, hsort srtC _ b1 s1.ColorCount tb s1 (by decide) hinvb⟩

/-- Witness of C20: one frame with the button held over alpha marker `0` leads from
`exampleStore` and the idle interaction state to a state with a drag target, which is the
selection and a valid index. -/
theorem drag_target_is_selection_witness :
    CountsInRange 4 exampleStore ∧
    (idleState.draggingIndex = -1 ∧
      idleState.draggingMarkerType = ImGradientHDRMarkerType.Unknown) ∧
    ReachableBy 4 (insertionStdSort AlphaMarker AlphaMarker.Position)
      (insertionStdSort ColorMarker ColorMarker.Position) exampleStore idleState
      exampleStore draggingState ∧
    HasDragTarget draggingState ∧
    draggingState.selectedMarkerType = draggingState.draggingMarkerType ∧
    draggingState.selectedIndex = draggingState.draggingIndex ∧
    0 ≤ draggingState.draggingIndex ∧
    draggingState.draggingIndex < (countOf exampleStore draggingState.draggingMarkerType : Int) := by
  have hc : CountsInRange 4 exampleStore := ⟨exampleStore_wellFormed, by decide, by decide⟩
  have hr : ReachableBy 4 (insertionStdSort AlphaMarker AlphaMarker.Position)
      (insertionStdSort ColorMarker ColorMarker.Position) exampleStore idleState
      exampleStore draggingState :=
    ReachableBy.frame exampleStore exampleStore idleState draggingState heldInput true false
      ReachableBy.start heldInput_frame
  have hd : HasDragTarget draggingState := Or.inl (by decide)
  exact ⟨hc, ⟨rfl, rfl⟩, hr, hd,
    (drag_target_is_selection 4 (insertionStdSort AlphaMarker AlphaMarker.Position)
      (insertionStdSort ColorMarker ColorMarker.Position) exampleStore exampleStore idleState
      draggingState hc ⟨rfl, rfl⟩ hr).1 hd⟩

/-! ## Insertion of the interpolated value -/

theorem interpolate_same (p q v x : ℚ) : interpolate p q v v x = v := by
  unfold interpolate
  split_ifs
  · rfl
  · ring

theorem interpolate_left (p q u v : ℚ) : interpolate p q u v p = u := by
  unfold interpolate
  split_ifs
  · rfl
  · simp

theorem interpolate_right (p q u v : ℚ) (h : p ≠ q) : interpolate p q u v q = v := by
  unfold interpolate
  rw [if_neg h]
  have : q - p ≠ 0 := sub_ne_zero.mpr (Ne.symm h)
  rw [div_self this]
  ring

/-- Cutting a bracket at `x`, with the interpolated value there, leaves the left part of
the interpolation as it is. -/
theorem interpolate_cut_left (p q u v x y : ℚ) (hpx : p < x) (hpq : p ≠ q) :
    interpolate p x u (interpolate p q u v x) y = interpolate p q u v y := by
  have h1 : q - p ≠ 0 := sub_ne_zero.mpr (Ne.symm hpq)
  have h2 : x - p ≠ 0 := sub_ne_zero.mpr (ne_of_gt hpx)
  simp only [interpolate, if_neg hpq, if_neg (ne_of_lt hpx)]
  field_simp
  ring

/-- Cutting a bracket at `x`, with the interpolated value there, leaves the right part of
the interpolation as it is. -/
theorem interpolate_cut_right (p q u v x y : ℚ) (hxq : x < q) (hpq : p ≠ q) :
    interpolate x q (interpolate p q u v x) v y = interpolate p q u v y := by
  have h1 : q - p ≠ 0 := sub_ne_zero.mpr (Ne.symm hpq)
  have h2 : q - x ≠ 0 := sub_ne_zero.mpr (ne_of_gt hxq)
  simp only [interpolate, if_neg hpq, if_neg (ne_of_lt hxq)]
  field_simp
  ring

theorem sameValue_tail {T : Type} (pos val : T → ℚ) (a : T) (l : List T)
    (h : SameValueAtSamePosition pos val (a :: l)) : SameValueAtSamePosition pos val l :=
  fun m hm n hn => h m (List.mem_cons_of_mem a hm) n (List.mem_cons_of_mem a hn)

/-- At the position of its first stop the function has that stop's value. -/
theorem gradientValue_head {T : Type} (pos val : T → ℚ) (d : ℚ) :
    ∀ (l : List T) (a : T), SortedByPosition pos (a :: l) →
      SameValueAtSamePosition pos val (a :: l) →
      gradientValue pos val d (a :: l) (pos a) = val a := by
  intro l
  induction l with
  | nil => intro a _ _; rfl
  | cons b r ih =>
    intro a hs ht
    have hab : pos a ≤ pos b := (List.pairwise_cons.mp hs).1 b (List.mem_cons_self b r)
    unfold gradientValue
    rw [if_neg (lt_irrefl _)]
    by_cases hlt : pos a < pos b
    · rw [if_pos hlt, interpolate_left]
    · rw [if_neg hlt]
      have he : pos a = pos b := le_antisymm hab (not_lt.mp hlt)
      rw [he, ih b (List.pairwise_cons.mp hs).2 (sameValue_tail pos val a _ ht)]
      exact (ht a (List.mem_cons_self a _) b (List.mem_cons_of_mem a (List.mem_cons_self b r))
        he).symm

theorem gradientValue_before {T : Type} (pos val : T → ℚ) (d : ℚ) (l : List T) (a : T)
    (y : ℚ) (hy : y < pos a) : gradientValue pos val d (a :: l) y = val a := by
  cases l with
  | nil => rfl
  | cons b r =>
    unfold gradientValue
    rw [if_pos hy]

theorem gradientValue_after {T : Type} (pos val : T → ℚ) (d : ℚ) :
    ∀ (l : List T) (a an : T) (y : ℚ), SortedByPosition pos (a :: l) →
      (a :: l).getLast? = some an → pos an ≤ y →
      gradientValue pos val d (a :: l) y = val an := by
  intro l
  induction l with
  | nil =>
    intro a an y _ hl _
    simp only [List.getLast?_singleton, Option.some.injEq] at hl
    rw [← hl]
    rfl
  | cons b r ih =>
    intro a an y hs hl hy
    have hmem : an ∈ b :: r := by
      rw [List.getLast?_cons_cons] at hl
      exact List.mem_of_getLast?_eq_some hl
    have hs2 := (List.pairwise_cons.mp hs).2
    have hb : pos b ≤ pos an := by
      rcases List.mem_cons.mp hmem with h | h
      · rw [h]
      · exact (List.pairwise_cons.mp hs2).1 an h
    have ha : pos a ≤ pos b := (List.pairwise_cons.mp hs).1 b (List.mem_cons_self b r)
    unfold gradientValue
    rw [if_neg (not_lt.mpr (le_trans ha (le_trans hb hy))),
      if_neg (not_lt.mpr (le_trans hb hy))]
    rw [List.getLast?_cons_cons] at hl
    exact ih b an y hs2 hl hy

/-- On a sorted list whose stops of equal position have equal values, the function has
the interpolated value on every bracket of neighbours. -/
theorem gradientValue_bracket {T : Type} (pos val : T → ℚ) (d : ℚ) :
    ∀ (l : List T) (i : Nat) (lo hi : T) (y : ℚ), SortedByPosition pos l →
      SameValueAtSamePosition pos val l → l[i]? = some lo → l[i + 1]? = some hi →
      pos lo ≤ y → y ≤ pos hi →
      gradientValue pos val d l y = interpolate (pos lo) (pos hi) (val lo) (val hi) y := by
  intro l
  induction l with
  | nil => intro i lo hi y _ _ h; simp at h
  | cons a l ih =>
    intro i lo hi y hs ht hlo hhi h1 h2
    cases l with
    | nil => simp at hhi
    | cons b r =>
      have hs2 := (List.pairwise_cons.mp hs).2
      have hab : pos a ≤ pos b := (List.pairwise_cons.mp hs).1 b (List.mem_cons_self b r)
      cases i with
      | zero =>
        simp only [List.getElem?_cons_zero, Option.some.injEq] at hlo
        simp only [zero_add, List.getElem?_cons_succ, List.getElem?_cons_zero,
          Option.some.injEq] at hhi
        subst hlo hhi
        unfold gradientValue
        rw [if_neg (not_lt.mpr h1)]
        by_cases hlt : y < pos b
        · rw [if_pos hlt]
        · rw [if_neg hlt]
          have hy : y = pos b := le_antisymm h2 (not_lt.mp hlt)
          rw [hy, gradientValue_head pos val d r b hs2 (sameValue_tail pos val a _ ht)]
          by_cases he : pos a = pos b
          · have hv := ht a (List.mem_cons_self a _) b
              (List.mem_cons_of_mem a (List.mem_cons_self b r)) he
            rw [hv, interpolate_same]
          · rw [interpolate_right _ _ _ _ he]
      | succ j =>
        rw [List.getElem?_cons_succ] at hlo hhi
        have hmem : lo ∈ b :: r := List.getElem?_mem hlo
        have hb : pos b ≤ pos lo := by
          rcases List.mem_cons.mp hmem with h | h
          · rw [h]
          · exact (List.pairwise_cons.mp hs2).1 lo h
        unfold gradientValue
        rw [if_neg (not_lt.mpr (le_trans hab (le_trans hb h1))),
          if_neg (not_lt.mpr (le_trans hb h1))]
        exact ih j lo hi y hs2 (sameValue_tail pos val a _ ht) hlo hhi h1 h2

/-- At the position of any of its stops the function has that stop's value. -/
theorem gradientValue_at_stop {T : Type} (pos val : T → ℚ) (d : ℚ) :
    ∀ (l : List T) (e : T), SortedByPosition pos l → SameValueAtSamePosition pos val l →
      e ∈ l → gradientValue pos val d l (pos e) = val e := by
  intro l
  induction l with
  | nil => intro e _ _ he; cases he
  | cons a r ih =>
    intro e hs ht he
    rcases List.mem_cons.mp he with h | h
    · rw [h]; exact gradientValue_head pos val d r a hs ht
    · cases r with
      | nil => cases h
      | cons b r =>
        have hs2 := (List.pairwise_cons.mp hs).2
        have ha : pos a ≤ pos e := (List.pairwise_cons.mp hs).1 e h
        have hb : pos b ≤ pos e := by
          rcases List.mem_cons.mp h with h' | h'
          · rw [h']
          · exact (List.pairwise_cons.mp hs2).1 e h'
        unfold gradientValue
        rw [if_neg (not_lt.mpr ha), if_neg (not_lt.mpr hb)]
        exact ih e hs2 (sameValue_tail pos val a _ ht) h

/-- With all positions in `[0, 1]` the function has the same value at `x` and at `x`
clamped to `[0, 1]`. -/
theorem gradientValue_clamp {T : Type} (pos val : T → ℚ) (d : ℚ) (l : List T) (x : ℚ)
    (hs : SortedByPosition pos l) (ht : SameValueAtSamePosition pos val l)
    (hu : PositionsInUnit pos l) :
    gradientValue pos val d l (clamp01 x) = gradientValue pos val d l x := by
  cases l with
  | nil => rfl
  | cons a r =>
    by_cases h0 : x < 0
    · have hc : clamp01 x = 0 := by
        unfold clamp01
        rw [min_eq_left (by linarith), max_eq_right (le_of_lt h0)]
      have ha := (hu a (List.mem_cons_self a r)).1
      rw [hc, gradientValue_before pos val d r a x (lt_of_lt_of_le h0 ha)]
      by_cases hlt : 0 < pos a
      · exact gradientValue_before pos val d r a 0 hlt
      · have he : pos a = 0 := le_antisymm (not_lt.mp hlt) ha
        rw [← he]
        exact gradientValue_head pos val d r a hs ht
    · by_cases h1 : 1 < x
      · have hc : clamp01 x = 1 := by
          unfold clamp01
          rw [min_eq_right (le_of_lt h1), max_eq_left (by norm_num)]
        have hl : (a :: r).getLast? = some ((a :: r).getLast (List.cons_ne_nil a r)) :=
          List.getLast?_eq_getLast _ _
        have hn := (hu _ (List.getLast_mem (List.cons_ne_nil a r))).2
        rw [hc, gradientValue_after pos val d r a _ 1 hs hl hn,
          gradientValue_after pos val d r a _ x hs hl (le_trans hn (le_of_lt h1))]
      · rw [clamp01_of_mem x (not_lt.mp h0) (not_lt.mp h1)]

theorem insertStop_nil {T : Type} (pos : T → ℚ) (m : T) : insertStop pos [] m = [m] := rfl

theorem insertStop_cons_le {T : Type} (pos : T → ℚ) (a : T) (r : List T) (m : T)
    (h : ¬ pos a < pos m) : insertStop pos (a :: r) m = m :: a :: r := by
  have h1 : pos m ≤ pos a := not_lt.mp h
  simp [insertStop, insertionPoint, List.findIdx_cons, h1]

theorem insertStop_cons_lt {T : Type} (pos : T → ℚ) (a : T) (r : List T) (m : T)
    (h : pos a < pos m) : insertStop pos (a :: r) m = a :: insertStop pos r m := by
  have h1 : ¬ pos m ≤ pos a := not_le.mpr h
  simp [insertStop, insertionPoint, List.findIdx_cons, h1]

theorem strict_sorted {T : Type} (pos : T → ℚ) (l : List T)
    (h : l.Pairwise (fun m n => pos m < pos n)) : SortedByPosition pos l :=
  List.Pairwise.imp (fun h => le_of_lt h) h

theorem strict_sameValue {T : Type} (pos val : T → ℚ) (l : List T)
    (h : l.Pairwise (fun m n => pos m < pos n)) : SameValueAtSamePosition pos val l := by
  intro m hm n hn he
  by_cases hmn : m = n
  · rw [hmn]
  · have hne : l.Pairwise (fun a b => pos a ≠ pos b) := List.Pairwise.imp (fun h => ne_of_lt h) h
    exact absurd he (hne.forall (fun _ _ hab => Ne.symm hab) hm hn hmn)

/-- Putting in a stop that carries the function's own value at its position leaves the
function as it is. -/
theorem gradientValue_insert {T : Type} (pos val : T → ℚ) (d : ℚ) (m : T) :
    ∀ (l : List T), l.Pairwise (fun a b => pos a < pos b) →
      val m = gradientValue pos val d l (pos m) →
      ∀ y, gradientValue pos val d (insertStop pos l m) y = gradientValue pos val d l y := by
  intro l
  induction l with
  | nil =>
    intro _ hv y
    rw [insertStop_nil]
    exact hv
  | cons a r ih =>
    intro hst hv y
    have hs := strict_sorted pos _ hst
    have ht := strict_sameValue pos val _ hst
    by_cases ha : pos a < pos m
    · rw [insertStop_cons_lt pos a r m ha]
      cases r with
      | nil =>
        rw [insertStop_nil]
        have hva : val m = val a := hv
        unfold gradientValue
        by_cases h1 : y < pos a
        · rw [if_pos h1]
        · rw [if_neg h1]
          by_cases h2 : y < pos m
          · rw [if_pos h2, hva, interpolate_same]
          · rw [if_neg h2]
            exact hva
      | cons b r =>
        have hab : pos a < pos b := (List.pairwise_cons.mp hst).1 b (List.mem_cons_self b r)
        have hst2 := (List.pairwise_cons.mp hst).2
        by_cases hb : pos b < pos m
        · have hv2 : val m = gradientValue pos val d (b :: r) (pos m) := by
            rw [hv]
            conv_lhs => unfold gradientValue
            rw [if_neg (not_lt.mpr (le_of_lt ha)), if_neg (not_lt.mpr (le_of_lt hb))]
          have hih := ih hst2 hv2
          rw [insertStop_cons_lt pos b r m hb] at hih ⊢
          conv_lhs => unfold gradientValue
          conv_rhs => unfold gradientValue
          rw [hih y]
        · have hv2 : val m = interpolate (pos a) (pos b) (val a) (val b) (pos m) := by
            rw [hv]
            conv_lhs => unfold gradientValue
            rw [if_neg (not_lt.mpr (le_of_lt ha))]
            by_cases hlt : pos m < pos b
            · rw [if_pos hlt]
            · rw [if_neg hlt]
              have he : pos m = pos b := le_antisymm (not_lt.mp hb) (not_lt.mp hlt)
              rw [he, gradientValue_head pos val d r b (strict_sorted pos _ hst2)
                (strict_sameValue pos val _ hst2), interpolate_right _ _ _ _ (ne_of_lt hab)]
          rw [insertStop_cons_le pos b r m hb]
          conv_lhs => unfold gradientValue
          conv_rhs => unfold gradientValue
          by_cases h1 : y < pos a
          · rw [if_pos h1, if_pos h1]
          · rw [if_neg h1, if_neg h1]
            by_cases h2 : y < pos m
            · rw [if_pos h2, if_pos (lt_of_lt_of_le h2 (not_lt.mp hb)), hv2,
                interpolate_cut_left _ _ _ _ _ _ ha (ne_of_lt hab)]
            · rw [if_neg h2]
              conv_lhs => unfold gradientValue
              rw [if_neg h2]
              by_cases h3 : y < pos b
              · rw [if_pos h3, if_pos h3, hv2,
                  interpolate_cut_right _ _ _ _ _ _
                    (lt_of_le_of_lt (not_lt.mp h2) h3) (ne_of_lt hab)]
              · rw [if_neg h3, if_neg h3]
    · rw [insertStop_cons_le pos a r m ha]
      have hva : val m = val a := by
        rw [hv]
        by_cases hlt : pos m < pos a
        · exact gradientValue_before pos val d r a (pos m) hlt
        · have he : pos m = pos a := le_antisymm (not_lt.mp ha) (not_lt.mp hlt)
          rw [he]
          exact gradientValue_head pos val d r a hs ht
      conv_lhs => unfold gradientValue
      by_cases h1 : y < pos m
      · rw [if_pos h1, hva,
          gradientValue_before pos val d r a y (lt_of_lt_of_le h1 (not_lt.mp ha))]
      · rw [if_neg h1]
        by_cases h2 : y < pos a
        · rw [if_pos h2, hva, interpolate_same, gradientValue_before pos val d r a y h2]
        · rw [if_neg h2]

/-- After such an insertion, stops of equal position still have equal values. -/
theorem insertStop_sameValue {T : Type} (pos val : T → ℚ) (d : ℚ) (m : T) (l : List T)
    (hst : l.Pairwise (fun a b => pos a < pos b))
    (hv : val m = gradientValue pos val d l (pos m)) :
    SameValueAtSamePosition pos val (insertStop pos l m) := by
  have hs := strict_sorted pos _ hst
  have ht := strict_sameValue pos val _ hst
  have hmem : ∀ e ∈ insertStop pos l m, e = m ∨ e ∈ l := by
    intro e he
    unfold insertStop at he
    rcases List.mem_append.mp he with h | h
    · rcases List.mem_append.mp h with h | h
      · exact Or.inr (List.mem_of_mem_take h)
      · exact Or.inl (List.mem_singleton.mp h)
    · exact Or.inr (List.mem_of_mem_drop h)
  intro e1 h1 e2 h2 he
  rcases hmem e1 h1 with g1 | g1 <;> rcases hmem e2 h2 with g2 | g2
  · rw [g1, g2]
  · rw [g1, hv, ← g1, he]
    exact gradientValue_at_stop pos val d l e2 hs ht g2
  · rw [g2, hv, ← g2, ← he]
    exact (gradientValue_at_stop pos val d l e1 hs ht g1).symm
  · exact ht e1 g1 e2 g2 he

/-- The first and the last stop of a live range that is not empty. -/
theorem live_ends {T : Type} (a : List T) (count : Nat) (hc : count ≤ a.length)
    (hcount : count ≠ 0) :
    ∃ (a0 an : T) (r : List T), a[0]? = some a0 ∧ a[count - 1]? = some an ∧
      live a count = a0 :: r ∧ (a0 :: r).getLast? = some an := by
  have hlen := live_length a count hc
  cases hl : live a count with
  | nil => rw [hl] at hlen; exact absurd hlen.symm hcount
  | cons a0 r =>
    have h0 : a[0]? = some a0 := by
      rw [← live_getElem_opt a count 0 (by omega), hl]
      exact List.getElem?_cons_zero
    have hn : (a0 :: r).getLast? = a[count - 1]? := by
      rw [List.getLast?_eq_getElem?, ← hl, hlen, live_getElem_opt a count (count - 1) (by omega)]
    have hsome : ∃ an, a[count - 1]? = some an :=
      ⟨a.get ⟨count - 1, by omega⟩, List.getElem?_eq_getElem (by omega)⟩
    obtain ⟨an, han⟩ := hsome
    exact ⟨a0, an, r, h0, han, rfl, by rw [hn, han]⟩

/-- On a sorted live range whose stops of equal position have equal alpha, `GetAlpha` is
the piecewise-linear function through the live stops. -/
theorem GetAlpha_eq_gradientValue (s : ImGradientHDRState) (y : ℚ)
    (hc : s.AlphaCount ≤ s.Alphas.length)
    (hs : SortedByPosition AlphaMarker.Position (live s.Alphas s.AlphaCount))
    (ht : SameValueAtSamePosition AlphaMarker.Position AlphaMarker.Alpha
      (live s.Alphas s.AlphaCount)) :
    GetAlpha s y = .ok (gradientValue AlphaMarker.Position AlphaMarker.Alpha 1
      (live s.Alphas s.AlphaCount) y) := by
  by_cases hcount : s.AlphaCount = 0
  · have : live s.Alphas s.AlphaCount = [] := by rw [hcount]; rfl
    rw [this]
    simp only [GetAlpha, hcount, if_true, gradientValue]
  · obtain ⟨a0, an, r, h0, hn, hl, hlast⟩ := live_ends s.Alphas s.AlphaCount hc hcount
    rw [hl] at ht
    by_cases hx0 : y < a0.Position
    · rw [GetAlpha_before_first s y a0 hcount h0 hx0, hl,
        gradientValue_before AlphaMarker.Position AlphaMarker.Alpha 1 r a0 y hx0]
    · by_cases hxn : an.Position ≤ y
      · rw [GetAlpha_after_last s y a0 an hcount h0 hn hx0 hxn, hl,
          gradientValue_after AlphaMarker.Position AlphaMarker.Alpha 1 r a0 an y
            (by rw [← hl]; exact hs) hlast hxn]
      · obtain ⟨i, lo, hi, _, _, hlo, hhi, h1, h2, hval⟩ :=
          GetAlpha_between s y a0 an hc hs hcount h0 hn hx0 hxn
        rw [hval, gradientValue_bracket AlphaMarker.Position AlphaMarker.Alpha 1
          (live s.Alphas s.AlphaCount) i lo hi y hs (by rw [hl]; exact ht) hlo hhi h1 h2]

/-- On a sorted live range whose stops of equal position have equal colour and intensity,
each component of `GetColorAndIntensity` is the piecewise-linear function through the
live stops. -/
theorem GetColorAndIntensity_eq_gradientValue (s : ImGradientHDRState) (y : ℚ)
    (hc : s.ColorCount ≤ s.Colors.length)
    (hs : SortedByPosition ColorMarker.Position (live s.Colors s.ColorCount))
    (ht1 : SameValueAtSamePosition ColorMarker.Position (fun m => m.Color.1)
      (live s.Colors s.ColorCount))
    (ht2 : SameValueAtSamePosition ColorMarker.Position (fun m => m.Color.2.1)
      (live s.Colors s.ColorCount))
    (ht3 : SameValueAtSamePosition ColorMarker.Position (fun m => m.Color.2.2)
      (live s.Colors s.ColorCount))
    (ht4 : SameValueAtSamePosition ColorMarker.Position ColorMarker.Intensity
      (live s.Colors s.ColorCount)) :
    GetColorAndIntensity s y = .ok
      (gradientValue ColorMarker.Position (fun m => m.Color.1) 1
        (live s.Colors s.ColorCount) y,
       gradientValue ColorMarker.Position (fun m => m.Color.2.1) 1
        (live s.Colors s.ColorCount) y,
       gradientValue ColorMarker.Position (fun m => m.Color.2.2) 1
        (live s.Colors s.ColorCount) y,
       gradientValue ColorMarker.Position ColorMarker.Intensity 1
        (live s.Colors s.ColorCount) y) := by
  by_cases hcount : s.ColorCount = 0
  · have : live s.Colors s.ColorCount = [] := by rw [hcount]; rfl
    rw [this]
    simp only [GetColorAndIntensity, hcount, if_true, gradientValue]
  · obtain ⟨a0, an, r, h0, hn, hl, hlast⟩ := live_ends s.Colors s.ColorCount hc hcount
    by_cases hx0 : y < a0.Position
    · rw [GetColorAndIntensity_before_first s y a0 hcount h0 hx0, hl,
        gradientValue_before ColorMarker.Position _ 1 r a0 y hx0,
        gradientValue_before ColorMarker.Position _ 1 r a0 y hx0,
        gradientValue_before ColorMarker.Position _ 1 r a0 y hx0,
        gradientValue_before ColorMarker.Position _ 1 r a0 y hx0]
    · by_cases hxn : an.Position ≤ y
      · have hs' : SortedByPosition ColorMarker.Position (a0 :: r) := by rw [← hl]; exact hs
        rw [GetColorAndIntensity_after_last s y a0 an hcount h0 hn hx0 hxn, hl,
          gradientValue_after ColorMarker.Position _ 1 r a0 an y hs' hlast hxn,
          gradientValue_after ColorMarker.Position _ 1 r a0 an y hs' hlast hxn,
          gradientValue_after ColorMarker.Position _ 1 r a0 an y hs' hlast hxn,
          gradientValue_after ColorMarker.Position _ 1 r a0 an y hs' hlast hxn]
      · obtain ⟨i, lo, hi, _, _, hlo, hhi, h1, h2, hval⟩ :=
          GetColorAndIntensity_between s y a0 an hc hs hcount h0 hn hx0 hxn
        rw [hval,
          gradientValue_bracket ColorMarker.Position (fun m => m.Color.1) 1
            (live s.Colors s.ColorCount) i lo hi y hs ht1 hlo hhi h1 h2,
          gradientValue_bracket ColorMarker.Position (fun m => m.Color.2.1) 1
            (live s.Colors s.ColorCount) i lo hi y hs ht2 hlo hhi h1 h2,
          gradientValue_bracket ColorMarker.Position (fun m => m.Color.2.2) 1
            (live s.Colors s.ColorCount) i lo hi y hs ht3 hlo hhi h1 h2,
          gradientValue_bracket ColorMarker.Position ColorMarker.Intensity 1
            (live s.Colors s.ColorCount) i lo hi y hs ht4 hlo hhi h1 h2]

theorem strict_of_sorted_nodup {T : Type} (pos : T → ℚ) (l : List T)
    (hs : SortedByPosition pos l) (hn : (l.map pos).Nodup) :
    l.Pairwise (fun m n => pos m < pos n) := by
  have hne : l.Pairwise (fun m n => pos m ≠ pos n) := List.pairwise_map.mp hn
  exact List.Pairwise.imp (fun h => lt_of_le_of_ne h.1 h.2) (List.Pairwise.and hs hne)

/-- Claim C18. For every store whose live alpha stops are sorted with pairwise distinct
positions in `[0, 1]` and `AlphaCount < MarkerMax`, and for every `x` and `y`:
`GetAlpha(x)` returns a value `v`, `AddAlphaMarker(x, v)` returns `true`, and `GetAlpha(y)`
on the store after it returns what `GetAlpha(y)` returns on the store before it (exact
arithmetic). Likewise for the colour stops, with `(r, g, b, i) = GetColorAndIntensity(x)`,
`AddColorMarker(x, {r, g, b}, i)` and `GetColorAndIntensity(y)`. -/
theorem insertion_keeps_gradient (MarkerMax : Nat) (s : ImGradientHDRState) (x y : ℚ)
    (hwf : WellFormed MarkerMax s) :
    (SortedByPosition AlphaMarker.Position (live s.Alphas s.AlphaCount) →
      ((live s.Alphas s.AlphaCount).map AlphaMarker.Position).Nodup →
      PositionsInUnit AlphaMarker.Position (live s.Alphas s.AlphaCount) →
      s.AlphaCount < MarkerMax →
      ∃ v s1 w, GetAlpha s x = .ok v ∧ AddAlphaMarker MarkerMax s x v = .ok (true, s1) ∧
        GetAlpha s y = .ok w ∧ GetAlpha s1 y = .ok w) ∧
    (SortedByPosition ColorMarker.Position (live s.Colors s.ColorCount) →
      ((live s.Colors s.ColorCount).map ColorMarker.Position).Nodup →
      PositionsInUnit ColorMarker.Position (live s.Colors s.ColorCount) →
      s.ColorCount < MarkerMax →
      ∃ c s1 w, GetColorAndIntensity s x = .ok c ∧
        AddColorMarker MarkerMax s x (c.1, c.2.1, c.2.2.1) c.2.2.2 = .ok (true, s1) ∧
        GetColorAndIntensity s y = .ok w ∧ GetColorAndIntensity s1 y = .ok w) := by
  constructor
  · intro hs hn hu hroom
    have hst := strict_of_sorted_nodup AlphaMarker.Position _ hs hn
    have hc : s.AlphaCount < s.Alphas.length := by rw [hwf.2]; exact hroom
    have ht := strict_sameValue AlphaMarker.Position AlphaMarker.Alpha _ hst
    have hget := fun z => GetAlpha_eq_gradientValue s z (le_of_lt hc) hs ht
    have hclamp := gradientValue_clamp AlphaMarker.Position AlphaMarker.Alpha 1 _ x hs ht hu
    obtain ⟨m, hm⟩ : ∃ m : AlphaMarker, m = ⟨clamp01 x,
        gradientValue AlphaMarker.Position AlphaMarker.Alpha 1
          (live s.Alphas s.AlphaCount) x⟩ := ⟨_, rfl⟩
    have hpm : m.Position = clamp01 x := by rw [hm]
    have hv : m.Alpha = gradientValue AlphaMarker.Position AlphaMarker.Alpha 1
        (live s.Alphas s.AlphaCount) m.Position := by rw [hpm, hclamp, hm]
    have hk : insertionPoint AlphaMarker.Position (live s.Alphas s.AlphaCount) m.Position
        ≤ s.AlphaCount := by
      have := insertionPoint_le_length AlphaMarker.Position (live s.Alphas s.AlphaCount)
        m.Position
      rw [live_length _ _ (le_of_lt hc)] at this
      exact this
    have hadd := AddMarker_sorted AlphaMarker.Position s.Alphas s.AlphaCount m hc hs
    have hlive := insertedArray_live s.Alphas s.AlphaCount _ m hk hc
    have hlen := insertedArray_length s.Alphas s.AlphaCount _ m hk hc
    have hsorted := sorted_insert AlphaMarker.Position m _ hs
    refine ⟨gradientValue AlphaMarker.Position AlphaMarker.Alpha 1
        (live s.Alphas s.AlphaCount) x,
      { s with
        Alphas := insertedArray s.Alphas s.AlphaCount
          (insertionPoint AlphaMarker.Position (live s.Alphas s.AlphaCount) m.Position) m,
        AlphaCount := s.AlphaCount + 1 },
      gradientValue AlphaMarker.Position AlphaMarker.Alpha 1
        (live s.Alphas s.AlphaCount) y, hget x, ?_, hget y, ?_⟩
    · simp only [AddAlphaMarker, if_neg (not_le.mpr hroom), ← hm, hadd]
    · rw [GetAlpha_eq_gradientValue _ y (by
          show s.AlphaCount + 1 ≤ (insertedArray _ _ _ _).length
          rw [hlen]; exact hc)
        (by
          show SortedByPosition AlphaMarker.Position (live (insertedArray _ _ _ _) _)
          rw [hlive]; exact hsorted)
        (by
          show SameValueAtSamePosition _ _ (live (insertedArray _ _ _ _) _)
          rw [hlive]
          exact insertStop_sameValue AlphaMarker.Position AlphaMarker.Alpha 1 m _ hst hv)]
      show Except.ok (gradientValue _ _ 1 (live (insertedArray _ _ _ _) _) y) = _
      rw [hlive]
      exact congrArg Except.ok
        (gradientValue_insert AlphaMarker.Position AlphaMarker.Alpha 1 m _ hst hv y)
  · intro hs hn hu hroom
    have hst := strict_of_sorted_nodup ColorMarker.Position _ hs hn
    have hc : s.ColorCount < s.Colors.length := by rw [hwf.1]; exact hroom
    have ht1 := strict_sameValue ColorMarker.Position (fun m => m.Color.1) _ hst
    have ht2 := strict_sameValue ColorMarker.Position (fun m => m.Color.2.1) _ hst
    have ht3 := strict_sameValue ColorMarker.Position (fun m => m.Color.2.2) _ hst
    have ht4 := strict_sameValue ColorMarker.Position ColorMarker.Intensity _ hst
    have hget := fun z => GetColorAndIntensity_eq_gradientValue s z (le_of_lt hc) hs
      ht1 ht2 ht3 ht4
    have hcl1 := gradientValue_clamp ColorMarker.Position (fun m => m.Color.1) 1 _ x hs ht1 hu
    have hcl2 := gradientValue_clamp ColorMarker.Position (fun m => m.Color.2.1) 1 _ x hs ht2 hu
    have hcl3 := gradientValue_clamp ColorMarker.Position (fun m => m.Color.2.2) 1 _ x hs ht3 hu
    have hcl4 := gradientValue_clamp ColorMarker.Position ColorMarker.Intensity 1 _ x hs ht4 hu
    obtain ⟨m, hm⟩ : ∃ m : ColorMarker, m = ⟨clamp01 x,
      (gradientValue ColorMarker.Position (fun m => m.Color.1) 1
          (live s.Colors s.ColorCount) x,
        gradientValue ColorMarker.Position (fun m => m.Color.2.1) 1
          (live s.Colors s.ColorCount) x,
        gradientValue ColorMarker.Position (fun m => m.Color.2.2) 1
          (live s.Colors s.ColorCount) x),
      gradientValue ColorMarker.Position ColorMarker.Intensity 1
          (live s.Colors s.ColorCount) x⟩ := ⟨_, rfl⟩
    have hpm : m.Position = clamp01 x := by rw [hm]
    have hv1 : m.Color.1 = gradientValue ColorMarker.Position (fun m => m.Color.1) 1
        (live s.Colors s.ColorCount) m.Position := by rw [hpm, hcl1, hm]
    have hv2 : m.Color.2.1 = gradientValue ColorMarker.Position (fun m => m.Color.2.1) 1
        (live s.Colors s.ColorCount) m.Position := by rw [hpm, hcl2, hm]
    have hv3 : m.Color.2.2 = gradientValue ColorMarker.Position (fun m => m.Color.2.2) 1
        (live s.Colors s.ColorCount) m.Position := by rw [hpm, hcl3, hm]
    have hv4 : m.Intensity = gradientValue ColorMarker.Position ColorMarker.Intensity 1
        (live s.Colors s.ColorCount) m.Position := by rw [hpm, hcl4, hm]
    have hk : insertionPoint ColorMarker.Position (live s.Colors s.ColorCount) m.Position
        ≤ s.ColorCount := by
      have := insertionPoint_le_length ColorMarker.Position (live s.Colors s.ColorCount)
        m.Position
      rw [live_length _ _ (le_of_lt hc)] at this
      exact this
    have hadd := AddMarker_sorted ColorMarker.Position s.Colors s.ColorCount m hc hs
    have hlive := insertedArray_live s.Colors s.ColorCount _ m hk hc
    have hlen := insertedArray_length s.Colors s.ColorCount _ m hk hc
    have hsorted := sorted_insert ColorMarker.Position m _ hs
    refine ⟨_,
      { s with
        Colors := insertedArray s.Colors s.ColorCount
          (insertionPoint ColorMarker.Position (live s.Colors s.ColorCount) m.Position) m,
        ColorCount := s.ColorCount + 1 }, _, hget x, ?_, hget y, ?_⟩
    · simp only [AddColorMarker, if_neg (not_le.mpr hroom), ← hm, hadd]
    · rw [GetColorAndIntensity_eq_gradientValue _ y (by
          show s.ColorCount + 1 ≤ (insertedArray _ _ _ _).length
          rw [hlen]; exact hc)
        (by
          show SortedByPosition ColorMarker.Position (live (insertedArray _ _ _ _) _)
          rw [hlive]; exact hsorted)
        (by
          show SameValueAtSamePosition _ _ (live (insertedArray _ _ _ _) _)
          rw [hlive]
          exact insertStop_sameValue ColorMarker.Position (fun m => m.Color.1) 1 m _ hst hv1)
        (by
          show SameValueAtSamePosition _ _ (live (insertedArray _ _ _ _) _)
          rw [hlive]
          exact insertStop_sameValue ColorMarker.Position (fun m => m.Color.2.1) 1 m _ hst hv2)
        (by
          show SameValueAtSamePosition _ _ (live (insertedArray _ _ _ _) _)
          rw [hlive]
          exact insertStop_sameValue ColorMarker.Position (fun m => m.Color.2.2) 1 m _ hst hv3)
        (by
          show SameValueAtSamePosition _ _ (live (insertedArray _ _ _ _) _)
          rw [hlive]
          exact insertStop_sameValue ColorMarker.Position ColorMarker.Intensity 1 m _ hst hv4)]
      show Except.ok (gradientValue _ _ 1 (live (insertedArray _ _ _ _) _) y,
        gradientValue _ _ 1 (live (insertedArray _ _ _ _) _) y,
        gradientValue _ _ 1 (live (insertedArray _ _ _ _) _) y,
        gradientValue _ _ 1 (live (insertedArray _ _ _ _) _) y) = _
      rw [hlive]
      have e1 := gradientValue_insert ColorMarker.Position (fun m => m.Color.1) 1 m _ hst hv1 y
      have e2 := gradientValue_insert ColorMarker.Position (fun m => m.Color.2.1) 1 m _ hst hv2 y
      have e3 := gradientValue_insert ColorMarker.Position (fun m => m.Color.2.2) 1 m _ hst hv3 y
      have e4 := gradientValue_insert ColorMarker.Position ColorMarker.Intensity 1 m _ hst hv4 y
      unfold insertStop at e1 e2 e3 e4
      rw [e1, e2, e3, e4]

/-- Witness of C18 on `exampleStore`: a stop put in at `x = 1/2` with the interpolated
value leaves the evaluation at `y = 1/3` as it is, for the alpha and for the colour. -/
theorem insertion_keeps_gradient_witness :
    WellFormed 4 exampleStore ∧
    (SortedByPosition AlphaMarker.Position (live exampleStore.Alphas exampleStore.AlphaCount) ∧
      ((live exampleStore.Alphas exampleStore.AlphaCount).map AlphaMarker.Position).Nodup ∧
      PositionsInUnit AlphaMarker.Position (live exampleStore.Alphas exampleStore.AlphaCount) ∧
      exampleStore.AlphaCount < 4 ∧
      ∃ v s1 w, GetAlpha exampleStore (1 / 2) = .ok v ∧
        AddAlphaMarker 4 exampleStore (1 / 2) v = .ok (true, s1) ∧
        GetAlpha exampleStore (1 / 3) = .ok w ∧ GetAlpha s1 (1 / 3) = .ok w) ∧
    (SortedByPosition ColorMarker.Position (live exampleStore.Colors exampleStore.ColorCount) ∧
      ((live exampleStore.Colors exampleStore.ColorCount).map ColorMarker.Position).Nodup ∧
      PositionsInUnit ColorMarker.Position (live exampleStore.Colors exampleStore.ColorCount) ∧
      exampleStore.ColorCount < 4 ∧
      ∃ c s1 w, GetColorAndIntensity exampleStore (1 / 2) = .ok c ∧
        AddColorMarker 4 exampleStore (1 / 2) (c.1, c.2.1, c.2.2.1) c.2.2.2 = .ok (true, s1) ∧
        GetColorAndIntensity exampleStore (1 / 3) = .ok w ∧
        GetColorAndIntensity s1 (1 / 3) = .ok w) := by
  have hna : ((live exampleStore.Alphas exampleStore.AlphaCount).map
      AlphaMarker.Position).Nodup := by
    norm_num [live, exampleStore]
  have hnc : ((live exampleStore.Colors exampleStore.ColorCount).map
      ColorMarker.Position).Nodup := by
    norm_num [live, exampleStore]
  have hthm := insertion_keeps_gradient 4 exampleStore (1 / 2) (1 / 3) exampleStore_wellFormed
  exact ⟨exampleStore_wellFormed,
    ⟨exampleStore_alphas_sorted, hna, exampleStore_invariant.2.2.2.1, by decide,
      hthm.1 exampleStore_alphas_sorted hna exampleStore_invariant.2.2.2.1 (by decide)⟩,
    ⟨exampleStore_colors_sorted, hnc, exampleStore_invariant.2.2.1, by decide,
      hthm.2 exampleStore_colors_sorted hnc exampleStore_invariant.2.2.1 (by decide)⟩⟩

end ImGradientHDR
